import Mathlib

/-! argparse (junstar92/argparse): token-matching and dispatch engine

A shallow embedding of `include/argparse/argparse.h`.

* C++ exceptions and `std::exit` are values of `Error`; a throwing function returns `Except Error _`.
* `std::string` is `String`; character-level operations go through `String.data`.
* An `Argument` is identified by its position in `args_list_` (the C++ code compares addresses of
  the list nodes); iterators into the argument list are such positions, and the default-constructed
  `end_iterator` is `none`.
* `std::unordered_map` / `std::unordered_set` / `std::map` are association lists; registration
  appends, so a list is in insertion order. The iteration order of a `std::unordered_map` is
  unspecified: only the order of the names in an "ambiguous option" message depends on it, and
  `ParserCore.iterated_as` puts the option map in any other order.
* The text handed to `std::regex` is kept in parsed form (`Group`); `regex_search` is the ECMAScript
  leftmost, greedy, backtracking search.
-/

namespace Argparse

/-! ## Errors -/

/-- The ways a call can leave by something other than a normal return.
`argument_error` derives from `std::invalid_argument`; its payload is the full `what()` text.
`exit` is `std::exit(status)` after printing `message` (usage/help text is not modelled).
`undefined_behavior` marks an out-of-bounds read that the C++ code performs without a check.
`out_of_fuel` is returned by the bounded loops of this embedding when their bound is exhausted. -/
inductive Error where
  | argument_error (what : String)
  | invalid_argument (what : String)
  | logic_error (what : String)
  | out_of_range (what : String)
  | exit (status : Nat) (message : String)
  | undefined_behavior (place : String)
  | out_of_fuel
  deriving DecidableEq, Repr

/-- Results of throwing functions can be compared. -/
instance instDecidableEqExcept {ε α : Type} [DecidableEq ε] [DecidableEq α] :
    DecidableEq (Except ε α)
  | .ok a, .ok b => if h : a = b then isTrue (by rw [h]) else isFalse (fun h2 => h (by cases h2; rfl))
  | .error a, .error b =>
    if h : a = b then isTrue (by rw [h]) else isFalse (fun h2 => h (by cases h2; rfl))
  | .ok _, .error _ => isFalse (fun h => by cases h)
  | .error _, .ok _ => isFalse (fun h => by cases h)

/-- The text of `std::exception::what()`; `none` for outcomes that are not exceptions. -/
def Error.what : Error → Option String
  | .argument_error w => some w
  | .invalid_argument w => some w
  | .logic_error w => some w
  | .out_of_range w => some w
  | .exit _ _ => none
  | .undefined_behavior _ => none
  | .out_of_fuel => none

/-! ## Utility -/

/-- The function `utils::join`. -/
def join : List String → String → String
  | [], _ => ""
  | [x], _ => x
  | x :: y :: rest, chars => x ++ chars ++ join (y :: rest) chars

/-- Whether `v` is a prefix of `s`. -/
def startsWithChars : List Char → List Char → Bool
  | [], _ => true
  | _ :: _, [] => false
  | a :: v, b :: s => a == b && startsWithChars v s

/-- Positions `i` (counted from the front of `s`) at which `v` occurs in `s`, the last one kept:
`std::string_view::rfind(v)` with the default start position; `none` is `npos`. -/
def rfindAux (v : List Char) : List Char → Nat → Option Nat → Option Nat
  | [], i, last => if startsWithChars v [] then some i else last
  | c :: s, i, last => rfindAux v s (i + 1) (if startsWithChars v (c :: s) then some i else last)

/-- The call `s.rfind(v)`. -/
def rfind (s v : String) : Option Nat := rfindAux v.data s.data 0 none

/-- The call `s.find(c)` for a character `c`. -/
def findChar (c : Char) : List Char → Option Nat
  | [] => none
  | d :: s => if d = c then some 0 else (findChar c s).map (· + 1)

/-- The call `s.find_first_not_of(c)`. -/
def find_first_not_of (c : Char) : List Char → Option Nat
  | [] => none
  | d :: s => if d = c then (find_first_not_of c s).map (· + 1) else some 0

/-- The call `s.substr(pos)`. -/
def substr (s : String) (pos : Nat) : String := String.mk (s.data.drop pos)

/-- The call `s.substr(0, n)`. -/
def substrTo (s : String) (n : Nat) : String := String.mk (s.data.take n)

/-- The read `s[i]` of a `std::string` (the terminating null at `i = size()`). -/
def charAt (s : String) (i : Nat) : Char := s.data.getD i (Char.ofNat 0)

/-! ## Namespace -/

/-- The class `Namespace`: dest to raw values. -/
abbrev Namespace := List (String × List String)

namespace Namespace

/-- Lookup of a key, `data_.find(key)`. -/
def get? (ns : Namespace) (key : String) : Option (List String) :=
  match ns with
  | [] => none
  | (k, v) :: rest => if k = key then some v else get? rest key

/-- The method `Namespace::find`. -/
def find (ns : Namespace) (key : String) : Bool := (get? ns key).isSome

/-- The method `Namespace::set_values` (also `args[key] = values`). -/
def set_values (ns : Namespace) (key : String) (values : List String) : Namespace :=
  match ns with
  | [] => [(key, values)]
  | (k, v) :: rest => if k = key then (k, values) :: rest else (k, v) :: set_values rest key values

/-- The method `Namespace::set_value`: overwrite element 0, or push when empty. -/
def set_value (ns : Namespace) (key : String) (value : String) : Namespace :=
  match get? ns key with
  | some (_ :: tl) => set_values ns key (value :: tl)
  | _ => set_values ns key [value]

/-- The non-const `operator[]` read: the stored values, an empty vector when the key is new. -/
def index (ns : Namespace) (key : String) : List String := (get? ns key).getD []

/-- Pushing values onto `args[key]` (the vector is created when the key is new). -/
def push_back (ns : Namespace) (key : String) (values : List String) : Namespace :=
  set_values ns key (index ns key ++ values)

end Namespace

/-! ## NArgs -/

/-- The enum `NArgs::Type`. -/
inductive NArgsType where
  | none | integer | optional | zero_or_more | one_or_more | remainder | parser | suppress
  deriving DecidableEq, Repr

/-- The class `NArgs`. -/
structure NArgs where
  type_ : NArgsType
  nargs_ : Nat
  deriving DecidableEq, Repr

/-- The default constructor `NArgs()`. -/
def NArgs.default : NArgs := ⟨.none, 0⟩

/-- The constructor `NArgs(int n)`. -/
def NArgs.ofInt (n : Nat) : NArgs := ⟨.integer, n⟩

/-- The constructor `NArgs(char c)`; the member `nargs_` is left as it was (0 here). -/
def NArgs.ofChar (c : Char) : Except Error NArgs :=
  if c = '?' then .ok ⟨.optional, 0⟩
  else if c = '*' then .ok ⟨.zero_or_more, 0⟩
  else if c = '+' then .ok ⟨.one_or_more, 0⟩
  else .error (.invalid_argument "invalid nargs value")

/-! ## Regular expressions over the pattern alphabet `A`, `O`, `-` -/

/-- Quantifier of one regex item: `x`, `x?`, `x*`. -/
inductive Quant where
  | one | opt | star
  deriving DecidableEq, Repr

/-- One item of a pattern: a character (a one-element class) or a bracket class, quantified. -/
structure Atom where
  cls : List Char
  q : Quant
  deriving DecidableEq, Repr

/-- A parenthesised capture group. -/
abbrev Group := List Atom

/-- The item `-*`. -/
def dashStar : Atom := ⟨['-'], .star⟩
/-- The item `A`. -/
def litA : Atom := ⟨['A'], .one⟩

/-- The `n - 1` copies of `A-*` appended by the loop of the `integer` case. -/
def repeatA : Nat → Group
  | 0 => []
  | n + 1 => litA :: dashStar :: repeatA n

/-- The `switch` of `NArgs::get_nargs_pattern`, before the option rewrite. -/
def nargs_pattern_base (n : NArgs) : Group :=
  match n.type_ with
  | .none => [dashStar, litA, dashStar]                          -- "(-*A-*)"
  | .optional => [dashStar, ⟨['A'], .opt⟩, dashStar]             -- "(-*A?-*)"
  | .zero_or_more => [dashStar, ⟨['A', '-'], .star⟩]             -- "(-*[A-]*)"
  | .one_or_more => [dashStar, litA, ⟨['A', '-'], .star⟩]        -- "(-*A[A-]*)"
  | .remainder => [⟨['-', 'A', 'O'], .star⟩]                     -- "([-AO]*)"
  | .parser => [dashStar, litA, ⟨['-', 'A', 'O'], .star⟩]        -- "(-*A[-AO]*)"
  | .suppress => [dashStar, dashStar]                            -- "(-*-*)"
  | .integer =>
    if n.nargs_ = 0 then [dashStar, dashStar]                    -- "(-*-*)"
    else dashStar :: (repeatA (n.nargs_ - 1) ++ [litA, dashStar]) -- "(-*" ("A-*")^(n-1) "A-*)"

/-- The two `replace_all` calls, `"-*"` to `""` and then `"-"` to `""`: every item `-*` goes, and
the `-` left inside a bracket class goes. -/
def strip_separators (g : Group) : Group :=
  (g.filter (fun a => !(a.cls = ['-'] && a.q = .star))).map
    (fun a => ⟨a.cls.filter (fun c => c != '-'), a.q⟩)

/-- The method `NArgs::get_nargs_pattern`. -/
def NArgs.get_nargs_pattern (n : NArgs) (optional : Bool) : Group :=
  if optional then strip_separators (nargs_pattern_base n) else nargs_pattern_base n

/-- Greedy `x*`: take as many characters of the class as possible, give back one at a time. -/
def matchStar {α : Type} (cls : List Char) (k : List Char → Option α) : List Char → Option α
  | [] => k []
  | c :: cs =>
    if c ∈ cls then
      match matchStar cls k cs with
      | some r => some r
      | none => k (c :: cs)
    else k (c :: cs)

/-- Backtracking match of a sequence of items at the front of `text`; `k` receives the rest. -/
def matchAtoms {α : Type} : List Atom → List Char → (List Char → Option α) → Option α
  | [], text, k => k text
  | a :: rest, text, k =>
    match a.q with
    | .one =>
      match text with
      | c :: cs => if c ∈ a.cls then matchAtoms rest cs k else none
      | [] => none
    | .opt =>
      match text with
      | c :: cs =>
        if c ∈ a.cls then
          match matchAtoms rest cs k with
          | some r => some r
          | none => matchAtoms rest text k
        else matchAtoms rest text k
      | [] => matchAtoms rest text k
    | .star => matchStar a.cls (fun t => matchAtoms rest t k) text

/-- Match of `first` followed by `others` anchored at the front of `text`; the result is
`match.str(1).length()`, the number of characters captured by the first group. -/
def match_here (first : Group) (others : List Atom) (text : List Char) : Option Nat :=
  matchAtoms first text (fun r => matchAtoms others r (fun _ => some (text.length - r.length)))

/-- The call `std::regex_search(text, match, pattern)` followed by `match.str(1).length()`:
the first start position with a match wins. -/
def regex_search (first : Group) (others : List Atom) : List Char → Option Nat
  | [] => match_here first others []
  | c :: cs =>
    match match_here first others (c :: cs) with
    | some n => some n
    | none => regex_search first others cs

/-! ## Argument -/

/-- The enum `ArgumentType`. -/
inductive ArgumentType where
  | undefined | positional_argument | optional_argument | subcommand_argument
  deriving DecidableEq, Repr

/-- The action classes of `namespace actions`, and the lambda installed by `add_subparsers`.
The action object decides `initialize`, `get_action` and `get_valid`. -/
inductive ActionKind where
  | StoreAction | StoreConstAction | StoreTrueAction | StoreFalseAction
  | AppendAction | AppendConstAction | CountAction | HelpAction
  | SubparsersAction
  deriving DecidableEq, Repr

/-- The class `Argument` (the members the engine reads). -/
structure Argument where
  option_strings_ : List String
  action_ : ActionKind
  nargs_ : NArgs
  required_ : Bool
  help_ : String
  dest_ : String
  choices_ : List String
  type_ : ArgumentType
  const_value_ : List String
  default_value_ : List String
  deriving DecidableEq, Repr

/-- The constant `Argument::SUPPRESS`. -/
def SUPPRESS : String := "===SUPPRESS==="

/-- The constants `true_value` and `false_value`. -/
def true_value : String := "true"
/-- The constant `false_value`. -/
def false_value : String := "false"

namespace Argument

/-- A default-constructed `Argument` carrying the action `act`. -/
def fresh (act : ActionKind) : Argument :=
  { option_strings_ := [], action_ := act, nargs_ := NArgs.default, required_ := false,
    help_ := "", dest_ := "", choices_ := [], type_ := .undefined,
    const_value_ := [], default_value_ := [] }

/-- The method `set_nargs(int n)`. -/
def set_nargs (a : Argument) (n : Nat) : Argument := { a with nargs_ := NArgs.ofInt n }

/-- The method `set_nargs(char c)`. -/
def set_nargs_char (a : Argument) (c : Char) : Except Error Argument :=
  match NArgs.ofChar c with
  | .ok n => .ok { a with nargs_ := n }
  | .error e => .error e

/-- The method `set_required`. -/
def set_required (a : Argument) (required : Bool) : Except Error Argument :=
  if a.type_ = .positional_argument then
    .error (.logic_error "'required' is an invalid argument for positionals")
  else .ok { a with required_ := required }

/-- The method `set_help`. -/
def set_help (a : Argument) (help : String) : Argument := { a with help_ := help }
/-- The method `set_dest`. -/
def set_dest (a : Argument) (dest : String) : Argument := { a with dest_ := dest }
/-- The method `set_choices`. -/
def set_choices (a : Argument) (choices : List String) : Argument := { a with choices_ := choices }
/-- The method `set_const` for a string. -/
def set_const (a : Argument) (v : String) : Argument := { a with const_value_ := [v] }
/-- The method `set_const` for a `bool`. -/
def set_const_bool (a : Argument) (v : Bool) : Argument :=
  { a with const_value_ := [if v then true_value else false_value] }
/-- The method `set_default` for a string. -/
def set_default (a : Argument) (v : String) : Argument := { a with default_value_ := [v] }
/-- The method `set_default` for a `bool`. -/
def set_default_bool (a : Argument) (v : Bool) : Argument :=
  { a with default_value_ := [if v then true_value else false_value] }

/-- The method `get_choice_str`. -/
def get_choice_str (a : Argument) : String := join (a.choices_.map (fun c => "'" ++ c ++ "'")) ", "

/-- The method `get_argument_name`. -/
def get_argument_name (a : Argument) : String :=
  if a.option_strings_.length ≠ 0 then join a.option_strings_ "/"
  else if a.dest_.length ≠ 0 ∧ a.dest_ ≠ SUPPRESS then a.dest_
  else if a.choices_.length ≠ 0 then "\x7b" ++ join a.choices_ "," ++ "\x7d"
  else ""

end Argument

/-- The constructor of `argument_error`: `what()` is "argument NAME: MSG". -/
def argument_error (a : Argument) (msg : String) : Error :=
  .argument_error ("argument " ++ a.get_argument_name ++ ": " ++ msg)

/-- The `initialize` member of each action class. -/
def ActionKind.initializeAction (act : ActionKind) (a : Argument) : Except Error Argument :=
  match act with
  | .StoreAction => .ok a
  | .StoreConstAction => do
    let a ← a.set_required false
    pure (a.set_nargs 0)
  | .StoreTrueAction => do
    let a ← ((a.set_const_bool true).set_default_bool false).set_required false
    pure (a.set_nargs 0)
  | .StoreFalseAction => do
    let a ← ((a.set_const_bool false).set_default_bool true).set_required false
    pure (a.set_nargs 0)
  | .AppendAction => a.set_required false
  | .AppendConstAction => (a.set_nargs 0).set_required false
  | .CountAction => (a.set_nargs 0).set_required false
  | .HelpAction => .ok (((a.set_nargs 0).set_default SUPPRESS).set_dest SUPPRESS)
  | .SubparsersAction => .ok a

/-- The `get_valid` member of each action class, applied to an argument. -/
def ActionKind.validate (act : ActionKind) (a : Argument) : Except Error Unit :=
  match act with
  | .StoreAction =>
    if a.nargs_.type_ = .integer ∧ a.nargs_.nargs_ = 0 then
      .error (.logic_error "nargs for store actions must be != 0; if you have nothing to store, actions such as store true or false const may be more appropriate")
    else if a.const_value_.length ≠ 0 ∧ a.nargs_.type_ ≠ .optional then
      .error (.logic_error "nargs must be '?'(optional) to supply const")
    else .ok ()
  | .AppendAction =>
    if a.nargs_.type_ = .integer ∧ a.nargs_.nargs_ = 0 then
      .error (.logic_error "nargs for append actions must be != 0; if arg strings are not supplying the value to append, the append const action may be more appropriate")
    else if a.const_value_.length ≠ 0 ∧ a.nargs_.type_ ≠ .optional then
      .error (.logic_error "nargs must be '?'(optional) to supply const")
    else .ok ()
  | _ => .ok ()

namespace Argument

/-- The replacement of every '-' by '_' applied to `dest_`. -/
def dashes_to_underscores (s : String) : String :=
  String.mk (s.data.map (fun c => if c = '-' then '_' else c))

/-- The string `s` without its leading prefix characters,
`s.substr(s.find_first_not_of(prefix_char_))`; the call throws when `s` has no other character. -/
def strip_leading (prefix_char : Char) (s : String) : Except Error String :=
  match find_first_not_of prefix_char s.data with
  | some i => .ok (substr s i)
  | none => .error (.out_of_range "basic_string::substr")

/-- The first option string whose second character is '-', as chosen by the dest loop. -/
def first_long : List String → Option String
  | [] => none
  | s :: rest => if charAt s 1 = '-' then some s else first_long rest

/-- The method `__add_name_or_flags`: `flags` are the name or flags (at least one), `act` the
action object. -/
def __add_name_or_flags (prefix_char : Char) (act : ActionKind) (flags : List String) :
    Except Error Argument := do
  let optional : Bool :=
    match flags with
    | [f] => charAt f 0 == prefix_char
    | _ => true
  let a : Argument :=
    if optional then { fresh act with option_strings_ := flags, type_ := .optional_argument }
    else { fresh act with type_ := .positional_argument }
  let a ← act.initializeAction a
  -- check option strings validation and set dest for optional argument
  let a ←
    if a.type_ = .optional_argument then
      match a.option_strings_.find? (fun s => charAt s 0 != prefix_char) with
      | some bad =>
        throw (.invalid_argument ("invalid option string '" ++ bad ++ "': must start with a character '-'"))
      | none => do
        let a ←
          match first_long a.option_strings_ with
          | some s => do let d ← strip_leading prefix_char s; pure (a.set_dest d)
          | none => pure a
        let a ←
          if a.dest_.length = 0 then do
            let d ← strip_leading prefix_char (a.option_strings_.headD "")
            pure (a.set_dest d)
          else pure a
        pure (a.set_dest (dashes_to_underscores a.dest_))
    else pure a
  -- make positional arguments as required if at least one is always required
  if a.type_ = .positional_argument then
    let a := if a.nargs_.type_ ≠ .optional ∧ a.nargs_.type_ ≠ .zero_or_more
      then { a with required_ := true } else a
    pure (a.set_dest (flags.headD ""))
  else pure a

/-- The method `Argument::initialize` (the program-name update of sub-parsers is not modelled). -/
def initializeArgument (a : Argument) : Except Error Argument :=
  let a :=
    if a.type_ = .positional_argument then
      let a := if a.nargs_.type_ ≠ .optional ∧ a.nargs_.type_ ≠ .zero_or_more
        then { a with required_ := true } else a
      if a.nargs_.type_ = .zero_or_more ∧ a.default_value_.length = 0
        then { a with required_ := true } else a
    else a
  match a.action_.validate a with
  | .ok _ => .ok a
  | .error e => .error e

/-- The first value of `ret` that is non-empty and not among the choices; only the first value is
looked at when the argument is the sub-parser argument. -/
def bad_choice (a : Argument) : List String → Option String
  | [] => none
  | value :: rest =>
    if value.length ≠ 0 ∧ value ∉ a.choices_ then some value
    else if a.nargs_.type_ = .parser then none
    else bad_choice a rest

/-- The method `__get_values`. -/
def __get_values (a : Argument) (arg_strings : List String) : Except Error (List String) :=
  -- for everything but parser, remainder arguments, strip out first "--"
  let arg_strings :=
    if a.nargs_.type_ ≠ .parser ∧ a.nargs_.type_ ≠ .remainder then
      match arg_strings with
      | s :: rest => if s = "--" then rest else s :: rest
      | [] => []
    else arg_strings
  let ret : List String :=
    if arg_strings.length = 0 ∧ a.nargs_.type_ = .optional then
      if a.type_ = .optional_argument then
        (if a.const_value_.length ≠ 0 then a.const_value_ else [])
      else (if a.default_value_.length ≠ 0 then a.default_value_ else [])
    else if arg_strings.length = 0 ∧ a.nargs_.type_ = .zero_or_more
        ∧ a.type_ ≠ .optional_argument then
      (if a.default_value_.length ≠ 0 then a.default_value_ else arg_strings)
    else if arg_strings.length = 1 ∧ (a.nargs_.type_ = .none ∨ a.nargs_.type_ = .optional) then
      [arg_strings.headD ""]
    else if a.nargs_.type_ = .remainder ∨ a.nargs_.type_ = .parser then arg_strings
    else if a.nargs_.type_ = .suppress then [SUPPRESS]
    else arg_strings
  -- check value if it has choice values
  if a.choices_.length ≠ 0 then
    match bad_choice a ret with
    | some value =>
      .error (argument_error a ("invalid choice: " ++ value ++ " (choose from " ++ a.get_choice_str ++ ")"))
    | none => .ok ret
  else .ok ret

end Argument

/-! ## ArgumentParser: data -/

/-- The class `MutuallyExclusiveGroup`: the members are positions in `args_list_`. -/
structure MutuallyExclusiveGroup where
  required_ : Bool
  group_arguments_ : List Nat
  deriving DecidableEq, Repr

/-- The members of `ArgumentParser` read by the engine, without the table of sub-parsers.
`optional_args_map_` maps an option string to the position of its argument in `args_list_`. -/
structure ParserCore where
  prog_name_ : String
  prefix_char_ : Char
  allow_abbrev_ : Bool
  exit_on_error_ : Bool
  args_list_ : List Argument
  optional_args_map_ : List (String × Nat)
  mutually_exclusive_groups_ : List MutuallyExclusiveGroup
  has_negative_number_options_ : Bool
  deriving DecidableEq, Repr

/-- The class `ArgumentParser`: `subparsers_map_` maps a name or alias to its child parser. -/
inductive ArgumentParser where
  | mk (core : ParserCore) (subparsers_map_ : List (String × ArgumentParser)) : ArgumentParser

/-- What the sub-parser action needs of `subparsers_map_`: for each name, the child's
`parse_args`. -/
abbrev ChildTable := List (String × (List String → Except Error Namespace))

/-- Lookup `subparser_map.find(parser_name)`. -/
def ChildTable.find (t : ChildTable) (name : String) :
    Option (List String → Except Error Namespace) :=
  match t with
  | [] => none
  | (n, f) :: rest => if n = name then some f else ChildTable.find rest name

/-- The tuple stored in `arg_string_indices`: the matched option string, the argument (or
`end_iterator`), and the explicit argument. -/
abbrev OptTuple := String × Option Nat × String

/-- The sets and cursors that `__parse_known_args` threads through its helpers. -/
structure ParseState where
  ret : Namespace
  positionals : List Nat
  seen_args : List Nat
  seen_non_default_args : List Nat
  extras : List String
  deriving DecidableEq, Repr

namespace ParserCore

/-- The argument an iterator points at. -/
def arg (p : ParserCore) (i : Nat) : Argument := p.args_list_.getD i (Argument.fresh .StoreAction)

/-- Lookup of an exact key in `optional_args_map_`. -/
def find_option (p : ParserCore) (s : String) : Option Nat :=
  (p.optional_args_map_.find? (fun m => m.1 = s)).map (fun m => m.2)

/-- Whether a character is a decimal digit. -/
def is_digit (c : Char) : Bool := '0'.toNat ≤ c.toNat && c.toNat ≤ '9'.toNat

/-- The method `__match_negative_number`: the regular expression `^-\d+$|^-\d*\.\d+$`. -/
def __match_negative_number (arg_string : String) : Bool :=
  match arg_string.data with
  | '-' :: rest =>
    let ds := rest.takeWhile is_digit
    let tl := rest.dropWhile is_digit
    (ds.length ≠ 0 && tl.length = 0) ||
      (match tl with
       | '.' :: frac => frac.length ≠ 0 && frac.all is_digit
       | _ => false)
  | _ => false

/-- The candidates collected for a token starting with two prefix characters. -/
def long_option_tuples (p : ParserCore) (arg_string : String) : List OptTuple :=
  if p.allow_abbrev_ then
    let option_pre : String :=
      match findChar '=' arg_string.data with
      | some pos => substrTo arg_string pos
      | none => arg_string
    let explicit_arg : String :=
      match findChar '=' arg_string.data with
      | some pos => substr arg_string (pos + 1)
      | none => ""
    (p.optional_args_map_.filter (fun m => rfind m.1 option_pre = some 0)).map
      (fun m => (m.1, some m.2, explicit_arg))
  else []

/-- The candidates collected for a token starting with one prefix character. -/
def short_option_tuples (p : ParserCore) (arg_string : String) : List OptTuple :=
  let short_option_pre := substrTo arg_string 2
  let short_explicit_arg := substr arg_string 2
  p.optional_args_map_.filterMap (fun m =>
    if m.1 = short_option_pre then some (m.1, some m.2, short_explicit_arg)
    else if rfind m.1 arg_string = some 0 then some (m.1, some m.2, "")
    else none)

/-- The method `__parse_optional`: `none` is the return value `false` (a positional), `some t` is
`true` with `arg_string_indices[idx] = t`. -/
def __parse_optional (p : ParserCore) (arg_string : String) : Except Error (Option OptTuple) :=
  -- if it's an empty string, it was meant to be a positional
  if arg_string.length = 0 then .ok none
  -- if it doesn't start with a prefix, it was meant to be a positional
  else if charAt arg_string 0 ≠ p.prefix_char_ then .ok none
  else
    -- if the option string is present in the parser, it was meant to be a optional
    match p.find_option arg_string with
    | some i => .ok (some (arg_string, some i, ""))
    | none =>
      -- if it's just a single character, it was meant to be a positional
      if arg_string.length = 1 then .ok none
      else
        -- if the option string before the "=" is present, it was meant to be a optional
        let by_assign : Option OptTuple :=
          match findChar '=' arg_string.data with
          | some assign_idx =>
            (p.find_option (substrTo arg_string assign_idx)).map
              (fun i => (substrTo arg_string assign_idx, some i, substr arg_string (assign_idx + 1)))
          | none => none
        match by_assign with
        | some t => .ok (some t)
        | none =>
          let option_tuples : Except Error (List OptTuple) :=
            if arg_string.length ≥ 2 ∧ charAt arg_string 0 = p.prefix_char_
                ∧ charAt arg_string 1 = p.prefix_char_ then
              .ok (p.long_option_tuples arg_string)
            else if arg_string.length ≥ 2 ∧ charAt arg_string 0 = p.prefix_char_
                ∧ charAt arg_string 1 ≠ p.prefix_char_ then
              .ok (p.short_option_tuples arg_string)
            else .error (.invalid_argument ("unexpected option string: " ++ arg_string))
          match option_tuples with
          | .error e => .error e
          | .ok [] =>
            -- negative numbers and strings with a space were meant to be positionals
            if __match_negative_number arg_string ∧ ¬ p.has_negative_number_options_ then .ok none
            else if ' ' ∈ arg_string.data then .ok none
            else .ok (some ("", none, ""))
          | .ok [t] => .ok (some t)
          | .ok (t :: u :: rest) =>
            .error (.invalid_argument ("ambiguous option: " ++ arg_string ++ " could match "
              ++ join ((t :: u :: rest).map (fun x => x.1)) ", "))

/-- The loop of `__parse_known_args` that builds `arg_string_pattern` and `arg_string_indices`;
`i` is the index of the first token of the list. -/
def classify (p : ParserCore) : List String → Nat → Except Error (List Char × List (Nat × OptTuple))
  | [], _ => .ok ([], [])
  | s :: rest, i =>
    if s = "--" then .ok ('-' :: List.replicate rest.length 'A', [])
    else
      match p.__parse_optional s with
      | .error e => .error e
      | .ok r =>
        match classify p rest (i + 1) with
        | .error e => .error e
        | .ok (pattern, indices) =>
          match r with
          | some t => .ok ('O' :: pattern, (i, t) :: indices)
          | none => .ok ('A' :: pattern, indices)

/-- The arity message of `__match_argument`. -/
def arity_message (n : NArgs) : String :=
  if n.type_ = .none then "expected one argument"
  else if n.type_ = .optional then "expected at most one argument"
  else if n.type_ = .one_or_more then "expected at least one argument"
  else "expected " ++ toString n.nargs_ ++ " argument(s)"

/-- The method `__match_argument`. -/
def __match_argument (p : ParserCore) (it : Nat) (arg_strings_pattern : List Char) :
    Except Error Nat :=
  let optional : Bool := (p.arg it).type_ = .optional_argument
  match regex_search ((p.arg it).nargs_.get_nargs_pattern optional) [] arg_strings_pattern with
  | some n => .ok n
  | none => .error (argument_error (p.arg it) (arity_message (p.arg it).nargs_))

/-- The concatenated patterns of the positionals after the first of a window. -/
def window_tail (p : ParserCore) (window : List Nat) : List Atom :=
  (window.map (fun i => (p.arg i).nargs_.get_nargs_pattern false)).flatten

/-- The loop of `__match_arguments_partial` over the windows of length `len`, `len - 1`, ..., 1. -/
def match_windows (p : ParserCore) (positionals : List Nat) (pattern : List Char) :
    Nat → List Nat
  | 0 => []
  | len + 1 =>
    match positionals.take (len + 1) with
    | [] => []
    | first :: others =>
      match regex_search ((p.arg first).nargs_.get_nargs_pattern false)
          (p.window_tail others) pattern with
      | some n => [n]
      | none => match_windows p positionals pattern len

/-- The method `__match_arguments_partial`; `positionals` is the range `[first, last)`. -/
def __match_arguments_partial (p : ParserCore) (positionals : List Nat) (pattern : List Char) :
    List Nat :=
  p.match_windows positionals pattern positionals.length

/-- The map `argument_conflicts` at one argument: the other members of its groups. -/
def argument_conflicts (p : ParserCore) (i : Nat) : List Nat :=
  (p.mutually_exclusive_groups_.map (fun g =>
    ((g.group_arguments_.filter (fun j => j = i)).map
      (fun _ => g.group_arguments_.filter (fun j => j ≠ i))).flatten)).flatten

end ParserCore

/-! ### Actions -/

/-- Whether a character is white space for `std::stoi`. -/
def is_space (c : Char) : Bool :=
  c = ' ' || c = '\t' || c = '\n' || c = '\r' || c.toNat = 11 || c.toNat = 12

/-- The value of a run of decimal digits. -/
def digits_value (ds : List Char) : Nat :=
  ds.foldl (fun acc c => 10 * acc + (c.toNat - '0'.toNat)) 0

/-- The call `std::stoi(s)`: white space, an optional sign, decimal digits. -/
def stoi (s : String) : Except Error Int :=
  let body := s.data.dropWhile is_space
  let neg : Bool := body.head? = some '-'
  let unsigned := if body.head? = some '-' ∨ body.head? = some '+' then body.drop 1 else body
  let ds := unsigned.takeWhile ParserCore.is_digit
  if ds.length = 0 then .error (.invalid_argument "stoi")
  else
    let v : Int := if neg then - (digits_value ds : Int) else (digits_value ds : Int)
    if v < -2147483648 ∨ 2147483647 < v then .error (.out_of_range "stoi") else .ok v

/-- The conversion of an `int` to `size_t` followed by `+= 1`, as in the count action. -/
def size_t_succ (v : Int) : Nat := ((v % 18446744073709551616).toNat + 1) % 18446744073709551616

/-- The loop `args[pair.first] = pair.second` of the sub-parser action. -/
def merge_namespace (args : Namespace) (sub_args_values : Namespace) : Namespace :=
  sub_args_values.foldl (fun acc pair => Namespace.set_values acc pair.1 pair.2) args

/-- The action `action_(this, ret, argument, values)` of each action class, and of the lambda
installed by `add_subparsers`. -/
def run_action (subs : ChildTable) (args : Namespace) (argument : Argument)
    (values : List String) : Except Error Namespace :=
  match argument.action_ with
  | .StoreAction =>
    if argument.nargs_.type_ = .integer ∧ argument.nargs_.nargs_ = 0 then
      .error (.logic_error "nargs for store actions must be != 0; if you have nothing to store, actions such a store true or store const may be more appropriate")
    else if argument.const_value_.length ≠ 0 ∧ argument.nargs_.type_ ≠ .optional then
      .error (.logic_error "nargs must be '?'(optional) to supply const")
    else if argument.nargs_.type_ = .none ∨ argument.nargs_.type_ = .optional then
      match values with
      | v :: _ => .ok (Namespace.set_value args argument.dest_ v)
      | [] => .error (.undefined_behavior "values[0]")
    else .ok (Namespace.set_values args argument.dest_ values)
  | .StoreConstAction => .ok (Namespace.set_values args argument.dest_ argument.const_value_)
  | .StoreTrueAction => .ok (Namespace.set_values args argument.dest_ argument.const_value_)
  | .StoreFalseAction => .ok (Namespace.set_values args argument.dest_ argument.const_value_)
  | .AppendAction => .ok (Namespace.push_back args argument.dest_ values)
  | .AppendConstAction => .ok (Namespace.push_back args argument.dest_ argument.const_value_)
  | .CountAction =>
    match Namespace.index args argument.dest_ with
    | [] => .ok (Namespace.push_back args argument.dest_ ["1"])
    | first :: rest =>
      match stoi first with
      | .error e => .error e
      | .ok v => .ok (Namespace.set_values args argument.dest_ (toString (size_t_succ v) :: rest))
  | .HelpAction => .error (.exit 0 "")
  | .SubparsersAction =>
    match values with
    | [] => .error (.undefined_behavior "values[0]")
    | parser_name :: arg_strings =>
      -- set the parser name if requested
      let args :=
        if argument.dest_ ≠ SUPPRESS then Namespace.set_value args argument.dest_ parser_name
        else args
      -- select the subparser
      match subs.find parser_name with
      | none =>
        .error (argument_error argument
          ("unknown parser " ++ parser_name ++ " (choices: " ++ argument.get_choice_str ++ ")"))
      | some subparser =>
        match subparser arg_strings with
        | .error e => .error e
        | .ok sub_args => .ok (merge_namespace args sub_args)

namespace ParserCore

/-! ### The consumption engine -/

/-- The first member of the conflict list that was already seen. -/
def first_conflict (p : ParserCore) (st : ParseState) (i : Nat) : Option Nat :=
  (p.argument_conflicts i).find? (fun c => c ∈ st.seen_args)

/-- The method `__take_argument`. -/
def __take_argument (p : ParserCore) (subs : ChildTable) (st : ParseState) (arg_it : Nat)
    (args : List String) : Except Error ParseState :=
  let argument := p.arg arg_it
  let st := { st with seen_args := st.seen_args.insert arg_it }
  match argument.__get_values args with
  | .error e => .error e
  | .ok argument_values =>
    let st := { st with seen_non_default_args := st.seen_non_default_args.insert arg_it }
    match p.first_conflict st arg_it with
    | some seen_arg =>
      .error (argument_error argument
        ("not allowed with argument " ++ (p.arg seen_arg).get_argument_name))
    | none =>
      -- take the argument if didn't receive a SUPPRESS value
      if argument_values = [SUPPRESS] then .ok st
      else
        match run_action subs st.ret argument argument_values with
        | .error e => .error e
        | .ok ret => .ok { st with ret := ret }

/-- The loop over `arg_counts` in `__consume_positionals`. -/
def take_positionals (p : ParserCore) (subs : ChildTable) (arg_strings : List String) :
    List Nat → ParseState → Nat → Except Error (ParseState × Nat)
  | [], st, start_index => .ok (st, start_index)
  | count :: arg_counts, st, start_index =>
    match st.positionals with
    | [] => .error (.undefined_behavior "positionals")
    | positional :: queue =>
      match p.__take_argument subs st positional ((arg_strings.drop start_index).take count) with
      | .error e => .error e
      | .ok st =>
        take_positionals p subs arg_strings arg_counts { st with positionals := queue }
          (start_index + count)

/-- The method `__consume_positionals`. -/
def __consume_positionals (p : ParserCore) (subs : ChildTable) (st : ParseState)
    (start_index : Nat) (arg_strings : List String) (arg_string_pattern : List Char) :
    Except Error (ParseState × Nat) :=
  let selected_pattern := arg_string_pattern.drop start_index
  let arg_counts := p.__match_arguments_partial st.positionals selected_pattern
  p.take_positionals subs arg_strings arg_counts st start_index

/-- The `while (1)` loop of `__consume_optionals`: the result is `stop_index` and `arg_tuples`.
Each turn that continues drops one character of `explicit_arg`; `fuel` bounds the turns. -/
def option_loop (p : ParserCore) (arg_string : String) (arg_strings : List String)
    (arg_string_pattern : List Char) (start_index : Nat) :
    Nat → Nat → String → List (Nat × List String) → Except Error (Nat × List (Nat × List String))
  | 0, _, _, _ => .error .out_of_fuel
  | fuel + 1, optional, explicit_arg, arg_tuples =>
    if explicit_arg.length ≠ 0 then
      match p.__match_argument optional ['A'] with
      | .error e => .error e
      | .ok arg_count =>
        if arg_count = 0 ∧ charAt arg_string 1 ≠ p.prefix_char_ ∧ explicit_arg ≠ "" then
          -- try to parse more single-dash options out of the tail of the option string
          match p.find_option (String.mk [charAt arg_string 0, charAt explicit_arg 0]) with
          | some next =>
            option_loop p arg_string arg_strings arg_string_pattern start_index fuel next
              (substr explicit_arg 1) (arg_tuples ++ [(optional, [])])
          | none =>
            .error (argument_error (p.arg optional) ("ignored explicit argument " ++ explicit_arg))
        else if arg_count = 1 then
          .ok (start_index + 1, arg_tuples ++ [(optional, [explicit_arg])])
        else
          .error (argument_error (p.arg optional) ("ignored explicit argument " ++ explicit_arg))
    else
      -- if there is no explicit argument
      match p.__match_argument optional (arg_string_pattern.drop (start_index + 1)) with
      | .error e => .error e
      | .ok arg_count =>
        .ok (start_index + 1 + arg_count,
          arg_tuples ++ [(optional, (arg_strings.drop (start_index + 1)).take arg_count)])

/-- The loop over `arg_tuples` at the end of `__consume_optionals`. -/
def take_tuples (p : ParserCore) (subs : ChildTable) :
    List (Nat × List String) → ParseState → Except Error ParseState
  | [], st => .ok st
  | (optional, args) :: rest, st =>
    match p.__take_argument subs st optional args with
    | .error e => .error e
    | .ok st => take_tuples p subs rest st

/-- The read `arg_string_indices[start_index]`. -/
def index_tuple (indices : List (Nat × OptTuple)) (start_index : Nat) : OptTuple :=
  match indices.find? (fun m => m.1 = start_index) with
  | some m => m.2
  | none => ("", none, "")

/-- The method `__consume_optionals`. -/
def __consume_optionals (p : ParserCore) (subs : ChildTable)
    (arg_string_indices : List (Nat × OptTuple)) (st : ParseState) (start_index : Nat)
    (arg_strings : List String) (arg_string_pattern : List Char) :
    Except Error (ParseState × Nat) :=
  match index_tuple arg_string_indices start_index with
  | (_, none, _) =>
    -- if we found no optional argument, skip it
    .ok ({ st with extras := st.extras ++ [arg_strings.getD start_index ""] }, start_index + 1)
  | (arg_string, some optional, explicit_arg) =>
    match p.option_loop arg_string arg_strings arg_string_pattern start_index
        (explicit_arg.length + 1) optional explicit_arg [] with
    | .error e => .error e
    | .ok (stop_index, arg_tuples) =>
      match p.take_tuples subs arg_tuples st with
      | .error e => .error e
      | .ok st => .ok (st, stop_index)

/-- The value `max_option_string_indices`. -/
def max_option_string_indices (indices : List (Nat × OptTuple)) : Int :=
  indices.foldl (fun ret m => max ret (m.1 : Int)) (-1)

/-- The value `next_option_string_index`. -/
def next_option_string_index (indices : List (Nat × OptTuple)) (start_index : Nat) : Nat :=
  indices.foldl (fun ret m => if m.1 ≥ start_index then min ret m.1 else ret) 2147483647

/-- The `while (start_index <= max_option_string_indices)` loop of `__parse_known_args`;
`fuel` bounds the number of turns. -/
def consume_loop (p : ParserCore) (subs : ChildTable) (arg_string_indices : List (Nat × OptTuple))
    (arg_strings : List String) (arg_string_pattern : List Char) :
    Nat → ParseState → Nat → Except Error (ParseState × Nat)
  | 0, st, start_index =>
    if (start_index : Int) ≤ max_option_string_indices arg_string_indices then .error .out_of_fuel
    else .ok (st, start_index)
  | fuel + 1, st, start_index =>
    if (start_index : Int) ≤ max_option_string_indices arg_string_indices then
      let next := next_option_string_index arg_string_indices start_index
      -- consume any positionals preceding the next option
      let positionals : Except Error (ParseState × Nat) :=
        if start_index ≠ next then
          p.__consume_positionals subs st start_index arg_strings arg_string_pattern
        else .ok (st, start_index)
      match positionals with
      | .error e => .error e
      | .ok (st, positionals_end_index) =>
        if start_index ≠ next ∧ positionals_end_index > start_index then
          consume_loop p subs arg_string_indices arg_strings arg_string_pattern fuel st
            positionals_end_index
        else
          let start_index := positionals_end_index
          -- extra arguments when we are not at the index of an option string
          let not_option : Bool := arg_string_indices.all (fun m => m.1 ≠ start_index)
          let st := if not_option
            then { st with extras := st.extras ++ (arg_strings.drop start_index).take (next - start_index) }
            else st
          let start_index := if not_option then next else start_index
          -- consume the next optional and any arguments for it
          match p.__consume_optionals subs arg_string_indices st start_index arg_strings
              arg_string_pattern with
          | .error e => .error e
          | .ok (st, start_index) =>
            consume_loop p subs arg_string_indices arg_strings arg_string_pattern fuel st
              start_index
    else .ok (st, start_index)

/-- The method `__get_positional_args`. -/
def __get_positional_args (p : ParserCore) : List Nat :=
  (List.range p.args_list_.length).filter (fun i => (p.arg i).option_strings_.length = 0)

/-- The names collected by the required-arguments check. -/
def required_args (p : ParserCore) (seen_args : List Nat) : List String :=
  ((List.range p.args_list_.length).filter
    (fun i => i ∉ seen_args ∧ (p.arg i).required_ = true)).map
    (fun i => (p.arg i).get_argument_name)

/-- The first required group none of whose members was seen, as the names of its members. -/
def unused_required_group (p : ParserCore) (seen_non_default_args : List Nat) :
    Option (List String) :=
  (p.mutually_exclusive_groups_.find? (fun g =>
    g.required_ && !(g.group_arguments_.any (fun i => i ∈ seen_non_default_args)))).map
    (fun g => (g.group_arguments_.filter (fun i => (p.arg i).help_ ≠ SUPPRESS)).map
      (fun i => (p.arg i).get_argument_name))

/-- The method `__parse_known_args`: the Namespace and the extras. -/
def __parse_known_args (p : ParserCore) (subs : ChildTable) (ret : Namespace)
    (arg_strings : List String) : Except Error (Namespace × List String) :=
  match p.classify arg_strings 0 with
  | .error e => .error e
  | .ok (arg_string_pattern, arg_string_indices) =>
    let st : ParseState :=
      { ret := ret, positionals := p.__get_positional_args, seen_args := [],
        seen_non_default_args := [], extras := [] }
    match p.consume_loop subs arg_string_indices arg_strings arg_string_pattern
        (arg_strings.length + 1) st 0 with
    | .error e => .error e
    | .ok (st, start_index) =>
      -- consume any positional following the last optional
      match p.__consume_positionals subs st start_index arg_strings arg_string_pattern with
      | .error e => .error e
      | .ok (st, stop_index) =>
        let extras := st.extras ++ arg_strings.drop stop_index
        -- make sure all required arguments were present
        if (p.required_args st.seen_args).length ≠ 0 then
          .error (.invalid_argument ("the following arguments are required: "
            ++ join (p.required_args st.seen_args) ", "))
        else
          -- make sure all required groups had one option present
          match p.unused_required_group st.seen_non_default_args with
          | some names =>
            .error (.logic_error ("one of the arguments " ++ join names " " ++ " is required"))
          | none => .ok (st.ret, extras)

/-- The method `__error`: print the usage and the message, then `std::exit(2)`. -/
def __error (err_msg : String) : Error := .exit 2 ("[ARGPARSE ERROR] " ++ err_msg)

/-- The first loop of `parse_known_args`: `initialize` each argument and add its default when the
dest is not suppressed. -/
def add_defaults : List Argument → Namespace → Except Error (List Argument × Namespace)
  | [], ret => .ok ([], ret)
  | arg :: rest, ret =>
    match arg.initializeArgument with
    | .error e => .error e
    | .ok arg =>
      let ret :=
        if arg.dest_ ≠ SUPPRESS ∧ arg.default_value_.length ≠ 0
            ∧ (arg.default_value_.length > 1 ∨ arg.default_value_.headD "" ≠ SUPPRESS) then
          Namespace.set_values ret arg.dest_ arg.default_value_
        else ret
      match add_defaults rest ret with
      | .error e => .error e
      | .ok (args, ret) => .ok (arg :: args, ret)

/-- The method `parse_known_args(ret, arg_strings)`: the filled Namespace and the extras. -/
def parse_known_args (p : ParserCore) (subs : ChildTable) (ret : Namespace)
    (arg_strings : List String) : Except Error (Namespace × List String) :=
  match add_defaults p.args_list_ ret with
  | .error e => .error e
  | .ok (args, ret) =>
    let p := { p with args_list_ := args }
    if p.exit_on_error_ then
      match p.__parse_known_args subs ret arg_strings with
      | .ok r => .ok r
      | .error e =>
        match e.what with
        | some w => .error (__error w)
        | none => .error e
    else p.__parse_known_args subs ret arg_strings

/-- The method `parse_args(arg_strings)`. -/
def parse_args (p : ParserCore) (subs : ChildTable) (arg_strings : List String) :
    Except Error Namespace :=
  match p.parse_known_args subs [] arg_strings with
  | .error e => .error e
  | .ok (ret, extras) =>
    if extras.length ≠ 0 then .error (__error ("unrecognized arguments: " ++ join extras " "))
    else .ok ret

end ParserCore

/-! ## ArgumentParser: the parse entry points -/

mutual
/-- The method `ArgumentParser::parse_args(arg_strings)`. -/
def ArgumentParser.parse_args : ArgumentParser → List String → Except Error Namespace
  | .mk core subparsers_map_, arg_strings =>
    core.parse_args (ArgumentParser.child_table subparsers_map_) arg_strings
/-- The view of `subparsers_map_` used by the sub-parser action. -/
def ArgumentParser.child_table : List (String × ArgumentParser) → ChildTable
  | [] => []
  | (name, child) :: rest =>
    (name, fun arg_strings => ArgumentParser.parse_args child arg_strings)
      :: ArgumentParser.child_table rest
end

/-- The method `ArgumentParser::parse_known_args(ret, arg_strings)`. -/
def ArgumentParser.parse_known_args : ArgumentParser → Namespace → List String →
    Except Error (Namespace × List String)
  | .mk core subparsers_map_, ret, arg_strings =>
    core.parse_known_args (ArgumentParser.child_table subparsers_map_) ret arg_strings

/-! ## Registration -/

namespace ParserCore

/-- The call `optional_args_map_.insert_or_assign(key, it)`. A new key is put at the end of the
list; where the `std::unordered_map` of the program puts it in its iteration order is
unspecified (see `ParserCore.iterated_as`). -/
def insert_or_assign (m : List (String × Nat)) (key : String) (it : Nat) : List (String × Nat) :=
  match m with
  | [] => [(key, it)]
  | (k, v) :: rest => if k = key then (k, it) :: rest else (k, v) :: insert_or_assign rest key it

/-- The method `__add_argument` followed by the registration of its option strings
(`__add_optional_argument`); `setters` are the `set_...` calls chained on the returned reference. -/
def add_argument (p : ParserCore) (act : ActionKind) (flags : List String)
    (setters : Argument → Except Error Argument) : Except Error ParserCore := do
  let argument ← Argument.__add_name_or_flags p.prefix_char_ act flags
  -- check conflict
  let conflict_options := argument.option_strings_.filter (fun s => (p.find_option s).isSome)
  if conflict_options.length ≠ 0 then
    throw (argument_error argument ("conflicting option string(s): " ++ join conflict_options ", "))
  let argument ← setters argument
  if argument.type_ ≠ .positional_argument ∧ argument.type_ ≠ .optional_argument then
    throw (argument_error argument "invalid argument type")
  pure { p with
    args_list_ := p.args_list_ ++ [argument]
    optional_args_map_ :=
      argument.option_strings_.foldl (fun m s => insert_or_assign m s p.args_list_.length)
        p.optional_args_map_
    has_negative_number_options_ :=
      p.has_negative_number_options_ || argument.option_strings_.any __match_negative_number }

/-- The constructor `ArgumentParser(prog_name, help, prefix_char, exit_on_error)` before
`__add_help_argument`. -/
def empty (prog_name : String) (prefix_char : Char) (exit_on_error : Bool) : ParserCore :=
  { prog_name_ := prog_name, prefix_char_ := prefix_char, allow_abbrev_ := true,
    exit_on_error_ := exit_on_error, args_list_ := [], optional_args_map_ := [],
    mutually_exclusive_groups_ := [], has_negative_number_options_ := false }

/-- The constructor `ArgumentParser(prog_name, help, prefix_char, exit_on_error)`. -/
def create (prog_name : String) (help : Bool) (prefix_char : Char) (exit_on_error : Bool) :
    Except Error ParserCore :=
  if help then
    (empty prog_name prefix_char exit_on_error).add_argument .HelpAction
      [String.mk [prefix_char, 'h'], String.mk [prefix_char, prefix_char] ++ "help"]
      (fun a => pure (a.set_help "show this help message and exit"))
  else pure (empty prog_name prefix_char exit_on_error)

/-- The method `set_abbrev`. -/
def set_abbrev (p : ParserCore) (allow : Bool) : ParserCore := { p with allow_abbrev_ := allow }

/-- The method `add_mutually_exclusive_group`. -/
def add_mutually_exclusive_group (p : ParserCore) (required : Bool) : ParserCore :=
  { p with mutually_exclusive_groups_ := p.mutually_exclusive_groups_ ++ [⟨required, []⟩] }

/-- The method `MutuallyExclusiveGroup::add_argument` on the group at position `g`. -/
def add_group_argument (p : ParserCore) (g : Nat) (act : ActionKind) (flags : List String)
    (setters : Argument → Except Error Argument) : Except Error ParserCore := do
  let q ← p.add_argument act flags (fun a => pure a)
  let argument ← setters (q.arg p.args_list_.length)
  pure { q with
    args_list_ := p.args_list_ ++ [argument]
    mutually_exclusive_groups_ := q.mutually_exclusive_groups_.modify
      (fun grp => { grp with group_arguments_ := grp.group_arguments_ ++ [p.args_list_.length] }) g }

/-- The method `MutuallyExclusiveGroup::add_argument(Argument&)` on the group at position `g`,
given the argument at position `i` of `args_list_`. -/
def add_group_existing (p : ParserCore) (g : Nat) (i : Nat) : ParserCore :=
  { p with
    optional_args_map_ :=
      (p.arg i).option_strings_.foldl (fun m s => insert_or_assign m s i) p.optional_args_map_
    mutually_exclusive_groups_ := p.mutually_exclusive_groups_.modify
      (fun grp => { grp with group_arguments_ := grp.group_arguments_ ++ [i] }) g }

/-- The method `add_subparsers`. -/
def add_subparsers (p : ParserCore) : Except Error ParserCore :=
  if p.args_list_.any (fun a => a.type_ = .subcommand_argument) then
    .error (__error (p.prog_name_ ++ " cannot have multiple subparser arguments"))
  else
    .ok { p with args_list_ := p.args_list_ ++
      [{ (Argument.fresh .SubparsersAction) with
          dest_ := SUPPRESS, required_ := false, nargs_ := ⟨.parser, 0⟩,
          type_ := .subcommand_argument }] }

end ParserCore

/-- The method `Argument::add_parser(name, aliases)` on the sub-parser argument of `parent`;
`child` is the parser it returns, as configured by the caller afterwards. -/
def ArgumentParser.add_parser_to (parent : ArgumentParser) (name : String)
    (aliases : List String) (child : ArgumentParser) : Except Error ArgumentParser :=
  match parent with
  | .mk core subparsers_map_ =>
    match core.args_list_.findIdx? (fun a => a.type_ = .subcommand_argument) with
    | none => .error (.undefined_behavior "no sub-parser argument")
    | some i =>
      let argument := core.arg i
      if name ∈ argument.choices_ then
        .error (argument_error argument ("conflicting subparser: " ++ name))
      else
        match aliases.find? (fun al => al ∈ argument.choices_) with
        | some al => .error (argument_error argument ("conflicting subparser alias: " ++ al))
        | none =>
          let updated := List.set core.args_list_ i
            (argument.set_choices (argument.choices_ ++ name :: aliases))
          .ok (.mk { core with args_list_ := updated }
            ((name :: aliases).foldl
              (fun m n => if m.any (fun e => e.1 = n)
                then m.map (fun e => if e.1 = n then (n, child) else e)
                else m ++ [(n, child)])
              subparsers_map_))

/-! ## The sample programs -/

/-- The parser of `samples/00_basic_usage.cpp`. -/
def sample_basic_usage : Except Error ArgumentParser := do
  let p ← ParserCore.create "argparse" true '-' true
  let p ← p.add_argument .StoreAction ["filename"] pure
  let p ← p.add_argument .StoreAction ["-c", "--count"] pure
  let p ← p.add_argument .StoreTrueAction ["-v", "--verbose"] pure
  pure (.mk p [])

/-- A parser with the two positionals `p1` and `p2`, otherwise as `ArgumentParser()` builds it. -/
def sample_two_positionals : Except Error ArgumentParser := do
  let p ← ParserCore.create "" true '-' true
  let p ← p.add_argument .StoreAction ["p1"] pure
  let p ← p.add_argument .StoreAction ["p2"] pure
  pure (.mk p [])

/-- The first parser of `samples/07_nargs.cpp`: `--foo` with `set_nargs(2)`, `bar` with
`set_nargs(1)`. -/
def sample_nargs_integer : Except Error ArgumentParser := do
  let p ← ParserCore.create "" true '-' true
  let p ← p.add_argument .StoreAction ["--foo"] (fun a => pure (a.set_nargs 2))
  let p ← p.add_argument .StoreAction ["bar"] (fun a => pure (a.set_nargs 1))
  pure (.mk p [])

/-- The second parser of `samples/07_nargs.cpp`: `--foo` and `bar` with `set_nargs('?')`. -/
def sample_nargs_optional : Except Error ArgumentParser := do
  let p ← ParserCore.create "" true '-' true
  let p ← p.add_argument .StoreAction ["--foo"]
    (fun a => do let a ← a.set_nargs_char '?'; pure ((a.set_const "c").set_default "d"))
  let p ← p.add_argument .StoreAction ["bar"]
    (fun a => do let a ← a.set_nargs_char '?'; pure (a.set_default "d"))
  pure (.mk p [])

/-- The fourth parser of `samples/07_nargs.cpp`: the positional `foo` with `set_nargs('+')`. -/
def sample_nargs_plus : Except Error ArgumentParser := do
  let p ← ParserCore.create "" true '-' true
  let p ← p.add_argument .StoreAction ["foo"] (fun a => a.set_nargs_char '+')
  pure (.mk p [])

/-- A parser with the option `--foo` of arity `'+'` and the flag `--bar`. -/
def sample_option_plus : Except Error ArgumentParser := do
  let p ← ParserCore.create "" true '-' true
  let p ← p.add_argument .StoreAction ["--foo"] (fun a => a.set_nargs_char '+')
  let p ← p.add_argument .StoreTrueAction ["--bar"] pure
  pure (.mk p [])

/-- A parser with the option `--foo` restricted to the choices `a` and `b`. -/
def sample_option_choices : Except Error ArgumentParser := do
  let p ← ParserCore.create "" true '-' true
  let p ← p.add_argument .StoreAction ["--foo"] (fun a => pure (a.set_choices ["a", "b"]))
  pure (.mk p [])

/-- The child parser `a` of `samples/10_subcommand_1.cpp`. -/
def sample_subcommand_a : Except Error ArgumentParser := do
  let p ← ParserCore.create "10_subcommand_1 a" true '-' true
  let p ← p.add_argument .StoreAction ["bar"] (fun a => pure (a.set_help "bar help"))
  pure (.mk p [])

/-- The child parser `b` of `samples/10_subcommand_1.cpp`. -/
def sample_subcommand_b : Except Error ArgumentParser := do
  let p ← ParserCore.create "10_subcommand_1 b" true '-' true
  let p ← p.add_argument .StoreAction ["--baz"]
    (fun a => pure ((a.set_choices ["X", "Y", "Z"]).set_help "baz help"))
  pure (.mk p [])

/-- The parser of `samples/10_subcommand_1.cpp`. -/
def sample_subcommand : Except Error ArgumentParser := do
  let p ← ParserCore.create "10_subcommand_1" true '-' true
  let p ← p.add_argument .StoreTrueAction ["--foo"] (fun a => pure (a.set_help "foo help"))
  let p ← p.add_subparsers
  let child_a ← sample_subcommand_a
  let child_b ← sample_subcommand_b
  let top ← ArgumentParser.add_parser_to (.mk p []) "a" [] child_a
  ArgumentParser.add_parser_to top "b" [] child_b

/-- The parser of `samples/01_allow_abbrev.cpp`. -/
def sample_allow_abbrev : Except Error ArgumentParser := do
  let p ← ParserCore.create "" true '-' true
  let p := p.set_abbrev true
  let p ← p.add_argument .StoreTrueAction ["--foobar"] pure
  let p ← p.add_argument .StoreFalseAction ["--foonley"] pure
  pure (.mk p [])

/-- A parser whose only option besides the help option is `--a--a`. -/
def sample_repeated_option : Except Error ArgumentParser := do
  let p ← ParserCore.create "" true '-' true
  let p ← p.add_argument .StoreTrueAction ["--a--a"] pure
  pure (.mk p [])

/-- The members of an `ArgumentParser` without its sub-parsers. -/
def ArgumentParser.core : ArgumentParser → ParserCore
  | .mk core _ => core


/-- The core of a parser that registration built without an error (an empty parser otherwise). -/
def built_core (r : Except Error ArgumentParser) : ParserCore :=
  match r with
  | .ok p => p.core
  | .error _ => ParserCore.empty "" '-' true

/-- A parser with the single option `--foo` of arity exact(2). -/
def sample_option_pair : Except Error ArgumentParser := do
  let p ← ParserCore.create "" true '-' true
  let p ← p.add_argument .StoreAction ["--foo"] (fun a => pure (a.set_nargs 2))
  pure (.mk p [])

/-- A parser with the options `--foo` and `--foo-bar`. -/
def sample_exact_and_longer : Except Error ArgumentParser := do
  let p ← ParserCore.create "" true '-' true
  let p ← p.add_argument .StoreAction ["--foo"] pure
  let p ← p.add_argument .StoreAction ["--foo-bar"] pure
  pure (.mk p [])

/-- The parser of `samples/01_allow_abbrev.cpp` after `set_abbrev(false)`. -/
def sample_no_abbrev : Except Error ArgumentParser := do
  let p ← ParserCore.create "" true '-' true
  let p := p.set_abbrev false
  let p ← p.add_argument .StoreTrueAction ["--foobar"] pure
  let p ← p.add_argument .StoreFalseAction ["--foonley"] pure
  pure (.mk p [])

/-- The last parser of `samples/05_actions.cpp`: the counting option `--verbose`, `-v` with
`set_default(0)`. -/
def sample_count : Except Error ArgumentParser := do
  let p ← ParserCore.create "" true '-' true
  let p ← p.add_argument .CountAction ["--verbose", "-v"] (fun a => pure (a.set_default "0"))
  pure (.mk p [])

/-- The counting option `-v` without a default. -/
def sample_count_plain : Except Error ArgumentParser := do
  let p ← ParserCore.create "" true '-' true
  let p ← p.add_argument .CountAction ["-v"] pure
  pure (.mk p [])

/-- A parser with the exclusive group of `--foo` and `--bar`; `required` is the flag given to
`add_mutually_exclusive_group`. -/
def sample_exclusive (required : Bool) : Except Error ArgumentParser := do
  let p ← ParserCore.create "" true '-' true
  let p := p.add_mutually_exclusive_group required
  let p ← p.add_group_argument 0 .StoreTrueAction ["--foo"] pure
  let p ← p.add_group_argument 0 .StoreTrueAction ["--bar"] pure
  pure (.mk p [])

/-- A parser with the required exclusive group of `--foo` and `--bar`, the help of `--bar` being
`Argument::SUPPRESS`. -/
def sample_exclusive_hidden : Except Error ArgumentParser := do
  let p ← ParserCore.create "" true '-' true
  let p := p.add_mutually_exclusive_group true
  let p ← p.add_group_argument 0 .StoreTrueAction ["--foo"] pure
  let p ← p.add_group_argument 0 .StoreTrueAction ["--bar"] (fun a => pure (a.set_help SUPPRESS))
  pure (.mk p [])

/-- A parser with the required exclusive group of the option `--foo` and the positional `bar` of
arity `'?'` with the default `d`. -/
def sample_exclusive_default : Except Error ArgumentParser := do
  let p ← ParserCore.create "" true '-' true
  let p := p.add_mutually_exclusive_group true
  let p ← p.add_group_argument 0 .StoreAction ["--foo"] pure
  let p ← p.add_group_argument 0 .StoreAction ["bar"]
    (fun a => do let a ← a.set_nargs_char '?'; pure (a.set_default "d"))
  pure (.mk p [])

/-- A parser with the single store option `-c`, `--count` of `samples/00_basic_usage.cpp`. -/
def sample_short_option : Except Error ArgumentParser := do
  let p ← ParserCore.create "" true '-' true
  let p ← p.add_argument .StoreAction ["-c", "--count"] pure
  pure (.mk p [])

/-- A parser with two exclusive groups that share `--b`: the first holds `--c` and `--b`, the
second holds `--a` and, by `add_argument(Argument&)`, `--b` again. -/
def sample_exclusive_shared : Except Error ArgumentParser := do
  let p ← ParserCore.create "" true '-' true
  let p := p.add_mutually_exclusive_group false
  let p := p.add_mutually_exclusive_group false
  let p ← p.add_group_argument 0 .StoreTrueAction ["--c"] pure
  let p ← p.add_group_argument 0 .StoreTrueAction ["--b"] pure
  let p ← p.add_group_argument 1 .StoreTrueAction ["--a"] pure
  let p := p.add_group_existing 1 2
  pure (.mk p [])

/-- A parser with the required option `--a`, the positional `p` and the required option `--b`,
declared in this order. -/
def sample_required : Except Error ArgumentParser := do
  let p ← ParserCore.create "" true '-' true
  let p ← p.add_argument .StoreAction ["--a"] (fun a => a.set_required true)
  let p ← p.add_argument .StoreAction ["p"] pure
  let p ← p.add_argument .StoreAction ["--b"] (fun a => a.set_required true)
  pure (.mk p [])

/-- A parser with the store option `--foo` given `set_nargs(0)`. -/
def sample_store_zero : Except Error ArgumentParser := do
  let p ← ParserCore.create "" true '-' true
  let p ← p.add_argument .StoreAction ["--foo"] (fun a => pure (a.set_nargs 0))
  pure (.mk p [])

/-- The parser of `samples/03_exit_on_error.cpp`: `exit_on_error` is false. -/
def sample_exit_on_error : Except Error ArgumentParser := do
  let p ← ParserCore.create "03_exit_on_error" true '-' false
  let p ← p.add_argument .StoreAction ["--foo"] pure
  pure (.mk p [])

/-- A parser whose prefix character is `+`, with the store option `+f`, `++foo-bar`. -/
def sample_plus_prefix : Except Error ArgumentParser := do
  let p ← ParserCore.create "" true '+' true
  let p ← p.add_argument .StoreAction ["+f", "++foo-bar"] pure
  pure (.mk p [])

/-- The parser of `samples/08_choices.cpp`: the positional `move` with three choices. -/
def sample_choices : Except Error ArgumentParser := do
  let p ← ParserCore.create "" true '-' true
  let p ← p.add_argument .StoreAction ["move"]
    (fun a => pure (a.set_choices ["rock", "paper", "scissors"]))
  pure (.mk p [])

/-- A parser with the option `-x` and the positional `foo` of arity `'?'` with the default `d`:
no option string looks like a negative number. -/
def sample_negative_free : Except Error ArgumentParser := do
  let p ← ParserCore.create "" true '-' true
  let p ← p.add_argument .StoreAction ["-x"] pure
  let p ← p.add_argument .StoreAction ["foo"]
    (fun a => do let a ← a.set_nargs_char '?'; pure (a.set_default "d"))
  pure (.mk p [])

/-- A parser with the option `-1` (dest `one`) and the positional `foo` of arity `'?'` with
the default `d`: an option string looks like a negative number. -/
def sample_negative_option : Except Error ArgumentParser := do
  let p ← ParserCore.create "" true '-' true
  let p ← p.add_argument .StoreAction ["-1"] (fun a => pure (a.set_dest "one"))
  let p ← p.add_argument .StoreAction ["foo"]
    (fun a => do let a ← a.set_nargs_char '?'; pure (a.set_default "d"))
  pure (.mk p [])

/-- The append parser of `samples/05_actions.cpp`: the option `--foo` with the append action. -/
def sample_append : Except Error ArgumentParser := do
  let p ← ParserCore.create "" true '-' true
  let p ← p.add_argument .AppendAction ["--foo"] pure
  pure (.mk p [])

/-- The option `--foo` with the append action and the default `0`. -/
def sample_append_default : Except Error ArgumentParser := do
  let p ← ParserCore.create "" true '-' true
  let p ← p.add_argument .AppendAction ["--foo"] (fun a => pure (a.set_default "0"))
  pure (.mk p [])

/-- The parser of `samples/04_argument_name.cpp`. -/
def sample_argument_name : Except Error ArgumentParser := do
  let p ← ParserCore.create "" true '-' true
  let p ← p.add_argument .StoreAction ["-f", "--foo"] pure
  let p ← p.add_argument .StoreAction ["bar"] pure
  pure (.mk p [])

/-- A parser with the positional `bar` given `set_nargs(2)`. -/
def sample_positional_pair : Except Error ArgumentParser := do
  let p ← ParserCore.create "" true '-' true
  let p ← p.add_argument .StoreAction ["bar"] (fun a => pure (a.set_nargs 2))
  pure (.mk p [])

/-- A parser with the positional `bar` given `set_nargs('*')` and the default `d`. -/
def sample_positional_star : Except Error ArgumentParser := do
  let p ← ParserCore.create "" true '-' true
  let p ← p.add_argument .StoreAction ["bar"]
    (fun a => do let a ← a.set_nargs_char '*'; pure (a.set_default "d"))
  pure (.mk p [])

/-- A parser with abbreviations disabled, the option `--foonley` and the positional `bar`. -/
def sample_no_abbrev_positional : Except Error ArgumentParser := do
  let p ← ParserCore.create "" true '-' true
  let p := p.set_abbrev false
  let p ← p.add_argument .StoreFalseAction ["--foonley"] pure
  let p ← p.add_argument .StoreAction ["bar"] pure
  pure (.mk p [])

/-- A parser with the positional `bar` given `set_nargs('?')` and no default. -/
def sample_positional_optional : Except Error ArgumentParser := do
  let p ← ParserCore.create "" true '-' true
  let p ← p.add_argument .StoreAction ["bar"] (fun a => a.set_nargs_char '?')
  pure (.mk p [])

/-- A parser with the option `--foo` given `set_nargs('?')` and no const. -/
def sample_option_optional : Except Error ArgumentParser := do
  let p ← ParserCore.create "" true '-' true
  let p ← p.add_argument .StoreAction ["--foo"] (fun a => a.set_nargs_char '?')
  pure (.mk p [])

/-! ## Predicates used in the statements -/

/-- A plain token: not the separator `--`, and empty or not starting with the prefix character,
so that `__parse_optional` returns `false` at its first two tests. -/
def ParserCore.plain (p : ParserCore) (v : String) : Prop :=
  v ≠ "--" ∧ (v.length = 0 ∨ charAt v 0 ≠ p.prefix_char_)

instance (p : ParserCore) (v : String) : Decidable (p.plain v) := by
  unfold ParserCore.plain; infer_instance

/-- The values pass the choice check of `__get_values`: there are no choices, or every value is
empty or a choice. -/
def Argument.allows (a : Argument) (vs : List String) : Prop :=
  a.choices_.length = 0 ∨ ∀ v ∈ vs, v.length = 0 ∨ v ∈ a.choices_

instance (a : Argument) (vs : List String) : Decidable (a.allows vs) := by
  unfold Argument.allows; infer_instance

/-- Finalisation changes nothing: `Argument::initialize` accepts every argument of the parser and
leaves it as registration built it. -/
def ParserCore.finalized (p : ParserCore) : Prop :=
  ∀ a ∈ p.args_list_, a.initializeArgument = .ok a

instance (p : ParserCore) : Decidable p.finalized := by
  unfold ParserCore.finalized; infer_instance

/-- What the store action leaves in the Namespace for the values `vs`. -/
def Argument.stored (a : Argument) (ns : Namespace) (vs : List String) : Namespace :=
  if a.nargs_.type_ = .none ∨ a.nargs_.type_ = .optional then
    Namespace.set_value ns a.dest_ (vs.headD "")
  else Namespace.set_values ns a.dest_ vs

/-- Lookup of a name in `subparsers_map_`. -/
def ArgumentParser.find_child (m : List (String × ArgumentParser)) (name : String) :
    Option ArgumentParser :=
  match m with
  | [] => none
  | (n, c) :: rest => if n = name then some c else ArgumentParser.find_child rest name

/-- The dests of a Namespace are pairwise distinct, as the keys of the C++ map are. -/
def Namespace.distinct (ns : Namespace) : Prop := (ns.map Prod.fst).Nodup

/-- The text `needle` occurs in the text `hay`. -/
def occurs_in (needle hay : String) : Prop := needle.data <:+: hay.data

instance (needle hay : String) : Decidable (occurs_in needle hay) := by
  unfold occurs_in; infer_instance

/-- The part of a token before its first `=` (the whole token when it has none): the value
`option_prefix` of `__parse_optional`. -/
def before_assign (t : String) : String :=
  match findChar '=' t.data with
  | some pos => substrTo t pos
  | none => t

/-- The registered option strings that begin with `v`, in the iteration order of the map. -/
def ParserCore.options_beginning_with (p : ParserCore) (v : String) : List String :=
  (p.optional_args_map_.filter (fun m => startsWithChars v.data m.1.data)).map (fun m => m.1)

/-- What a run of counts leaves: the state `st1` differs from `st` by the counter value `n` under
the dest of the spec `i` and by `i` being seen. -/
def ParserCore.counted (p : ParserCore) (i : Nat) (st st1 : ParseState) (n : Nat) : Prop :=
  Namespace.get? st1.ret (p.arg i).dest_ = some [toString n]
    ∧ st1.positionals = st.positionals ∧ st1.extras = st.extras
    ∧ i ∈ st1.seen_non_default_args
    ∧ ∀ c ∈ p.argument_conflicts i, c ∉ st1.seen_args

/-- The token made of `-` followed by `k` copies of `v`. -/
def cluster_token (k : Nat) : String := String.mk ('-' :: List.replicate k 'v')

/-- The first part of `Argument::initialize`: the argument it leaves before `validation_` is
called (positionals that always need a token are marked required). -/
def Argument.mark_required (a : Argument) : Argument :=
  if a.type_ = .positional_argument then
    let a := if a.nargs_.type_ ≠ .optional ∧ a.nargs_.type_ ≠ .zero_or_more
      then { a with required_ := true } else a
    if a.nargs_.type_ = .zero_or_more ∧ a.default_value_.length = 0
      then { a with required_ := true } else a
  else a

/-- The failure reaches the caller as an exception (it has a `what()`); the other failures end
the process or are outside the model. -/
def Error.is_exception (e : Error) : Bool := e.what.isSome

/-- The dest of an optional spec in the words of the specification: the first option string that
begins with two prefix characters, or the first option string when there is none, without its
leading prefix characters and with every '-' replaced by '_'. -/
def spec_dest (prefix_char : Char) (flags : List String) : String :=
  let chosen : String :=
    (flags.find? (fun s => charAt s 0 = prefix_char ∧ charAt s 1 = prefix_char)).getD
      (flags.headD "")
  Argument.dashes_to_underscores (String.mk (chosen.data.dropWhile (fun c => c = prefix_char)))

/-- Some registered option string matches the negative-number pattern. -/
def ParserCore.registered_negative (p : ParserCore) : Bool :=
  p.optional_args_map_.any (fun m => ParserCore.__match_negative_number m.1)

/-- The specs of the second list are those of the first, in order, each one as it is or as
`Argument::initialize` leaves it. -/
def initialized_list : List Argument → List Argument → Bool
  | [], [] => true
  | a :: l1, b :: l2 =>
    (decide (b = a) || decide (b = a.mark_required)) && initialized_list l1 l2
  | _, _ => false

/-- The parser `q` is the parser `p` after `Argument::initialize` ran on some of its specs: the
other members are the same. -/
def ParserCore.initialized_to (p q : ParserCore) : Bool :=
  decide (q.prog_name_ = p.prog_name_) && decide (q.prefix_char_ = p.prefix_char_)
    && decide (q.allow_abbrev_ = p.allow_abbrev_)
    && decide (q.exit_on_error_ = p.exit_on_error_)
    && initialized_list p.args_list_ q.args_list_
    && decide (q.optional_args_map_ = p.optional_args_map_)
    && decide (q.mutually_exclusive_groups_ = p.mutually_exclusive_groups_)
    && decide (q.has_negative_number_options_ = p.has_negative_number_options_)

mutual
/-- The second parser is the first one after `Argument::initialize` ran on some specs of the
parser and of its sub-parsers, at any depth. -/
def ArgumentParser.initialized_to : ArgumentParser → ArgumentParser → Bool
  | .mk core m, .mk core2 m2 =>
    core.initialized_to core2 && ArgumentParser.children_initialized_to m m2
/-- The relation `initialized_to` for the entries of `subparsers_map_`, name by name. -/
def ArgumentParser.children_initialized_to :
    List (String × ArgumentParser) → List (String × ArgumentParser) → Bool
  | [], [] => true
  | (n, c) :: rest, (n2, c2) :: rest2 =>
    decide (n2 = n) && ArgumentParser.initialized_to c c2
      && ArgumentParser.children_initialized_to rest rest2
  | [], _ :: _ => false
  | _ :: _, [] => false
end

/-- The specs as the first loop of `parse_known_args` leaves them in `args_list_`: `initialize`
has run on every spec up to and including the first one whose validation throws. -/
def ParserCore.finalize_pass : List Argument → List Argument
  | [] => []
  | a :: rest =>
    match a.mark_required.action_.validate a.mark_required with
    | .ok _ => a.mark_required :: ParserCore.finalize_pass rest
    | .error _ => a.mark_required :: rest

/-- The parser after the first loop of `parse_known_args`. -/
def ArgumentParser.after_finalize : ArgumentParser → ArgumentParser
  | .mk core m => .mk { core with args_list_ := ParserCore.finalize_pass core.args_list_ } m

/-! ### The pattern of an arity as text -/

/-- The first position at or after `i` at which `v` occurs, `s` being the text from `i` on. -/
def findAux (v : List Char) : List Char → Nat → Option Nat
  | [], i => if startsWithChars v [] then some i else none
  | c :: s, i => if startsWithChars v (c :: s) then some i else findAux v s (i + 1)

/-- The call `str.find(v, pos)`; `none` is `npos`. -/
def find_at (str v : List Char) (pos : Nat) : Option Nat :=
  if pos ≤ str.length then findAux v (str.drop pos) pos else none

/-- The `while` loop of the lambda `replace_all(str, from, to)` in `get_nargs_pattern`;
`fuel` bounds its turns. -/
def replace_all_loop (v w : List Char) : Nat → List Char → Nat → Except Error (List Char)
  | 0, _, _ => .error .out_of_fuel
  | fuel + 1, str, pos =>
    match find_at str v pos with
    | none => .ok str
    | some k =>
      let str := str.take k ++ w ++ str.drop (k + v.length)
      let pos := k + w.length
      if pos ≥ str.length then .ok str else replace_all_loop v w fuel str pos

/-- The lambda `replace_all(str, from, to)` of `get_nargs_pattern`. -/
def replace_all (str v w : List Char) : Except Error (List Char) :=
  replace_all_loop v w (str.length + 1) str 0

/-- The text assigned to `nargs_pattern` by the `switch` of `NArgs::get_nargs_pattern`. -/
def nargs_pattern_text (n : NArgs) : List Char :=
  match n.type_ with
  | .none => "(-*A-*)".data
  | .optional => "(-*A?-*)".data
  | .zero_or_more => "(-*[A-]*)".data
  | .one_or_more => "(-*A[A-]*)".data
  | .remainder => "([-AO]*)".data
  | .parser => "(-*A[-AO]*)".data
  | .suppress => "(-*-*)".data
  | .integer =>
    if n.nargs_ = 0 then "(-*-*)".data
    else "(-*".data ++ (List.replicate (n.nargs_ - 1) "A-*".data).flatten ++ "A-*)".data

/-- The method `NArgs::get_nargs_pattern` as the text it returns. -/
def NArgs.get_nargs_pattern_str (n : NArgs) (optional : Bool) : Except Error String :=
  if optional then
    match replace_all (nargs_pattern_text n) "-*".data [] with
    | .error e => .error e
    | .ok s =>
      match replace_all s "-".data [] with
      | .error e => .error e
      | .ok s => .ok (String.mk s)
  else .ok (String.mk (nargs_pattern_text n))

/-- The text without its occurrences of `-*`, read from the left. -/
def without_dash_star : List Char → List Char
  | '-' :: '*' :: s => without_dash_star s
  | c :: s => c :: without_dash_star s
  | [] => []

/-- The text of one item of a parsed pattern. -/
def Atom.render (a : Atom) : List Char :=
  (match a.cls with
    | [c] => [c]
    | cs => '[' :: cs ++ [']'])
  ++ (match a.q with
    | .one => []
    | .opt => ['?']
    | .star => ['*'])

/-- The text of a parsed capture group. -/
def render (g : Group) : String :=
  String.mk ('(' :: (g.map Atom.render).flatten ++ [')'])

/-- Every spec that carries the sub-parser action has the arity `parser`, as `add_subparsers`
sets it. -/
def ParserCore.selectors_take_rest (p : ParserCore) : Bool :=
  p.args_list_.all
    (fun a => decide (a.action_ = .SubparsersAction → a.nargs_.type_ = .parser))

mutual
/-- The condition `selectors_take_rest` for a parser and all its sub-parsers. -/
def ArgumentParser.selectors_take_rest : ArgumentParser → Bool
  | .mk core m => core.selectors_take_rest && ArgumentParser.children_take_rest m
/-- The condition `selectors_take_rest` for the entries of `subparsers_map_`. -/
def ArgumentParser.children_take_rest : List (String × ArgumentParser) → Bool
  | [] => true
  | (_, c) :: rest =>
    ArgumentParser.selectors_take_rest c && ArgumentParser.children_take_rest rest
end

/-- The parser that registration built without an error (an empty parser otherwise). -/
def built_tree (r : Except Error ArgumentParser) : ArgumentParser :=
  match r with
  | .ok q => q
  | .error _ => .mk (ParserCore.empty "" '-' true) []

/-- The parser `p` with the entries of `optional_args_map_` visited in the order `order`. The map
is a `std::unordered_map`, whose iteration order the C++ standard leaves open: a statement that
depends on the order is made for every order of the entries. -/
def ParserCore.iterated_as (p : ParserCore) (order : List (String × Nat)) : ParserCore :=
  { p with optional_args_map_ := order }


/-! ## Theorems -/

/-! ### Pattern lemmas -/

theorem strip_repeatA (k : Nat) (g : Group) :
    strip_separators (repeatA k ++ g) = List.replicate k litA ++ strip_separators g := by
  induction k with
  | zero => simp [repeatA]
  | succ k ih =>
    have : strip_separators (litA :: dashStar :: (repeatA k ++ g))
        = litA :: strip_separators (repeatA k ++ g) := by
      simp [strip_separators, litA, dashStar]
    simp only [repeatA, List.cons_append, this, ih, List.replicate_succ]

theorem pattern_none_optional (n : NArgs) (h : n.type_ = .none) :
    n.get_nargs_pattern true = [litA] := by
  simp [NArgs.get_nargs_pattern, nargs_pattern_base, h, strip_separators, litA, dashStar]

theorem pattern_integer_optional (n : NArgs) (h : n.type_ = .integer) (hn : 1 ≤ n.nargs_) :
    n.get_nargs_pattern true = List.replicate n.nargs_ litA := by
  have h0 : n.nargs_ ≠ 0 := by omega
  have hs : strip_separators [litA, dashStar] = [litA] := by
    simp [strip_separators, litA, dashStar]
  have hd : ∀ g, strip_separators (dashStar :: g) = strip_separators g := by
    intro g; simp [strip_separators, dashStar]
  simp only [NArgs.get_nargs_pattern, nargs_pattern_base, h, h0, if_true, if_false, hd,
    strip_repeatA, hs]
  have : n.nargs_ = (n.nargs_ - 1) + 1 := by omega
  conv_rhs => rw [this]
  simp [List.replicate_succ']

theorem pattern_plus_optional (n : NArgs) (h : n.type_ = .one_or_more) :
    n.get_nargs_pattern true = [litA, ⟨['A'], .star⟩] := by
  simp [NArgs.get_nargs_pattern, nargs_pattern_base, h, strip_separators, litA, dashStar]

theorem matchAtoms_replicate_litA {α : Type} (n : Nat) (g : List Atom) (rest : List Char)
    (k : List Char → Option α) :
    matchAtoms (List.replicate n litA ++ g) (List.replicate n 'A' ++ rest) k
      = matchAtoms g rest k := by
  induction n with
  | zero => simp
  | succ n ih =>
    have hq : litA.q = .one := rfl
    have hc : 'A' ∈ litA.cls := by simp [litA]
    rw [List.replicate_succ, List.replicate_succ, List.cons_append, List.cons_append]
    simp only [matchAtoms, hq, hc, if_true]
    exact ih

theorem matchStar_A {α : Type} (m : Nat) (rest : List Char) (k : List Char → Option α)
    (hrest : rest.head? ≠ some 'A') (hk : (k rest).isSome) :
    matchStar ['A'] k (List.replicate m 'A' ++ rest) = k rest := by
  induction m with
  | zero =>
    cases rest with
    | nil => simp [matchStar]
    | cons c cs =>
      have : c ≠ 'A' := by simpa using hrest
      simp [matchStar, this]
  | succ m ih =>
    obtain ⟨r, hr⟩ := Option.isSome_iff_exists.mp hk
    simp [List.replicate_succ, matchStar, ih, hr]

theorem match_here_replicate (n : Nat) (rest : List Char) :
    match_here (List.replicate n litA) [] (List.replicate n 'A' ++ rest) = some n := by
  unfold match_here
  have e : (fun r : List Char => matchAtoms ([] : List Atom) r
      (fun _ => some ((List.replicate n 'A' ++ rest).length - r.length)))
      = fun r => some ((List.replicate n 'A' ++ rest).length - r.length) := by
    funext r; simp [matchAtoms]
  rw [e]
  have := matchAtoms_replicate_litA n [] rest
    (fun r => some ((List.replicate n 'A' ++ rest).length - r.length))
  simp only [List.append_nil] at this
  rw [this]
  simp [matchAtoms]

theorem match_here_plus (m : Nat) (rest : List Char) (hrest : rest.head? ≠ some 'A') :
    match_here [litA, ⟨['A'], .star⟩] [] (List.replicate (m + 1) 'A' ++ rest) = some (m + 1) := by
  simp only [match_here, List.replicate_succ, List.cons_append, matchAtoms, litA]
  simp only [List.mem_singleton, if_true]
  rw [matchStar_A m rest _ hrest (by simp)]
  simp
  omega

theorem regex_search_of_match_here (first : Group) (others : List Atom) (text : List Char)
    (n : Nat) (h : match_here first others text = some n) :
    regex_search first others text = some n := by
  cases text with
  | nil => simpa [regex_search] using h
  | cons c cs => simp [regex_search, h]

/-! ### Classification lemmas -/

theorem parse_optional_plain (p : ParserCore) (v : String) (h : p.plain v) :
    p.__parse_optional v = .ok none := by
  unfold ParserCore.__parse_optional
  rcases h.2 with h0 | h1
  · simp [h0]
  · by_cases h0 : v.length = 0
    · simp [h0]
    · simp [h0, h1]

theorem parse_optional_exact (p : ParserCore) (s : String) (i : Nat)
    (hfind : p.find_option s = some i) (hlen : s.length ≠ 0)
    (hpre : charAt s 0 = p.prefix_char_) :
    p.__parse_optional s = .ok (some (s, some i, "")) := by
  unfold ParserCore.__parse_optional
  simp [hlen, hpre, hfind]

theorem classify_plain (p : ParserCore) (vs : List String) (k : Nat)
    (h : ∀ v ∈ vs, p.plain v) :
    p.classify vs k = .ok (List.replicate vs.length 'A', []) := by
  induction vs generalizing k with
  | nil => simp [ParserCore.classify]
  | cons v vs ih =>
    have hv := h v (by simp)
    have ih2 := ih (k + 1) (fun w hw => h w (by simp [hw]))
    simp [ParserCore.classify, hv.1, parse_optional_plain p v hv, ih2, List.replicate_succ]

theorem classify_option_plain (p : ParserCore) (s : String) (i : Nat) (vs : List String)
    (hs : s ≠ "--") (hfind : p.find_option s = some i) (hlen : s.length ≠ 0)
    (hpre : charAt s 0 = p.prefix_char_) (h : ∀ v ∈ vs, p.plain v) :
    p.classify (s :: vs) 0
      = .ok ('O' :: List.replicate vs.length 'A', [(0, (s, some i, ""))]) := by
  simp [ParserCore.classify, hs, parse_optional_exact p s i hfind hlen hpre,
    classify_plain p vs 1 h]

/-! ### Engine step lemmas -/

theorem bad_choice_none (a : Argument) (vs : List String)
    (h : ∀ v ∈ vs, v.length = 0 ∨ v ∈ a.choices_) : a.bad_choice vs = none := by
  induction vs with
  | nil => simp [Argument.bad_choice]
  | cons v vs ih =>
    have hv := h v (by simp)
    have ih2 := ih (fun w hw => h w (by simp [hw]))
    have hc : ¬ (v.length ≠ 0 ∧ v ∉ a.choices_) := by
      rcases hv with h0 | h1
      · simp [h0]
      · simp [h1]
    simp only [Argument.bad_choice, hc, if_false, ih2]
    simp

theorem get_values_list (a : Argument) (vs : List String) (hne : vs ≠ [])
    (hhead : vs.head? ≠ some "--") (hallow : a.allows vs)
    (hkind : (a.nargs_.type_ = .none ∧ vs.length = 1) ∨ a.nargs_.type_ = .integer
      ∨ a.nargs_.type_ = .one_or_more) :
    a.__get_values vs = .ok vs := by
  cases vs with
  | nil => exact absurd rfl hne
  | cons v rest =>
    have hv : v ≠ "--" := by simpa using hhead
    have hbad : a.choices_.length ≠ 0 → a.bad_choice (v :: rest) = none := by
      intro hc
      rcases hallow with h0 | h1
      · exact absurd h0 hc
      · exact bad_choice_none a _ h1
    unfold Argument.__get_values
    rcases hkind with ⟨hk, hl⟩ | hk | hk
    · have hr : rest = [] := by
        cases rest with
        | nil => rfl
        | cons _ _ => simp at hl
      subst hr
      by_cases hc : a.choices_.length = 0
      · simp [hk, hv, hc]
      · simp [hk, hv, hc, hbad hc]
    · by_cases hc : a.choices_.length = 0
      · simp [hk, hv, hc]
      · simp [hk, hv, hc, hbad hc]
    · by_cases hc : a.choices_.length = 0
      · simp [hk, hv, hc]
      · simp [hk, hv, hc, hbad hc]

theorem run_action_store (subs : ChildTable) (ns : Namespace) (a : Argument) (vs : List String)
    (hact : a.action_ = .StoreAction) (hconst : a.const_value_ = []) (hne : vs ≠ [])
    (hz : ¬ (a.nargs_.type_ = .integer ∧ a.nargs_.nargs_ = 0)) :
    run_action subs ns a vs = .ok (a.stored ns vs) := by
  cases vs with
  | nil => exact absurd rfl hne
  | cons v rest =>
    unfold run_action Argument.stored
    simp only [hact, hz, hconst, if_false, List.length_nil, ne_eq, not_true_eq_false, false_and,
      List.headD_cons]
    by_cases hk : a.nargs_.type_ = .none ∨ a.nargs_.type_ = .optional
    · simp [hk]
    · simp [hk]

theorem conflicts_ne (p : ParserCore) (i c : Nat) (h : c ∈ p.argument_conflicts i) : c ≠ i := by
  unfold ParserCore.argument_conflicts at h
  simp only [List.mem_flatten, List.mem_map, List.mem_filter] at h
  obtain ⟨l, ⟨g, _, rfl⟩, hc⟩ := h
  simp only [List.mem_flatten, List.mem_map, List.mem_filter] at hc
  obtain ⟨l2, ⟨_, _, rfl⟩, hc2⟩ := hc
  simpa using (List.mem_filter.mp hc2).2

theorem first_conflict_singleton (p : ParserCore) (st : ParseState) (i : Nat)
    (h : ∀ j ∈ st.seen_args, j = i) : p.first_conflict st i = none := by
  unfold ParserCore.first_conflict
  rw [List.find?_eq_none]
  intro c hc
  have := conflicts_ne p i c hc
  simp only [decide_eq_true_eq]
  intro hmem
  exact this (h c hmem)

theorem take_argument_store (p : ParserCore) (subs : ChildTable) (st : ParseState) (i : Nat)
    (vs : List String) (hseen : st.seen_args = [])
    (hact : (p.arg i).action_ = .StoreAction) (hconst : (p.arg i).const_value_ = [])
    (hz : ¬ ((p.arg i).nargs_.type_ = .integer ∧ (p.arg i).nargs_.nargs_ = 0))
    (hvals : (p.arg i).__get_values vs = .ok vs) (hsup : vs ≠ [SUPPRESS]) (hne : vs ≠ []) :
    p.__take_argument subs st i vs
      = .ok { st with seen_args := [i],
                      seen_non_default_args := st.seen_non_default_args.insert i,
                      ret := (p.arg i).stored st.ret vs } := by
  unfold ParserCore.__take_argument
  have hc : p.first_conflict
      { st with seen_args := st.seen_args.insert i,
                seen_non_default_args := st.seen_non_default_args.insert i } i = none := by
    apply first_conflict_singleton
    simp [hseen]
  simp only [hvals, hc, hsup, if_false, run_action_store subs st.ret (p.arg i) vs hact hconst hne hz]
  simp [hseen]

theorem take_argument_store_general (p : ParserCore) (subs : ChildTable) (st : ParseState)
    (i : Nat) (vs : List String)
    (hconf : ∀ c ∈ p.argument_conflicts i, c ∉ st.seen_args)
    (hact : (p.arg i).action_ = .StoreAction) (hconst : (p.arg i).const_value_ = [])
    (hz : ¬ ((p.arg i).nargs_.type_ = .integer ∧ (p.arg i).nargs_.nargs_ = 0))
    (hvals : (p.arg i).__get_values vs = .ok vs) (hsup : vs ≠ [SUPPRESS]) (hne : vs ≠ []) :
    p.__take_argument subs st i vs
      = .ok { st with seen_args := st.seen_args.insert i,
                      seen_non_default_args := st.seen_non_default_args.insert i,
                      ret := (p.arg i).stored st.ret vs } := by
  unfold ParserCore.__take_argument
  have hc : p.first_conflict
      { st with seen_args := st.seen_args.insert i,
                seen_non_default_args := st.seen_non_default_args.insert i } i = none := by
    unfold ParserCore.first_conflict
    rw [List.find?_eq_none]
    intro c hcm
    simp only [decide_eq_true_eq, List.mem_insert_iff]
    rintro (e | e)
    · exact conflicts_ne p i c hcm e
    · exact hconf c hcm e
  simp only [hvals, hc, hsup, if_false, run_action_store subs st.ret (p.arg i) vs hact hconst hne hz]

theorem match_argument_As (p : ParserCore) (i n : Nat) (rest : List Char)
    (hopt : (p.arg i).type_ = .optional_argument)
    (hkind : ((p.arg i).nargs_.type_ = .none ∧ n = 1)
      ∨ ((p.arg i).nargs_.type_ = .integer ∧ (p.arg i).nargs_.nargs_ = n ∧ 1 ≤ n)
      ∨ ((p.arg i).nargs_.type_ = .one_or_more ∧ 1 ≤ n ∧ rest.head? ≠ some 'A')) :
    p.__match_argument i (List.replicate n 'A' ++ rest) = .ok n := by
  unfold ParserCore.__match_argument
  have hs : regex_search ((p.arg i).nargs_.get_nargs_pattern true) []
      (List.replicate n 'A' ++ rest) = some n := by
    apply regex_search_of_match_here
    rcases hkind with ⟨hk, hn⟩ | ⟨hk, hn, h1⟩ | ⟨hk, h1, hr⟩
    · subst hn
      rw [pattern_none_optional _ hk]
      exact match_here_replicate 1 rest
    · rw [pattern_integer_optional _ hk (by omega), hn]
      exact match_here_replicate n rest
    · rw [pattern_plus_optional _ hk]
      obtain ⟨m, rfl⟩ : ∃ m, n = m + 1 := ⟨n - 1, by omega⟩
      exact match_here_plus m rest hr
  simp [hopt, hs]

theorem option_loop_no_explicit (p : ParserCore) (arg_string : String)
    (arg_strings : List String) (pattern : List Char) (start fuel i n : Nat)
    (tuples : List (Nat × List String))
    (h : p.__match_argument i (pattern.drop (start + 1)) = .ok n) :
    p.option_loop arg_string arg_strings pattern start (fuel + 1) i "" tuples
      = .ok (start + 1 + n, tuples ++ [(i, (arg_strings.drop (start + 1)).take n)]) := by
  simp [ParserCore.option_loop, h]

theorem consume_loop_done (p : ParserCore) (subs : ChildTable)
    (indices : List (Nat × OptTuple)) (arg_strings : List String) (pattern : List Char)
    (fuel : Nat) (st : ParseState) (start : Nat)
    (h : ¬ ((start : Int) ≤ ParserCore.max_option_string_indices indices)) :
    p.consume_loop subs indices arg_strings pattern fuel st start = .ok (st, start) := by
  cases fuel <;> simp [ParserCore.consume_loop, h]

theorem arg_mem (p : ParserCore) (j : Nat) (h : j < p.args_list_.length) :
    p.arg j ∈ p.args_list_ := by
  unfold ParserCore.arg
  rw [List.getD_eq_getElem _ _ h]
  exact List.getElem_mem h

theorem match_windows_nil (p : ParserCore) (positionals : List Nat) (len : Nat)
    (h : ∀ j ∈ positionals, (p.arg j).nargs_.type_ = .parser) :
    p.match_windows positionals [] len = [] := by
  induction len with
  | zero => simp [ParserCore.match_windows]
  | succ len ih =>
    unfold ParserCore.match_windows
    cases hw : positionals.take (len + 1) with
    | nil => simp
    | cons first others =>
      have hf : first ∈ positionals := by
        have : first ∈ positionals.take (len + 1) := by rw [hw]; simp
        exact List.mem_of_mem_take this
      have hp := h first hf
      have hnone : regex_search ((p.arg first).nargs_.get_nargs_pattern false)
          (p.window_tail others) [] = none := by
        simp [regex_search, match_here, NArgs.get_nargs_pattern, nargs_pattern_base, hp,
          matchAtoms, matchStar, dashStar, litA]
      simp [hnone, ih]

theorem consume_positionals_nil (p : ParserCore) (subs : ChildTable) (st : ParseState)
    (start : Nat) (arg_strings : List String) (pattern : List Char)
    (hlen : pattern.length ≤ start)
    (h : ∀ j ∈ st.positionals, (p.arg j).nargs_.type_ = .parser) :
    p.__consume_positionals subs st start arg_strings pattern = .ok (st, start) := by
  unfold ParserCore.__consume_positionals ParserCore.__match_arguments_partial
  simp only [List.drop_eq_nil_of_le hlen, match_windows_nil p _ _ h]
  simp [ParserCore.take_positionals]

theorem consume_optionals_single (p : ParserCore) (subs : ChildTable) (st : ParseState)
    (i : Nat) (s : String) (vs : List String) (hseen : st.seen_args = [])
    (hplain : ∀ v ∈ vs, p.plain v)
    (hopt : (p.arg i).type_ = .optional_argument)
    (hact : (p.arg i).action_ = .StoreAction) (hconst : (p.arg i).const_value_ = [])
    (hkind : ((p.arg i).nargs_.type_ = .none ∧ vs.length = 1)
      ∨ ((p.arg i).nargs_.type_ = .integer ∧ (p.arg i).nargs_.nargs_ = vs.length ∧ 1 ≤ vs.length)
      ∨ ((p.arg i).nargs_.type_ = .one_or_more ∧ 1 ≤ vs.length))
    (hallow : (p.arg i).allows vs) (hsup : vs ≠ [SUPPRESS]) :
    p.__consume_optionals subs [(0, (s, some i, ""))] st 0 (s :: vs)
        ('O' :: List.replicate vs.length 'A')
      = .ok ({ st with seen_args := [i],
                       seen_non_default_args := st.seen_non_default_args.insert i,
                       ret := (p.arg i).stored st.ret vs }, vs.length + 1) := by
  have hne : vs ≠ [] := by
    intro h
    subst h
    rcases hkind with ⟨_, h⟩ | ⟨_, _, h⟩ | ⟨_, h⟩ <;> simp at h
  have hhead : vs.head? ≠ some "--" := by
    cases vs with
    | nil => simp
    | cons v rest =>
      have := (hplain v (by simp)).1
      simpa using this
  have hz : ¬ ((p.arg i).nargs_.type_ = .integer ∧ (p.arg i).nargs_.nargs_ = 0) := by
    rintro ⟨hk, h0⟩
    rcases hkind with ⟨h, _⟩ | ⟨_, h, h1⟩ | ⟨h, _⟩
    · rw [hk] at h; cases h
    · omega
    · rw [hk] at h; cases h
  have hvals : (p.arg i).__get_values vs = .ok vs := by
    apply get_values_list _ _ hne hhead hallow
    rcases hkind with ⟨h, h1⟩ | ⟨h, _, _⟩ | ⟨h, _⟩
    · exact Or.inl ⟨h, h1⟩
    · exact Or.inr (Or.inl h)
    · exact Or.inr (Or.inr h)
  have hm : p.__match_argument i (('O' :: List.replicate vs.length 'A').drop (0 + 1))
      = .ok vs.length := by
    have := match_argument_As p i vs.length [] hopt (by
      rcases hkind with ⟨h, h1⟩ | ⟨h, h1, h2⟩ | ⟨h, h1⟩
      · exact Or.inl ⟨h, h1⟩
      · exact Or.inr (Or.inl ⟨h, h1, h2⟩)
      · exact Or.inr (Or.inr ⟨h, h1, by simp⟩))
    simpa using this
  have hloop := option_loop_no_explicit p s (s :: vs) ('O' :: List.replicate vs.length 'A')
    0 0 i vs.length [] hm
  have htake := take_argument_store p subs st i vs hseen hact hconst hz hvals hsup hne
  unfold ParserCore.__consume_optionals
  have hidx : ParserCore.index_tuple [(0, ((s, some i, "") : OptTuple))] 0 = (s, some i, "") := by
    simp [ParserCore.index_tuple]
  have hfuel : ("" : String).length + 1 = 0 + 1 := by simp
  rw [hidx]
  simp only [hfuel, hloop]
  simp [ParserCore.take_tuples, htake]
  omega

theorem consume_loop_single (p : ParserCore) (subs : ChildTable) (st : ParseState)
    (i fuel : Nat) (s : String) (vs : List String) (hseen : st.seen_args = [])
    (hplain : ∀ v ∈ vs, p.plain v)
    (hopt : (p.arg i).type_ = .optional_argument)
    (hact : (p.arg i).action_ = .StoreAction) (hconst : (p.arg i).const_value_ = [])
    (hkind : ((p.arg i).nargs_.type_ = .none ∧ vs.length = 1)
      ∨ ((p.arg i).nargs_.type_ = .integer ∧ (p.arg i).nargs_.nargs_ = vs.length ∧ 1 ≤ vs.length)
      ∨ ((p.arg i).nargs_.type_ = .one_or_more ∧ 1 ≤ vs.length))
    (hallow : (p.arg i).allows vs) (hsup : vs ≠ [SUPPRESS]) :
    p.consume_loop subs [(0, (s, some i, ""))] (s :: vs)
        ('O' :: List.replicate vs.length 'A') (fuel + 1) st 0
      = .ok ({ st with seen_args := [i],
                       seen_non_default_args := st.seen_non_default_args.insert i,
                       ret := (p.arg i).stored st.ret vs }, vs.length + 1) := by
  have hmax : ParserCore.max_option_string_indices [(0, ((s, some i, "") : OptTuple))] = 0 := by
    simp [ParserCore.max_option_string_indices]
  have hnext : ParserCore.next_option_string_index [(0, ((s, some i, "") : OptTuple))] 0 = 0 := by
    simp [ParserCore.next_option_string_index]
  have hopts := consume_optionals_single p subs st i s vs hseen hplain hopt hact hconst hkind
    hallow hsup
  unfold ParserCore.consume_loop
  simp only [hmax, hnext]
  simp only [Nat.cast_zero, le_refl, if_true, ne_eq, not_true_eq_false, if_false, false_and]
  simp only [List.all_cons, List.all_nil, ne_eq, not_true_eq_false, decide_False, Bool.false_and,
    Bool.false_eq_true, if_false, hopts]
  apply consume_loop_done
  rw [hmax]
  omega

theorem positional_args_mem (p : ParserCore) (j : Nat) (h : j ∈ p.__get_positional_args) :
    p.arg j ∈ p.args_list_ ∧ (p.arg j).option_strings_.length = 0 := by
  unfold ParserCore.__get_positional_args at h
  simp only [List.mem_filter, List.mem_range, decide_eq_true_eq] at h
  exact ⟨arg_mem p j h.1, h.2⟩

theorem required_args_nil (p : ParserCore) (seen : List Nat)
    (h : ∀ a ∈ p.args_list_, a.required_ = false) : p.required_args seen = [] := by
  unfold ParserCore.required_args
  rw [List.map_eq_nil_iff, List.filter_eq_nil_iff]
  intro j hj
  have := h _ (arg_mem p j (List.mem_range.mp hj))
  simp [this]

theorem unused_required_group_none (p : ParserCore) (seen : List Nat) (i : Nat)
    (hi : i ∈ seen)
    (h : ∀ g ∈ p.mutually_exclusive_groups_, g.required_ = true → i ∈ g.group_arguments_) :
    p.unused_required_group seen = none := by
  unfold ParserCore.unused_required_group
  rw [Option.map_eq_none', List.find?_eq_none]
  intro g hg
  by_cases hr : g.required_ = true
  · have hmem := h g hg hr
    have : g.group_arguments_.any (fun j => decide (j ∈ seen)) = true := by
      rw [List.any_eq_true]
      exact ⟨i, hmem, by simpa using hi⟩
    simp [this]
  · simp [hr]

theorem parse_known_args_single_option (p : ParserCore) (subs : ChildTable) (ret : Namespace)
    (i : Nat) (s : String) (vs : List String)
    (hs : s ≠ "--") (hfind : p.find_option s = some i) (hlen : s.length ≠ 0)
    (hpre : charAt s 0 = p.prefix_char_)
    (hplain : ∀ v ∈ vs, p.plain v)
    (hopt : (p.arg i).type_ = .optional_argument)
    (hact : (p.arg i).action_ = .StoreAction) (hconst : (p.arg i).const_value_ = [])
    (hkind : ((p.arg i).nargs_.type_ = .none ∧ vs.length = 1)
      ∨ ((p.arg i).nargs_.type_ = .integer ∧ (p.arg i).nargs_.nargs_ = vs.length ∧ 1 ≤ vs.length)
      ∨ ((p.arg i).nargs_.type_ = .one_or_more ∧ 1 ≤ vs.length))
    (hallow : (p.arg i).allows vs) (hsup : vs ≠ [SUPPRESS])
    (hpos : ∀ a ∈ p.args_list_, a.option_strings_.length = 0 → a.nargs_.type_ = .parser)
    (hreq : ∀ a ∈ p.args_list_, a.required_ = false)
    (hgrp : ∀ g ∈ p.mutually_exclusive_groups_, g.required_ = true → i ∈ g.group_arguments_) :
    p.__parse_known_args subs ret (s :: vs) = .ok ((p.arg i).stored ret vs, []) := by
  unfold ParserCore.__parse_known_args
  rw [classify_option_plain p s i vs hs hfind hlen hpre hplain]
  simp only [List.length_cons]
  rw [consume_loop_single p subs _ i (vs.length + 1) s vs rfl hplain hopt hact hconst hkind
    hallow hsup]
  simp only
  rw [consume_positionals_nil p subs _ (vs.length + 1) (s :: vs)
    ('O' :: List.replicate vs.length 'A') (by simp) (by
      intro j hj
      have := positional_args_mem p j hj
      exact hpos _ this.1 this.2)]
  simp only [required_args_nil p _ hreq, List.length_nil, ne_eq, not_true_eq_false, if_false]
  rw [unused_required_group_none p _ i (by simp) hgrp]
  simp

theorem initialize_preserved (l : List Argument) (ret : Namespace)
    (h : ∀ a ∈ l, a.initializeArgument = .ok a) :
    ∃ ret2, ParserCore.add_defaults l ret = .ok (l, ret2) := by
  induction l generalizing ret with
  | nil => exact ⟨ret, rfl⟩
  | cons a l ih =>
    have ha := h a (by simp)
    unfold ParserCore.add_defaults
    simp only [ha]
    obtain ⟨r2, hr2⟩ := ih
      (if a.dest_ ≠ SUPPRESS ∧ a.default_value_.length ≠ 0
          ∧ (a.default_value_.length > 1 ∨ a.default_value_.headD "" ≠ SUPPRESS) then
        Namespace.set_values ret a.dest_ a.default_value_ else ret)
      (fun b hb => h b (by simp [hb]))
    exact ⟨r2, by simp only [hr2]⟩

/-! ### Namespace lemmas -/

theorem get?_set_values (ns : Namespace) (k k2 : String) (v : List String) :
    Namespace.get? (Namespace.set_values ns k v) k2
      = if k = k2 then some v else Namespace.get? ns k2 := by
  induction ns with
  | nil => simp [Namespace.set_values, Namespace.get?]
  | cons e ns ih =>
    obtain ⟨k0, v0⟩ := e
    by_cases h0 : k0 = k
    · subst h0
      by_cases h2 : k0 = k2 <;> simp [Namespace.set_values, Namespace.get?, h2]
    · by_cases h2 : k0 = k2
      · subst h2
        have : ¬ k = k0 := fun h => h0 h.symm
        simp [Namespace.set_values, Namespace.get?, h0, this]
      · simp [Namespace.set_values, Namespace.get?, h0, h2, ih]

theorem get?_set_value_short (ns : Namespace) (k v : String)
    (h : ∀ w, Namespace.get? ns k = some w → w.length ≤ 1) :
    Namespace.get? (Namespace.set_value ns k v) k = some [v] := by
  unfold Namespace.set_value
  cases hg : Namespace.get? ns k with
  | none => simp [get?_set_values]
  | some w =>
    cases w with
    | nil => simp [get?_set_values]
    | cons x tl =>
      have := h _ hg
      have htl : tl = [] := by
        cases tl with
        | nil => rfl
        | cons _ _ => simp at this
      simp [get?_set_values, htl]

theorem add_defaults_short (l : List Argument) (ret : Namespace) (d : String)
    (h : ∀ a ∈ l, a.initializeArgument = .ok a)
    (hd : ∀ a ∈ l, a.dest_ = d → a.default_value_.length ≤ 1)
    (hret : ∀ w, Namespace.get? ret d = some w → w.length ≤ 1) :
    ∃ ret2, ParserCore.add_defaults l ret = .ok (l, ret2)
      ∧ ∀ w, Namespace.get? ret2 d = some w → w.length ≤ 1 := by
  induction l generalizing ret with
  | nil => exact ⟨ret, rfl, hret⟩
  | cons a l ih =>
    have ha := h a (by simp)
    unfold ParserCore.add_defaults
    simp only [ha]
    obtain ⟨r2, hr2, hshort⟩ := ih
      (if a.dest_ ≠ SUPPRESS ∧ a.default_value_.length ≠ 0
          ∧ (a.default_value_.length > 1 ∨ a.default_value_.headD "" ≠ SUPPRESS) then
        Namespace.set_values ret a.dest_ a.default_value_ else ret)
      (fun b hb => h b (by simp [hb]))
      (fun b hb => hd b (by simp [hb]))
      (by
        intro w hw
        split at hw
        · rw [get?_set_values] at hw
          split at hw
          · rename_i hk
            have := hd a (by simp) hk
            simp only [Option.some.injEq] at hw
            rw [← hw]; exact this
          · exact hret w hw
        · exact hret w hw)
    exact ⟨r2, by simp only [hr2], hshort⟩

theorem parse_known_args_ok (p : ParserCore) (subs : ChildTable) (ret ret2 : Namespace)
    (arg_strings : List String) (r : Namespace × List String)
    (hdef : ParserCore.add_defaults p.args_list_ ret = .ok (p.args_list_, ret2))
    (hr : p.__parse_known_args subs ret2 arg_strings = .ok r) :
    p.parse_known_args subs ret arg_strings = .ok r := by
  obtain ⟨pn, pc, ab, ex, al, om, mg, hn⟩ := p
  simp only [ParserCore.parse_known_args] at *
  simp only [hdef, hr]
  simp

theorem parse_known_args_error (p : ParserCore) (subs : ChildTable) (ret ret2 : Namespace)
    (arg_strings : List String) (e : Error) (w : String)
    (hdef : ParserCore.add_defaults p.args_list_ ret = .ok (p.args_list_, ret2))
    (hr : p.__parse_known_args subs ret2 arg_strings = .error e) (hw : e.what = some w) :
    p.parse_known_args subs ret arg_strings
      = .error (if p.exit_on_error_ then ParserCore.__error w else e) := by
  obtain ⟨pn, pc, ab, ex, al, om, mg, hn⟩ := p
  simp only [ParserCore.parse_known_args] at *
  simp only [hdef, hr]
  by_cases hx : ex = true <;> simp [hx, hw]

/-! ### Lemmas for a positional of arity one_or_more -/

theorem pattern_plus_positional (n : NArgs) (h : n.type_ = .one_or_more) :
    n.get_nargs_pattern false = [dashStar, litA, ⟨['A', '-'], .star⟩] := by
  simp [NArgs.get_nargs_pattern, nargs_pattern_base, h]

theorem matchAtoms_star_cons {α : Type} (a : Atom) (g : List Atom) (text : List Char)
    (k : List Char → Option α) (h : a.q = .star) :
    matchAtoms (a :: g) text k = matchStar a.cls (fun t => matchAtoms g t k) text := by
  simp only [matchAtoms, h]

theorem matchAtoms_litA_none {α : Type} (g : List Atom) (t : List Char)
    (k : List Char → Option α) (h : 'A' ∉ t) : matchAtoms (litA :: g) t k = none := by
  cases t with
  | nil => simp [matchAtoms, litA]
  | cons c cs =>
    have hc : c ≠ 'A' := fun e => h (by simp [e])
    simp [matchAtoms, litA, hc]

theorem matchStar_none {α : Type} (cls : List Char) (k : List Char → Option α)
    (text : List Char) (hk : ∀ t, 'A' ∉ t → k t = none) (h : 'A' ∉ text) :
    matchStar cls k text = none := by
  induction text with
  | nil => simpa [matchStar] using hk [] (by simp)
  | cons c cs ih =>
    have hcs : 'A' ∉ cs := fun e => h (by simp [e])
    by_cases hm : c ∈ cls
    · simp [matchStar, hm, ih hcs, hk _ h]
    · simp [matchStar, hm, hk _ h]

theorem regex_search_litA_none (g others : List Atom) (text : List Char) (h : 'A' ∉ text) :
    regex_search (litA :: g) others text = none := by
  induction text with
  | nil => simp [regex_search, match_here, matchAtoms_litA_none]
  | cons c cs ih =>
    have hcs : 'A' ∉ cs := fun e => h (by simp [e])
    simp [regex_search, match_here, matchAtoms_litA_none _ _ _ h, ih hcs]

theorem regex_search_plus_none (text : List Char) (h : 'A' ∉ text) :
    regex_search [litA, ⟨['A'], .star⟩] [] text = none :=
  regex_search_litA_none _ _ text h

theorem regex_search_plus_positional_none (others : List Atom) (text : List Char)
    (h : 'A' ∉ text) :
    regex_search [dashStar, litA, ⟨['A', '-'], .star⟩] others text = none := by
  have hm : ∀ t : List Char, 'A' ∉ t →
      match_here [dashStar, litA, ⟨['A', '-'], .star⟩] others t = none := by
    intro t ht
    unfold match_here
    rw [matchAtoms_star_cons _ _ _ _ rfl]
    exact matchStar_none _ _ t (fun u hu => matchAtoms_litA_none _ u _ hu) ht
  induction text with
  | nil => simp [regex_search, hm [] (by simp)]
  | cons c cs ih =>
    have hcs : 'A' ∉ cs := fun e => h (by simp [e])
    simp [regex_search, hm (c :: cs) h, ih hcs]

theorem match_windows_plus_none (p : ParserCore) (i : Nat) (queue : List Nat)
    (text : List Char) (len : Nat) (hkind : (p.arg i).nargs_.type_ = .one_or_more)
    (h : 'A' ∉ text) : p.match_windows (i :: queue) text len = [] := by
  induction len with
  | zero => simp [ParserCore.match_windows]
  | succ len ih =>
    unfold ParserCore.match_windows
    simp only [List.take_succ_cons]
    rw [pattern_plus_positional _ hkind, regex_search_plus_positional_none _ _ h]
    exact ih

theorem consume_optionals_plus_error (p : ParserCore) (subs : ChildTable)
    (indices : List (Nat × OptTuple)) (st : ParseState) (start i : Nat) (s : String)
    (arg_strings : List String) (pattern : List Char)
    (hkind : (p.arg i).nargs_.type_ = .one_or_more)
    (hopt : (p.arg i).type_ = .optional_argument)
    (hidx : ParserCore.index_tuple indices start = (s, some i, ""))
    (h : 'A' ∉ pattern.drop (start + 1)) :
    p.__consume_optionals subs indices st start arg_strings pattern
      = .error (argument_error (p.arg i) "expected at least one argument") := by
  have hm : p.__match_argument i (pattern.drop (start + 1))
      = .error (argument_error (p.arg i) "expected at least one argument") := by
    unfold ParserCore.__match_argument
    simp only [hopt, decide_True]
    rw [pattern_plus_optional _ hkind, regex_search_plus_none _ h]
    simp [ParserCore.arity_message, hkind]
  unfold ParserCore.__consume_optionals
  rw [hidx]
  have hfuel : ("" : String).length + 1 = 0 + 1 := by simp
  simp only [hfuel, ParserCore.option_loop, hm]
  simp

/-! ### The dests of a Namespace stay distinct -/

theorem mem_keys_set_values (ns : Namespace) (k k2 : String) (v : List String) :
    k2 ∈ (Namespace.set_values ns k v).map Prod.fst ↔ k2 ∈ ns.map Prod.fst ∨ k2 = k := by
  induction ns with
  | nil => simp [Namespace.set_values]
  | cons e ns ih =>
    obtain ⟨k0, v0⟩ := e
    by_cases h0 : k0 = k
    · subst h0
      simp [Namespace.set_values]
      tauto
    · simp only [Namespace.set_values, h0, if_false, List.map_cons, List.mem_cons, ih]
      tauto

theorem distinct_set_values (ns : Namespace) (k : String) (v : List String)
    (h : Namespace.distinct ns) : Namespace.distinct (Namespace.set_values ns k v) := by
  unfold Namespace.distinct at *
  induction ns with
  | nil => simp [Namespace.set_values]
  | cons e ns ih =>
    obtain ⟨k0, v0⟩ := e
    simp only [List.map_cons, List.nodup_cons] at h
    by_cases h0 : k0 = k
    · subst h0
      simpa [Namespace.set_values] using h
    · simp only [Namespace.set_values, h0, if_false, List.map_cons, List.nodup_cons]
      refine ⟨?_, ih h.2⟩
      rw [mem_keys_set_values]
      rintro (hm | he)
      · exact h.1 hm
      · exact h0 he

theorem distinct_set_value (ns : Namespace) (k v : String) (h : Namespace.distinct ns) :
    Namespace.distinct (Namespace.set_value ns k v) := by
  unfold Namespace.set_value
  split <;> exact distinct_set_values _ _ _ h

theorem distinct_merge (ns sub : Namespace) (h : Namespace.distinct ns) :
    Namespace.distinct (merge_namespace ns sub) := by
  unfold merge_namespace
  induction sub generalizing ns with
  | nil => simpa using h
  | cons e sub ih => exact ih _ (distinct_set_values _ _ _ h)

theorem distinct_run_action (subs : ChildTable) (ns ns2 : Namespace) (a : Argument)
    (vs : List String) (h : Namespace.distinct ns) (hr : run_action subs ns a vs = .ok ns2) :
    Namespace.distinct ns2 := by
  unfold run_action at hr
  split at hr
  · split at hr
    · cases hr
    · split at hr
      · cases hr
      · split at hr
        · split at hr
          · cases hr; exact distinct_set_value _ _ _ h
          · cases hr
        · cases hr; exact distinct_set_values _ _ _ h
  · cases hr; exact distinct_set_values _ _ _ h
  · cases hr; exact distinct_set_values _ _ _ h
  · cases hr; exact distinct_set_values _ _ _ h
  · cases hr; exact distinct_set_values _ _ _ h
  · cases hr; exact distinct_set_values _ _ _ h
  · split at hr
    · cases hr; exact distinct_set_values _ _ _ h
    · split at hr
      · cases hr
      · cases hr; exact distinct_set_values _ _ _ h
  · cases hr
  · cases vs with
    | nil => simp at hr
    | cons name rest =>
      simp only at hr
      have hb : Namespace.distinct
          (if a.dest_ ≠ SUPPRESS then Namespace.set_value ns a.dest_ name else ns) := by
        split
        · exact distinct_set_value _ _ _ h
        · exact h
      cases hf : subs.find name with
      | none => simp [hf] at hr
      | some child =>
        cases hc : child rest with
        | error e => simp [hf, hc] at hr
        | ok sub =>
          simp only [hf, hc] at hr
          cases hr
          exact distinct_merge _ _ hb

theorem distinct_take_argument (p : ParserCore) (subs : ChildTable) (st st2 : ParseState)
    (i : Nat) (args : List String) (h : Namespace.distinct st.ret)
    (hr : p.__take_argument subs st i args = .ok st2) : Namespace.distinct st2.ret := by
  unfold ParserCore.__take_argument at hr
  simp only at hr
  split at hr
  · cases hr
  · split at hr
    · cases hr
    · split at hr
      · cases hr; exact h
      · split at hr
        · cases hr
        · rename_i ret hrun
          cases hr
          exact distinct_run_action _ _ _ _ _ h hrun

theorem distinct_take_tuples (p : ParserCore) (subs : ChildTable)
    (tuples : List (Nat × List String)) (st st2 : ParseState) (h : Namespace.distinct st.ret)
    (hr : p.take_tuples subs tuples st = .ok st2) : Namespace.distinct st2.ret := by
  induction tuples generalizing st with
  | nil =>
    simp only [ParserCore.take_tuples] at hr
    cases hr; exact h
  | cons t tuples ih =>
    obtain ⟨i, args⟩ := t
    simp only [ParserCore.take_tuples] at hr
    split at hr
    · cases hr
    · rename_i st1 h1
      exact ih st1 (distinct_take_argument _ _ _ _ _ _ h h1) hr

theorem distinct_take_positionals (p : ParserCore) (subs : ChildTable)
    (arg_strings : List String) (counts : List Nat) (st : ParseState) (start : Nat)
    (r : ParseState × Nat) (h : Namespace.distinct st.ret)
    (hr : p.take_positionals subs arg_strings counts st start = .ok r) :
    Namespace.distinct r.1.ret := by
  induction counts generalizing st start with
  | nil =>
    simp only [ParserCore.take_positionals] at hr
    cases hr; exact h
  | cons c counts ih =>
    simp only [ParserCore.take_positionals] at hr
    split at hr
    · cases hr
    · split at hr
      · cases hr
      · rename_i st1 h1
        refine ih _ _ ?_ hr
        exact distinct_take_argument p subs st st1 _ _ h h1

theorem distinct_consume_positionals (p : ParserCore) (subs : ChildTable) (st : ParseState)
    (start : Nat) (arg_strings : List String) (pattern : List Char) (r : ParseState × Nat)
    (h : Namespace.distinct st.ret)
    (hr : p.__consume_positionals subs st start arg_strings pattern = .ok r) :
    Namespace.distinct r.1.ret :=
  distinct_take_positionals p subs arg_strings _ st start r h hr

theorem distinct_consume_optionals (p : ParserCore) (subs : ChildTable)
    (indices : List (Nat × OptTuple)) (st : ParseState) (start : Nat)
    (arg_strings : List String) (pattern : List Char) (r : ParseState × Nat)
    (h : Namespace.distinct st.ret)
    (hr : p.__consume_optionals subs indices st start arg_strings pattern = .ok r) :
    Namespace.distinct r.1.ret := by
  unfold ParserCore.__consume_optionals at hr
  split at hr
  · cases hr; exact h
  · split at hr
    · cases hr
    · split at hr
      · cases hr
      · rename_i st1 h1
        cases hr
        exact distinct_take_tuples _ _ _ _ _ h h1

theorem distinct_consume_loop (p : ParserCore) (subs : ChildTable)
    (indices : List (Nat × OptTuple)) (arg_strings : List String) (pattern : List Char)
    (fuel : Nat) (st : ParseState) (start : Nat) (r : ParseState × Nat)
    (h : Namespace.distinct st.ret)
    (hr : p.consume_loop subs indices arg_strings pattern fuel st start = .ok r) :
    Namespace.distinct r.1.ret := by
  induction fuel generalizing st start with
  | zero =>
    simp only [ParserCore.consume_loop] at hr
    split at hr
    · cases hr
    · cases hr; exact h
  | succ fuel ih =>
    simp only [ParserCore.consume_loop] at hr
    split at hr
    · split at hr
      · cases hr
      · rename_i st1 pe hpos
        have hd1 : Namespace.distinct st1.ret := by
          split at hpos
          · exact distinct_consume_positionals _ _ _ _ _ _ _ h hpos
          · cases hpos; exact h
        split at hr
        · exact ih _ _ hd1 hr
        · split at hr
          · cases hr
          · rename_i st2 s2 hopt
            refine ih _ _ ?_ hr
            refine distinct_consume_optionals _ _ _ _ _ _ _ (st2, s2) ?_ hopt
            split
            · exact hd1
            · exact hd1
    · cases hr; exact h

theorem distinct_parse_known_args_inner (p : ParserCore) (subs : ChildTable) (ret : Namespace)
    (arg_strings : List String) (r : Namespace × List String) (h : Namespace.distinct ret)
    (hr : p.__parse_known_args subs ret arg_strings = .ok r) : Namespace.distinct r.1 := by
  unfold ParserCore.__parse_known_args at hr
  split at hr
  · cases hr
  · simp only at hr
    split at hr
    · cases hr
    · rename_i st1 s1 hloop
      have h1 := distinct_consume_loop _ _ _ _ _ _ _ _ _ (by exact h) hloop
      split at hr
      · cases hr
      · rename_i st2 s2 hpos
        have h2 := distinct_consume_positionals _ _ _ _ _ _ _ h1 hpos
        split at hr
        · cases hr
        · split at hr
          · cases hr
          · cases hr; exact h2

theorem distinct_add_defaults (l l2 : List Argument) (ret ret2 : Namespace)
    (h : Namespace.distinct ret) (hr : ParserCore.add_defaults l ret = .ok (l2, ret2)) :
    Namespace.distinct ret2 := by
  induction l generalizing ret l2 with
  | nil =>
    simp only [ParserCore.add_defaults, Except.ok.injEq, Prod.mk.injEq] at hr
    rw [← hr.2]; exact h
  | cons a l ih =>
    simp only [ParserCore.add_defaults] at hr
    split at hr
    · cases hr
    · split at hr
      · cases hr
      · rename_i args r3 hrec
        simp only [Except.ok.injEq, Prod.mk.injEq] at hr
        obtain ⟨_, rfl⟩ := hr
        refine ih _ _ ?_ hrec
        split
        · exact distinct_set_values _ _ _ h
        · exact h

theorem distinct_parse_known_args (p : ParserCore) (subs : ChildTable) (ret : Namespace)
    (arg_strings : List String) (r : Namespace × List String) (h : Namespace.distinct ret)
    (hr : p.parse_known_args subs ret arg_strings = .ok r) : Namespace.distinct r.1 := by
  unfold ParserCore.parse_known_args at hr
  split at hr
  · cases hr
  · rename_i args ret2 hdef
    have h2 := distinct_add_defaults _ _ _ _ h hdef
    simp only at hr
    split at hr
    · split at hr
      · rename_i r2 hin
        cases hr
        exact distinct_parse_known_args_inner _ _ _ _ _ h2 hin
      · split at hr <;> cases hr
    · exact distinct_parse_known_args_inner _ _ _ _ _ h2 hr

theorem distinct_parse_args (p : ParserCore) (subs : ChildTable) (arg_strings : List String)
    (ns : Namespace) (hr : p.parse_args subs arg_strings = .ok ns) : Namespace.distinct ns := by
  unfold ParserCore.parse_args at hr
  split at hr
  · cases hr
  · rename_i ret extras hk
    split at hr
    · cases hr
    · cases hr
      exact distinct_parse_known_args p subs [] arg_strings (ns, extras)
        (by simp [Namespace.distinct]) hk

theorem distinct_tree_parse_args (c : ArgumentParser) (arg_strings : List String)
    (ns : Namespace) (hr : c.parse_args arg_strings = .ok ns) : Namespace.distinct ns := by
  cases c with
  | mk core subs =>
    rw [ArgumentParser.parse_args] at hr
    exact distinct_parse_args _ _ _ _ hr

/-! ### Lemmas for the sub-parser action -/

theorem child_table_find (m : List (String × ArgumentParser)) (name : String) :
    (ArgumentParser.child_table m).find name
      = (ArgumentParser.find_child m name).map (fun c => fun args => c.parse_args args) := by
  induction m with
  | nil => simp [ArgumentParser.child_table, ChildTable.find, ArgumentParser.find_child]
  | cons e m ih =>
    obtain ⟨n, c⟩ := e
    by_cases h : n = name
    · simp [ArgumentParser.child_table, ChildTable.find, ArgumentParser.find_child, h]
    · simp [ArgumentParser.child_table, ChildTable.find, ArgumentParser.find_child, h, ih]

theorem get?_eq_none_iff (ns : Namespace) (k : String) :
    Namespace.get? ns k = none ↔ k ∉ ns.map Prod.fst := by
  induction ns with
  | nil => simp [Namespace.get?]
  | cons e ns ih =>
    obtain ⟨k0, v0⟩ := e
    by_cases h : k0 = k
    · simp [Namespace.get?, h]
    · have h2 : ¬ k = k0 := fun e => h e.symm
      simp [Namespace.get?, h, h2, ih]

theorem get?_merge_absent (ns sub : Namespace) (k : String)
    (h : Namespace.get? sub k = none) :
    Namespace.get? (merge_namespace ns sub) k = Namespace.get? ns k := by
  unfold merge_namespace
  induction sub generalizing ns with
  | nil => simp
  | cons e sub ih =>
    obtain ⟨k0, v0⟩ := e
    have hk : ¬ k0 = k := by
      intro e; simp [Namespace.get?, e] at h
    have hsub : Namespace.get? sub k = none := by
      simpa [Namespace.get?, hk] using h
    simp only [List.foldl_cons]
    rw [ih _ hsub, get?_set_values]
    simp [hk]

theorem get?_merge_present (ns sub : Namespace) (k : String) (v : List String)
    (hd : Namespace.distinct sub) (h : Namespace.get? sub k = some v) :
    Namespace.get? (merge_namespace ns sub) k = some v := by
  unfold merge_namespace
  induction sub generalizing ns with
  | nil => simp [Namespace.get?] at h
  | cons e sub ih =>
    obtain ⟨k0, v0⟩ := e
    simp only [Namespace.distinct, List.map_cons, List.nodup_cons] at hd
    simp only [List.foldl_cons]
    by_cases hk : k0 = k
    · subst hk
      have hv : v0 = v := by simpa [Namespace.get?] using h
      subst hv
      have hnone : Namespace.get? sub k0 = none := (get?_eq_none_iff sub k0).mpr hd.1
      have := get?_merge_absent (Namespace.set_values ns k0 v0) sub k0 hnone
      unfold merge_namespace at this
      rw [this, get?_set_values]
      simp
    · have hsub : Namespace.get? sub k = some v := by
        simpa [Namespace.get?, hk] using h
      exact ih _ hd.2 hsub

theorem get?_set_value_other (ns : Namespace) (k k2 v : String) (h : k ≠ k2) :
    Namespace.get? (Namespace.set_value ns k v) k2 = Namespace.get? ns k2 := by
  unfold Namespace.set_value
  split <;> simp [get?_set_values, h]

/-! ### Lemmas for inline values -/

theorem length_ne_zero_of_ne_empty (v : String) (h : v ≠ "") : v.length ≠ 0 := by
  intro h0
  apply h
  have : v.data = [] := List.length_eq_zero.mp h0
  exact String.ext this

theorem match_argument_zero_arity (p : ParserCore) (i : Nat) (text : List Char)
    (hopt : (p.arg i).type_ = .optional_argument)
    (hzero : ((p.arg i).nargs_.type_ = .integer ∧ (p.arg i).nargs_.nargs_ = 0)
      ∨ (p.arg i).nargs_.type_ = .suppress) :
    p.__match_argument i text = .ok 0 := by
  unfold ParserCore.__match_argument
  have hs : regex_search ((p.arg i).nargs_.get_nargs_pattern true) [] text = some 0 := by
    apply regex_search_of_match_here
    rcases hzero with ⟨hk, h0⟩ | hk
    · simp [NArgs.get_nargs_pattern, nargs_pattern_base, hk, h0, strip_separators, dashStar,
        match_here, matchAtoms]
    · simp [NArgs.get_nargs_pattern, nargs_pattern_base, hk, strip_separators, dashStar,
        match_here, matchAtoms]
  simp [hopt, hs]

theorem match_argument_too_many (p : ParserCore) (i : Nat)
    (hopt : (p.arg i).type_ = .optional_argument)
    (hk : (p.arg i).nargs_.type_ = .integer) (hn : 2 ≤ (p.arg i).nargs_.nargs_) :
    p.__match_argument i ['A']
      = .error (argument_error (p.arg i)
          ("expected " ++ toString (p.arg i).nargs_.nargs_ ++ " argument(s)")) := by
  unfold ParserCore.__match_argument
  have hs : regex_search ((p.arg i).nargs_.get_nargs_pattern true) [] ['A'] = none := by
    rw [pattern_integer_optional _ hk (by omega)]
    obtain ⟨m, hm⟩ : ∃ m, (p.arg i).nargs_.nargs_ = m + 2 :=
      ⟨(p.arg i).nargs_.nargs_ - 2, by omega⟩
    rw [hm]
    simp [List.replicate_succ, regex_search, match_here, matchAtoms, litA]
  simp [hopt, hs, ParserCore.arity_message, hk]

/-- C1: on the parser of `samples/00_basic_usage.cpp` (positional `filename`, option
`--count`, store-true flag `--verbose`), `parse_known_args` on
`file_name --count 15 --verbose` returns a Namespace with exactly the three entries
`filename = [file_name]`, `count = [15]`, `verbose = [true]`, and no extras. -/
theorem C1_basic_usage_end_to_end :
    (do
      let p ← sample_basic_usage
      let r ← p.parse_known_args [] ["file_name", "--count", "15", "--verbose"]
      pure (Namespace.get? r.1 "filename", Namespace.get? r.1 "count",
        Namespace.get? r.1 "verbose", r.1.length, r.2))
    = Except.ok (some ["file_name"], some ["15"], some ["true"], 3, []) := by
  decide!

/-- C2 (failing input): with the two positionals `p1`, `p2` of arity none and the tokens
`a b`, the final positional run takes only `p1`: the parse does not store `b` under `p2`, it ends
with "the following arguments are required: p2". -/
theorem C2_two_positionals_fail :
    (do
      let p ← sample_two_positionals
      p.parse_known_args [] ["a", "b"])
    = Except.error (ParserCore.__error "the following arguments are required: p2")
    ∧ (do
      let p ← sample_two_positionals
      pure (p.core.__match_arguments_partial p.core.__get_positional_args ['A', 'A']))
    = Except.ok [1] := by
  decide!

/-- C3 (as stated, refuted): `--foo` is a store option of arity none in a parser without
required specs and `x` is a plain token, yet `--foo x` does not store `x`: the choice set of the
spec rejects it. -/
theorem C3_counterexample_choices :
    (do
      let p ← sample_option_choices
      pure (decide (p.core.find_option "--foo" = some 1
        ∧ (p.core.arg 1).action_ = ActionKind.StoreAction
        ∧ (p.core.arg 1).nargs_.type_ = NArgsType.none
        ∧ (p.core.arg 1).option_strings_ = ["--foo"]
        ∧ (∀ a ∈ p.core.args_list_, a.required_ = false)
        ∧ p.core.plain "x")))
      = Except.ok true
    ∧ (do
      let p ← sample_option_choices
      p.parse_known_args [] ["--foo", "x"])
      = Except.error
          (ParserCore.__error "argument --foo: invalid choice: x (choose from 'a', 'b')") := by
  decide!

/-- C3 (amended): let the spec at position `i` be an optional store spec without const, of arity
none or exact(n) with n >= 1, registered under the option string `s` (its primary option string
or any other of its option strings); let the parser be
finalized with no required spec and no required group that lacks the spec, its specs without
option strings being sub-parser specs only; let `vs` be plain tokens, as many as the arity asks,
that pass the spec's choices and are not the single SUPPRESS marker. Then `parse_known_args` on
`s :: vs` with a fresh Namespace succeeds with `Namespace[dest] = vs` and no extras. -/
theorem C3_store_option_exact_arity (p : ParserCore) (m : List (String × ArgumentParser))
    (i : Nat) (s : String) (vs : List String)
    (hfind : p.find_option s = some i)
    (hs : s ≠ "--") (hlen : s.length ≠ 0) (hpre : charAt s 0 = p.prefix_char_)
    (hopt : (p.arg i).type_ = .optional_argument)
    (hact : (p.arg i).action_ = .StoreAction) (hconst : (p.arg i).const_value_ = [])
    (hkind : ((p.arg i).nargs_.type_ = .none ∧ vs.length = 1)
      ∨ ((p.arg i).nargs_.type_ = .integer ∧ (p.arg i).nargs_.nargs_ = vs.length ∧ 1 ≤ vs.length))
    (hplain : ∀ v ∈ vs, p.plain v) (hallow : (p.arg i).allows vs) (hsup : vs ≠ [SUPPRESS])
    (hfin : p.finalized)
    (hdef : ∀ a ∈ p.args_list_, a.default_value_.length ≤ 1)
    (hpos : ∀ a ∈ p.args_list_, a.option_strings_.length = 0 → a.nargs_.type_ = .parser)
    (hreq : ∀ a ∈ p.args_list_, a.required_ = false)
    (hgrp : ∀ g ∈ p.mutually_exclusive_groups_, g.required_ = true → i ∈ g.group_arguments_) :
    ∃ ns, (ArgumentParser.mk p m).parse_known_args [] (s :: vs) = .ok (ns, [])
      ∧ Namespace.get? ns (p.arg i).dest_ = some vs := by
  obtain ⟨ret2, hret2, hshort⟩ := add_defaults_short p.args_list_ [] (p.arg i).dest_ hfin
    (fun a ha _ => hdef a ha) (by simp [Namespace.get?])
  have hk3 : ((p.arg i).nargs_.type_ = .none ∧ vs.length = 1)
      ∨ ((p.arg i).nargs_.type_ = .integer ∧ (p.arg i).nargs_.nargs_ = vs.length ∧ 1 ≤ vs.length)
      ∨ ((p.arg i).nargs_.type_ = .one_or_more ∧ 1 ≤ vs.length) := by
    rcases hkind with h | h
    · exact Or.inl h
    · exact Or.inr (Or.inl h)
  have hmain := parse_known_args_single_option p (ArgumentParser.child_table m) ret2 i s vs hs
    hfind hlen hpre hplain hopt hact hconst hk3 hallow hsup hpos hreq hgrp
  refine ⟨(p.arg i).stored ret2 vs, ?_, ?_⟩
  · simp only [ArgumentParser.parse_known_args]
    exact parse_known_args_ok p _ [] ret2 _ _ hret2 hmain
  · unfold Argument.stored
    rcases hkind with ⟨hk, hl⟩ | ⟨hk, _, _⟩
    · obtain ⟨v, rfl⟩ : ∃ v, vs = [v] := List.length_eq_one.mp hl
      simp only [hk, true_or, if_true, List.headD_cons]
      exact get?_set_value_short ret2 _ v hshort
    · simp [hk, get?_set_values]

/-- Witness for C3: the option `--foo` of arity exact(2) on the input `--foo a b`. -/
theorem C3_store_option_exact_arity_witness :
    ∃ ns, (ArgumentParser.mk (built_core sample_option_pair) []).parse_known_args []
        ["--foo", "a", "b"] = .ok (ns, [])
      ∧ Namespace.get? ns "foo" = some ["a", "b"] :=
  C3_store_option_exact_arity (built_core sample_option_pair) [] 1 "--foo" ["a", "b"]
    (by decide!) (by decide!) (by decide!) (by decide!) (by decide!) (by decide!) (by decide!)
    (by decide!) (by decide!) (by decide!) (by decide!) (by decide!) (by decide!) (by decide!)
    (by decide!) (by decide!)

/-- C5 (as stated, refuted): the positional `foo` of arity one_or_more with no token at all
(`samples/07_nargs.cpp`) does not fail with the arity error "expected at least one argument": the
positional run consumes nothing and the parse ends with the required-arguments error. -/
theorem C5_counterexample_positional :
    (do
      let p ← sample_nargs_plus
      p.parse_known_args [] [])
    = Except.error (ParserCore.__error "the following arguments are required: foo") := by
  decide!

/-- C5 (amended): for a spec of arity one_or_more in a finalized parser, (1) when it is an option
reached at `start` with no inline value and no argument token follows in the pattern,
`__consume_optionals` fails with the arity error "expected at least one argument"; (2) when it is
an option registered under `s`, `parse_known_args` on the single token `s` fails with that error
(routed through `__error` when `exit_on_error` is set); (3) when it heads the positional queue
and no argument token is left, the positional run raises no error and consumes nothing. -/
theorem C5_one_or_more_without_tokens (p : ParserCore) (m : List (String × ArgumentParser))
    (i : Nat) (hkind : (p.arg i).nargs_.type_ = .one_or_more) (hfin : p.finalized) :
    (∀ subs indices st start s arg_strings pattern,
      (p.arg i).type_ = .optional_argument →
      ParserCore.index_tuple indices start = (s, some i, "") →
      'A' ∉ pattern.drop (start + 1) →
      p.__consume_optionals subs indices st start arg_strings pattern
        = .error (argument_error (p.arg i) "expected at least one argument"))
    ∧ (∀ s, (p.arg i).type_ = .optional_argument → p.find_option s = some i → s ≠ "--" →
      s.length ≠ 0 → charAt s 0 = p.prefix_char_ →
      (ArgumentParser.mk p m).parse_known_args [] [s]
        = .error (if p.exit_on_error_
            then ParserCore.__error
              ("argument " ++ (p.arg i).get_argument_name ++ ": expected at least one argument")
            else argument_error (p.arg i) "expected at least one argument"))
    ∧ (∀ subs st start queue arg_strings pattern,
      st.positionals = i :: queue → 'A' ∉ pattern.drop start →
      p.__consume_positionals subs st start arg_strings pattern = .ok (st, start)) := by
  refine ⟨?_, ?_, ?_⟩
  · intro subs indices st start s arg_strings pattern hopt hidx hA
    exact consume_optionals_plus_error p subs indices st start i s arg_strings pattern hkind hopt
      hidx hA
  · intro s hopt hfind hs hlen hpre
    obtain ⟨ret2, hret2⟩ := initialize_preserved p.args_list_ [] hfin
    have hcl := classify_option_plain p s i [] hs hfind hlen hpre (by simp)
    have hstep := consume_optionals_plus_error p (ArgumentParser.child_table m)
      [(0, (s, some i, ""))]
      { ret := ret2, positionals := p.__get_positional_args, seen_args := [],
        seen_non_default_args := [], extras := [] } 0 i s [s] ['O'] hkind hopt
      (by simp [ParserCore.index_tuple]) (by simp)
    have hmain : p.__parse_known_args (ArgumentParser.child_table m) ret2 [s]
        = .error (argument_error (p.arg i) "expected at least one argument") := by
      unfold ParserCore.__parse_known_args
      rw [hcl]
      simp only [List.length_nil, List.replicate_zero] at hstep ⊢
      simp only [List.length_singleton, ParserCore.consume_loop,
        ParserCore.max_option_string_indices, ParserCore.next_option_string_index,
        List.foldl_cons, List.foldl_nil]
      simp [hstep]
    simp only [ArgumentParser.parse_known_args]
    rw [parse_known_args_error p _ [] ret2 [s] _
      ("argument " ++ (p.arg i).get_argument_name ++ ": expected at least one argument")
      hret2 hmain (by simp [argument_error, Error.what, String.append_assoc])]
  · intro subs st start queue arg_strings pattern hq hA
    unfold ParserCore.__consume_positionals ParserCore.__match_arguments_partial
    simp only [hq, match_windows_plus_none p i queue _ _ hkind hA]
    simp [ParserCore.take_positionals]

/-- Witness for C5: the option `--foo` of arity one_or_more on the input `--foo`. -/
theorem C5_one_or_more_without_tokens_witness :
    (do
      let p ← sample_option_plus
      p.parse_known_args [] ["--foo"])
      = Except.error (ParserCore.__error "argument --foo: expected at least one argument")
    ∧ (ArgumentParser.mk (built_core sample_option_plus) []).parse_known_args [] ["--foo"]
      = .error (if (built_core sample_option_plus).exit_on_error_
          then ParserCore.__error
            ("argument " ++ ((built_core sample_option_plus).arg 1).get_argument_name
              ++ ": expected at least one argument")
          else argument_error ((built_core sample_option_plus).arg 1)
            "expected at least one argument") :=
  ⟨by decide!,
    (C5_one_or_more_without_tokens (built_core sample_option_plus) [] 1 (by decide!)
      (by decide!)).2.1 "--foo" (by decide!) (by decide!) (by decide!) (by decide!) (by decide!)⟩

/-- Greedy `x*` over a text made of characters of the class takes all of it. -/
theorem matchStar_all {α : Type} (cls : List Char) (k : List Char → Option α)
    (text : List Char) (h : ∀ c ∈ text, c ∈ cls) (hk : (k []).isSome) :
    matchStar cls k text = k [] := by
  induction text with
  | nil => simp [matchStar]
  | cons c cs ih =>
    obtain ⟨r, hr⟩ := Option.isSome_iff_exists.mp hk
    have hc : c ∈ cls := h c (by simp)
    have := ih (fun d hd => h d (by simp [hd]))
    simp [matchStar, hc, this, hr]

/-- C7: when the sub-parser action receives the values `name :: rest` and `name` is a registered
child, the child's `parse_args` is run on exactly `rest`; with the child's result `childNs`, the
parent's Namespace becomes the merge: every dest of `childNs` holds the child's values, every
other dest keeps the parent's value (the sub-parser spec's own dest, when not suppressed, holds
the selector). The values are everything from the selector on, whatever the shape of the tokens.
On `samples/10_subcommand_1.cpp`, `--foo b --baz Z` gives foo = true, baz = Z. -/
theorem C7_subcommand_dispatch (m : List (String × ArgumentParser)) (ns : Namespace)
    (a : Argument) (name : String) (rest : List String) (c : ArgumentParser)
    (childNs : Namespace)
    (hact : a.action_ = .SubparsersAction) (hkind : a.nargs_.type_ = .parser)
    (hfind : ArgumentParser.find_child m name = some c)
    (hchild : c.parse_args rest = .ok childNs) :
    run_action (ArgumentParser.child_table m) ns a (name :: rest)
      = .ok (merge_namespace
          (if a.dest_ ≠ SUPPRESS then Namespace.set_value ns a.dest_ name else ns) childNs)
    ∧ (∀ k v, Namespace.get? childNs k = some v →
        Namespace.get? (merge_namespace
          (if a.dest_ ≠ SUPPRESS then Namespace.set_value ns a.dest_ name else ns) childNs) k
          = some v)
    ∧ (∀ k, Namespace.get? childNs k = none → (a.dest_ = SUPPRESS ∨ k ≠ a.dest_) →
        Namespace.get? (merge_namespace
          (if a.dest_ ≠ SUPPRESS then Namespace.set_value ns a.dest_ name else ns) childNs) k
          = Namespace.get? ns k)
    ∧ ((a.choices_.length = 0 ∨ name.length = 0 ∨ name ∈ a.choices_) →
        a.__get_values (name :: rest) = .ok (name :: rest))
    ∧ (∀ text : List Char, (∀ ch ∈ text, ch ∈ ['-', 'A', 'O']) →
        regex_search (a.nargs_.get_nargs_pattern false) [] ('A' :: text)
          = some (text.length + 1))
    ∧ (do
        let p ← sample_subcommand
        let r ← p.parse_known_args [] ["--foo", "b", "--baz", "Z"]
        pure (Namespace.get? r.1 "foo", Namespace.get? r.1 "baz", r.1.length, r.2))
      = Except.ok (some ["true"], some ["Z"], 2, []) := by
  refine ⟨?_, ?_, ?_, ?_, ?_, by decide!⟩
  · unfold run_action
    simp only [hact, child_table_find, hfind, Option.map_some', hchild]
  · intro k v hk
    exact get?_merge_present _ _ k v (distinct_tree_parse_args c rest childNs hchild) hk
  · intro k hk hdest
    rw [get?_merge_absent _ _ k hk]
    by_cases hs : a.dest_ = SUPPRESS
    · simp [hs]
    · have hne : a.dest_ ≠ k := by
        rcases hdest with h | h
        · exact absurd h hs
        · exact fun e => h e.symm
      simp [hs, get?_set_value_other _ _ _ _ hne]
  · intro hc
    unfold Argument.__get_values
    by_cases hz : a.choices_.length = 0
    · simp [hkind, hz]
    · have hb : a.bad_choice (name :: rest) = none := by
        rcases hc with h | h | h
        · exact absurd h hz
        · simp [Argument.bad_choice, h, hkind]
        · simp [Argument.bad_choice, h, hkind]
      simp [hkind, hz, hb]
  · intro text htext
    apply regex_search_of_match_here
    simp only [NArgs.get_nargs_pattern, nargs_pattern_base, hkind, match_here, if_false,
      Bool.false_eq_true]
    rw [matchAtoms_star_cons _ _ _ _ rfl]
    have hA : 'A' ∉ dashStar.cls := by simp [dashStar]
    simp only [matchStar, hA, if_false]
    have hl : litA.q = .one := rfl
    have hAl : 'A' ∈ litA.cls := by simp [litA]
    simp only [matchAtoms, hl, hAl, if_true]
    rw [matchStar_all _ _ text htext (by simp)]
    simp

/-- Witness for C7: the child `b` of `samples/10_subcommand_1.cpp` run on `--baz Z`. -/
theorem C7_subcommand_dispatch_witness :
    run_action (ArgumentParser.child_table [("b", ArgumentParser.mk
        (built_core sample_subcommand_b) [])]) [("foo", ["true"])]
        { (Argument.fresh .SubparsersAction) with dest_ := SUPPRESS, nargs_ := ⟨.parser, 0⟩ }
        ["b", "--baz", "Z"]
      = .ok (merge_namespace [("foo", ["true"])] [("baz", ["Z"])]) :=
  by
    have h := (C7_subcommand_dispatch [("b", ArgumentParser.mk (built_core sample_subcommand_b) [])]
      [("foo", ["true"])]
      { (Argument.fresh .SubparsersAction) with dest_ := SUPPRESS, nargs_ := ⟨.parser, 0⟩ }
      "b" ["--baz", "Z"] (ArgumentParser.mk (built_core sample_subcommand_b) [])
      [("baz", ["Z"])] (by decide!) (by decide!) (by simp [ArgumentParser.find_child])
      (by decide!)).1
    rw [h]
    decide!

/-- C8 (as stated, refuted): on `samples/10_subcommand_1.cpp` the child `a` leaves the token
`extra` of `a 12 extra` unconsumed (its own `parse_known_args` returns it as an extra), yet the
parent's `parse_known_args` does not return it: the parse ends with "unrecognized arguments". -/
theorem C8_counterexample_child_extras :
    (do
      let c ← sample_subcommand_a
      let r ← c.parse_known_args [] ["12", "extra"]
      pure r.2)
      = Except.ok ["extra"]
    ∧ (do
      let p ← sample_subcommand
      p.parse_known_args [] ["a", "12", "extra"])
      = Except.error (ParserCore.__error "unrecognized arguments: extra") := by
  decide!

/-- C8 (amended): the sub-parser action runs the child through `parse_args`; when the child's
engine leaves the non-empty extras `extras`, the child's `parse_args`, and with it the action of
the parent, ends with the failure "unrecognized arguments: " followed by the extras joined by
spaces (usage message, exit status 2): the extras are not handed to the parent. -/
theorem C8_child_extras_are_an_error (m : List (String × ArgumentParser)) (ns : Namespace)
    (a : Argument) (name : String) (rest : List String) (c : ArgumentParser)
    (childNs : Namespace) (extras : List String)
    (hact : a.action_ = .SubparsersAction)
    (hfind : ArgumentParser.find_child m name = some c)
    (hknown : c.parse_known_args [] rest = .ok (childNs, extras)) (hex : extras ≠ []) :
    c.parse_args rest
      = .error (ParserCore.__error ("unrecognized arguments: " ++ join extras " "))
    ∧ run_action (ArgumentParser.child_table m) ns a (name :: rest)
      = .error (ParserCore.__error ("unrecognized arguments: " ++ join extras " ")) := by
  have hlen : extras.length ≠ 0 := by simpa [List.length_eq_zero] using hex
  have hc : c.parse_args rest
      = .error (ParserCore.__error ("unrecognized arguments: " ++ join extras " ")) := by
    cases c with
    | mk core subs =>
      rw [ArgumentParser.parse_known_args] at hknown
      rw [ArgumentParser.parse_args]
      simp [ParserCore.parse_args, hknown, hlen]
  refine ⟨hc, ?_⟩
  unfold run_action
  simp only [hact, child_table_find, hfind, Option.map_some', hc]

/-- Witness for C8: the child `a` of `samples/10_subcommand_1.cpp` run on `12 extra`. -/
theorem C8_child_extras_are_an_error_witness :
    (ArgumentParser.mk (built_core sample_subcommand_a) []).parse_args ["12", "extra"]
      = .error (ParserCore.__error ("unrecognized arguments: " ++ join ["extra"] " ")) :=
  (C8_child_extras_are_an_error [("a", ArgumentParser.mk (built_core sample_subcommand_a) [])] []
    { (Argument.fresh .SubparsersAction) with dest_ := SUPPRESS, nargs_ := ⟨.parser, 0⟩ }
    "a" ["12", "extra"] (ArgumentParser.mk (built_core sample_subcommand_a) [])
    [("bar", ["12"])] ["extra"] (by decide!) (by simp [ArgumentParser.find_child]) (by decide!)
    (by decide!)).1

theorem occurs_in_append (x a b c : String) (h : occurs_in x b) : occurs_in x (a ++ b ++ c) := by
  unfold occurs_in at *
  obtain ⟨s, t, hst⟩ := h
  refine ⟨a.data ++ s, t ++ c.data, ?_⟩
  simp only [String.data_append, ← hst, List.append_assoc]

theorem occurs_in_self (x : String) : occurs_in x x := List.infix_refl _

theorem occurs_in_join (l : List String) (sep x : String) (h : x ∈ l) :
    occurs_in x (join l sep) := by
  induction l with
  | nil => simp at h
  | cons y l ih =>
    cases l with
    | nil =>
      have : x = y := by simpa using h
      subst this
      exact occurs_in_self x
    | cons z rest =>
      rcases List.mem_cons.mp h with hx | hx
      · subst hx
        have := occurs_in_append x "" x (sep ++ join (z :: rest) sep) (occurs_in_self x)
        simpa [join, String.append_assoc] using this
      · have h2 := ih hx
        have := occurs_in_append x (y ++ sep) (join (z :: rest) sep) "" h2
        simpa [join, String.append_assoc] using this

theorem occurs_in_choice_str (a : Argument) (n : String) (h : n ∈ a.choices_) :
    occurs_in ("'" ++ n ++ "'") a.get_choice_str := by
  unfold Argument.get_choice_str
  apply occurs_in_join
  exact List.mem_map.mpr ⟨n, h, rfl⟩

/-- C9: let the sub-parser spec at position `i` (in no exclusive group) have the registered
names and aliases as its choices, at least one, and let the selector `name` not be registered.
Then taking the values `name :: rest` fails with an `argument_error` whose message contains every
registered name and alias in single quotes. On `samples/10_subcommand_1.cpp` the selector `c`
gives "argument \x7ba,b\x7d: invalid choice: c (choose from 'a', 'b')". -/
theorem C9_unknown_subcommand (p : ParserCore) (subs : ChildTable) (st : ParseState) (i : Nat)
    (name : String) (rest : List String)
    (hkind : (p.arg i).nargs_.type_ = .parser) (hact : (p.arg i).action_ = .SubparsersAction)
    (hreg : ∀ n, n ∈ (p.arg i).choices_ ↔ (subs.find n).isSome)
    (hsome : (p.arg i).choices_ ≠ [])
    (hname : subs.find name = none)
    (hgroup : p.argument_conflicts i = []) :
    (∃ msg, p.__take_argument subs st i (name :: rest) = .error (.argument_error msg)
      ∧ ∀ n ∈ (p.arg i).choices_, occurs_in ("'" ++ n ++ "'") msg)
    ∧ (do
        let q ← sample_subcommand
        q.parse_known_args [] ["c", "12"])
      = Except.error (ParserCore.__error
          "argument \x7ba,b\x7d: invalid choice: c (choose from 'a', 'b')") := by
  refine ⟨?_, by decide!⟩
  have hnot : name ∉ (p.arg i).choices_ := by
    intro hm
    have := (hreg name).mp hm
    simp [hname] at this
  have hlen : (p.arg i).choices_.length ≠ 0 := by
    simpa [List.length_eq_zero] using hsome
  by_cases h0 : name.length = 0
  · -- the empty selector passes the choice check and is rejected by the action
    have hvals : (p.arg i).__get_values (name :: rest) = .ok (name :: rest) := by
      unfold Argument.__get_values
      have hb : (p.arg i).bad_choice (name :: rest) = none := by
        simp [Argument.bad_choice, h0, hkind]
      simp [hkind, hlen, hb]
    have hsup : name :: rest ≠ [SUPPRESS] := by
      intro e
      have : name = SUPPRESS := by simpa using (List.cons.inj e).1
      rw [this] at h0
      exact absurd h0 (by decide)
    refine ⟨"argument " ++ (p.arg i).get_argument_name ++ ": "
      ++ ("unknown parser " ++ name ++ " (choices: " ++ (p.arg i).get_choice_str ++ ")"), ?_, ?_⟩
    · unfold ParserCore.__take_argument
      simp only [hvals, ParserCore.first_conflict, hgroup, List.find?_nil, hsup, if_false]
      simp [run_action, hact, hname, argument_error]
    · intro n hn
      have := occurs_in_append ("'" ++ n ++ "'")
        ("argument " ++ (p.arg i).get_argument_name ++ ": " ++ "unknown parser " ++ name
          ++ " (choices: ") (p.arg i).get_choice_str ")" (occurs_in_choice_str _ n hn)
      simpa [String.append_assoc] using this
  · refine ⟨"argument " ++ (p.arg i).get_argument_name ++ ": "
      ++ ("invalid choice: " ++ name ++ " (choose from " ++ (p.arg i).get_choice_str ++ ")"),
      ?_, ?_⟩
    · have hvals : (p.arg i).__get_values (name :: rest)
          = .error (argument_error (p.arg i)
            ("invalid choice: " ++ name ++ " (choose from " ++ (p.arg i).get_choice_str ++ ")")) := by
        unfold Argument.__get_values
        have hb : (p.arg i).bad_choice (name :: rest) = some name := by
          simp [Argument.bad_choice, h0, hnot]
        simp [hkind, hlen, hb]
      unfold ParserCore.__take_argument
      simp [hvals, argument_error]
    · intro n hn
      have := occurs_in_append ("'" ++ n ++ "'")
        ("argument " ++ (p.arg i).get_argument_name ++ ": " ++ "invalid choice: " ++ name
          ++ " (choose from ") (p.arg i).get_choice_str ")" (occurs_in_choice_str _ n hn)
      simpa [String.append_assoc] using this

/-- Witness for C9: the selector `c` on `samples/10_subcommand_1.cpp`. -/
theorem C9_unknown_subcommand_witness :
    ∃ msg, (built_core sample_subcommand).__take_argument
        (ArgumentParser.child_table
          [("a", ArgumentParser.mk (built_core sample_subcommand_a) []),
           ("b", ArgumentParser.mk (built_core sample_subcommand_b) [])])
        { ret := [], positionals := [2], seen_args := [], seen_non_default_args := [],
          extras := [] } 2 ["c", "12"] = .error (.argument_error msg)
      ∧ ∀ n ∈ ((built_core sample_subcommand).arg 2).choices_, occurs_in ("'" ++ n ++ "'") msg :=
  (C9_unknown_subcommand (built_core sample_subcommand)
    (ArgumentParser.child_table
      [("a", ArgumentParser.mk (built_core sample_subcommand_a) []),
       ("b", ArgumentParser.mk (built_core sample_subcommand_b) [])])
    { ret := [], positionals := [2], seen_args := [], seen_non_default_args := [], extras := [] }
    2 "c" ["12"] (by decide!) (by decide!)
    (by
      intro n
      have hc : ((built_core sample_subcommand).arg 2).choices_ = ["a", "b"] := by decide!
      rw [hc]
      simp only [ArgumentParser.child_table, ChildTable.find, List.mem_cons, List.mem_singleton,
        List.not_mem_nil, or_false]
      by_cases ha : "a" = n
      · simp [ha]
      · by_cases hb : "b" = n
        · simp [ha, hb]
        · have ha2 : ¬ n = "a" := fun e => ha e.symm
          have hb2 : ¬ n = "b" := fun e => hb e.symm
          simp [ha, hb, ha2, hb2])
    (by decide!)
    (by simp [ArgumentParser.child_table, ChildTable.find])
    (by decide!)).1

/-- C10 (failing input): abbreviation is allowed, `--a--a` is registered, and the token `--a` is
not itself registered and is a prefix of exactly one registered option string, `--a--a`. The test
`rfind(option_prefix) == 0` finds the last occurrence, at position 3, so the candidate is dropped:
`--a` resolves to no spec and is returned as an extra. (`--foob` against `--foobar` and
`--foonley` does resolve to `--foobar`.) -/
theorem C10_abbreviation_misses_repeated_prefix :
    (do
      let p ← sample_repeated_option
      pure (p.core.allow_abbrev_, p.core.find_option "--a",
        (p.core.optional_args_map_.map (fun e => e.1)).filter
          (fun s => startsWithChars "--a".data s.data),
        rfind "--a--a" "--a"))
      = Except.ok (true, none, ["--a--a"], some 3)
    ∧ (do
      let p ← sample_repeated_option
      p.core.__parse_optional "--a")
      = Except.ok (some ("", none, ""))
    ∧ (do
      let p ← sample_repeated_option
      let r ← p.parse_known_args [] ["--a"]
      pure r.2)
      = Except.ok ["--a"]
    ∧ (do
      let p ← sample_allow_abbrev
      p.core.__parse_optional "--foob")
      = Except.ok (some ("--foobar", some 1, "")) := by
  decide!

theorem mem_argument_conflicts (p : ParserCore) (g : MutuallyExclusiveGroup) (a b : Nat)
    (hg : g ∈ p.mutually_exclusive_groups_) (ha : a ∈ g.group_arguments_)
    (hb : b ∈ g.group_arguments_) (hab : a ≠ b) : a ∈ p.argument_conflicts b := by
  unfold ParserCore.argument_conflicts
  simp only [List.mem_flatten, List.mem_map]
  refine ⟨_, ⟨g, hg, rfl⟩, ?_⟩
  simp only [List.mem_flatten, List.mem_map, List.mem_filter, decide_eq_true_eq]
  exact ⟨_, ⟨b, ⟨hb, rfl⟩, rfl⟩, by simp [ha, hab]⟩

theorem first_conflict_some (p : ParserCore) (st : ParseState) (a b : Nat)
    (hconf : a ∈ p.argument_conflicts b) (hseen : a ∈ st.seen_args)
    (honly : ∀ c ∈ p.argument_conflicts b, c ∈ st.seen_args → c = a) :
    p.first_conflict st b = some a := by
  unfold ParserCore.first_conflict
  cases hf : (p.argument_conflicts b).find? (fun c => decide (c ∈ st.seen_args)) with
  | none =>
    rw [List.find?_eq_none] at hf
    have := hf a hconf
    simp [hseen] at this
  | some c =>
    have hc := List.find?_some hf
    have hmem := List.mem_of_find?_eq_some hf
    simp only [decide_eq_true_eq] at hc
    rw [honly c hmem hc]

theorem unused_required_group_some (p : ParserCore) (seen : List Nat)
    (before after : List MutuallyExclusiveGroup) (g : MutuallyExclusiveGroup)
    (hgroups : p.mutually_exclusive_groups_ = before ++ g :: after)
    (hg : g.required_ = true)
    (hunused : ∀ i ∈ g.group_arguments_, i ∉ seen)
    (hbefore : ∀ h ∈ before, h.required_ = true → ∃ i ∈ h.group_arguments_, i ∈ seen) :
    p.unused_required_group seen
      = some ((g.group_arguments_.filter (fun i => (p.arg i).help_ ≠ SUPPRESS)).map
          (fun i => (p.arg i).get_argument_name)) := by
  unfold ParserCore.unused_required_group
  rw [hgroups]
  have h1 : before.find? (fun g =>
      g.required_ && !(g.group_arguments_.any (fun i => decide (i ∈ seen)))) = none := by
    rw [List.find?_eq_none]
    intro h hh
    simp only [Bool.and_eq_true, Bool.not_eq_true', List.any_eq_false, decide_eq_true_eq,
      not_and, Bool.not_eq_true]
    intro hr hall
    obtain ⟨i, hi, hs⟩ := hbefore h hh hr
    exact hall i hi hs
  have h2 : (g.required_ && !(g.group_arguments_.any (fun i => decide (i ∈ seen)))) = true := by
    simp only [hg, Bool.true_and, Bool.not_eq_true', List.any_eq_false, decide_eq_true_eq]
    exact hunused
  rw [List.find?_append, h1, Option.none_or]
  simp only [List.find?_cons, h2, Option.map_some']

theorem startsWithChars_iff (v s : List Char) : startsWithChars v s = true ↔ v <+: s := by
  induction v generalizing s with
  | nil => simp [startsWithChars]
  | cons a v ih =>
    cases s with
    | nil => simp [startsWithChars]
    | cons b s =>
      simp only [startsWithChars, Bool.and_eq_true, beq_iff_eq, ih, List.cons_prefix_cons]

theorem rfindAux_lt (v : List Char) (s : List Char) (i j : Nat) (last : Option Nat)
    (h : rfindAux v s i last = some j) (hj : j < i) : last = some j := by
  induction s generalizing i last with
  | nil =>
    simp only [rfindAux] at h
    split at h
    · simp only [Option.some.injEq] at h; omega
    · exact h
  | cons c s ih =>
    simp only [rfindAux] at h
    have := ih (i + 1) _ h (by omega)
    split at this
    · simp only [Option.some.injEq] at this; omega
    · exact this

theorem prefix_of_rfind_zero (s v : String) (h : rfind s v = some 0) :
    startsWithChars v.data s.data = true := by
  unfold rfind at h
  cases hs : s.data with
  | nil =>
    rw [hs] at h
    simp only [rfindAux] at h
    split at h
    · assumption
    · simp at h
  | cons c tl =>
    rw [hs] at h
    simp only [rfindAux] at h
    have := rfindAux_lt v.data tl 1 0 _ h (by omega)
    split at this
    · assumption
    · simp at this

theorem classify_error (p : ParserCore) (before after : List String) (t : String) (e : Error)
    (k : Nat) (ht : t ≠ "--") (herr : p.__parse_optional t = .error e)
    (hbefore : ∀ s ∈ before, s ≠ "--" ∧ ∃ r, p.__parse_optional s = .ok r) :
    p.classify (before ++ t :: after) k = .error e := by
  induction before generalizing k with
  | nil => simp [ParserCore.classify, ht, herr]
  | cons s before ih =>
    obtain ⟨hs, r, hr⟩ := hbefore s (by simp)
    have ih2 := ih (k + 1) (fun w hw => hbefore w (by simp [hw]))
    simp [ParserCore.classify, hs, hr, ih2]

/-! ### Lemmas for a single option token that carries its value -/

theorem classify_single (p : ParserCore) (t : String) (tup : OptTuple) (k : Nat)
    (ht : t ≠ "--") (hparse : p.__parse_optional t = .ok (some tup)) :
    p.classify [t] k = .ok (['O'], [(k, tup)]) := by
  simp [ParserCore.classify, ht, hparse]

theorem consume_loop_one (p : ParserCore) (subs : ChildTable) (st st1 : ParseState)
    (fuel : Nat) (tup : OptTuple) (arg_strings : List String) (pattern : List Char)
    (hcons : p.__consume_optionals subs [(0, tup)] st 0 arg_strings pattern = .ok (st1, 1)) :
    p.consume_loop subs [(0, tup)] arg_strings pattern (fuel + 1) st 0 = .ok (st1, 1) := by
  have hmax : ParserCore.max_option_string_indices [(0, tup)] = 0 := by
    simp [ParserCore.max_option_string_indices]
  have hnext : ParserCore.next_option_string_index [(0, tup)] 0 = 0 := by
    simp [ParserCore.next_option_string_index]
  unfold ParserCore.consume_loop
  simp only [hmax, hnext]
  simp only [Nat.cast_zero, le_refl, if_true, ne_eq, not_true_eq_false, if_false, false_and]
  simp only [List.all_cons, List.all_nil, ne_eq, not_true_eq_false, decide_False, Bool.false_and,
    Bool.false_eq_true, if_false, hcons]
  apply consume_loop_done
  rw [hmax]
  omega

theorem parse_known_args_one_token (p : ParserCore) (subs : ChildTable) (ret : Namespace)
    (t : String) (tup : OptTuple) (st1 : ParseState)
    (ht : t ≠ "--") (hparse : p.__parse_optional t = .ok (some tup))
    (hcons : p.__consume_optionals subs [(0, tup)]
        { ret := ret, positionals := p.__get_positional_args, seen_args := [],
          seen_non_default_args := [], extras := [] } 0 [t] ['O'] = .ok (st1, 1))
    (hst1 : st1.positionals = p.__get_positional_args)
    (hpos : ∀ a ∈ p.args_list_, a.option_strings_.length = 0 → a.nargs_.type_ = .parser)
    (hreq : ∀ a ∈ p.args_list_, a.required_ = false)
    (hgrp : p.unused_required_group st1.seen_non_default_args = none) :
    p.__parse_known_args subs ret [t] = .ok (st1.ret, st1.extras) := by
  unfold ParserCore.__parse_known_args
  rw [classify_single p t tup 0 ht hparse]
  simp only [List.length_cons, List.length_nil]
  rw [consume_loop_one p subs _ st1 1 tup [t] ['O'] hcons]
  simp only
  rw [consume_positionals_nil p subs st1 1 [t] ['O'] (by simp) (by
      intro j hj
      rw [hst1] at hj
      have := positional_args_mem p j hj
      exact hpos _ this.1 this.2)]
  simp only [required_args_nil p _ hreq, List.length_nil, ne_eq, not_true_eq_false, if_false,
    hgrp]
  simp

theorem findChar_append (c : Char) (s rest : List Char) (h : c ∉ s) :
    findChar c (s ++ c :: rest) = some s.length := by
  induction s with
  | nil => simp [findChar]
  | cons d s ih =>
    have hd : d ≠ c := fun e => h (by simp [e])
    have hs : c ∉ s := fun e => h (by simp [e])
    simp [findChar, hd, ih hs]

theorem findChar_none (c : Char) (s : List Char) (h : c ∉ s) : findChar c s = none := by
  induction s with
  | nil => simp [findChar]
  | cons d s ih =>
    have hd : d ≠ c := fun e => h (by simp [e])
    have hs : c ∉ s := fun e => h (by simp [e])
    simp [findChar, hd, ih hs]

theorem parse_optional_inline (p : ParserCore) (s v : String) (i : Nat)
    (hfind : p.find_option s = some i) (hlen : s.length ≠ 0)
    (hpre : charAt s 0 = p.prefix_char_) (hassign : '=' ∉ s.data)
    (hnone : p.find_option (s ++ "=" ++ v) = none) :
    p.__parse_optional (s ++ "=" ++ v) = .ok (some (s, some i, v)) := by
  have hdata : (s ++ "=" ++ v).data = s.data ++ '=' :: v.data := by
    simp [String.data_append]
  have hfc : findChar '=' (s ++ "=" ++ v).data = some s.length := by
    rw [hdata]
    exact findChar_append '=' s.data v.data hassign
  have hsub : substrTo (s ++ "=" ++ v) s.length = s := by
    unfold substrTo
    rw [hdata]
    show String.mk ((s.data ++ '=' :: v.data).take s.data.length) = s
    rw [List.take_left]
  have hrest : substr (s ++ "=" ++ v) (s.length + 1) = v := by
    unfold substr
    rw [hdata]
    show String.mk ((s.data ++ '=' :: v.data).drop (s.data.length + 1)) = v
    have : s.data ++ '=' :: v.data = (s.data ++ ['=']) ++ v.data := by simp
    rw [this, List.drop_left' (by simp)]
  have hl : (s ++ "=" ++ v).length = s.length + 1 + v.length := by
    simp only [String.length_append]
    rfl
  have hc0 : charAt (s ++ "=" ++ v) 0 = p.prefix_char_ := by
    rw [← hpre]
    unfold charAt
    rw [hdata]
    cases hs : s.data with
    | nil => simp [String.length, hs] at hlen
    | cons c tl => simp
  unfold ParserCore.__parse_optional
  have hl0 : (s ++ "=" ++ v).length ≠ 0 := by omega
  have hl1 : (s ++ "=" ++ v).length ≠ 1 := by omega
  simp only [hl0, hl1, hc0, hnone, hfc, hsub, hrest, hfind, if_false, ne_eq, not_true_eq_false,
    Option.map_some']

theorem option_loop_inline (p : ParserCore) (arg_string : String) (arg_strings : List String)
    (pattern : List Char) (start fuel i : Nat) (v : String)
    (tuples : List (Nat × List String)) (hv : v ≠ "")
    (hopt : (p.arg i).type_ = .optional_argument) (hkind : (p.arg i).nargs_.type_ = .none) :
    p.option_loop arg_string arg_strings pattern start (fuel + 1) i v tuples
      = .ok (start + 1, tuples ++ [(i, [v])]) := by
  have hlen := length_ne_zero_of_ne_empty v hv
  have hm : p.__match_argument i ['A'] = .ok 1 := by
    have := match_argument_As p i 1 [] hopt (Or.inl ⟨hkind, rfl⟩)
    simpa using this
  simp [ParserCore.option_loop, hlen, hm]

theorem consume_optionals_inline (p : ParserCore) (subs : ChildTable)
    (indices : List (Nat × OptTuple)) (st : ParseState) (start i : Nat)
    (arg_strings : List String) (pattern : List Char) (arg_string v : String)
    (hidx : ParserCore.index_tuple indices start = (arg_string, some i, v))
    (hv : v ≠ "") (hsep : v ≠ "--") (hsup : v ≠ SUPPRESS)
    (hconf : ∀ c ∈ p.argument_conflicts i, c ∉ st.seen_args)
    (hopt : (p.arg i).type_ = .optional_argument)
    (hact : (p.arg i).action_ = .StoreAction) (hconst : (p.arg i).const_value_ = [])
    (hkind : (p.arg i).nargs_.type_ = .none) (hallow : (p.arg i).allows [v]) :
    p.__consume_optionals subs indices st start arg_strings pattern
      = .ok ({ st with seen_args := st.seen_args.insert i,
                       seen_non_default_args := st.seen_non_default_args.insert i,
                       ret := Namespace.set_value st.ret (p.arg i).dest_ v }, start + 1) := by
  have hz : ¬ ((p.arg i).nargs_.type_ = .integer ∧ (p.arg i).nargs_.nargs_ = 0) := by
    rintro ⟨hk, _⟩
    rw [hk] at hkind
    cases hkind
  have hvals : (p.arg i).__get_values [v] = .ok [v] :=
    get_values_list _ _ (by simp) (by simpa using hsep) hallow (Or.inl ⟨hkind, rfl⟩)
  have htake := take_argument_store_general p subs st i [v] hconf hact hconst hz hvals
    (by simpa using hsup) (by simp)
  have hstored : (p.arg i).stored st.ret [v] = Namespace.set_value st.ret (p.arg i).dest_ v := by
    simp [Argument.stored, hkind]
  unfold ParserCore.__consume_optionals
  rw [hidx]
  simp only [option_loop_inline p arg_string arg_strings pattern start v.length i v [] hv hopt
    hkind]
  simp [ParserCore.take_tuples, htake, hstored]

/-! ### Lemmas for a short option with an attached value -/

theorem filterMap_unique_key {β : Type} (l : List (String × Nat)) (s : String) (i : Nat)
    (f : String × Nat → Option β) (x : β)
    (hnodup : (l.map Prod.fst).Nodup)
    (hfind : (l.find? (fun m => m.1 = s)).map (fun m => m.2) = some i)
    (hother : ∀ m ∈ l, m.1 ≠ s → f m = none) (hkey : f (s, i) = some x) :
    l.filterMap f = [x] := by
  induction l with
  | nil => simp at hfind
  | cons e rest ih =>
    obtain ⟨k, j⟩ := e
    simp only [List.map_cons, List.nodup_cons] at hnodup
    by_cases hk : k = s
    · subst hk
      simp only [List.find?_cons, decide_True, Option.map_some', Option.some.injEq] at hfind
      subst hfind
      have hrest : rest.filterMap f = [] := by
        rw [List.filterMap_eq_nil_iff]
        intro m hm
        apply hother m (by simp [hm])
        intro h
        apply hnodup.1
        rw [← h]
        exact List.mem_map_of_mem Prod.fst hm
      simp [List.filterMap_cons, hkey, hrest]
    · have hf2 : (rest.find? (fun m => m.1 = s)).map (fun m => m.2) = some i := by
        simpa [List.find?_cons, hk] using hfind
      have h0 : f (k, j) = none := hother (k, j) (by simp) hk
      simp [List.filterMap_cons, h0, ih hnodup.2 hf2 (fun m hm => hother m (by simp [hm]))]

theorem substrTo_of_length_le (t : String) (n : Nat) (h : t.length ≤ n) : substrTo t n = t := by
  unfold substrTo
  rw [List.take_of_length_le h]

theorem short_token_length (p : ParserCore) (t : String) (i : Nat)
    (hshort : p.find_option (substrTo t 2) = some i) (hnone : p.find_option t = none) :
    3 ≤ t.length := by
  by_contra h
  rw [substrTo_of_length_le t 2 (by omega), hnone] at hshort
  cases hshort

theorem parse_optional_short (p : ParserCore) (t : String) (i : Nat)
    (hshort : p.find_option (substrTo t 2) = some i) (hnone : p.find_option t = none)
    (hpre0 : charAt t 0 = p.prefix_char_) (hpre1 : charAt t 1 ≠ p.prefix_char_)
    (hby : p.find_option (before_assign t) = none)
    (hno : ∀ m ∈ p.optional_args_map_, startsWithChars t.data m.1.data = false)
    (hnodup : (p.optional_args_map_.map Prod.fst).Nodup) :
    p.__parse_optional t = .ok (some (substrTo t 2, some i, substr t 2)) := by
  have hlen := short_token_length p t i hshort hnone
  have hbya : (match findChar '=' t.data with
      | some assign_idx =>
        (p.find_option (substrTo t assign_idx)).map
          (fun i => (substrTo t assign_idx, some i, substr t (assign_idx + 1)))
      | none => (none : Option OptTuple)) = none := by
    unfold before_assign at hby
    cases hf : findChar '=' t.data with
    | none => rfl
    | some pos => rw [hf] at hby; simp [hby]
  have htuples : p.short_option_tuples t = [(substrTo t 2, some i, substr t 2)] := by
    unfold ParserCore.short_option_tuples
    apply filterMap_unique_key p.optional_args_map_ (substrTo t 2) i _ _ hnodup hshort
    · intro m hm hne
      have hr : rfind m.1 t ≠ some 0 := by
        intro h
        have := prefix_of_rfind_zero _ _ h
        rw [hno m hm] at this
        cases this
      simp [hne, hr]
    · simp
  unfold ParserCore.__parse_optional
  have hl0 : t.length ≠ 0 := by omega
  have hl1 : t.length ≠ 1 := by omega
  have hl2 : 2 ≤ t.length := by omega
  simp only [hl0, hl1, hpre0, hpre1, hnone, hbya, if_false, ne_eq, not_true_eq_false, ge_iff_le,
    hl2, and_self, if_true, and_false, not_false_eq_true, true_and, htuples]

theorem substr_ne_empty (t : String) (n : Nat) (h : n < t.length) : substr t n ≠ "" := by
  intro he
  have : (substr t n).data.length = 0 := by rw [he]; rfl
  unfold substr at this
  simp only [List.length_drop] at this
  have hl : t.length = t.data.length := rfl
  omega

/-! ### Lemmas for the count action -/

theorem digitChar_facts (d : Nat) (h : d < 10) :
    ParserCore.is_digit (Nat.digitChar d) = true ∧ is_space (Nat.digitChar d) = false
      ∧ (Nat.digitChar d).toNat - '0'.toNat = d ∧ Nat.digitChar d ≠ '-'
      ∧ Nat.digitChar d ≠ '+' := by
  interval_cases d <;> decide

theorem digits_value_append (l : List Char) (c : Char) :
    digits_value (l ++ [c]) = 10 * digits_value l + (c.toNat - '0'.toNat) := by
  simp [digits_value, List.foldl_append]

theorem toDigitsCore_spec (fuel n : Nat) (ds : List Char) (h : n < fuel) :
    ∃ l c, Nat.toDigitsCore 10 fuel n ds = l ++ c :: ds
      ∧ (∀ x ∈ l ++ [c], ParserCore.is_digit x = true)
      ∧ (∀ x ∈ l ++ [c], is_space x = false ∧ x ≠ '-' ∧ x ≠ '+')
      ∧ digits_value (l ++ [c]) = n := by
  induction fuel generalizing n ds with
  | zero => omega
  | succ fuel ih =>
    have hd := digitChar_facts (n % 10) (Nat.mod_lt _ (by decide))
    unfold Nat.toDigitsCore
    by_cases h0 : n / 10 = 0
    · refine ⟨[], Nat.digitChar (n % 10), by simp [h0], ?_, ?_, ?_⟩
      · simpa using hd.1
      · simpa using ⟨hd.2.1, hd.2.2.2.1, hd.2.2.2.2⟩
      · have hm : n % 10 = n := Nat.mod_eq_of_lt (by omega)
        rw [digits_value_append, hd.2.2.1]
        simp [digits_value, hm]
    · obtain ⟨l, c, hl, hdig, hsp, hval⟩ := ih (n / 10) (Nat.digitChar (n % 10) :: ds) (by omega)
      refine ⟨l ++ [c], Nat.digitChar (n % 10), by simp [h0, hl], ?_, ?_, ?_⟩
      · intro x hx
        simp only [List.mem_append, List.mem_singleton] at hx
        rcases hx with hx | hx
        · exact hdig x (by simpa using hx)
        · rw [hx]; exact hd.1
      · intro x hx
        simp only [List.mem_append, List.mem_singleton] at hx
        rcases hx with hx | hx
        · exact hsp x (by simpa using hx)
        · rw [hx]; exact ⟨hd.2.1, hd.2.2.2.1, hd.2.2.2.2⟩
      · rw [digits_value_append, hval, hd.2.2.1]
        omega

theorem stoi_toString (n : Nat) :
    stoi (toString n)
      = if n ≤ 2147483647 then .ok (n : Int) else .error (.out_of_range "stoi") := by
  obtain ⟨l, c, hl, hdig, hsp, hval⟩ := toDigitsCore_spec (n + 1) n [] (by omega)
  have hdata : (toString n).data = l ++ [c] := by
    show (Nat.repr n).data = _
    unfold Nat.repr Nat.toDigits
    rw [hl]
    rfl
  obtain ⟨x, tl, hx⟩ : ∃ x tl, l ++ [c] = x :: tl := by
    cases l with
    | nil => exact ⟨c, [], rfl⟩
    | cons a l => exact ⟨a, l ++ [c], rfl⟩
  have hx1 := hsp x (by rw [hx]; simp)
  have hdrop : (l ++ [c]).dropWhile is_space = l ++ [c] := by
    rw [hx]
    simp [List.dropWhile_cons, hx1.1]
  have hhead : (l ++ [c]).head? = some x := by rw [hx]; rfl
  have htake : (l ++ [c]).takeWhile ParserCore.is_digit = l ++ [c] := by
    rw [List.takeWhile_eq_self_iff]
    exact hdig
  have hlen : (l ++ [c]).length ≠ 0 := by simp
  unfold stoi
  simp only [hdata, hdrop, hhead, Option.some.injEq, hx1.2.1, hx1.2.2, or_self, if_false, htake,
    hlen, hval, decide_False, Bool.false_eq_true]
  by_cases hn : n ≤ 2147483647
  · have h2 : ¬ ((n : Int) < -2147483648 ∨ 2147483647 < (n : Int)) := by omega
    simp only [h2, hn, if_false, if_true]
  · have h2 : ((n : Int) < -2147483648 ∨ 2147483647 < (n : Int)) := by omega
    simp only [h2, hn, if_false, if_true]

theorem size_t_succ_nat (n : Nat) (h : n ≤ 2147483647) : size_t_succ (n : Int) = n + 1 := by
  unfold size_t_succ
  have h1 : ((n : Int) % 18446744073709551616) = (n : Int) := by
    apply Int.emod_eq_of_lt <;> omega
  rw [h1, Int.toNat_ofNat]
  apply Nat.mod_eq_of_lt
  omega

theorem get_values_zero_arity (a : Argument)
    (hkind : a.nargs_.type_ = .integer) : a.__get_values [] = .ok [] := by
  unfold Argument.__get_values
  by_cases hc : a.choices_.length = 0
  · simp [hkind, hc]
  · simp [hkind, hc, Argument.bad_choice]

theorem take_argument_of_run (p : ParserCore) (subs : ChildTable) (st : ParseState) (i : Nat)
    (hkind : (p.arg i).nargs_.type_ = .integer)
    (hconf : ∀ c ∈ p.argument_conflicts i, c ∉ st.seen_args) :
    p.__take_argument subs st i []
      = match run_action subs st.ret (p.arg i) [] with
        | .error e => .error e
        | .ok ret => .ok { st with seen_args := st.seen_args.insert i,
                                   seen_non_default_args := st.seen_non_default_args.insert i,
                                   ret := ret } := by
  have hc : p.first_conflict
      { st with seen_args := st.seen_args.insert i,
                seen_non_default_args := st.seen_non_default_args.insert i } i = none := by
    unfold ParserCore.first_conflict
    rw [List.find?_eq_none]
    intro c hcm
    simp only [decide_eq_true_eq, List.mem_insert_iff]
    rintro (e | e)
    · exact conflicts_ne p i c hcm e
    · exact hconf c hcm e
  unfold ParserCore.__take_argument
  simp only [get_values_zero_arity _ hkind, hc]
  simp [SUPPRESS]

theorem run_action_count_first (subs : ChildTable) (ns : Namespace) (a : Argument)
    (hact : a.action_ = .CountAction)
    (hstart : Namespace.get? ns a.dest_ = none ∨ Namespace.get? ns a.dest_ = some ["0"]) :
    ∃ ns2, run_action subs ns a [] = .ok ns2
      ∧ Namespace.get? ns2 a.dest_ = some [toString 1] := by
  rcases hstart with h | h
  · refine ⟨Namespace.push_back ns a.dest_ ["1"], ?_, ?_⟩
    · simp [run_action, hact, Namespace.index, h]
    · simp [Namespace.push_back, Namespace.index, h, get?_set_values]
      rfl
  · refine ⟨Namespace.set_values ns a.dest_ [toString 1], ?_, ?_⟩
    · have hs : stoi "0" = .ok 0 := by decide
      simp only [run_action, hact, Namespace.index, h, Option.getD_some, hs]
      rfl
    · simp [get?_set_values]

theorem run_action_count_next (subs : ChildTable) (ns : Namespace) (a : Argument) (n : Nat)
    (hact : a.action_ = .CountAction)
    (hval : Namespace.get? ns a.dest_ = some [toString n]) :
    run_action subs ns a []
      = if n ≤ 2147483647 then
          .ok (Namespace.set_values ns a.dest_ [toString (size_t_succ (n : Int))])
        else .error (.out_of_range "stoi") := by
  simp only [run_action, hact, Namespace.index, hval, Option.getD_some, stoi_toString]
  by_cases hn : n ≤ 2147483647 <;> simp [hn]

theorem take_tuples_append (p : ParserCore) (subs : ChildTable)
    (l1 l2 : List (Nat × List String)) (st : ParseState) :
    p.take_tuples subs (l1 ++ l2) st
      = match p.take_tuples subs l1 st with
        | .error e => .error e
        | .ok st1 => p.take_tuples subs l2 st1 := by
  induction l1 generalizing st with
  | nil => simp [ParserCore.take_tuples]
  | cons x l1 ih =>
    obtain ⟨o, args⟩ := x
    simp only [List.cons_append, ParserCore.take_tuples]
    cases h : p.__take_argument subs st o args with
    | error e => simp
    | ok st1 => simp [ih]

theorem take_tuples_count_next (p : ParserCore) (subs : ChildTable) (i : Nat)
    (hact : (p.arg i).action_ = .CountAction) (hkind : (p.arg i).nargs_.type_ = .integer)
    (k : Nat) (st0 st : ParseState) (n : Nat) (hst : p.counted i st0 st n)
    (hbound : n + k ≤ 2147483648) :
    ∃ st1, p.take_tuples subs (List.replicate k (i, [])) st = .ok st1
      ∧ p.counted i st0 st1 (n + k) := by
  induction k generalizing st n with
  | zero => exact ⟨st, by simp [ParserCore.take_tuples], by simpa using hst⟩
  | succ k ih =>
    obtain ⟨hval, hpos, hext, hseen, hconf⟩ := hst
    have hn : n ≤ 2147483647 := by omega
    have hrun := run_action_count_next subs st.ret (p.arg i) n hact hval
    simp only [hn, if_true, size_t_succ_nat n hn] at hrun
    have htake := take_argument_of_run p subs st i hkind hconf
    rw [hrun] at htake
    simp only at htake
    obtain ⟨st1, h1, h2⟩ := ih
      { st with seen_args := st.seen_args.insert i,
                seen_non_default_args := st.seen_non_default_args.insert i,
                ret := Namespace.set_values st.ret (p.arg i).dest_ [toString (n + 1)] } (n + 1)
      ⟨by simp [get?_set_values], hpos, hext, by simp, by
        intro c hc
        simp only [List.mem_insert_iff, not_or]
        exact ⟨conflicts_ne p i c hc, hconf c hc⟩⟩ (by omega)
    refine ⟨st1, ?_, ?_⟩
    · simp only [List.replicate_succ, ParserCore.take_tuples, htake]
      exact h1
    · have : n + (k + 1) = n + 1 + k := by omega
      rw [this]
      exact h2

theorem take_tuples_count (p : ParserCore) (subs : ChildTable) (i : Nat)
    (hact : (p.arg i).action_ = .CountAction) (hkind : (p.arg i).nargs_.type_ = .integer)
    (k : Nat) (st : ParseState)
    (hstart : Namespace.get? st.ret (p.arg i).dest_ = none
      ∨ Namespace.get? st.ret (p.arg i).dest_ = some ["0"])
    (hconf : ∀ c ∈ p.argument_conflicts i, c ∉ st.seen_args)
    (hbound : k + 1 ≤ 2147483648) :
    ∃ st1, p.take_tuples subs (List.replicate (k + 1) (i, [])) st = .ok st1
      ∧ p.counted i st st1 (k + 1) := by
  obtain ⟨ns2, hrun, hget⟩ := run_action_count_first subs st.ret (p.arg i) hact hstart
  have htake := take_argument_of_run p subs st i hkind hconf
  rw [hrun] at htake
  simp only at htake
  obtain ⟨st1, h1, h2⟩ := take_tuples_count_next p subs i hact hkind k st
    { st with seen_args := st.seen_args.insert i,
              seen_non_default_args := st.seen_non_default_args.insert i,
              ret := ns2 } 1
    ⟨hget, rfl, rfl, by simp, by
      intro c hc
      simp only [List.mem_insert_iff, not_or]
      exact ⟨conflicts_ne p i c hc, hconf c hc⟩⟩ (by omega)
  refine ⟨st1, ?_, ?_⟩
  · simp only [List.replicate_succ, ParserCore.take_tuples, htake]
    exact h1
  · have : k + 1 = 1 + k := by omega
    rw [this]
    exact h2

theorem take_tuples_count_overflow (p : ParserCore) (subs : ChildTable) (i : Nat)
    (hact : (p.arg i).action_ = .CountAction) (hkind : (p.arg i).nargs_.type_ = .integer)
    (st : ParseState)
    (hstart : Namespace.get? st.ret (p.arg i).dest_ = none
      ∨ Namespace.get? st.ret (p.arg i).dest_ = some ["0"])
    (hconf : ∀ c ∈ p.argument_conflicts i, c ∉ st.seen_args) :
    p.take_tuples subs (List.replicate (2147483648 + 1) (i, [])) st
      = .error (.out_of_range "stoi") := by
  obtain ⟨st1, h1, hval, _, _, _, hconf1⟩ :=
    take_tuples_count p subs i hact hkind 2147483647 st hstart hconf (by omega)
  have hrep : List.replicate (2147483648 + 1) ((i, []) : Nat × List String)
      = List.replicate (2147483647 + 1) (i, []) ++ [(i, [])] := by
    rw [← List.replicate_succ']
  rw [hrep, take_tuples_append, h1]
  have hrun := run_action_count_next subs st1.ret (p.arg i) (2147483647 + 1) hact hval
  have hn : ¬ (2147483647 + 1 ≤ 2147483647) := by omega
  simp only [hn, if_false] at hrun
  have htake := take_argument_of_run p subs st1 i hkind hconf1
  rw [hrun] at htake
  simp only [ParserCore.take_tuples, htake]

theorem parse_optional_cluster (p : ParserCore) (i r : Nat)
    (hpre : p.prefix_char_ = '-') (hfind : p.find_option "-v" = some i)
    (hno : ∀ m ∈ p.optional_args_map_, startsWithChars ['-', 'v', 'v'] m.1.data = false)
    (hnodup : (p.optional_args_map_.map Prod.fst).Nodup) :
    p.__parse_optional (cluster_token (r + 1))
      = .ok (some ("-v", some i, String.mk (List.replicate r 'v'))) := by
  cases r with
  | zero =>
    have := parse_optional_exact p "-v" i hfind (by decide) (by rw [hpre]; decide)
    exact this
  | succ r =>
    have hdata : (cluster_token (r + 1 + 1)).data = '-' :: 'v' :: 'v' :: List.replicate r 'v' := by
      simp [cluster_token, List.replicate_succ]
    have hto : substrTo (cluster_token (r + 1 + 1)) 2 = "-v" := by
      unfold substrTo
      rw [hdata]
      rfl
    have hsub : substr (cluster_token (r + 1 + 1)) 2 = String.mk (List.replicate (r + 1) 'v') := by
      unfold substr
      rw [hdata]
      simp [List.replicate_succ]
    have hvv : startsWithChars ['-', 'v', 'v'] (cluster_token (r + 1 + 1)).data = true := by
      rw [hdata]
      simp [startsWithChars]
    have hnone : p.find_option (cluster_token (r + 1 + 1)) = none := by
      unfold ParserCore.find_option
      rw [Option.map_eq_none', List.find?_eq_none]
      intro m hm
      simp only [decide_eq_true_eq]
      intro h
      have := hno m hm
      rw [h, hvv] at this
      cases this
    have hby : before_assign (cluster_token (r + 1 + 1)) = cluster_token (r + 1 + 1) := by
      unfold before_assign
      rw [findChar_none '=' _ (by
        rw [hdata]
        simp only [List.mem_cons, List.mem_replicate, not_or, not_and]
        refine ⟨by decide, by decide, by decide, fun _ => by decide⟩)]
    have hstart : ∀ m ∈ p.optional_args_map_,
        startsWithChars (cluster_token (r + 1 + 1)).data m.1.data = false := by
      intro m hm
      cases hs : startsWithChars (cluster_token (r + 1 + 1)).data m.1.data with
      | false => rfl
      | true =>
        rw [startsWithChars_iff] at hs hvv
        have h3 := (startsWithChars_iff _ _).mpr (List.IsPrefix.trans hvv hs)
        rw [hno m hm] at h3
        cases h3
    have := parse_optional_short p (cluster_token (r + 1 + 1)) i (by rw [hto]; exact hfind) hnone
      (by rw [hpre]; simp [charAt, hdata]) (by rw [hpre]; simp [charAt, hdata])
      (by rw [hby]; exact hnone) hstart hnodup
    rw [hto, hsub] at this
    exact this

theorem option_loop_cluster (p : ParserCore) (arg_strings : List String) (pattern : List Char)
    (start i : Nat) (hpre : p.prefix_char_ = '-') (hfind : p.find_option "-v" = some i)
    (hopt : (p.arg i).type_ = .optional_argument)
    (hzero : (p.arg i).nargs_.type_ = .integer ∧ (p.arg i).nargs_.nargs_ = 0)
    (r fuel : Nat) (tuples : List (Nat × List String)) (hfuel : r < fuel) :
    p.option_loop "-v" arg_strings pattern start fuel i (String.mk (List.replicate r 'v')) tuples
      = .ok (start + 1, tuples ++ List.replicate (r + 1) (i, [])) := by
  induction r generalizing fuel tuples with
  | zero =>
    obtain ⟨f, rfl⟩ : ∃ f, fuel = f + 1 := ⟨fuel - 1, by omega⟩
    have hm := match_argument_zero_arity p i (pattern.drop (start + 1)) hopt (Or.inl hzero)
    have hl : (String.mk (List.replicate 0 'v')).length = 0 := rfl
    simp [ParserCore.option_loop, hl, hm]
  | succ r ih =>
    obtain ⟨f, rfl⟩ : ∃ f, fuel = f + 1 := ⟨fuel - 1, by omega⟩
    have hm := match_argument_zero_arity p i ['A'] hopt (Or.inl hzero)
    have hl : (String.mk (List.replicate (r + 1) 'v')).length ≠ 0 := by
      show (List.replicate (r + 1) 'v').length ≠ 0
      simp
    have hne : String.mk (List.replicate (r + 1) 'v') ≠ "" := by
      intro h
      rw [h] at hl
      exact hl rfl
    have hc1 : charAt "-v" 1 ≠ p.prefix_char_ := by rw [hpre]; decide
    have hkey : String.mk [charAt "-v" 0, charAt (String.mk (List.replicate (r + 1) 'v')) 0]
        = "-v" := by
      simp [charAt, List.replicate_succ]
    have hsub : substr (String.mk (List.replicate (r + 1) 'v')) 1
        = String.mk (List.replicate r 'v') := by
      simp [substr, List.replicate_succ]
    have hrec := ih f (tuples ++ [(i, [])]) (by omega)
    unfold ParserCore.option_loop
    simp only [hl, ne_eq, not_false_eq_true, if_true, hm, hc1, hne, and_self, hkey, hfind, hsub,
      hrec]
    simp [List.replicate_succ]

theorem consume_optionals_cluster (p : ParserCore) (subs : ChildTable) (st : ParseState)
    (arg_strings : List String) (pattern : List Char) (i r : Nat)
    (hpre : p.prefix_char_ = '-') (hfind : p.find_option "-v" = some i)
    (hopt : (p.arg i).type_ = .optional_argument)
    (hzero : (p.arg i).nargs_.type_ = .integer ∧ (p.arg i).nargs_.nargs_ = 0) :
    p.__consume_optionals subs [(0, ("-v", some i, String.mk (List.replicate r 'v')))] st 0
        arg_strings pattern
      = match p.take_tuples subs (List.replicate (r + 1) (i, [])) st with
        | .error e => .error e
        | .ok st1 => .ok (st1, 1) := by
  unfold ParserCore.__consume_optionals
  have hidx : ParserCore.index_tuple
      [(0, (("-v", some i, String.mk (List.replicate r 'v')) : OptTuple))] 0
      = ("-v", some i, String.mk (List.replicate r 'v')) := by
    simp [ParserCore.index_tuple]
  rw [hidx]
  have hl : (String.mk (List.replicate r 'v')).length = r := by
    show (List.replicate r 'v').length = r
    simp
  have hloop := option_loop_cluster p arg_strings pattern 0 i hpre hfind hopt hzero r (r + 1) []
    (by omega)
  simp only [hl, hloop]
  simp

theorem add_defaults_count (l : List Argument) (ret : Namespace) (d : String)
    (h : ∀ a ∈ l, a.initializeArgument = .ok a)
    (hd : ∀ a ∈ l, a.dest_ = d → a.default_value_ = [] ∨ a.default_value_ = ["0"])
    (hret : Namespace.get? ret d = none ∨ Namespace.get? ret d = some ["0"]) :
    ∃ ret2, ParserCore.add_defaults l ret = .ok (l, ret2)
      ∧ (Namespace.get? ret2 d = none ∨ Namespace.get? ret2 d = some ["0"]) := by
  induction l generalizing ret with
  | nil => exact ⟨ret, rfl, hret⟩
  | cons a l ih =>
    have ha := h a (by simp)
    unfold ParserCore.add_defaults
    simp only [ha]
    obtain ⟨r2, hr2, hval⟩ := ih
      (if a.dest_ ≠ SUPPRESS ∧ a.default_value_.length ≠ 0
          ∧ (a.default_value_.length > 1 ∨ a.default_value_.headD "" ≠ SUPPRESS) then
        Namespace.set_values ret a.dest_ a.default_value_ else ret)
      (fun b hb => h b (by simp [hb]))
      (fun b hb => hd b (by simp [hb]))
      (by
        split
        · rename_i hc
          rw [get?_set_values]
          split
          · rename_i hk
            rcases hd a (by simp) hk with h0 | h0
            · rw [h0] at hc; simp at hc
            · rw [h0]; exact Or.inr rfl
          · exact hret
        · exact hret)
    exact ⟨r2, by simp only [hr2], hval⟩

theorem consume_loop_one_error (p : ParserCore) (subs : ChildTable) (st : ParseState)
    (fuel : Nat) (tup : OptTuple) (arg_strings : List String) (pattern : List Char) (e : Error)
    (hcons : p.__consume_optionals subs [(0, tup)] st 0 arg_strings pattern = .error e) :
    p.consume_loop subs [(0, tup)] arg_strings pattern (fuel + 1) st 0 = .error e := by
  have hmax : ParserCore.max_option_string_indices [(0, tup)] = 0 := by
    simp [ParserCore.max_option_string_indices]
  have hnext : ParserCore.next_option_string_index [(0, tup)] 0 = 0 := by
    simp [ParserCore.next_option_string_index]
  unfold ParserCore.consume_loop
  simp only [hmax, hnext]
  simp only [Nat.cast_zero, le_refl, if_true, ne_eq, not_true_eq_false, if_false, false_and]
  simp only [List.all_cons, List.all_nil, ne_eq, not_true_eq_false, decide_False, Bool.false_and,
    Bool.false_eq_true, if_false, hcons]

theorem parse_known_args_one_token_error (p : ParserCore) (subs : ChildTable) (ret : Namespace)
    (t : String) (tup : OptTuple) (e : Error)
    (ht : t ≠ "--") (hparse : p.__parse_optional t = .ok (some tup))
    (hcons : p.__consume_optionals subs [(0, tup)]
        { ret := ret, positionals := p.__get_positional_args, seen_args := [],
          seen_non_default_args := [], extras := [] } 0 [t] ['O'] = .error e) :
    p.__parse_known_args subs ret [t] = .error e := by
  unfold ParserCore.__parse_known_args
  rw [classify_single p t tup 0 ht hparse]
  simp only [List.length_cons, List.length_nil]
  rw [consume_loop_one_error p subs _ 1 tup [t] ['O'] e hcons]

theorem cluster_token_ne_separator (k : Nat) : cluster_token (k + 1) ≠ "--" := by
  intro h
  have hd : (cluster_token (k + 1)).data = '-' :: 'v' :: List.replicate k 'v' := by
    simp [cluster_token, List.replicate_succ]
  rw [h] at hd
  simp at hd

theorem count_cluster_overflow (p : ParserCore) (m : List (String × ArgumentParser)) (i : Nat)
    (hpre : p.prefix_char_ = '-') (hexit : p.exit_on_error_ = true)
    (hfind : p.find_option "-v" = some i)
    (hopt : (p.arg i).type_ = .optional_argument)
    (hact : (p.arg i).action_ = .CountAction)
    (hzero : (p.arg i).nargs_.type_ = .integer ∧ (p.arg i).nargs_.nargs_ = 0)
    (hdefault : ∀ a ∈ p.args_list_, a.dest_ = (p.arg i).dest_ →
        a.default_value_ = [] ∨ a.default_value_ = ["0"])
    (hno : ∀ m ∈ p.optional_args_map_, startsWithChars ['-', 'v', 'v'] m.1.data = false)
    (hnodup : (p.optional_args_map_.map Prod.fst).Nodup)
    (hfin : p.finalized) :
    (ArgumentParser.mk p m).parse_known_args [] [cluster_token (2147483648 + 1)]
      = .error (ParserCore.__error "stoi") := by
  obtain ⟨ret2, hret2, hstart⟩ := add_defaults_count p.args_list_ [] (p.arg i).dest_ hfin
    hdefault (by simp [Namespace.get?])
  have hparse := parse_optional_cluster p i 2147483648 hpre hfind hno hnodup
  have hcons := consume_optionals_cluster p (ArgumentParser.child_table m)
    { ret := ret2, positionals := p.__get_positional_args, seen_args := [],
      seen_non_default_args := [], extras := [] } [cluster_token (2147483648 + 1)] ['O'] i
    2147483648 hpre hfind hopt hzero
  rw [take_tuples_count_overflow p _ i hact hzero.1 _ hstart (by simp)] at hcons
  have hmain := parse_known_args_one_token_error p (ArgumentParser.child_table m) ret2
    (cluster_token (2147483648 + 1)) _ _ (cluster_token_ne_separator _) hparse hcons
  have := parse_known_args_error p (ArgumentParser.child_table m) [] ret2
    [cluster_token (2147483648 + 1)] _ "stoi" hret2 hmain rfl
  simp only [ArgumentParser.parse_known_args]
  rw [this, hexit]
  rfl

/-! ### Lemmas for the iteration order of the option map -/

theorem perm_pair {α : Type} (l : List α) (a b : α) (h : l.Perm [a, b]) :
    l = [a, b] ∨ l = [b, a] := by
  have hlen := h.length_eq
  match l, hlen with
  | [x, y], _ =>
    have hx : x ∈ [a, b] := h.mem_iff.mp (by simp)
    simp only [List.mem_cons, List.mem_singleton, List.not_mem_nil, or_false] at hx
    rcases hx with rfl | rfl
    · left
      have := (List.perm_cons x).mp h
      rw [List.perm_singleton] at this
      rw [this]
    · right
      have h2 : [x, y].Perm [x, a] := h.trans (List.Perm.swap x a [])
      have := (List.perm_cons x).mp h2
      rw [List.perm_singleton] at this
      rw [this]

theorem parse_optional_long (p : ParserCore) (t : String) (hlen : 2 ≤ t.length)
    (h0 : charAt t 0 = p.prefix_char_) (h1 : charAt t 1 = p.prefix_char_)
    (hnone : p.find_option t = none) (hpre : p.find_option (before_assign t) = none) :
    p.__parse_optional t
      = match p.long_option_tuples t with
        | [] =>
          if ParserCore.__match_negative_number t ∧ ¬ p.has_negative_number_options_ then .ok none
          else if ' ' ∈ t.data then .ok none
          else .ok (some ("", none, ""))
        | [x] => .ok (some x)
        | x :: y :: rest =>
          .error (.invalid_argument ("ambiguous option: " ++ t ++ " could match "
            ++ join ((x :: y :: rest).map (fun z => z.1)) ", ")) := by
  have hby : (match findChar '=' t.data with
      | some assign_idx =>
        (p.find_option (substrTo t assign_idx)).map
          (fun i => (substrTo t assign_idx, some i, substr t (assign_idx + 1)))
      | none => (none : Option OptTuple)) = none := by
    unfold before_assign at hpre
    cases hf : findChar '=' t.data with
    | none => rfl
    | some pos => rw [hf] at hpre; simp [hpre]
  have hl0 : t.length ≠ 0 := by omega
  have hl1 : t.length ≠ 1 := by omega
  unfold ParserCore.__parse_optional
  simp only [hl0, hl1, h0, h1, hnone, hby, if_false, ne_eq, not_true_eq_false, ge_iff_le, hlen,
    and_self, if_true]
  cases p.long_option_tuples t with
  | nil => rfl
  | cons a l =>
    cases l with
    | nil => rfl
    | cons b l => rfl

theorem find_option_none_iff (p : ParserCore) (s : String) :
    p.find_option s = none ↔ ∀ m ∈ p.optional_args_map_, m.1 ≠ s := by
  unfold ParserCore.find_option
  rw [Option.map_eq_none', List.find?_eq_none]
  simp

theorem sample_allow_abbrev_map :
    (built_core sample_allow_abbrev).optional_args_map_
      = [("-h", 0), ("--help", 0), ("--foobar", 1), ("--foonley", 2)] := by
  rfl

theorem iterated_find_none (p : ParserCore) (order : List (String × Nat)) (s : String)
    (hperm : order.Perm p.optional_args_map_) (h : p.find_option s = none) :
    (p.iterated_as order).find_option s = none := by
  rw [find_option_none_iff] at h ⊢
  intro m hm
  exact h m (hperm.mem_iff.mp hm)

theorem iterated_long_tuples (p : ParserCore) (order : List (String × Nat)) (t : String)
    (habbrev : p.allow_abbrev_ = true) (heq : findChar '=' t.data = none) :
    (p.iterated_as order).long_option_tuples t
      = (order.filter (fun m => rfind m.1 t = some 0)).map (fun m => (m.1, some m.2, "")) := by
  unfold ParserCore.long_option_tuples ParserCore.iterated_as
  simp only [habbrev, if_true, heq]

/-! ### Option strings, inline values, clusters and exclusive groups -/

/-- C11 (as stated, refuted): with `--foobar` and `--foonley` registered
(`samples/01_allow_abbrev.cpp`), the token `--foon` raises no ambiguity error: the parse succeeds,
stores `foonley = false` and returns no extras. -/
theorem C11_counterexample_foon_is_unique :
    (do
      let p ← sample_allow_abbrev
      let r ← p.parse_known_args [] ["--foon"]
      pure (Namespace.get? r.1 "foobar", Namespace.get? r.1 "foonley", r.2))
    = Except.ok (some ["false"], some ["false"], []) := by
  decide!

/-- C11 (amended): with `--foobar` and `--foonley` registered (`samples/01_allow_abbrev.cpp`),
whatever the order in which the option map is iterated: `--foon` is a prefix of `--foonley`
only and resolves to it with no inline value, and the parse succeeds; `--foo`, a prefix of both,
makes the parse fail with "ambiguous option: --foo could match NAMES", NAMES being the two
option strings joined by ", " in the iteration order of the map, so either
`--foobar, --foonley` or `--foonley, --foobar`. -/
theorem C11_foon_resolves_foo_is_ambiguous (order : List (String × Nat))
    (hperm : order.Perm (built_core sample_allow_abbrev).optional_args_map_) :
    ((built_core sample_allow_abbrev).iterated_as order).__parse_optional "--foon"
      = .ok (some ("--foonley", some 2, ""))
    ∧ (ArgumentParser.mk ((built_core sample_allow_abbrev).iterated_as order) []).parse_known_args
        [] ["--foon"]
      = .ok ([("foobar", ["false"]), ("foonley", ["false"])], [])
    ∧ (((built_core sample_allow_abbrev).iterated_as order).options_beginning_with "--foo"
          = ["--foobar", "--foonley"]
        ∨ ((built_core sample_allow_abbrev).iterated_as order).options_beginning_with "--foo"
          = ["--foonley", "--foobar"])
    ∧ ((built_core sample_allow_abbrev).iterated_as order).__parse_optional "--foo"
      = .error (.invalid_argument ("ambiguous option: " ++ "--foo" ++ " could match "
          ++ join (((built_core sample_allow_abbrev).iterated_as order).options_beginning_with
              "--foo") ", "))
    ∧ (ArgumentParser.mk ((built_core sample_allow_abbrev).iterated_as order) []).parse_known_args
        [] ["--foo"]
      = .error (ParserCore.__error ("ambiguous option: " ++ "--foo" ++ " could match "
          ++ join (((built_core sample_allow_abbrev).iterated_as order).options_beginning_with
              "--foo") ", ")) := by
  have hmem : ∀ m ∈ order, m = ("-h", 0) ∨ m = ("--help", 0) ∨ m = ("--foobar", 1)
      ∨ m = ("--foonley", 2) := by
    intro m hm
    have := hperm.mem_iff.mp hm
    rw [sample_allow_abbrev_map] at this
    simpa using this
  -- the token `--foon`
  have hfoon : (order.filter (fun m => rfind m.1 "--foon" = some 0)) = [("--foonley", 2)] := by
    have h1 := hperm.filter (fun m => decide (rfind m.1 "--foon" = some 0))
    have h2 : (built_core sample_allow_abbrev).optional_args_map_.filter
        (fun m => decide (rfind m.1 "--foon" = some 0)) = [("--foonley", 2)] := by decide!
    rw [h2] at h1
    exact List.perm_singleton.mp h1
  have hp1 : ((built_core sample_allow_abbrev).iterated_as order).__parse_optional "--foon"
      = .ok (some ("--foonley", some 2, "")) := by
    rw [parse_optional_long _ "--foon" (by decide) (by rfl) (by rfl)
      (iterated_find_none _ order _ hperm (by decide!))
      (iterated_find_none _ order _ hperm (by decide!)),
      iterated_long_tuples _ order _ (by decide!) (by decide!), hfoon]
    rfl
  -- the token `--foo`
  have hfoo : (order.filter (fun m => rfind m.1 "--foo" = some 0)) = [("--foobar", 1), ("--foonley", 2)]
      ∨ (order.filter (fun m => rfind m.1 "--foo" = some 0))
        = [("--foonley", 2), ("--foobar", 1)] := by
    have h1 := hperm.filter (fun m => decide (rfind m.1 "--foo" = some 0))
    have h2 : (built_core sample_allow_abbrev).optional_args_map_.filter
        (fun m => decide (rfind m.1 "--foo" = some 0))
        = [("--foobar", 1), ("--foonley", 2)] := by decide!
    rw [h2] at h1
    exact perm_pair _ _ _ h1
  have hnames : ((built_core sample_allow_abbrev).iterated_as order).options_beginning_with "--foo"
      = (order.filter (fun m => rfind m.1 "--foo" = some 0)).map (fun m => m.1) := by
    unfold ParserCore.options_beginning_with ParserCore.iterated_as
    simp only
    congr 1
    apply List.filter_congr
    intro m hm
    rcases hmem m hm with rfl | rfl | rfl | rfl <;> decide!
  have hp2 : ((built_core sample_allow_abbrev).iterated_as order).__parse_optional "--foo"
      = .error (.invalid_argument ("ambiguous option: " ++ "--foo" ++ " could match "
          ++ join (((built_core sample_allow_abbrev).iterated_as order).options_beginning_with
              "--foo") ", ")) := by
    rw [parse_optional_long _ "--foo" (by decide) (by rfl) (by rfl)
      (iterated_find_none _ order _ hperm (by decide!))
      (iterated_find_none _ order _ hperm (by decide!)),
      iterated_long_tuples _ order _ (by decide!) (by decide!), hnames]
    rcases hfoo with h | h <;> rw [h] <;> rfl
  have hdef : ParserCore.add_defaults
        ((built_core sample_allow_abbrev).iterated_as order).args_list_ []
      = .ok (((built_core sample_allow_abbrev).iterated_as order).args_list_,
          [("foobar", ["false"]), ("foonley", ["true"])]) := by
    rfl
  refine ⟨hp1, ?_, ?_, hp2, ?_⟩
  · simp only [ArgumentParser.parse_known_args]
    refine parse_known_args_ok _ _ [] _ _ _ hdef ?_
    exact parse_known_args_one_token _ _ _ "--foon" ("--foonley", some 2, "")
      { ret := [("foobar", ["false"]), ("foonley", ["false"])],
        positionals := ((built_core sample_allow_abbrev).iterated_as order).__get_positional_args,
        seen_args := [2], seen_non_default_args := [2], extras := [] }
      (by decide) hp1 (by rfl) rfl
      (by
        show ∀ a ∈ (built_core sample_allow_abbrev).args_list_,
          a.option_strings_.length = 0 → a.nargs_.type_ = .parser
        decide!)
      (by
        show ∀ a ∈ (built_core sample_allow_abbrev).args_list_, a.required_ = false
        decide!)
      (by rfl)
  · rw [hnames]
    rcases hfoo with h | h <;> rw [h]
    · left; rfl
    · right; rfl
  · simp only [ArgumentParser.parse_known_args]
    have hinner : ((built_core sample_allow_abbrev).iterated_as order).__parse_known_args
        (ArgumentParser.child_table []) [("foobar", ["false"]), ("foonley", ["true"])] ["--foo"]
        = .error (.invalid_argument ("ambiguous option: " ++ "--foo" ++ " could match "
          ++ join (((built_core sample_allow_abbrev).iterated_as order).options_beginning_with
              "--foo") ", ")) := by
      have hc := classify_error _ [] [] "--foo" _ 0 (by decide) hp2 (by simp)
      simp only [List.nil_append] at hc
      unfold ParserCore.__parse_known_args
      rw [hc]
    rw [parse_known_args_error _ _ [] _ _ _ _ hdef hinner rfl]
    rfl

/-- Witness for C11: the option map of `samples/01_allow_abbrev.cpp` iterated in the reverse of
the insertion order, which names `--foonley` first. -/
theorem C11_foon_resolves_foo_is_ambiguous_witness :
    ((built_core sample_allow_abbrev).iterated_as
        [("--foonley", 2), ("--foobar", 1), ("--help", 0), ("-h", 0)]).__parse_optional "--foo"
      = .error (.invalid_argument ("ambiguous option: " ++ "--foo" ++ " could match "
          ++ join (((built_core sample_allow_abbrev).iterated_as
              [("--foonley", 2), ("--foobar", 1), ("--help", 0),
                ("-h", 0)]).options_beginning_with "--foo") ", ")) :=
  (C11_foon_resolves_foo_is_ambiguous
    [("--foonley", 2), ("--foobar", 1), ("--help", 0), ("-h", 0)]
    (by
      rw [sample_allow_abbrev_map]
      exact List.reverse_perm [("-h", 0), ("--help", 0), ("--foobar", 1), ("--foonley", 2)])
    ).2.2.2.1

/-- C13: a token equal to a registered option string (which starts with the prefix character)
resolves to that option's spec with no inline value, whatever other option strings it is a prefix
of; so `--foo`, with `--foo` and `--foo-bar` registered, resolves to `--foo` and `--foo 1` stores
`foo = 1`. -/
theorem C13_exact_match_precedence (p : ParserCore) (t : String) (i : Nat)
    (hfind : p.find_option t = some i) (hlen : t.length ≠ 0)
    (hpre : charAt t 0 = p.prefix_char_) :
    p.__parse_optional t = .ok (some (t, some i, ""))
    ∧ (do
        let q ← sample_exact_and_longer
        pure ((q.core.optional_args_map_.map (fun e => e.1)).filter
          (fun s => startsWithChars "--foo".data s.data)))
      = Except.ok ["--foo", "--foo-bar"]
    ∧ (do
        let q ← sample_exact_and_longer
        let r ← q.parse_known_args [] ["--foo", "1"]
        pure (Namespace.get? r.1 "foo", Namespace.get? r.1 "foo_bar", r.2))
      = Except.ok (some ["1"], none, []) :=
  ⟨parse_optional_exact p t i hfind hlen hpre, by decide!, by decide!⟩

/-- Witness for C13: the token `--foo` on the parser with `--foo` and `--foo-bar`. -/
theorem C13_exact_match_precedence_witness :
    (built_core sample_exact_and_longer).__parse_optional "--foo"
      = .ok (some ("--foo", some 1, "")) :=
  (C13_exact_match_precedence (built_core sample_exact_and_longer) "--foo" 1 (by decide!)
    (by decide!) (by decide!)).1

/-- C14 (counterexample): with the store option `--foo` of arity none, the token `--foo=` (the
empty inline value) does not store the empty string: alone it fails with "expected one argument",
and followed by `z` it consumes `z` as the value. -/
theorem C14_counterexample_empty_inline :
    (do
      let q ← sample_exact_and_longer
      q.parse_known_args [] ["--foo="])
      = Except.error (ParserCore.__error "argument --foo: expected one argument")
    ∧ (do
      let q ← sample_exact_and_longer
      q.parse_known_args [] ["--foo=", "z"])
      = Except.ok ([("foo", ["z"])], []) := by
  refine ⟨by decide!, by decide!⟩

/-- C14 (amended): let `s` be a registered option string without `=` that starts with the prefix
character, its spec an optional store spec of arity none without const, and let `v` be a value
that is not empty, not `--` and not the SUPPRESS marker and passes the choices, the token
`s=v` not being a registered option string itself. Then (1) `__parse_optional` resolves `s=v` to
the spec with the inline value `v`; (2) `__consume_optionals` at such a token stores `v` under
dest and stops at the next index, whatever tokens follow; (3) on a finalized parser with no
required spec, no required group that lacks the spec, and no positional other than sub-parser
specs, `parse_known_args` on the single token succeeds with `Namespace[dest] = [v]` and no
extras. -/
theorem C14_inline_value_is_stored (p : ParserCore) (m : List (String × ArgumentParser))
    (i : Nat) (s v : String)
    (hfind : p.find_option s = some i) (hlen : s.length ≠ 0)
    (hpre : charAt s 0 = p.prefix_char_) (hassign : '=' ∉ s.data)
    (hnone : p.find_option (s ++ "=" ++ v) = none)
    (hv : v ≠ "") (hsep : v ≠ "--") (hsup : v ≠ SUPPRESS)
    (hopt : (p.arg i).type_ = .optional_argument)
    (hact : (p.arg i).action_ = .StoreAction) (hconst : (p.arg i).const_value_ = [])
    (hkind : (p.arg i).nargs_.type_ = .none) (hallow : (p.arg i).allows [v])
    (hfin : p.finalized)
    (hdef : ∀ a ∈ p.args_list_, a.default_value_.length ≤ 1)
    (hpos : ∀ a ∈ p.args_list_, a.option_strings_.length = 0 → a.nargs_.type_ = .parser)
    (hreq : ∀ a ∈ p.args_list_, a.required_ = false)
    (hgrp : ∀ g ∈ p.mutually_exclusive_groups_, g.required_ = true → i ∈ g.group_arguments_) :
    p.__parse_optional (s ++ "=" ++ v) = .ok (some (s, some i, v))
    ∧ (∀ (subs : ChildTable) (indices : List (Nat × OptTuple)) (st : ParseState) (start : Nat)
        (arg_strings : List String) (pattern : List Char),
        ParserCore.index_tuple indices start = (s, some i, v) →
        (∀ c ∈ p.argument_conflicts i, c ∉ st.seen_args) →
        p.__consume_optionals subs indices st start arg_strings pattern
          = .ok ({ st with seen_args := st.seen_args.insert i,
                           seen_non_default_args := st.seen_non_default_args.insert i,
                           ret := Namespace.set_value st.ret (p.arg i).dest_ v }, start + 1))
    ∧ ∃ ns, (ArgumentParser.mk p m).parse_known_args [] [s ++ "=" ++ v] = .ok (ns, [])
        ∧ Namespace.get? ns (p.arg i).dest_ = some [v] := by
  have hparse := parse_optional_inline p s v i hfind hlen hpre hassign hnone
  have hcons : ∀ (subs : ChildTable) (indices : List (Nat × OptTuple)) (st : ParseState)
      (start : Nat) (arg_strings : List String) (pattern : List Char),
      ParserCore.index_tuple indices start = (s, some i, v) →
      (∀ c ∈ p.argument_conflicts i, c ∉ st.seen_args) →
      p.__consume_optionals subs indices st start arg_strings pattern
        = .ok ({ st with seen_args := st.seen_args.insert i,
                         seen_non_default_args := st.seen_non_default_args.insert i,
                         ret := Namespace.set_value st.ret (p.arg i).dest_ v }, start + 1) := by
    intro subs indices st start arg_strings pattern hidx hconf
    exact consume_optionals_inline p subs indices st start i arg_strings pattern s v hidx hv hsep
      hsup hconf hopt hact hconst hkind hallow
  refine ⟨hparse, hcons, ?_⟩
  obtain ⟨ret2, hret2, hshort⟩ := add_defaults_short p.args_list_ [] (p.arg i).dest_ hfin
    (fun a ha _ => hdef a ha) (by simp [Namespace.get?])
  have ht : s ++ "=" ++ v ≠ "--" := by
    intro h
    have hd : (s ++ "=" ++ v).data = s.data ++ '=' :: v.data := by simp [String.data_append]
    have hmem : '=' ∈ (s ++ "=" ++ v).data := by rw [hd]; simp
    rw [h] at hmem
    simp at hmem
  have hone := hcons (ArgumentParser.child_table m) [(0, (s, some i, v))]
    { ret := ret2, positionals := p.__get_positional_args, seen_args := [],
      seen_non_default_args := [], extras := [] } 0 [s ++ "=" ++ v] ['O']
    (by simp [ParserCore.index_tuple]) (by simp)
  have hmain := parse_known_args_one_token p (ArgumentParser.child_table m) ret2
    (s ++ "=" ++ v) (s, some i, v) _ ht hparse hone rfl hpos hreq
    (unused_required_group_none p _ i (by simp) hgrp)
  refine ⟨Namespace.set_value ret2 (p.arg i).dest_ v, ?_, ?_⟩
  · simp only [ArgumentParser.parse_known_args]
    exact parse_known_args_ok p _ [] ret2 _ _ hret2 hmain
  · exact get?_set_value_short ret2 _ v hshort

/-- Witness for C14: the token `--foo=1` with the store options `--foo` and `--foo-bar`. -/
theorem C14_inline_value_is_stored_witness :
    ∃ ns, (ArgumentParser.mk (built_core sample_exact_and_longer) []).parse_known_args []
        ["--foo" ++ "=" ++ "1"] = .ok (ns, [])
      ∧ Namespace.get? ns ((built_core sample_exact_and_longer).arg 1).dest_ = some ["1"] :=
  (C14_inline_value_is_stored (built_core sample_exact_and_longer) [] 1 "--foo" "1"
    (by decide!) (by decide!) (by decide!) (by decide!) (by decide!) (by decide!) (by decide!)
    (by decide!) (by decide!) (by decide!) (by decide!) (by decide!) (by decide!) (by decide!)
    (by decide!) (by decide!) (by decide!) (by decide!)).2.2

/-- C15 (counterexample): with the store option `-c`, the token `-c=5` is not registered, starts
with a single prefix character and its first two characters are `-c`; the remainder of the token
is `=5`, but the inline value is `5`, and `5` is what the parse stores. -/
theorem C15_counterexample_assign_after_short :
    (do
      let q ← sample_short_option
      pure (decide (q.core.find_option "-c=5" = none
        ∧ q.core.find_option (substrTo "-c=5" 2) = some 1
        ∧ substr "-c=5" 2 = "=5"
        ∧ q.core.__parse_optional "-c=5" = .ok (some ("-c", some 1, "5")))))
      = Except.ok true
    ∧ (do
      let q ← sample_short_option
      q.parse_known_args [] ["-c=5"])
      = Except.ok ([("count", ["5"])], []) := by
  refine ⟨by decide!, by decide!⟩

/-- C15 (amended): let `t` be a token that is not a registered option string, starts with a
single prefix character, and whose first two characters are a registered option string of an
optional store spec of arity none without const; let the part of `t` before `=` not be
registered, let no registered option string begin with `t`, and let the remainder of `t` after
its first two characters not be `--` or the SUPPRESS marker and pass the choices. Then
`__parse_optional` resolves `t` to that option string with the remainder as inline value, and on
a finalized parser with no required spec, no required group that lacks the spec, and no
positional other than sub-parser specs, `parse_known_args` on the single token succeeds with
`Namespace[dest]` holding the remainder and no extras. -/
theorem C15_short_option_attached_value (p : ParserCore) (m : List (String × ArgumentParser))
    (i : Nat) (t : String)
    (hshort : p.find_option (substrTo t 2) = some i) (hnone : p.find_option t = none)
    (hpre0 : charAt t 0 = p.prefix_char_) (hpre1 : charAt t 1 ≠ p.prefix_char_)
    (hby : p.find_option (before_assign t) = none)
    (hno : ∀ m ∈ p.optional_args_map_, startsWithChars t.data m.1.data = false)
    (hnodup : (p.optional_args_map_.map Prod.fst).Nodup)
    (hsep : substr t 2 ≠ "--") (hsup : substr t 2 ≠ SUPPRESS)
    (hopt : (p.arg i).type_ = .optional_argument)
    (hact : (p.arg i).action_ = .StoreAction) (hconst : (p.arg i).const_value_ = [])
    (hkind : (p.arg i).nargs_.type_ = .none) (hallow : (p.arg i).allows [substr t 2])
    (hfin : p.finalized)
    (hdef : ∀ a ∈ p.args_list_, a.default_value_.length ≤ 1)
    (hpos : ∀ a ∈ p.args_list_, a.option_strings_.length = 0 → a.nargs_.type_ = .parser)
    (hreq : ∀ a ∈ p.args_list_, a.required_ = false)
    (hgrp : ∀ g ∈ p.mutually_exclusive_groups_, g.required_ = true → i ∈ g.group_arguments_) :
    p.__parse_optional t = .ok (some (substrTo t 2, some i, substr t 2))
    ∧ ∃ ns, (ArgumentParser.mk p m).parse_known_args [] [t] = .ok (ns, [])
        ∧ Namespace.get? ns (p.arg i).dest_ = some [substr t 2] := by
  have hparse := parse_optional_short p t i hshort hnone hpre0 hpre1 hby hno hnodup
  have hlen := short_token_length p t i hshort hnone
  refine ⟨hparse, ?_⟩
  obtain ⟨ret2, hret2, hshortv⟩ := add_defaults_short p.args_list_ [] (p.arg i).dest_ hfin
    (fun a ha _ => hdef a ha) (by simp [Namespace.get?])
  have ht : t ≠ "--" := by
    intro h
    rw [h] at hlen
    exact absurd hlen (by decide)
  have hone := consume_optionals_inline p (ArgumentParser.child_table m)
    [(0, (substrTo t 2, some i, substr t 2))]
    { ret := ret2, positionals := p.__get_positional_args, seen_args := [],
      seen_non_default_args := [], extras := [] } 0 i [t] ['O'] (substrTo t 2) (substr t 2)
    (by simp [ParserCore.index_tuple]) (substr_ne_empty t 2 (by omega)) hsep hsup (by simp)
    hopt hact hconst hkind hallow
  have hmain := parse_known_args_one_token p (ArgumentParser.child_table m) ret2
    t (substrTo t 2, some i, substr t 2) _ ht hparse hone rfl hpos hreq
    (unused_required_group_none p _ i (by simp) hgrp)
  refine ⟨Namespace.set_value ret2 (p.arg i).dest_ (substr t 2), ?_, ?_⟩
  · simp only [ArgumentParser.parse_known_args]
    exact parse_known_args_ok p _ [] ret2 _ _ hret2 hmain
  · exact get?_set_value_short ret2 _ _ hshortv

/-- Witness for C15: the token `-c15` with the store option `-c`. -/
theorem C15_short_option_attached_value_witness :
    (built_core sample_short_option).__parse_optional "-c15"
      = .ok (some (substrTo "-c15" 2, some 1, substr "-c15" 2))
    ∧ ∃ ns, (ArgumentParser.mk (built_core sample_short_option) []).parse_known_args []
        ["-c15"] = .ok (ns, [])
      ∧ Namespace.get? ns ((built_core sample_short_option).arg 1).dest_
          = some [substr "-c15" 2] :=
  C15_short_option_attached_value (built_core sample_short_option) [] 1 "-c15"
    (by decide!) (by decide!) (by decide!) (by decide!) (by decide!) (by decide!) (by decide!)
    (by decide!) (by decide!) (by decide!) (by decide!) (by decide!) (by decide!) (by decide!)
    (by decide!) (by decide!) (by decide!) (by decide!) (by decide!)

/-- C16 (counterexample): against the counting option `-v` without a default, the token made of
`-` followed by 2^31 + 1 copies of `v` does not yield the counter value 2^31 + 1: the count
action reads the stored value 2147483648 back with `std::stoi`, which throws `out_of_range`, and
the parse ends with `__error`. -/
theorem C16_counterexample_counter_overflow :
    (ArgumentParser.mk (built_core sample_count_plain) []).parse_known_args []
        [cluster_token (2147483648 + 1)]
      = .error (ParserCore.__error "stoi") :=
  count_cluster_overflow (built_core sample_count_plain) [] 1
    (by decide!) (by decide!) (by decide!) (by decide!) (by decide!) (by decide!) (by decide!)
    (by decide!) (by decide!) (by decide!)

/-- C16 (amended): let the prefix character be `-` and the spec registered at `-v` be a counting
spec of arity 0, no spec with its dest having a default other than 0, no registered option string
beginning with `-vv`, the parser finalized with no required spec, no required group that lacks
the spec, and no positional other than sub-parser specs. Then for every k with
1 <= k <= 2^31, `parse_known_args` on the single token made of `-` followed by k copies of `v`
succeeds without extras and `Namespace[dest]` holds the decimal text of k. On the parsers of the
counting option with the default 0 and without a default, `-vvv` yields 3. -/
theorem C16_cluster_counts (p : ParserCore) (m : List (String × ArgumentParser)) (i k : Nat)
    (hk1 : 1 ≤ k) (hk2 : k ≤ 2147483648)
    (hpre : p.prefix_char_ = '-')
    (hfind : p.find_option "-v" = some i)
    (hopt : (p.arg i).type_ = .optional_argument)
    (hact : (p.arg i).action_ = .CountAction)
    (hzero : (p.arg i).nargs_.type_ = .integer ∧ (p.arg i).nargs_.nargs_ = 0)
    (hdefault : ∀ a ∈ p.args_list_, a.dest_ = (p.arg i).dest_ →
        a.default_value_ = [] ∨ a.default_value_ = ["0"])
    (hno : ∀ m ∈ p.optional_args_map_, startsWithChars ['-', 'v', 'v'] m.1.data = false)
    (hnodup : (p.optional_args_map_.map Prod.fst).Nodup)
    (hfin : p.finalized)
    (hpos : ∀ a ∈ p.args_list_, a.option_strings_.length = 0 → a.nargs_.type_ = .parser)
    (hreq : ∀ a ∈ p.args_list_, a.required_ = false)
    (hgrp : ∀ g ∈ p.mutually_exclusive_groups_, g.required_ = true → i ∈ g.group_arguments_) :
    (∃ ns, (ArgumentParser.mk p m).parse_known_args [] [cluster_token k] = .ok (ns, [])
        ∧ Namespace.get? ns (p.arg i).dest_ = some [toString k])
    ∧ (do
        let q ← sample_count
        q.parse_known_args [] ["-vvv"])
      = Except.ok ([("verbose", ["3"])], [])
    ∧ (do
        let q ← sample_count_plain
        q.parse_known_args [] ["-vvv"])
      = Except.ok ([("v", ["3"])], []) := by
  refine ⟨?_, by decide!, by decide!⟩
  obtain ⟨r, rfl⟩ : ∃ r, k = r + 1 := ⟨k - 1, by omega⟩
  obtain ⟨ret2, hret2, hstart⟩ := add_defaults_count p.args_list_ [] (p.arg i).dest_ hfin
    hdefault (by simp [Namespace.get?])
  have hparse := parse_optional_cluster p i r hpre hfind hno hnodup
  have hcons := consume_optionals_cluster p (ArgumentParser.child_table m)
    { ret := ret2, positionals := p.__get_positional_args, seen_args := [],
      seen_non_default_args := [], extras := [] } [cluster_token (r + 1)] ['O'] i
    r hpre hfind hopt hzero
  obtain ⟨st1, htake, hval, hposs, hext, hseen, _⟩ :=
    take_tuples_count p (ArgumentParser.child_table m) i hact hzero.1 r
      { ret := ret2, positionals := p.__get_positional_args, seen_args := [],
        seen_non_default_args := [], extras := [] } hstart (by simp) hk2
  rw [htake] at hcons
  have hmain := parse_known_args_one_token p (ArgumentParser.child_table m) ret2
    (cluster_token (r + 1)) _ st1 (cluster_token_ne_separator _) hparse hcons hposs hpos hreq
    (unused_required_group_none p _ i hseen hgrp)
  refine ⟨st1.ret, ?_, hval⟩
  simp only [ArgumentParser.parse_known_args]
  have hext2 : st1.extras = [] := hext
  rw [hext2] at hmain
  exact parse_known_args_ok p _ [] ret2 _ _ hret2 hmain

/-- Witness for C16: the token `-vv` against the counting option of `samples/05_actions.cpp`. -/
theorem C16_cluster_counts_witness :
    ∃ ns, (ArgumentParser.mk (built_core sample_count) []).parse_known_args []
        [cluster_token 2] = .ok (ns, [])
      ∧ Namespace.get? ns ((built_core sample_count).arg 1).dest_ = some [toString 2] :=
  (C16_cluster_counts (built_core sample_count) [] 1 2
    (by decide!) (by decide!) (by decide!) (by decide!) (by decide!) (by decide!) (by decide!)
    (by decide!) (by decide!) (by decide!) (by decide!) (by decide!) (by decide!) (by decide!)).1

/-- C17 (as stated, refuted): `--foo` has arity exact(2), so the inline value of `--foo=x` does not
satisfy its pattern as one argument token, and no clustering applies; the parse fails with the
arity error "expected 2 argument(s)", not with "ignored explicit argument x". -/
theorem C17_counterexample_exact_two :
    (do
      let p ← sample_option_pair
      p.parse_known_args [] ["--foo=x"])
    = Except.error (ParserCore.__error "argument --foo: expected 2 argument(s)") := by
  decide!

/-- C17 (amended): let a resolved option carry the inline value `v`, not empty. (1) If the spec
takes zero tokens (arity exact(0) or suppress) and clustering does not apply (the option string is
long, or the short option made of the first character of `v` is not registered),
`__consume_optionals` fails with "ignored explicit argument v" attributed to that option. (2) If
the arity is exact(n) with n >= 2, it fails with the arity error "expected n argument(s)"
attributed to that option. -/
theorem C17_inline_value_rejected (p : ParserCore) (subs : ChildTable)
    (indices : List (Nat × OptTuple)) (st : ParseState) (start i : Nat)
    (arg_strings : List String) (pattern : List Char) (arg_string v : String)
    (hopt : (p.arg i).type_ = .optional_argument)
    (hidx : ParserCore.index_tuple indices start = (arg_string, some i, v)) (hv : v ≠ "") :
    ((((p.arg i).nargs_.type_ = .integer ∧ (p.arg i).nargs_.nargs_ = 0)
        ∨ (p.arg i).nargs_.type_ = .suppress) →
      (charAt arg_string 1 = p.prefix_char_
        ∨ p.find_option (String.mk [charAt arg_string 0, charAt v 0]) = none) →
      p.__consume_optionals subs indices st start arg_strings pattern
        = .error (argument_error (p.arg i) ("ignored explicit argument " ++ v)))
    ∧ ((p.arg i).nargs_.type_ = .integer → 2 ≤ (p.arg i).nargs_.nargs_ →
      p.__consume_optionals subs indices st start arg_strings pattern
        = .error (argument_error (p.arg i)
            ("expected " ++ toString (p.arg i).nargs_.nargs_ ++ " argument(s)"))) := by
  have hlen := length_ne_zero_of_ne_empty v hv
  constructor
  · intro hzero hno
    have hm := match_argument_zero_arity p i ['A'] hopt hzero
    unfold ParserCore.__consume_optionals
    rw [hidx]
    simp only [ParserCore.option_loop, hlen, ne_eq, not_false_eq_true, if_true, hm]
    rcases hno with hlong | hnone
    · simp [hlong]
    · by_cases hlong : charAt arg_string 1 = p.prefix_char_
      · simp [hlong]
      · simp [hlong, hv, hnone]
  · intro hk hn
    have hm := match_argument_too_many p i hopt hk hn
    unfold ParserCore.__consume_optionals
    rw [hidx]
    simp only [ParserCore.option_loop, hlen, ne_eq, not_false_eq_true, if_true, hm]

/-- Witness for C17: the counting option of `samples/05_actions.cpp` given `--verbose=x`. -/
theorem C17_inline_value_rejected_witness :
    (built_core sample_count).__consume_optionals [] [(0, ("--verbose", some 1, "x"))]
        { ret := [], positionals := [], seen_args := [], seen_non_default_args := [],
          extras := [] } 0 ["--verbose=x"] ['O']
      = .error (argument_error ((built_core sample_count).arg 1)
          ("ignored explicit argument " ++ "x")) :=
  (C17_inline_value_rejected (built_core sample_count) [] [(0, ("--verbose", some 1, "x"))]
    { ret := [], positionals := [], seen_args := [], seen_non_default_args := [], extras := [] }
    0 1 ["--verbose=x"] ['O'] "--verbose" "x" (by decide!) (by decide!) (by decide!)).1
    (by decide!) (by decide!)

/-- C18 (counterexample): `--b` belongs to the group of `--c` and `--b` and to the group of `--a`
and `--b`. On `--a --c --b`, `--a` is consumed first and `--b` later, both of one group, but the
error names `--c`, the first spec of the conflict list of `--b` that was seen:
"argument --b: not allowed with argument --c". -/
theorem C18_counterexample_shared_member :
    (built_core sample_exclusive_shared).mutually_exclusive_groups_
      = [⟨false, [1, 2]⟩, ⟨false, [3, 2]⟩]
    ∧ ((built_core sample_exclusive_shared).args_list_.map (fun a => a.get_argument_name))
      = ["-h/--help", "--c", "--b", "--a"]
    ∧ (do
        let q ← sample_exclusive_shared
        q.parse_known_args [] ["--a", "--c", "--b"])
      = Except.error (ParserCore.__error "argument --b: not allowed with argument --c") := by
  refine ⟨by decide!, by decide!, by decide!⟩

/-- C18 (amended): let `a` and `b` be distinct members of one exclusive group, `a` already seen
and the only seen spec among those that conflict with `b`. When `b` is taken next (its values
passing `__get_values`), the parse fails with an error attributed to `b`: "argument B: not allowed
with argument A". With the group of `--foo` and `--bar`, the input `--foo --bar` fails with
"argument --bar: not allowed with argument --foo", and `--bar --foo` the other way round. -/
theorem C18_conflict_names_first_seen (p : ParserCore) (subs : ChildTable) (st : ParseState)
    (g : MutuallyExclusiveGroup) (a b : Nat) (args vals : List String)
    (hg : g ∈ p.mutually_exclusive_groups_) (ha : a ∈ g.group_arguments_)
    (hb : b ∈ g.group_arguments_) (hab : a ≠ b)
    (hseen : a ∈ st.seen_args)
    (honly : ∀ c ∈ p.argument_conflicts b, c ∈ st.seen_args → c = a)
    (hvals : (p.arg b).__get_values args = .ok vals) :
    p.__take_argument subs st b args
      = .error (argument_error (p.arg b)
          ("not allowed with argument " ++ (p.arg a).get_argument_name))
    ∧ (do
        let q ← sample_exclusive false
        q.parse_known_args [] ["--foo", "--bar"])
      = Except.error (ParserCore.__error "argument --bar: not allowed with argument --foo")
    ∧ (do
        let q ← sample_exclusive false
        q.parse_known_args [] ["--bar", "--foo"])
      = Except.error (ParserCore.__error "argument --foo: not allowed with argument --bar") := by
  refine ⟨?_, by decide!, by decide!⟩
  have hconf := mem_argument_conflicts p g a b hg ha hb hab
  have hfc : p.first_conflict
      { st with seen_args := st.seen_args.insert b,
                seen_non_default_args := st.seen_non_default_args.insert b } b = some a := by
    apply first_conflict_some p _ a b hconf
    · simp [hseen]
    · intro c hc hm
      simp only [List.mem_insert_iff] at hm
      rcases hm with e | e
      · exact absurd e (conflicts_ne p b c hc)
      · exact honly c hc e
  unfold ParserCore.__take_argument
  simp only [hvals, hfc]

/-- Witness for C18: `--bar` taken after `--foo` in the group of the two. -/
theorem C18_conflict_names_first_seen_witness :
    (built_core (sample_exclusive false)).__take_argument []
        { ret := [], positionals := [], seen_args := [1], seen_non_default_args := [1],
          extras := [] } 2 []
      = .error (argument_error ((built_core (sample_exclusive false)).arg 2)
          ("not allowed with argument "
            ++ ((built_core (sample_exclusive false)).arg 1).get_argument_name)) :=
  (C18_conflict_names_first_seen (built_core (sample_exclusive false)) []
    { ret := [], positionals := [], seen_args := [1], seen_non_default_args := [1], extras := [] }
    ⟨false, [1, 2]⟩ 1 2 [] [] (by decide!) (by decide!) (by decide!) (by decide!) (by decide!)
    (by decide!) (by decide!)).1

/-- C19 (counterexample): the required group of `--foo` and `--bar`, with the help of `--bar`
suppressed, parsed without tokens: the message names `--foo` only, not "--foo --bar". -/
theorem C19_counterexample_hidden_member :
    (do
      let q ← sample_exclusive_hidden
      q.parse_known_args [] [])
      = Except.error (ParserCore.__error "one of the arguments --foo is required")
    ∧ (built_core sample_exclusive_hidden).mutually_exclusive_groups_.map
        (fun g => (g.required_, g.group_arguments_.map
          (fun i => ((built_core sample_exclusive_hidden).arg i).get_argument_name)))
      = [(true, ["--foo", "--bar"])] := by
  refine ⟨by decide!, by decide!⟩

/-- C19 (amended): when the tokens are classified and consumed without error, no individually
required spec is missing, the group `g` is required, no member of `g` is among the specs seen
with a value, and every required group declared before `g` has such a member, `__parse_known_args`
fails with the logic error "one of the arguments NAMES is required", where NAMES joins by single
spaces the display names of the members of `g` whose help is not suppressed. With the required
group of `--foo` and `--bar` and no tokens the message names "--foo --bar"; with `--bar` given
the parse succeeds. -/
theorem C19_required_group_unused (p : ParserCore) (subs : ChildTable) (ret : Namespace)
    (arg_strings : List String) (pattern : List Char) (indices : List (Nat × OptTuple))
    (st1 st2 : ParseState) (i1 i2 : Nat)
    (before after : List MutuallyExclusiveGroup) (g : MutuallyExclusiveGroup)
    (hclass : p.classify arg_strings 0 = .ok (pattern, indices))
    (hloop : p.consume_loop subs indices arg_strings pattern (arg_strings.length + 1)
        { ret := ret, positionals := p.__get_positional_args, seen_args := [],
          seen_non_default_args := [], extras := [] } 0 = .ok (st1, i1))
    (hpos : p.__consume_positionals subs st1 i1 arg_strings pattern = .ok (st2, i2))
    (hreq : p.required_args st2.seen_args = [])
    (hgroups : p.mutually_exclusive_groups_ = before ++ g :: after)
    (hg : g.required_ = true)
    (hunused : ∀ i ∈ g.group_arguments_, i ∉ st2.seen_non_default_args)
    (hbefore : ∀ h ∈ before, h.required_ = true →
        ∃ i ∈ h.group_arguments_, i ∈ st2.seen_non_default_args) :
    p.__parse_known_args subs ret arg_strings
      = .error (.logic_error ("one of the arguments "
          ++ join ((g.group_arguments_.filter (fun i => (p.arg i).help_ ≠ SUPPRESS)).map
              (fun i => (p.arg i).get_argument_name)) " "
          ++ " is required"))
    ∧ (do
        let q ← sample_exclusive true
        q.parse_known_args [] [])
      = Except.error (ParserCore.__error "one of the arguments --foo --bar is required")
    ∧ (do
        let q ← sample_exclusive true
        q.parse_known_args [] ["--bar"])
      = Except.ok ([("foo", [false_value]), ("bar", [true_value])], []) := by
  refine ⟨?_, by decide!, by decide!⟩
  unfold ParserCore.__parse_known_args
  simp only [hclass, hloop, hpos, hreq,
    unused_required_group_some p st2.seen_non_default_args before after g hgroups hg hunused
      hbefore]
  simp

/-- Witness for C19: the required group of `--foo` and `--bar`, parsed without tokens. -/
theorem C19_required_group_unused_witness :
    (built_core (sample_exclusive true)).__parse_known_args []
        [("foo", [false_value]), ("bar", [false_value])] []
      = .error (.logic_error "one of the arguments --foo --bar is required") :=
  (C19_required_group_unused (built_core (sample_exclusive true)) []
    [("foo", [false_value]), ("bar", [false_value])] [] [] []
    { ret := [("foo", [false_value]), ("bar", [false_value])], positionals := [],
      seen_args := [], seen_non_default_args := [], extras := [] }
    { ret := [("foo", [false_value]), ("bar", [false_value])], positionals := [],
      seen_args := [], seen_non_default_args := [], extras := [] } 0 0
    [] [] ⟨true, [1, 2]⟩ (by rfl) (by decide!) (by decide!) (by decide!) (by decide!)
    (by decide!) (by decide!) (by decide!)).1

/-- C20 (failing input): the positional `bar` of arity `'?'` with default `d` shares a required
exclusive group with `--foo`. With no token, `bar` is consumed with zero tokens and its default,
and it is put into `seen_non_default_args` all the same: the required group counts as satisfied
and the parse succeeds. After `--foo 1`, taking `bar` with zero tokens raises
"argument bar: not allowed with argument --foo". -/
theorem C20_default_counts_as_present :
    (do
      let p ← sample_exclusive_default
      let st ← p.core.__take_argument []
        { ret := [], positionals := [2], seen_args := [], seen_non_default_args := [],
          extras := [] } 2 []
      pure (st.seen_args, st.seen_non_default_args, st.ret))
      = Except.ok ([2], [2], [("bar", ["d"])])
    ∧ (do
      let p ← sample_exclusive_default
      p.parse_known_args [] [])
      = Except.ok ([("bar", ["d"])], [])
    ∧ (do
      let p ← sample_exclusive_default
      p.parse_known_args [] ["--foo", "1"])
      = Except.error (ParserCore.__error "argument bar: not allowed with argument --foo") := by
  decide!

/-! ### Completion checks, display names and validation -/

theorem required_args_mem (p : ParserCore) (seen : List Nat) (name : String) :
    name ∈ p.required_args seen
      ↔ ∃ i, i < p.args_list_.length ∧ i ∉ seen ∧ (p.arg i).required_ = true
          ∧ name = (p.arg i).get_argument_name := by
  unfold ParserCore.required_args
  simp only [List.mem_map, List.mem_filter, List.mem_range, decide_eq_true_eq]
  constructor
  · rintro ⟨i, ⟨hi, hns, hr⟩, rfl⟩
    exact ⟨i, hi, hns, hr, rfl⟩
  · rintro ⟨i, hi, hns, hr, rfl⟩
    exact ⟨i, ⟨hi, hns, hr⟩, rfl⟩

theorem map_arg_range (p : ParserCore) :
    (List.range p.args_list_.length).map (fun i => p.arg i) = p.args_list_ := by
  apply List.ext_getElem
  · simp
  · intro n h1 h2
    simp only [List.getElem_map, List.getElem_range, ParserCore.arg]
    rw [List.getD_eq_getElem _ _ h2]

theorem required_args_sublist (p : ParserCore) (seen : List Nat) :
    List.Sublist (p.required_args seen) (p.args_list_.map (fun a => a.get_argument_name)) := by
  have h : p.args_list_.map (fun a => a.get_argument_name)
      = (List.range p.args_list_.length).map (fun i => (p.arg i).get_argument_name) := by
    conv_lhs => rw [← map_arg_range p]
    rw [List.map_map]
    rfl
  rw [h]
  unfold ParserCore.required_args
  exact List.Sublist.map _ (List.filter_sublist _)

theorem required_args_eq_nil (p : ParserCore) (seen : List Nat) :
    p.required_args seen = []
      ↔ ∀ i, i < p.args_list_.length → (p.arg i).required_ = true → i ∈ seen := by
  unfold ParserCore.required_args
  rw [List.map_eq_nil_iff, List.filter_eq_nil_iff]
  constructor
  · intro h i hi hr
    by_contra hns
    exact h i (List.mem_range.mpr hi) (by simp [hns, hr])
  · intro h i hi
    simp only [decide_eq_true_eq, not_and]
    intro hns hr
    exact hns (h i (List.mem_range.mp hi) hr)

theorem mark_required_fields (a : Argument) :
    ∃ r, a.mark_required = { a with required_ := r } := by
  unfold Argument.mark_required
  simp only
  split_ifs <;> first | exact ⟨true, rfl⟩ | exact ⟨a.required_, rfl⟩

theorem initializeArgument_eq (a : Argument) :
    a.initializeArgument
      = match a.mark_required.action_.validate a.mark_required with
        | .ok _ => .ok a.mark_required
        | .error e => .error e := rfl

theorem add_defaults_error (before after : List Argument) (a : Argument) (e : Error)
    (ret : Namespace) (hbefore : ∀ b ∈ before, ∃ b2, b.initializeArgument = .ok b2)
    (ha : a.initializeArgument = .error e) :
    ParserCore.add_defaults (before ++ a :: after) ret = .error e := by
  induction before generalizing ret with
  | nil => simp [ParserCore.add_defaults, ha]
  | cons b before ih =>
    obtain ⟨b2, hb⟩ := hbefore b (by simp)
    simp only [List.cons_append, ParserCore.add_defaults, hb, List.append_eq]
    rw [ih _ (fun c hc => hbefore c (by simp [hc]))]

/-! ### Lemmas for the dest of an optional spec -/

theorem find_first_not_of_drop (c : Char) (l : List Char) (i : Nat)
    (h : find_first_not_of c l = some i) :
    l.drop i = l.dropWhile (fun d => d = c) ∧ i < l.length := by
  induction l generalizing i with
  | nil => simp [find_first_not_of] at h
  | cons d s ih =>
    by_cases hd : d = c
    · simp only [find_first_not_of, hd, if_true, Option.map_eq_some'] at h
      obtain ⟨j, hj, rfl⟩ := h
      obtain ⟨h1, h2⟩ := ih j hj
      refine ⟨?_, by simp; omega⟩
      simp [List.dropWhile_cons, hd, h1]
    · simp only [find_first_not_of, hd, if_false, Option.some.injEq] at h
      subst h
      simp [List.dropWhile_cons, hd]

theorem strip_leading_ok (c : Char) (s d : String) (h : Argument.strip_leading c s = .ok d) :
    d = String.mk (s.data.dropWhile (fun x => x = c)) ∧ d.length ≠ 0 := by
  unfold Argument.strip_leading at h
  cases hf : find_first_not_of c s.data with
  | none => rw [hf] at h; cases h
  | some i =>
    rw [hf] at h
    simp only [Except.ok.injEq] at h
    obtain ⟨h1, h2⟩ := find_first_not_of_drop c s.data i hf
    subst h
    refine ⟨by simp [substr, h1], ?_⟩
    show (s.data.drop i).length ≠ 0
    simp only [List.length_drop]
    omega

theorem initializeAction_keeps (act : ActionKind) (a b : Argument)
    (h : act.initializeAction a = .ok b) :
    b.option_strings_ = a.option_strings_ ∧ b.type_ = a.type_
      ∧ (act ≠ .HelpAction → b.dest_ = a.dest_) := by
  have hreq : ∀ (x y : Argument) (r : Bool), x.set_required r = .ok y →
      y.option_strings_ = x.option_strings_ ∧ y.type_ = x.type_ ∧ y.dest_ = x.dest_ := by
    intro x y r hxy
    unfold Argument.set_required at hxy
    split at hxy
    · cases hxy
    · simp only [Except.ok.injEq] at hxy
      subst hxy
      exact ⟨rfl, rfl, rfl⟩
  cases act with
  | StoreAction =>
    simp only [ActionKind.initializeAction, Except.ok.injEq] at h
    subst h
    exact ⟨rfl, rfl, fun _ => rfl⟩
  | StoreConstAction =>
    simp only [ActionKind.initializeAction, bind, Except.bind, pure, Except.pure] at h
    cases hr : a.set_required false with
    | error e => rw [hr] at h; cases h
    | ok y =>
      rw [hr] at h
      simp only [Except.ok.injEq] at h
      subst h
      obtain ⟨h1, h2, h3⟩ := hreq _ _ _ hr
      exact ⟨h1, h2, fun _ => h3⟩
  | StoreTrueAction =>
    simp only [ActionKind.initializeAction, bind, Except.bind, pure, Except.pure] at h
    cases hr : ((a.set_const_bool true).set_default_bool false).set_required false with
    | error e => rw [hr] at h; cases h
    | ok y =>
      rw [hr] at h
      simp only [Except.ok.injEq] at h
      subst h
      obtain ⟨h1, h2, h3⟩ := hreq _ _ _ hr
      exact ⟨h1, h2, fun _ => h3⟩
  | StoreFalseAction =>
    simp only [ActionKind.initializeAction, bind, Except.bind, pure, Except.pure] at h
    cases hr : ((a.set_const_bool false).set_default_bool true).set_required false with
    | error e => rw [hr] at h; cases h
    | ok y =>
      rw [hr] at h
      simp only [Except.ok.injEq] at h
      subst h
      obtain ⟨h1, h2, h3⟩ := hreq _ _ _ hr
      exact ⟨h1, h2, fun _ => h3⟩
  | AppendAction =>
    simp only [ActionKind.initializeAction] at h
    obtain ⟨h1, h2, h3⟩ := hreq _ _ _ h
    exact ⟨h1, h2, fun _ => h3⟩
  | AppendConstAction =>
    simp only [ActionKind.initializeAction] at h
    obtain ⟨h1, h2, h3⟩ := hreq _ _ _ h
    exact ⟨h1, h2, fun _ => h3⟩
  | CountAction =>
    simp only [ActionKind.initializeAction] at h
    obtain ⟨h1, h2, h3⟩ := hreq _ _ _ h
    exact ⟨h1, h2, fun _ => h3⟩
  | HelpAction =>
    simp only [ActionKind.initializeAction, Except.ok.injEq] at h
    subst h
    exact ⟨rfl, rfl, fun hne => absurd rfl hne⟩
  | SubparsersAction =>
    simp only [ActionKind.initializeAction, Except.ok.injEq] at h
    subst h
    exact ⟨rfl, rfl, fun _ => rfl⟩

theorem first_long_eq_find (flags : List String)
    (h : ∀ s ∈ flags, charAt s 0 = '-') :
    Argument.first_long flags
      = flags.find? (fun s => charAt s 0 = '-' ∧ charAt s 1 = '-') := by
  induction flags with
  | nil => rfl
  | cons s rest ih =>
    have hs := h s (by simp)
    have ih2 := ih (fun t ht => h t (by simp [ht]))
    by_cases h1 : charAt s 1 = '-'
    · simp [Argument.first_long, List.find?_cons, h1, hs]
    · simp [Argument.first_long, List.find?_cons, h1, ih2]

theorem add_name_or_flags_dest (prefix_char : Char) (act : ActionKind) (flags : List String)
    (a : Argument) (hadd : Argument.__add_name_or_flags prefix_char act flags = .ok a) :
    (a.type_ = .positional_argument → a.dest_ = flags.headD "")
    ∧ (a.type_ = .optional_argument → act ≠ .HelpAction →
        a.option_strings_ = flags
        ∧ (∀ s ∈ flags, charAt s 0 = prefix_char)
        ∧ ∃ d, Argument.strip_leading prefix_char
              ((Argument.first_long flags).getD (flags.headD "")) = .ok d
            ∧ a.dest_ = Argument.dashes_to_underscores d) := by
  unfold Argument.__add_name_or_flags at hadd
  simp only [bind, Except.bind, pure, Except.pure] at hadd
  generalize hinit : act.initializeAction _ = r at hadd
  cases r with
  | error e => cases hadd
  | ok v =>
    try simp only at hadd
    have hk := initializeAction_keeps _ _ _ hinit
    split_ifs at hk with hc
    · obtain ⟨hko, hv, hkd⟩ := hk
      try simp only at hko hv hkd
      have hvp : ¬ v.type_ = .positional_argument := by rw [hv]; decide
      have hne : ¬ (ArgumentType.optional_argument = ArgumentType.positional_argument) := by
        decide
      simp only [hv, if_true] at hadd
      cases hfind : List.find? (fun s => charAt s 0 != prefix_char) v.option_strings_ with
      | some bad => rw [hfind] at hadd; cases hadd
      | none =>
        rw [hfind] at hadd
        try simp only at hadd
        have hall : ∀ s ∈ flags, charAt s 0 = prefix_char := by
          intro s hs
          rw [List.find?_eq_none] at hfind
          have := hfind s (by rw [hko]; exact hs)
          simpa using this
        cases hfl : Argument.first_long v.option_strings_ with
        | some s =>
          rw [hfl] at hadd
          try simp only at hadd
          cases hs : Argument.strip_leading prefix_char s with
          | error e => rw [hs] at hadd; cases hadd
          | ok d =>
            rw [hs] at hadd
            have hd := (strip_leading_ok prefix_char s d hs).2
            simp only [Argument.set_dest, hd, if_false, hv, hne] at hadd
            simp only [Except.ok.injEq] at hadd
            subst hadd
            refine ⟨fun h => absurd h hne, fun _ _ => ⟨hko, hall, d, ?_, rfl⟩⟩
            rw [← hko, hfl]
            exact hs
        | none =>
          rw [hfl] at hadd
          try simp only at hadd
          by_cases hact : act = .HelpAction
          · refine ⟨?_, fun _ h => absurd hact h⟩
            intro hpos
            exfalso
            by_cases hl : v.dest_.length = 0
            · simp only [hl, if_true] at hadd
              cases hs : Argument.strip_leading prefix_char (v.option_strings_.headD "") with
              | error e => rw [hs] at hadd; cases hadd
              | ok d =>
                rw [hs] at hadd
                simp only [Argument.set_dest, hv, hne, if_false, Except.ok.injEq] at hadd
                subst hadd
                exact hne hpos
            · simp only [hl, if_false, Argument.set_dest, hv, hne, Except.ok.injEq] at hadd
              subst hadd
              exact hne hpos
          · have hl : v.dest_.length = 0 := by
              rw [hkd hact]
              rfl
            simp only [hl, if_true] at hadd
            cases hs : Argument.strip_leading prefix_char (v.option_strings_.headD "") with
            | error e => rw [hs] at hadd; cases hadd
            | ok d =>
              rw [hs] at hadd
              simp only [Argument.set_dest, hv, hne, if_false, Except.ok.injEq] at hadd
              subst hadd
              refine ⟨fun h => absurd h hne, fun _ _ => ⟨hko, hall, d, ?_, rfl⟩⟩
              rw [← hko, hfl]
              exact hs
    · obtain ⟨hko, hp, hkd⟩ := hk
      try simp only at hko hp hkd
      have hv : ¬ v.type_ = .optional_argument := by rw [hp]; decide
      simp only [hp, if_true, if_false, Except.ok.injEq] at hadd
      simp only [show ¬ (ArgumentType.positional_argument = ArgumentType.optional_argument) by decide,
        if_false, Except.ok.injEq] at hadd
      subst hadd
      refine ⟨fun _ => rfl, fun h => ?_⟩
      exfalso
      simp only [Argument.set_dest] at h
      have hne2 : ¬ (ArgumentType.positional_argument = ArgumentType.optional_argument) := by
        decide
      split at h
      · exact hne2 h
      · exact hv h

/-! ### Lemmas for a single plain token given to a positional of arity none -/

theorem match_partial_single_none (p : ParserCore) (i : Nat)
    (hkind : (p.arg i).nargs_.type_ = .none) :
    p.__match_arguments_partial [i] ['A'] = [1] := by
  have hs : regex_search ((p.arg i).nargs_.get_nargs_pattern false) (p.window_tail []) ['A']
      = some 1 := by
    apply regex_search_of_match_here
    simp [NArgs.get_nargs_pattern, nargs_pattern_base, hkind, ParserCore.window_tail, match_here,
      matchAtoms, matchStar, dashStar, litA]
  simp [ParserCore.__match_arguments_partial, ParserCore.match_windows, hs]

theorem parse_known_args_plain_token (p : ParserCore) (subs : ChildTable) (ret : Namespace)
    (i : Nat) (v : String) (hq : p.__get_positional_args = [i]) (hplain : p.plain v)
    (hkind : (p.arg i).nargs_.type_ = .none) :
    p.__parse_known_args subs ret [v]
      = match p.__take_argument subs
            { ret := ret, positionals := [i], seen_args := [], seen_non_default_args := [],
              extras := [] } i [v] with
        | .error e => .error e
        | .ok st =>
          if (p.required_args st.seen_args).length ≠ 0 then
            .error (.invalid_argument ("the following arguments are required: "
              ++ join (p.required_args st.seen_args) ", "))
          else
            match p.unused_required_group st.seen_non_default_args with
            | some names =>
              .error (.logic_error ("one of the arguments " ++ join names " " ++ " is required"))
            | none => .ok (st.ret, st.extras) := by
  unfold ParserCore.__parse_known_args
  rw [classify_plain p [v] 0 (by simpa using hplain)]
  simp only
  rw [consume_loop_done _ _ _ _ _ _ _ _ (by simp [ParserCore.max_option_string_indices])]
  simp only [ParserCore.__consume_positionals, hq, List.drop_zero, List.length_singleton,
    List.replicate_one, match_partial_single_none p i hkind, ParserCore.take_positionals,
    List.take_succ_cons, List.take_zero]
  cases ht : p.__take_argument subs
      { ret := ret, positionals := [i], seen_args := [], seen_non_default_args := [],
        extras := [] } i [v] with
  | error e => rfl
  | ok st => simp [ParserCore.take_positionals]

theorem get_values_bad_choice (a : Argument) (v : String) (hkind : a.nargs_.type_ = .none)
    (hv : v ≠ "--") (hne : v ≠ "") (hc : a.choices_ ≠ []) (hnot : v ∉ a.choices_) :
    a.__get_values [v]
      = .error (argument_error a
          ("invalid choice: " ++ v ++ " (choose from " ++ a.get_choice_str ++ ")")) := by
  have hl : a.choices_.length ≠ 0 := fun e => hc (List.length_eq_zero.mp e)
  have hvl := length_ne_zero_of_ne_empty v hne
  unfold Argument.__get_values
  simp [hkind, hv, hl, Argument.bad_choice, hvl, hnot]

/-! ### Lemmas for tokens that look like negative numbers -/

theorem negative_number_shape (t : String) (h : ParserCore.__match_negative_number t = true) :
    ∃ rest, t.data = '-' :: rest ∧ rest ≠ []
      ∧ ∀ c ∈ rest, ParserCore.is_digit c = true ∨ c = '.' := by
  unfold ParserCore.__match_negative_number at h
  split at h
  · rename_i rest hdata
    refine ⟨rest, hdata, ?_, ?_⟩
    · intro hr
      subst hr
      simp at h
    · have hsplit : rest = rest.takeWhile ParserCore.is_digit ++ rest.dropWhile ParserCore.is_digit :=
        (List.takeWhile_append_dropWhile _ _).symm
      have htake : ∀ c ∈ rest.takeWhile ParserCore.is_digit, ParserCore.is_digit c = true :=
        fun c hc => List.mem_takeWhile_imp hc
      simp only [Bool.or_eq_true, Bool.and_eq_true, decide_eq_true_eq] at h
      intro c hc
      rw [hsplit] at hc
      rcases List.mem_append.mp hc with hc | hc
      · exact Or.inl (htake c hc)
      · rcases h with ⟨_, h2⟩ | h
        · have : rest.dropWhile ParserCore.is_digit = [] := List.length_eq_zero.mp h2
          rw [this] at hc
          cases hc
        · split at h
          · rename_i frac hfrac
            rw [hfrac] at hc
            simp only [Bool.and_eq_true, decide_eq_true_eq, List.all_eq_true] at h
            rcases List.mem_cons.mp hc with e | e
            · exact Or.inr e
            · exact Or.inl (h.2 c e)
          · cases h
  · cases h

theorem negative_number_facts (t : String) (h : ParserCore.__match_negative_number t = true) :
    2 ≤ t.length ∧ charAt t 0 = '-' ∧ charAt t 1 ≠ '-' ∧ '=' ∉ t.data ∧ ' ' ∉ t.data
      ∧ t ≠ "--" := by
  obtain ⟨rest, hdata, hne, hall⟩ := negative_number_shape t h
  have hch : ∀ c, (ParserCore.is_digit c = true ∨ c = '.') → c ≠ '-' ∧ c ≠ '=' ∧ c ≠ ' ' := by
    intro c hc
    rcases hc with hc | hc
    · refine ⟨?_, ?_, ?_⟩ <;> (intro e; rw [e] at hc; exact absurd hc (by decide))
    · rw [hc]; decide
  obtain ⟨c, tl, hrest⟩ : ∃ c tl, rest = c :: tl := by
    cases rest with
    | nil => exact absurd rfl hne
    | cons c tl => exact ⟨c, tl, rfl⟩
  have hc1 := hch c (hall c (by rw [hrest]; simp))
  refine ⟨?_, ?_, ?_, ?_, ?_, ?_⟩
  · show 2 ≤ t.data.length
    rw [hdata, hrest]
    simp
  · simp [charAt, hdata]
  · simp [charAt, hdata, hrest, hc1.1]
  · rw [hdata]
    simp only [List.mem_cons, not_or]
    refine ⟨by decide, ?_⟩
    intro hm
    exact (hch _ (hall _ hm)).2.1 rfl
  · rw [hdata]
    simp only [List.mem_cons, not_or]
    refine ⟨by decide, ?_⟩
    intro hm
    exact (hch _ (hall _ hm)).2.2 rfl
  · intro e
    rw [e] at hdata
    simp only [String.data, List.cons.injEq, true_and] at hdata
    have : c = '-' := by
      rw [hrest] at hdata
      simp only [List.cons.injEq] at hdata
      exact hdata.1.symm
    exact hc1.1 this

theorem short_option_tuples_nil (p : ParserCore) (t : String)
    (h2 : p.find_option (substrTo t 2) = none)
    (hno : ∀ m ∈ p.optional_args_map_, startsWithChars t.data m.1.data = false) :
    p.short_option_tuples t = [] := by
  unfold ParserCore.short_option_tuples
  rw [List.filterMap_eq_nil_iff]
  intro m hm
  have h1 : m.1 ≠ substrTo t 2 := (find_option_none_iff p _).mp h2 m hm
  have hr : rfind m.1 t ≠ some 0 := by
    intro h
    have := prefix_of_rfind_zero _ _ h
    rw [hno m hm] at this
    cases this
  simp [h1, hr]

theorem parse_optional_negative (p : ParserCore) (t : String)
    (hneg : ParserCore.__match_negative_number t = true)
    (hpre : p.prefix_char_ = '-')
    (hnone : p.find_option t = none)
    (h2 : p.find_option (substrTo t 2) = none)
    (hno : ∀ m ∈ p.optional_args_map_, startsWithChars t.data m.1.data = false) :
    p.__parse_optional t
      = .ok (if p.has_negative_number_options_ then some ("", none, "") else none) := by
  obtain ⟨hlen, h0, h1, heq, hsp, _⟩ := negative_number_facts t hneg
  have hl0 : t.length ≠ 0 := by omega
  have hl1 : t.length ≠ 1 := by omega
  have hc0 : charAt t 0 = p.prefix_char_ := by rw [hpre]; exact h0
  have hc1 : charAt t 1 ≠ p.prefix_char_ := by rw [hpre]; exact h1
  unfold ParserCore.__parse_optional
  simp only [hl0, hl1, hc0, hc1, hnone, findChar_none '=' t.data heq, if_false, ne_eq,
    not_true_eq_false, ge_iff_le, hlen, and_self, if_true, and_false, not_false_eq_true,
    true_and, short_option_tuples_nil p t h2 hno, hneg, hsp]
  cases p.has_negative_number_options_ <;> simp

theorem any_insert_or_assign (f : String → Bool) (m : List (String × Nat)) (key : String)
    (it : Nat) :
    (ParserCore.insert_or_assign m key it).any (fun e => f e.1)
      = (m.any (fun e => f e.1) || f key) := by
  induction m with
  | nil => simp [ParserCore.insert_or_assign]
  | cons e m ih =>
    obtain ⟨k, v⟩ := e
    by_cases hk : k = key
    · subst hk
      simp only [ParserCore.insert_or_assign, if_true, List.any_cons]
      cases f k <;> simp
    · simp only [ParserCore.insert_or_assign, hk, if_false, List.any_cons, ih]
      cases f k <;> simp

theorem any_foldl_insert (f : String → Bool) (keys : List String) (m : List (String × Nat))
    (it : Nat) :
    (keys.foldl (fun acc s => ParserCore.insert_or_assign acc s it) m).any (fun e => f e.1)
      = (m.any (fun e => f e.1) || keys.any f) := by
  induction keys generalizing m with
  | nil => simp
  | cons k keys ih =>
    simp only [List.foldl_cons, ih, any_insert_or_assign, List.any_cons, Bool.or_assoc]

theorem add_argument_flag (p q : ParserCore) (act : ActionKind) (flags : List String)
    (setters : Argument → Except Error Argument)
    (hadd : p.add_argument act flags setters = .ok q)
    (hp : p.has_negative_number_options_ = p.registered_negative) :
    q.has_negative_number_options_ = q.registered_negative := by
  unfold ParserCore.add_argument at hadd
  simp only [bind, Except.bind, pure, Except.pure] at hadd
  generalize Argument.__add_name_or_flags p.prefix_char_ act flags = r1 at hadd
  cases r1 with
  | error e => cases hadd
  | ok a1 =>
    simp only at hadd
    split at hadd
    · cases hadd
    · generalize setters a1 = r2 at hadd
      cases r2 with
      | error e => cases hadd
      | ok a2 =>
        simp only at hadd
        split at hadd
        · cases hadd
        · simp only [Except.ok.injEq] at hadd
          subst hadd
          simp only [ParserCore.registered_negative, any_foldl_insert, hp]

/-! ### The main loop at an option index -/

theorem next_index_foldl_ge (l : List (Nat × OptTuple)) (start r : Nat) (h : start ≤ r) :
    start ≤ l.foldl (fun ret m => if m.1 ≥ start then min ret m.1 else ret) r := by
  induction l generalizing r with
  | nil => simpa using h
  | cons e l ih =>
    simp only [List.foldl_cons]
    apply ih
    split
    · rename_i he
      exact Nat.le_min.mpr ⟨h, he⟩
    · exact h

theorem next_index_foldl_le (l : List (Nat × OptTuple)) (start r : Nat) :
    l.foldl (fun ret m => if m.1 ≥ start then min ret m.1 else ret) r ≤ r := by
  induction l generalizing r with
  | nil => simp
  | cons e l ih =>
    simp only [List.foldl_cons]
    refine Nat.le_trans (ih _) ?_
    split
    · exact Nat.min_le_left _ _
    · exact Nat.le_refl _

theorem next_index_foldl_mem (l : List (Nat × OptTuple)) (start r : Nat) :
    l.foldl (fun ret m => if m.1 ≥ start then min ret m.1 else ret) r = r
      ∨ ∃ e ∈ l, e.1 = l.foldl (fun ret m => if m.1 ≥ start then min ret m.1 else ret) r := by
  induction l generalizing r with
  | nil => exact Or.inl rfl
  | cons e l ih =>
    simp only [List.foldl_cons]
    rcases ih (if e.1 ≥ start then min r e.1 else r) with h | ⟨x, hx, hxe⟩
    · rw [h]
      split
      · rename_i he
        by_cases hle : r ≤ e.1
        · exact Or.inl (Nat.min_eq_left hle)
        · exact Or.inr ⟨e, by simp, (Nat.min_eq_right (by omega)).symm⟩
      · exact Or.inl rfl
    · exact Or.inr ⟨x, by simp [hx], hxe⟩

theorem next_index_foldl_le_mem (l : List (Nat × OptTuple)) (start r : Nat)
    (e : Nat × OptTuple) (he : e ∈ l) (hs : start ≤ e.1) :
    l.foldl (fun ret m => if m.1 ≥ start then min ret m.1 else ret) r ≤ e.1 := by
  induction l generalizing r with
  | nil => cases he
  | cons x l ih =>
    simp only [List.foldl_cons]
    rcases List.mem_cons.mp he with rfl | hm
    · refine Nat.le_trans (next_index_foldl_le _ _ _) ?_
      simp only [ge_iff_le, hs, if_true]
      exact Nat.min_le_right _ _
    · exact ih _ hm

theorem next_index_at_option (indices : List (Nat × OptTuple)) (start : Nat)
    (hmem : ∃ e ∈ indices, e.1 = start) (hb : start ≤ 2147483647) :
    ParserCore.next_option_string_index indices start = start := by
  obtain ⟨e, he, hes⟩ := hmem
  unfold ParserCore.next_option_string_index
  apply Nat.le_antisymm
  · have := next_index_foldl_le_mem indices start 2147483647 e he (by omega)
    omega
  · exact next_index_foldl_ge indices start 2147483647 hb

theorem max_index_foldl_ge (l : List (Nat × OptTuple)) (r : Int) :
    r ≤ l.foldl (fun ret m => max ret (m.1 : Int)) r := by
  induction l generalizing r with
  | nil => simp
  | cons e l ih =>
    simp only [List.foldl_cons]
    exact Int.le_trans (Int.le_max_left _ _) (ih _)

theorem max_index_foldl_mem (l : List (Nat × OptTuple)) (r : Int) (e : Nat × OptTuple)
    (he : e ∈ l) : (e.1 : Int) ≤ l.foldl (fun ret m => max ret (m.1 : Int)) r := by
  induction l generalizing r with
  | nil => cases he
  | cons x l ih =>
    simp only [List.foldl_cons]
    rcases List.mem_cons.mp he with rfl | hm
    · exact Int.le_trans (Int.le_max_right _ _) (max_index_foldl_ge _ _)
    · exact ih _ hm

theorem max_index_foldl_le (l : List (Nat × OptTuple)) (r b : Int) (hr : r ≤ b)
    (h : ∀ e ∈ l, (e.1 : Int) ≤ b) :
    l.foldl (fun ret m => max ret (m.1 : Int)) r ≤ b := by
  induction l generalizing r with
  | nil => simpa using hr
  | cons e l ih =>
    simp only [List.foldl_cons]
    apply ih
    · exact Int.max_le.mpr ⟨hr, h e (by simp)⟩
    · intro x hx
      exact h x (by simp [hx])

theorem max_index_ge (indices : List (Nat × OptTuple)) (e : Nat × OptTuple)
    (he : e ∈ indices) : (e.1 : Int) ≤ ParserCore.max_option_string_indices indices :=
  max_index_foldl_mem indices (-1) e he

theorem index_tuple_mem (indices : List (Nat × OptTuple)) (start : Nat)
    (hmem : ∃ e ∈ indices, e.1 = start) :
    ∃ e ∈ indices, e.1 = start ∧ ParserCore.index_tuple indices start = e.2 := by
  unfold ParserCore.index_tuple
  cases hf : indices.find? (fun m => decide (m.1 = start)) with
  | none =>
    obtain ⟨e, he, hes⟩ := hmem
    rw [List.find?_eq_none] at hf
    have := hf e he
    simp [hes] at this
  | some x =>
    have h1 := List.find?_some hf
    have h2 := List.mem_of_find?_eq_some hf
    exact ⟨x, h2, by simpa using h1, rfl⟩

theorem consume_loop_at_option (p : ParserCore) (subs : ChildTable)
    (indices : List (Nat × OptTuple)) (arg_strings : List String) (pattern : List Char)
    (fuel : Nat) (st : ParseState) (start : Nat)
    (hmem : ∃ e ∈ indices, e.1 = start) (hb : start ≤ 2147483647) :
    p.consume_loop subs indices arg_strings pattern (fuel + 1) st start
      = match p.__consume_optionals subs indices st start arg_strings pattern with
        | .error e => .error e
        | .ok (st1, next) =>
          p.consume_loop subs indices arg_strings pattern fuel st1 next := by
  have hnext := next_index_at_option indices start hmem hb
  obtain ⟨e, he, hes⟩ := hmem
  have hmax : (start : Int) ≤ ParserCore.max_option_string_indices indices := by
    rw [← hes]
    exact max_index_ge indices e he
  have hall : indices.all (fun m => decide (m.1 ≠ start)) = false := by
    rw [List.all_eq_false]
    exact ⟨e, he, by simp [hes]⟩
  conv_lhs => unfold ParserCore.consume_loop
  simp only [hmax, hnext, if_true, ne_eq, not_true_eq_false, if_false, false_and, hall,
    Bool.false_eq_true]

theorem consume_positionals_empty (p : ParserCore) (subs : ChildTable) (st : ParseState)
    (start : Nat) (arg_strings : List String) (pattern : List Char)
    (h : st.positionals = []) :
    p.__consume_positionals subs st start arg_strings pattern = .ok (st, start) := by
  simp [ParserCore.__consume_positionals, ParserCore.__match_arguments_partial, h,
    ParserCore.match_windows, ParserCore.take_positionals]

theorem consume_optionals_unresolved (p : ParserCore) (subs : ChildTable)
    (indices : List (Nat × OptTuple)) (st : ParseState) (start : Nat)
    (arg_strings : List String) (pattern : List Char) (s e : String)
    (hidx : ParserCore.index_tuple indices start = (s, none, e)) :
    p.__consume_optionals subs indices st start arg_strings pattern
      = .ok ({ st with extras := st.extras ++ [arg_strings.getD start ""] }, start + 1) := by
  unfold ParserCore.__consume_optionals
  rw [hidx]

theorem take_drop_step (l : List String) (a b c : Nat) (d : String)
    (hab : a ≤ b) (hb : b < l.length) (hc : b + 1 ≤ c) :
    (l.drop a).take (b - a) ++ [l.getD b d] ++ (l.drop (b + 1)).take (c - (b + 1))
      = (l.drop a).take (c - a) := by
  have h1 : c - a = (b - a) + (1 + (c - (b + 1))) := by omega
  rw [h1, List.take_add, List.drop_drop]
  have h2 : a + (b - a) = b := by omega
  rw [h2, List.drop_eq_getElem_cons hb, List.getD_eq_getElem _ _ hb, Nat.add_comm 1,
    List.take_succ_cons, List.append_assoc]
  rfl

theorem max_index_lt (indices : List (Nat × OptTuple)) (n : Nat)
    (hkeys : ∀ e ∈ indices, e.1 < n) :
    ParserCore.max_option_string_indices indices < (n : Int) := by
  have := max_index_foldl_le indices (-1) ((n : Int) - 1) (by omega)
    (fun e he => by have := hkeys e he; omega)
  unfold ParserCore.max_option_string_indices
  omega

theorem max_index_foldl_attained (l : List (Nat × OptTuple)) (r : Int) :
    l.foldl (fun ret m => max ret (m.1 : Int)) r = r
      ∨ ∃ e ∈ l, (e.1 : Int) = l.foldl (fun ret m => max ret (m.1 : Int)) r := by
  induction l generalizing r with
  | nil => exact Or.inl rfl
  | cons e l ih =>
    simp only [List.foldl_cons]
    rcases ih (max r (e.1 : Int)) with h | ⟨x, hx, hxe⟩
    · rw [h]
      by_cases hle : (e.1 : Int) ≤ r
      · exact Or.inl (max_eq_left hle)
      · exact Or.inr ⟨e, by simp, (max_eq_right (by omega)).symm⟩
    · exact Or.inr ⟨x, by simp [hx], hxe⟩

theorem consume_loop_unresolved (p : ParserCore) (subs : ChildTable)
    (indices : List (Nat × OptTuple)) (ts : List String) (pattern : List Char)
    (hunres : ∀ e ∈ indices, e.2.2.1 = none)
    (hkeys : ∀ e ∈ indices, e.1 < ts.length)
    (hlen : ts.length ≤ 2147483647)
    (fuel : Nat) (st : ParseState) (start : Nat)
    (hpos : st.positionals = [])
    (hfuel : ts.length + 1 ≤ fuel + start) :
    ∃ stop, p.consume_loop subs indices ts pattern fuel st start
        = .ok ({ st with extras := st.extras ++ (ts.drop start).take (stop - start) }, stop)
      ∧ start ≤ stop := by
  have hmaxlt := max_index_lt indices ts.length hkeys
  induction fuel generalizing st start with
  | zero =>
    refine ⟨start, ?_, Nat.le_refl _⟩
    have hnot : ¬ ((start : Int) ≤ ParserCore.max_option_string_indices indices) := by omega
    simp [ParserCore.consume_loop, hnot]
  | succ fuel ih =>
    by_cases hle : (start : Int) ≤ ParserCore.max_option_string_indices indices
    · -- an option index at or after `start`
      obtain ⟨e0, he0, he0s⟩ : ∃ e ∈ indices, start ≤ e.1 := by
        rcases max_index_foldl_attained indices (-1) with h | ⟨e, he, hee⟩
        · unfold ParserCore.max_option_string_indices at hle
          rw [h] at hle
          omega
        · refine ⟨e, he, ?_⟩
          unfold ParserCore.max_option_string_indices at hle
          omega
      have hsl : start < ts.length := by
        have := hkeys e0 he0
        omega
      have hnx_le : ParserCore.next_option_string_index indices start ≤ e0.1 :=
        next_index_foldl_le_mem indices start 2147483647 e0 he0 he0s
      have hnx_ge : start ≤ ParserCore.next_option_string_index indices start :=
        next_index_foldl_ge indices start 2147483647 (by omega)
      have hnx_mem : ∃ e ∈ indices,
          e.1 = ParserCore.next_option_string_index indices start := by
        rcases next_index_foldl_mem indices start 2147483647 with h | h
        · exfalso
          have := hkeys e0 he0
          unfold ParserCore.next_option_string_index at hnx_le
          omega
        · exact h
      generalize hnx : ParserCore.next_option_string_index indices start = nx at *
      have hnxl : nx < ts.length := by
        have := hkeys e0 he0
        omega
      obtain ⟨e1, he1, he1k, he1t⟩ := index_tuple_mem indices nx hnx_mem
      have hidx : ParserCore.index_tuple indices nx = (e1.2.1, none, e1.2.2.2) := by
        rw [he1t]
        have := hunres e1 he1
        obtain ⟨k, a, b, c⟩ := e1
        simp only at this
        subst this
        rfl
      by_cases hs : start = nx
      · subst hs
        rw [consume_loop_at_option p subs indices ts pattern fuel st start hnx_mem (by omega),
          consume_optionals_unresolved p subs indices st start ts pattern _ _ hidx]
        simp only
        obtain ⟨stop, hstop, hge⟩ := ih { st with extras := st.extras ++ [ts.getD start ""] }
          (start + 1) hpos (by omega)
        refine ⟨stop, ?_, by omega⟩
        rw [hstop]
        have := take_drop_step ts start start stop "" (Nat.le_refl _) hsl hge
        simp only [Nat.sub_self, List.take_zero, List.nil_append] at this
        simp only [List.append_assoc, this]
      · have hlt : start < nx := by omega
        have hnotkey : indices.all (fun m => decide (m.1 ≠ start)) = true := by
          rw [List.all_eq_true]
          intro m hm
          simp only [ne_eq, decide_eq_true_eq]
          intro hms
          have := next_index_at_option indices start ⟨m, hm, hms⟩ (by omega)
          rw [hnx] at this
          exact hs this.symm
        have hstep : p.consume_loop subs indices ts pattern (fuel + 1) st start
            = match p.__consume_optionals subs indices
                  { st with extras := st.extras ++ (ts.drop start).take (nx - start) } nx ts
                  pattern with
              | .error e => .error e
              | .ok (st1, next) => p.consume_loop subs indices ts pattern fuel st1 next := by
          conv_lhs => unfold ParserCore.consume_loop
          simp only [hle, hnx, if_true, ne_eq, hs, not_false_eq_true,
            consume_positionals_empty p subs st start ts pattern hpos, gt_iff_lt,
            Nat.lt_irrefl, and_false, if_false, hnotkey]
        rw [hstep, consume_optionals_unresolved p subs indices _ nx ts pattern _ _ hidx]
        simp only
        obtain ⟨stop, hstop, hge⟩ := ih
          { st with extras := st.extras ++ (ts.drop start).take (nx - start)
              ++ [ts.getD nx ""] }
          (nx + 1) hpos (by omega)
        refine ⟨stop, ?_, by omega⟩
        rw [hstop]
        have := take_drop_step ts start nx stop "" (by omega) hnxl hge
        simp only [List.append_assoc] at this ⊢
        rw [this]
    · refine ⟨start, ?_, Nat.le_refl _⟩
      rw [consume_loop_done p subs indices ts pattern (fuel + 1) st start hle]
      simp

theorem classify_keys (p : ParserCore) (ts : List String) (i0 : Nat) (pattern : List Char)
    (indices : List (Nat × OptTuple)) (h : p.classify ts i0 = .ok (pattern, indices)) :
    ∀ e ∈ indices, i0 ≤ e.1 ∧ e.1 < i0 + ts.length := by
  induction ts generalizing i0 pattern indices with
  | nil =>
    simp only [ParserCore.classify, Except.ok.injEq, Prod.mk.injEq] at h
    intro e he
    rw [← h.2] at he
    cases he
  | cons t ts ih =>
    unfold ParserCore.classify at h
    split at h
    · simp only [Except.ok.injEq, Prod.mk.injEq] at h
      intro e he
      rw [← h.2] at he
      cases he
    · cases hp : p.__parse_optional t with
      | error e => rw [hp] at h; cases h
      | ok r =>
        rw [hp] at h
        simp only at h
        cases hc : p.classify ts (i0 + 1) with
        | error e => rw [hc] at h; cases h
        | ok pr =>
          obtain ⟨pat, idx⟩ := pr
          rw [hc] at h
          simp only at h
          have hrec := ih (i0 + 1) pat idx hc
          cases r with
          | none =>
            simp only [Except.ok.injEq, Prod.mk.injEq] at h
            intro e he
            rw [← h.2] at he
            have := hrec e he
            simp only [List.length_cons]
            omega
          | some tup =>
            simp only [Except.ok.injEq, Prod.mk.injEq] at h
            intro e he
            rw [← h.2] at he
            rcases List.mem_cons.mp he with rfl | hm
            · simp
            · have := hrec e hm
              simp only [List.length_cons]
              omega

theorem unused_required_group_no_required (p : ParserCore) (seen : List Nat)
    (h : ∀ g ∈ p.mutually_exclusive_groups_, g.required_ = false) :
    p.unused_required_group seen = none := by
  unfold ParserCore.unused_required_group
  rw [Option.map_eq_none', List.find?_eq_none]
  intro g hg
  simp [h g hg]

theorem parse_known_args_unresolved (p : ParserCore) (subs : ChildTable) (ret : Namespace)
    (ts : List String) (pattern : List Char) (indices : List (Nat × OptTuple))
    (hclass : p.classify ts 0 = .ok (pattern, indices))
    (hunres : ∀ e ∈ indices, e.2.2.1 = none)
    (hlen : ts.length ≤ 2147483647)
    (hnopos : p.__get_positional_args = [])
    (hreq : ∀ a ∈ p.args_list_, a.required_ = false)
    (hgrp : ∀ g ∈ p.mutually_exclusive_groups_, g.required_ = false) :
    p.__parse_known_args subs ret ts = .ok (ret, ts) := by
  have hkeys : ∀ e ∈ indices, e.1 < ts.length := by
    intro e he
    have := (classify_keys p ts 0 pattern indices hclass e he).2
    omega
  obtain ⟨stop, hloop, _⟩ := consume_loop_unresolved p subs indices ts pattern hunres hkeys hlen
    (ts.length + 1)
    { ret := ret, positionals := p.__get_positional_args, seen_args := [],
      seen_non_default_args := [], extras := [] } 0 hnopos (by omega)
  unfold ParserCore.__parse_known_args
  simp only [hclass, hloop]
  rw [consume_positionals_empty p subs _ stop ts pattern hnopos]
  simp only [required_args_nil p _ hreq, List.length_nil, ne_eq, not_true_eq_false, if_false,
    unused_required_group_no_required p _ hgrp, List.drop_zero, Nat.sub_zero, List.nil_append,
    List.take_append_drop]

/-! ### Lemmas for an option supplied several times -/

theorem index_set_values (ns : Namespace) (k k2 : String) (v : List String) :
    Namespace.index (Namespace.set_values ns k v) k2
      = if k = k2 then v else Namespace.index ns k2 := by
  unfold Namespace.index
  rw [get?_set_values]
  split <;> rfl

theorem mark_required_idem (a : Argument) : a.mark_required.mark_required = a.mark_required := by
  obtain ⟨os, act, n, r, h, d, c, t, cv, dv⟩ := a
  obtain ⟨nt, nn⟩ := n
  cases t <;> cases nt <;> cases dv <;> simp [Argument.mark_required]

theorem initializeArgument_marked (a : Argument) :
    a.mark_required.initializeArgument = a.initializeArgument := by
  rw [initializeArgument_eq, initializeArgument_eq, mark_required_idem]

theorem add_defaults_initialized (l l2 : List Argument) (ret : Namespace)
    (h : initialized_list l l2 = true) :
    ParserCore.add_defaults l2 ret = ParserCore.add_defaults l ret := by
  induction l generalizing l2 ret with
  | nil =>
    cases l2 with
    | nil => rfl
    | cons b l2 => simp [initialized_list] at h
  | cons a l ih =>
    cases l2 with
    | nil => simp [initialized_list] at h
    | cons b l2 =>
      simp only [initialized_list, Bool.and_eq_true, Bool.or_eq_true, decide_eq_true_eq] at h
      obtain ⟨hb, hl⟩ := h
      have hinit : b.initializeArgument = a.initializeArgument := by
        rcases hb with rfl | rfl
        · rfl
        · exact initializeArgument_marked a
      conv_lhs => unfold ParserCore.add_defaults
      conv_rhs => unfold ParserCore.add_defaults
      rw [hinit]
      cases a.initializeArgument with
      | error e => rfl
      | ok a2 =>
        simp only
        rw [ih l2 _ hl]

theorem core_parse_known_args_initialized (p q : ParserCore) (subs : ChildTable)
    (ret : Namespace) (ts : List String) (h : p.initialized_to q = true) :
    q.parse_known_args subs ret ts = p.parse_known_args subs ret ts := by
  obtain ⟨pn, pc, ab, ex, al, om, mg, hn⟩ := p
  obtain ⟨pn2, pc2, ab2, ex2, al2, om2, mg2, hn2⟩ := q
  simp only [ParserCore.initialized_to, Bool.and_eq_true, decide_eq_true_eq] at h
  obtain ⟨⟨⟨⟨⟨⟨⟨rfl, rfl⟩, rfl⟩, rfl⟩, hl⟩, rfl⟩, rfl⟩, rfl⟩ := h
  simp only [ParserCore.parse_known_args]
  rw [add_defaults_initialized al al2 ret hl]

mutual
theorem parse_args_initialized : ∀ (q q2 : ArgumentParser),
    q.initialized_to q2 = true → ∀ ts, q2.parse_args ts = q.parse_args ts
  | .mk core m, .mk core2 m2, h, ts => by
    simp only [ArgumentParser.initialized_to, Bool.and_eq_true] at h
    simp only [ArgumentParser.parse_args, ParserCore.parse_args]
    rw [child_table_initialized m m2 h.2,
      core_parse_known_args_initialized core core2 _ [] ts h.1]
theorem child_table_initialized : ∀ (m m2 : List (String × ArgumentParser)),
    ArgumentParser.children_initialized_to m m2 = true →
    ArgumentParser.child_table m2 = ArgumentParser.child_table m
  | [], [], _ => rfl
  | (n, c) :: rest, (n2, c2) :: rest2, h => by
    simp only [ArgumentParser.children_initialized_to, Bool.and_eq_true,
      decide_eq_true_eq] at h
    obtain ⟨⟨rfl, hc⟩, hr⟩ := h
    simp only [ArgumentParser.child_table]
    rw [child_table_initialized rest rest2 hr]
    have : (fun arg_strings => ArgumentParser.parse_args c2 arg_strings)
        = (fun arg_strings => ArgumentParser.parse_args c arg_strings) := by
      funext ts
      exact parse_args_initialized c c2 hc ts
    rw [this]
  | [], _ :: _, h => by simp [ArgumentParser.children_initialized_to] at h
  | _ :: _, [], h => by simp [ArgumentParser.children_initialized_to] at h
end

theorem initialized_list_refl (l : List Argument) : initialized_list l l = true := by
  induction l with
  | nil => rfl
  | cons a l ih => simp [initialized_list, ih]

theorem core_initialized_refl (p : ParserCore) : p.initialized_to p = true := by
  simp [ParserCore.initialized_to, initialized_list_refl]

mutual
theorem initialized_refl : ∀ (q : ArgumentParser), q.initialized_to q = true
  | .mk core m => by
    simp only [ArgumentParser.initialized_to, core_initialized_refl, children_initialized_refl m,
      Bool.and_self]
theorem children_initialized_refl : ∀ (m : List (String × ArgumentParser)),
    ArgumentParser.children_initialized_to m m = true
  | [] => rfl
  | (n, c) :: rest => by
    simp only [ArgumentParser.children_initialized_to, initialized_refl c,
      children_initialized_refl rest, decide_True, Bool.and_self]
end

theorem finalize_pass_initialized (l : List Argument) :
    initialized_list l (ParserCore.finalize_pass l) = true := by
  induction l with
  | nil => rfl
  | cons a l ih =>
    unfold ParserCore.finalize_pass
    split
    · simp [initialized_list, ih]
    · simp [initialized_list, initialized_list_refl]

theorem add_defaults_finalize_pass (l : List Argument) (ret ret2 : Namespace)
    (args : List Argument) (h : ParserCore.add_defaults l ret = .ok (args, ret2)) :
    ParserCore.finalize_pass l = args := by
  induction l generalizing ret args with
  | nil =>
    simp only [ParserCore.add_defaults, Except.ok.injEq, Prod.mk.injEq] at h
    rw [← h.1]
    rfl
  | cons a l ih =>
    unfold ParserCore.add_defaults at h
    rw [initializeArgument_eq] at h
    unfold ParserCore.finalize_pass
    cases hv : a.mark_required.action_.validate a.mark_required with
    | error e => simp [hv] at h
    | ok u =>
      simp only [hv] at h
      generalize hrest : ParserCore.add_defaults l _ = r at h
      cases r with
      | error e => simp at h
      | ok pr =>
        obtain ⟨args2, ret3⟩ := pr
        simp only [Except.ok.injEq, Prod.mk.injEq] at h
        obtain ⟨h1, h2⟩ := h
        subst h2
        rw [← h1, ih _ _ hrest]

theorem after_finalize_initialized (q : ArgumentParser) :
    q.initialized_to q.after_finalize = true := by
  obtain ⟨core, m⟩ := q
  simp [ArgumentParser.after_finalize, ArgumentParser.initialized_to,
    ParserCore.initialized_to, finalize_pass_initialized, children_initialized_refl]

/-! ### Required specs, choices, extras, append, dest names and repeated parses -/

/-- C21: let the tokens be classified and consumed without error, `st2` being the state after the
last positional run. (1) If some spec marked required is not in `seen_args`, `__parse_known_args`
throws one `invalid_argument` whose message is "the following arguments are required: " followed
by the display names of all those specs joined by ", ". (2) That list holds exactly the display
names of the specs that are required and not seen, and it is a sublist of the display names in
declaration order. (3) It is empty exactly when every required spec was seen, and then the error
is not raised: the outcome is that of the required-group check. On the parser with the required
option `--a`, the positional `p` and the required option `--b`, no token gives "--a, p, --b",
`--b 1` gives "--a, p", and `--b 1 --a 2 x` succeeds. -/
theorem C21_required_check (p : ParserCore) (subs : ChildTable) (ret : Namespace)
    (arg_strings : List String) (pattern : List Char) (indices : List (Nat × OptTuple))
    (st1 st2 : ParseState) (i1 i2 : Nat)
    (hclass : p.classify arg_strings 0 = .ok (pattern, indices))
    (hloop : p.consume_loop subs indices arg_strings pattern (arg_strings.length + 1)
        { ret := ret, positionals := p.__get_positional_args, seen_args := [],
          seen_non_default_args := [], extras := [] } 0 = .ok (st1, i1))
    (hpos : p.__consume_positionals subs st1 i1 arg_strings pattern = .ok (st2, i2)) :
    (p.required_args st2.seen_args ≠ [] →
      p.__parse_known_args subs ret arg_strings
        = .error (.invalid_argument ("the following arguments are required: "
            ++ join (p.required_args st2.seen_args) ", ")))
    ∧ (∀ name, name ∈ p.required_args st2.seen_args
        ↔ ∃ i, i < p.args_list_.length ∧ i ∉ st2.seen_args ∧ (p.arg i).required_ = true
            ∧ name = (p.arg i).get_argument_name)
    ∧ List.Sublist (p.required_args st2.seen_args)
        (p.args_list_.map (fun a => a.get_argument_name))
    ∧ (p.required_args st2.seen_args = []
        ↔ ∀ i, i < p.args_list_.length → (p.arg i).required_ = true → i ∈ st2.seen_args)
    ∧ (p.required_args st2.seen_args = [] →
      p.__parse_known_args subs ret arg_strings
        = match p.unused_required_group st2.seen_non_default_args with
          | some names =>
            .error (.logic_error ("one of the arguments " ++ join names " " ++ " is required"))
          | none => .ok (st2.ret, st2.extras ++ arg_strings.drop i2))
    ∧ (do
        let q ← sample_required
        q.parse_known_args [] [])
      = Except.error
          (ParserCore.__error "the following arguments are required: --a, p, --b")
    ∧ (do
        let q ← sample_required
        q.parse_known_args [] ["--b", "1"])
      = Except.error (ParserCore.__error "the following arguments are required: --a, p")
    ∧ (do
        let q ← sample_required
        q.parse_known_args [] ["--b", "1", "--a", "2", "x"])
      = Except.ok ([("b", ["1"]), ("a", ["2"]), ("p", ["x"])], []) := by
  refine ⟨?_, required_args_mem p _, required_args_sublist p _, required_args_eq_nil p _, ?_,
    by decide!, by decide!, by decide!⟩
  · intro hne
    have hl : (p.required_args st2.seen_args).length ≠ 0 := by
      intro h
      exact hne (List.length_eq_zero.mp h)
    unfold ParserCore.__parse_known_args
    simp only [hclass, hloop, hpos, hl, ne_eq, not_false_eq_true, if_true]
  · intro hnil
    unfold ParserCore.__parse_known_args
    simp only [hclass, hloop, hpos, hnil, List.length_nil, ne_eq, not_true_eq_false, if_false]

/-- Witness for C21: the parser with two required options and a positional, without tokens. -/
theorem C21_required_check_witness :
    (built_core sample_required).__parse_known_args [] [] []
      = .error (.invalid_argument ("the following arguments are required: "
          ++ join ((built_core sample_required).required_args []) ", ")) :=
  (C21_required_check (built_core sample_required) [] [] [] [] []
    { ret := [], positionals := [2], seen_args := [], seen_non_default_args := [], extras := [] }
    { ret := [], positionals := [2], seen_args := [], seen_non_default_args := [], extras := [] }
    0 0 (by rfl) (by decide!) (by decide!)).1 (by decide!)

/-- C22 (counterexample): the positional `move` of `samples/08_choices.cpp` accepts the empty
token, which is not among its choices: the choice check skips values of length 0, and the parse
succeeds with `move` holding the empty string. -/
theorem C22_counterexample_empty_token :
    "" ∉ ((built_core sample_choices).arg 1).choices_
    ∧ (do
        let q ← sample_choices
        q.parse_known_args [] [""])
      = Except.ok ([("move", [""])], []) := by
  refine ⟨by decide!, by decide!⟩

/-- C22 (amended): let the spec at position `i` be the only positional of a finalized parser, a
store spec of arity none without const and with a non-empty choice set, no other spec being
required and no required group lacking the spec; let `v` be a plain token that is not empty.
If `v` is a choice (and not the SUPPRESS marker), `parse_known_args` on the single token succeeds with `Namespace[dest] = [v]`
and no extras. If `v` is not a choice, it fails with the argument error "argument NAME: invalid
choice: v (choose from LIST)", LIST being the choices in declared order, each in single quotes,
joined by ", " (through `__error` when `exit_on_error_` is set). On `samples/08_choices.cpp`,
`rock` is stored and `fire` fails listing 'rock', 'paper', 'scissors'. -/
theorem C22_positional_choices (p : ParserCore) (m : List (String × ArgumentParser))
    (i : Nat) (v : String)
    (hq : p.__get_positional_args = [i]) (hplain : p.plain v) (hne : v ≠ "")
    (hkind : (p.arg i).nargs_.type_ = .none)
    (hact : (p.arg i).action_ = .StoreAction) (hconst : (p.arg i).const_value_ = [])
    (hchoices : (p.arg i).choices_ ≠ [])
    (hfin : p.finalized)
    (hdef : ∀ a ∈ p.args_list_, a.default_value_.length ≤ 1)
    (hreq : ∀ j, j < p.args_list_.length → j ≠ i → (p.arg j).required_ = false)
    (hgrp : ∀ g ∈ p.mutually_exclusive_groups_, g.required_ = true → i ∈ g.group_arguments_) :
    (v ∈ (p.arg i).choices_ → v ≠ SUPPRESS →
      ∃ ns, (ArgumentParser.mk p m).parse_known_args [] [v] = .ok (ns, [])
        ∧ Namespace.get? ns (p.arg i).dest_ = some [v])
    ∧ (v ∉ (p.arg i).choices_ →
      (ArgumentParser.mk p m).parse_known_args [] [v]
        = .error (if p.exit_on_error_ then
            ParserCore.__error ("argument " ++ (p.arg i).get_argument_name ++ ": "
              ++ ("invalid choice: " ++ v ++ " (choose from "
                ++ join ((p.arg i).choices_.map (fun c => "'" ++ c ++ "'")) ", " ++ ")"))
          else
            .argument_error ("argument " ++ (p.arg i).get_argument_name ++ ": "
              ++ ("invalid choice: " ++ v ++ " (choose from "
                ++ join ((p.arg i).choices_.map (fun c => "'" ++ c ++ "'")) ", " ++ ")"))))
    ∧ (do
        let q ← sample_choices
        q.parse_known_args [] ["rock"])
      = Except.ok ([("move", ["rock"])], [])
    ∧ (do
        let q ← sample_choices
        q.parse_known_args [] ["fire"])
      = Except.error (ParserCore.__error
          "argument move: invalid choice: fire (choose from 'rock', 'paper', 'scissors')") := by
  obtain ⟨ret2, hret2, hshort⟩ := add_defaults_short p.args_list_ [] (p.arg i).dest_ hfin
    (fun a ha _ => hdef a ha) (by simp [Namespace.get?])
  have hmain := parse_known_args_plain_token p (ArgumentParser.child_table m) ret2 i v hq hplain
    hkind
  refine ⟨?_, ?_, by decide!, by decide!⟩
  · intro hmem hsup
    have hz : ¬ ((p.arg i).nargs_.type_ = .integer ∧ (p.arg i).nargs_.nargs_ = 0) := by
      rintro ⟨hk, _⟩
      rw [hk] at hkind; cases hkind
    have hvals : (p.arg i).__get_values [v] = .ok [v] :=
      get_values_list _ _ (by simp) (by simpa using hplain.1)
        (Or.inr (by intro w hw; simp only [List.mem_singleton] at hw; rw [hw]; exact Or.inr hmem))
        (Or.inl ⟨hkind, rfl⟩)
    have htake := take_argument_store p (ArgumentParser.child_table m)
      { ret := ret2, positionals := [i], seen_args := [], seen_non_default_args := [],
        extras := [] } i [v] rfl hact hconst hz hvals (by simpa using hsup) (by simp)
    rw [htake] at hmain
    have hrq : p.required_args [i] = [] := by
      rw [required_args_eq_nil]
      intro j hj hr
      by_cases hji : j = i
      · simp [hji]
      · have := hreq j hj hji
        rw [this] at hr
        cases hr
    simp only [hrq, List.length_nil, ne_eq, not_true_eq_false, if_false] at hmain
    rw [unused_required_group_none p _ i (by simp) hgrp] at hmain
    simp only at hmain
    refine ⟨(p.arg i).stored ret2 [v], ?_, ?_⟩
    · simp only [ArgumentParser.parse_known_args]
      exact parse_known_args_ok p _ [] ret2 _ _ hret2 hmain
    · simp only [Argument.stored, hkind, true_or, if_true, List.headD_cons]
      exact get?_set_value_short ret2 _ v hshort
  · intro hnot
    have hvals := get_values_bad_choice (p.arg i) v hkind hplain.1 hne hchoices hnot
    have htake : p.__take_argument (ArgumentParser.child_table m)
        { ret := ret2, positionals := [i], seen_args := [], seen_non_default_args := [],
          extras := [] } i [v]
        = .error (argument_error (p.arg i)
            ("invalid choice: " ++ v ++ " (choose from " ++ (p.arg i).get_choice_str ++ ")")) := by
      unfold ParserCore.__take_argument
      simp only [hvals]
    rw [htake] at hmain
    simp only at hmain
    have := parse_known_args_error p (ArgumentParser.child_table m) [] ret2 [v] _
      ("argument " ++ (p.arg i).get_argument_name ++ ": "
        ++ ("invalid choice: " ++ v ++ " (choose from "
          ++ join ((p.arg i).choices_.map (fun c => "'" ++ c ++ "'")) ", " ++ ")"))
      hret2 hmain rfl
    simp only [ArgumentParser.parse_known_args]
    rw [this]
    rfl

/-- Witness for C22: the token `rock` on the parser of `samples/08_choices.cpp`. -/
theorem C22_positional_choices_witness :
    ∃ ns, (ArgumentParser.mk (built_core sample_choices) []).parse_known_args [] ["rock"]
        = .ok (ns, [])
      ∧ Namespace.get? ns ((built_core sample_choices).arg 1).dest_ = some ["rock"] :=
  (C22_positional_choices (built_core sample_choices) [] 1 "rock"
    (by decide!) (by decide!) (by decide!) (by decide!) (by decide!) (by decide!) (by decide!)
    (by decide!) (by decide!) (by decide!) (by decide!)).1 (by decide!) (by decide!)

/-- C23 (counterexample): on `samples/10_subcommand_1.cpp`, `parse_known_args` on `b --unk` does
not return `--unk` in the extras: the tokens after the selector go to the child, which is run
through `parse_args`, and the parse ends with "unrecognized arguments: --unk" and the exit status
2. Before the selector the same token is returned as an extra. -/
theorem C23_counterexample_after_selector :
    (do
      let q ← sample_subcommand
      q.parse_known_args [] ["b", "--unk"])
      = Except.error (ParserCore.__error "unrecognized arguments: --unk")
    ∧ (do
      let q ← sample_subcommand
      q.parse_known_args [] ["--unk", "a", "1"])
      = Except.ok ([("foo", ["false"]), ("bar", ["1"])], ["--unk"]) := by
  refine ⟨by decide!, by decide!⟩

/-- C23 (amended): (1) wherever the main loop reaches a token recorded as an option without a
spec, `__consume_optionals` appends the raw token to the extras and returns the next index,
leaving everything else as it is. (2) In a parser without positional specs (hence without
sub-parsers), without required specs and required groups, when no token of the list resolves to
a registered option (and the list has fewer than 2^31 tokens), `__parse_known_args` succeeds,
changes nothing in the Namespace and returns all the tokens, in order, as extras; for a
finalized parser so does `parse_known_args`. On `samples/00_basic_usage.cpp`,
`--unk file -c 3 extra -z=1` stores the filename and the count and returns `--unk`, `extra`,
`-z=1`. -/
theorem C23_unrecognised_tokens_are_extras (p : ParserCore) (m : List (String × ArgumentParser))
    (ts : List String) (pattern : List Char) (indices : List (Nat × OptTuple))
    (hclass : p.classify ts 0 = .ok (pattern, indices))
    (hunres : ∀ e ∈ indices, e.2.2.1 = none)
    (hlen : ts.length ≤ 2147483647)
    (hnopos : p.__get_positional_args = [])
    (hreq : ∀ a ∈ p.args_list_, a.required_ = false)
    (hgrp : ∀ g ∈ p.mutually_exclusive_groups_, g.required_ = false) :
    (∀ (subs : ChildTable) (idx : List (Nat × OptTuple)) (st : ParseState) (start : Nat)
        (arg_strings : List String) (pat : List Char) (s e : String),
        ParserCore.index_tuple idx start = (s, none, e) →
        p.__consume_optionals subs idx st start arg_strings pat
          = .ok ({ st with extras := st.extras ++ [arg_strings.getD start ""] }, start + 1))
    ∧ (∀ (subs : ChildTable) (ret : Namespace),
        p.__parse_known_args subs ret ts = .ok (ret, ts))
    ∧ (p.finalized →
        ∃ ns, (ArgumentParser.mk p m).parse_known_args [] ts = .ok (ns, ts))
    ∧ (do
        let q ← sample_basic_usage
        q.parse_known_args [] ["--unk", "file", "-c", "3", "extra", "-z=1"])
      = Except.ok ([("verbose", ["false"]), ("filename", ["file"]), ("count", ["3"])],
          ["--unk", "extra", "-z=1"])
    ∧ (do
        let q ← sample_short_option
        q.parse_known_args [] ["a", "--unk", "b", "--", "-c"])
      = Except.ok ([], ["a", "--unk", "b", "--", "-c"]) := by
  refine ⟨?_, ?_, ?_, by decide!, by decide!⟩
  · intro subs idx st start arg_strings pat s e hidx
    exact consume_optionals_unresolved p subs idx st start arg_strings pat s e hidx
  · intro subs ret
    exact parse_known_args_unresolved p subs ret ts pattern indices hclass hunres hlen hnopos
      hreq hgrp
  · intro hfin
    obtain ⟨ret2, hret2⟩ := initialize_preserved p.args_list_ [] hfin
    refine ⟨ret2, ?_⟩
    simp only [ArgumentParser.parse_known_args]
    exact parse_known_args_ok p _ [] ret2 _ _ hret2
      (parse_known_args_unresolved p _ ret2 ts pattern indices hclass hunres hlen hnopos hreq
        hgrp)

/-- Witness for C23: the tokens `a --unk b -- -c` on the parser with the option `-c`. -/
theorem C23_unrecognised_tokens_are_extras_witness :
    (built_core sample_short_option).__parse_known_args [] []
        ["a", "--unk", "b", "--", "-c"]
      = .ok ([], ["a", "--unk", "b", "--", "-c"]) :=
  (C23_unrecognised_tokens_are_extras (built_core sample_short_option) []
    ["a", "--unk", "b", "--", "-c"] ['A', 'O', 'A', '-', 'A'] [(1, ("", none, ""))]
    (by rfl) (by decide!) (by decide!) (by decide!) (by decide!) (by decide!)).2.1 [] []

/-- C24: let `t` match the negative-number pattern and not be resolved: it is not a registered
option string, its first two characters are not one, and no registered option string begins with
it (a token of this shape has no `=`). In a parser whose flag `has_negative_number_options_`
agrees with its option map (as the constructor gives it and `add_argument` keeps it) and whose
option strings start with the prefix character, `t` is classified as an argument, pattern
character `A`, exactly when no registered option string matches the negative-number pattern;
otherwise it is classified as an option that resolves to no spec, pattern character `O`. With
the option `-x`, `-5` is taken by the positional; with the option `-1`, `-5` is left in the
extras. -/
theorem C24_negative_number_heuristic (p : ParserCore) (t : String)
    (hneg : ParserCore.__match_negative_number t = true)
    (hflag : p.has_negative_number_options_ = p.registered_negative)
    (hkeys : ∀ m ∈ p.optional_args_map_, charAt m.1 0 = p.prefix_char_)
    (hnone : p.find_option t = none)
    (h2 : p.find_option (substrTo t 2) = none)
    (hno : ∀ m ∈ p.optional_args_map_, startsWithChars t.data m.1.data = false) :
    p.__parse_optional t
      = .ok (if p.registered_negative then some ("", none, "") else none)
    ∧ p.classify [t] 0
      = .ok (if p.registered_negative then (['O'], [(0, ("", none, ""))]) else (['A'], []))
    ∧ (p.classify [t] 0 = .ok (['A'], [])
        ↔ ¬ ∃ m ∈ p.optional_args_map_, ParserCore.__match_negative_number m.1 = true)
    ∧ (∀ (prog : String) (c : Char) (x : Bool),
        (ParserCore.empty prog c x).has_negative_number_options_
          = (ParserCore.empty prog c x).registered_negative)
    ∧ (∀ (q r : ParserCore) (act : ActionKind) (flags : List String)
        (setters : Argument → Except Error Argument),
        q.add_argument act flags setters = .ok r →
        q.has_negative_number_options_ = q.registered_negative →
        r.has_negative_number_options_ = r.registered_negative)
    ∧ (do
        let q ← sample_negative_free
        q.parse_known_args [] ["-5"])
      = Except.ok ([("foo", ["-5"])], [])
    ∧ (do
        let q ← sample_negative_option
        q.parse_known_args [] ["-5"])
      = Except.ok ([("foo", ["d"])], ["-5"]) := by
  obtain ⟨hlen, h0, h1, heq, hsp, hsep⟩ := negative_number_facts t hneg
  have hparse : p.__parse_optional t
      = .ok (if p.registered_negative then some ("", none, "") else none) := by
    by_cases hpre : p.prefix_char_ = '-'
    · rw [← hflag]
      exact parse_optional_negative p t hneg hpre hnone h2 hno
    · have hreg : p.registered_negative = false := by
        unfold ParserCore.registered_negative
        rw [List.any_eq_false]
        intro m hm hmn
        have := (negative_number_facts m.1 hmn).2.1
        rw [hkeys m hm] at this
        exact hpre this
      have hc0 : charAt t 0 ≠ p.prefix_char_ := by
        rw [h0]
        exact fun e => hpre e.symm
      have hl0 : t.length ≠ 0 := by omega
      unfold ParserCore.__parse_optional
      simp [hl0, hc0, hreg]
  have hclass : p.classify [t] 0
      = .ok (if p.registered_negative then (['O'], [(0, ("", none, ""))]) else (['A'], [])) := by
    cases hr : p.registered_negative with
    | true =>
      rw [hr] at hparse
      simp [ParserCore.classify, hsep, hparse]
    | false =>
      rw [hr] at hparse
      simp [ParserCore.classify, hsep, hparse]
  refine ⟨hparse, hclass, ?_, fun _ _ _ => rfl,
    fun q r act flags setters hadd hq => add_argument_flag q r act flags setters hadd hq,
    by decide!, by decide!⟩
  rw [hclass]
  constructor
  · intro h
    cases hr : p.registered_negative with
    | true => rw [hr] at h; simp at h
    | false =>
      unfold ParserCore.registered_negative at hr
      rw [List.any_eq_false] at hr
      rintro ⟨m, hm, hmn⟩
      exact hr m hm hmn
  · intro h
    have hr : p.registered_negative = false := by
      unfold ParserCore.registered_negative
      rw [List.any_eq_false]
      intro m hm hmn
      exact h ⟨m, hm, hmn⟩
    rw [hr]
    rfl

/-- Witness for C24: the token `-5` on the parser with the option `-1`. -/
theorem C24_negative_number_heuristic_witness :
    (built_core sample_negative_option).__parse_optional "-5"
      = .ok (if (built_core sample_negative_option).registered_negative
          then some ("", none, "") else none) :=
  (C24_negative_number_heuristic (built_core sample_negative_option) "-5"
    (by decide!) (by decide!) (by decide!) (by decide!) (by decide!) (by decide!)).1

/-- C25 (failing input): on the parser of `samples/03_exit_on_error.cpp` (`exit_on_error` false),
`parse_args` on `--foo` fails with the arity error, which is an exception; on `--bar`, and on the
plain token `x`, the extras make `parse_args` call `__error`, whose outcome is the exit status 2
and no exception. For every parser, whatever `exit_on_error_` is, `parse_args` ends in `__error`
as soon as `parse_known_args` returns extras; with `exit_on_error_` false the errors of
`__parse_known_args` themselves pass through `parse_known_args` unchanged. -/
theorem C25_extras_exit_despite_flag (p : ParserCore) (subs : ChildTable)
    (arg_strings : List String) (ret : Namespace) (extras : List String)
    (hk : p.parse_known_args subs [] arg_strings = .ok (ret, extras)) (hne : extras ≠ []) :
    p.parse_args subs arg_strings
      = .error (ParserCore.__error ("unrecognized arguments: " ++ join extras " "))
    ∧ (ParserCore.__error ("unrecognized arguments: " ++ join extras " ")).is_exception = false
    ∧ ParserCore.__error "unrecognized arguments: --bar"
        = .exit 2 "[ARGPARSE ERROR] unrecognized arguments: --bar"
    ∧ (∀ (q : ParserCore) (ns ns2 : Namespace) (e : Error), q.exit_on_error_ = false →
        ParserCore.add_defaults q.args_list_ ns = .ok (q.args_list_, ns2) →
        q.__parse_known_args subs ns2 arg_strings = .error e →
        q.parse_known_args subs ns arg_strings = .error e)
    ∧ (built_core sample_exit_on_error).exit_on_error_ = false
    ∧ (do
        let q ← sample_exit_on_error
        q.parse_args ["--foo"])
      = Except.error (.argument_error "argument --foo: expected one argument")
    ∧ (do
        let q ← sample_exit_on_error
        q.parse_args ["--bar"])
      = Except.error (.exit 2 "[ARGPARSE ERROR] unrecognized arguments: --bar")
    ∧ (do
        let q ← sample_exit_on_error
        q.parse_args ["x"])
      = Except.error (.exit 2 "[ARGPARSE ERROR] unrecognized arguments: x") := by
  refine ⟨?_, rfl, by decide, ?_, by decide!, by decide!, by decide!, by decide!⟩
  · have hl : extras.length ≠ 0 := fun e => hne (List.length_eq_zero.mp e)
    simp [ParserCore.parse_args, hk, hl]
  · intro q ns ns2 e hx hdef herr
    clear hk hne
    obtain ⟨pn, pc, ab, ex, al, om, mg, hn⟩ := q
    simp only at hx
    subst hx
    simp only [ParserCore.parse_known_args] at herr hdef ⊢
    simp only [hdef, herr]
    simp

/-- Witness for C25: the token `--bar` on the parser of `samples/03_exit_on_error.cpp`. -/
theorem C25_extras_exit_despite_flag_witness :
    (built_core sample_exit_on_error).parse_args [] ["--bar"]
      = .error (ParserCore.__error ("unrecognized arguments: " ++ join ["--bar"] " ")) :=
  (C25_extras_exit_despite_flag (built_core sample_exit_on_error) [] ["--bar"] [] ["--bar"]
    (by decide!) (by decide!)).1

/-- C27 (failing input): with the prefix character `+`, the option strings `+f`, `++foo-bar` give
the dest `f`, not `foo_bar`: the loop that looks for a long option string tests the second
character against the literal '-'. With the prefix character '-' the claim holds: when
`__add_name_or_flags` returns a spec, a positional has its name as dest, and an optional spec
(the help action apart, which sets its own dest) has the dest the specification describes; so
`-f`, `--foo-bar`, `--foo` give `foo_bar`, and `-x`, `-y` give `x`. -/
theorem C27_dest_from_option_strings (act : ActionKind) (flags : List String) (a : Argument)
    (hadd : Argument.__add_name_or_flags '-' act flags = .ok a) :
    (a.type_ = .positional_argument → a.dest_ = flags.headD "")
    ∧ (a.type_ = .optional_argument → act ≠ .HelpAction → a.dest_ = spec_dest '-' flags)
    ∧ (Argument.__add_name_or_flags '-' .StoreAction ["-f", "--foo-bar", "--foo"]).map
        (fun b => b.dest_) = Except.ok "foo_bar"
    ∧ (Argument.__add_name_or_flags '-' .StoreAction ["-x", "-y"]).map (fun b => b.dest_)
        = Except.ok "x"
    ∧ (Argument.__add_name_or_flags '-' .StoreAction ["bar"]).map (fun b => b.dest_)
        = Except.ok "bar"
    ∧ (Argument.__add_name_or_flags '+' .StoreAction ["+f", "++foo-bar"]).map
        (fun b => (b.type_, b.dest_)) = Except.ok (.optional_argument, "f")
    ∧ spec_dest '+' ["+f", "++foo-bar"] = "foo_bar"
    ∧ (do
        let q ← sample_plus_prefix
        q.parse_known_args [] ["++foo-bar", "1"])
      = Except.ok ([("f", ["1"])], []) := by
  obtain ⟨hpos, hopt⟩ := add_name_or_flags_dest '-' act flags a hadd
  refine ⟨hpos, ?_, by decide!, by decide!, by decide!, by decide!, by decide!, by decide!⟩
  intro ht hact
  obtain ⟨_, hall, d, hs, hd⟩ := hopt ht hact
  obtain ⟨hd2, _⟩ := strip_leading_ok _ _ _ hs
  rw [hd, hd2, first_long_eq_find flags hall]
  rfl

/-- Witness for C27: the option strings `-f`, `--foo-bar`, `--foo` with the store action. -/
theorem C27_dest_from_option_strings_witness :
    ({ Argument.fresh .StoreAction with
        option_strings_ := ["-f", "--foo-bar", "--foo"], type_ := .optional_argument,
        dest_ := "foo_bar" } : Argument).dest_
      = spec_dest '-' ["-f", "--foo-bar", "--foo"] :=
  (C27_dest_from_option_strings .StoreAction ["-f", "--foo-bar", "--foo"]
    { Argument.fresh .StoreAction with
        option_strings_ := ["-f", "--foo-bar", "--foo"], type_ := .optional_argument,
        dest_ := "foo_bar" } (by decide!)).2.1 (by decide!) (by decide!)

/-- C28: `get_argument_name` is the option strings joined by "/" when there are option strings;
otherwise the dest when it is not empty and not the SUPPRESS marker; otherwise the choices joined
by "," inside braces when there are choices; otherwise the empty string. The text of every
`argument_error` is "argument NAME: MSG" with that name. The help option is named by `-h` and
`--help` with a slash between, the positional of `samples/00_basic_usage.cpp` `filename`, and the sub-parser spec of
`samples/10_subcommand_1.cpp` by its choices in braces. -/
theorem C28_display_name (a : Argument) (msg : String) :
    (a.option_strings_ ≠ [] → a.get_argument_name = join a.option_strings_ "/")
    ∧ (a.option_strings_ = [] → a.dest_ ≠ "" → a.dest_ ≠ SUPPRESS →
        a.get_argument_name = a.dest_)
    ∧ (a.option_strings_ = [] → (a.dest_ = "" ∨ a.dest_ = SUPPRESS) → a.choices_ ≠ [] →
        a.get_argument_name = "\x7b" ++ join a.choices_ "," ++ "\x7d")
    ∧ (a.option_strings_ = [] → (a.dest_ = "" ∨ a.dest_ = SUPPRESS) → a.choices_ = [] →
        a.get_argument_name = "")
    ∧ (argument_error a msg).what = some ("argument " ++ a.get_argument_name ++ ": " ++ msg)
    ∧ ((built_core sample_basic_usage).args_list_.map (fun b => b.get_argument_name))
      = ["-h/--help", "filename", "-c/--count", "-v/--verbose"]
    ∧ ((built_core sample_subcommand).args_list_.map
        (fun b => (b.option_strings_, b.dest_, b.choices_, b.get_argument_name)))
      = [(["-h", "--help"], "help", [], "-h/--help"), (["--foo"], "foo", [], "--foo"),
         ([], SUPPRESS, ["a", "b"], "\x7ba,b\x7d")] := by
  have hlen : ∀ s : String, s.length = 0 ↔ s = "" := by
    intro s
    constructor
    · intro h
      by_contra hne
      exact length_ne_zero_of_ne_empty s hne h
    · intro h; rw [h]; rfl
  refine ⟨?_, ?_, ?_, ?_, rfl, by decide!, by decide!⟩
  · intro h
    have : a.option_strings_.length ≠ 0 := fun e => h (List.length_eq_zero.mp e)
    simp [Argument.get_argument_name, this]
  · intro h hd hs
    have hd2 : a.dest_.length ≠ 0 := fun e => hd ((hlen _).mp e)
    simp [Argument.get_argument_name, h, hd2, hs]
  · intro h hd hc
    have hc2 : a.choices_.length ≠ 0 := fun e => hc (List.length_eq_zero.mp e)
    have hd2 : ¬ (a.dest_.length ≠ 0 ∧ a.dest_ ≠ SUPPRESS) := by
      rintro ⟨h1, h2⟩
      rcases hd with e | e
      · exact h1 ((hlen _).mpr e)
      · exact h2 e
    simp only [Argument.get_argument_name, h, List.length_nil, ne_eq, not_true_eq_false,
      if_false, hd2, hc2, not_false_eq_true, if_true]
  · intro h hd hc
    have hd2 : ¬ (a.dest_.length ≠ 0 ∧ a.dest_ ≠ SUPPRESS) := by
      rintro ⟨h1, h2⟩
      rcases hd with e | e
      · exact h1 ((hlen _).mpr e)
      · exact h2 e
    simp only [Argument.get_argument_name, h, List.length_nil, ne_eq, not_true_eq_false,
      if_false, hd2, hc]

/-- Witness for C28: the option `-c`, `--count` of `samples/00_basic_usage.cpp`. -/
theorem C28_display_name_witness :
    ((built_core sample_basic_usage).arg 2).get_argument_name
      = join ((built_core sample_basic_usage).arg 2).option_strings_ "/" :=
  (C28_display_name ((built_core sample_basic_usage).arg 2) "").1 (by decide!)

/-- C29: for a spec using the store action, `Argument::initialize` throws exactly when the arity
is exact(0) or the const is not empty while the arity is not `'?'`, and what it throws is a
`logic_error`. When such a spec is the first of the parser whose `initialize` throws,
`parse_known_args` ends with that error for every token list and every Namespace, in the loop
that precedes `__parse_known_args`. On the parser with `--foo` of `set_nargs(0)` the error is
raised for no token and for `--foo -- zz` alike. -/
theorem C29_store_validation (a : Argument) (hact : a.action_ = .StoreAction) :
    ((∃ e, a.initializeArgument = .error e)
      ↔ ((a.nargs_.type_ = .integer ∧ a.nargs_.nargs_ = 0)
          ∨ (a.const_value_ ≠ [] ∧ a.nargs_.type_ ≠ .optional)))
    ∧ (∀ e, a.initializeArgument = .error e → ∃ m, e = .logic_error m)
    ∧ (∀ (p : ParserCore) (e : Error) (before after : List Argument),
        p.args_list_ = before ++ a :: after →
        (∀ b ∈ before, ∃ b2, b.initializeArgument = .ok b2) →
        a.initializeArgument = .error e →
        ∀ (subs : ChildTable) (ret : Namespace) (arg_strings : List String),
          p.parse_known_args subs ret arg_strings = .error e)
    ∧ (do
        let q ← sample_store_zero
        q.parse_known_args [] [])
      = Except.error (.logic_error "nargs for store actions must be != 0; if you have nothing to store, actions such as store true or false const may be more appropriate")
    ∧ (do
        let q ← sample_store_zero
        q.parse_known_args [] ["--foo", "--", "zz"])
      = Except.error (.logic_error "nargs for store actions must be != 0; if you have nothing to store, actions such as store true or false const may be more appropriate") := by
  have hinit : ∀ b : Argument, b.action_ = .StoreAction →
      b.nargs_ = a.nargs_ → b.const_value_ = a.const_value_ →
      b.action_.validate b
        = if a.nargs_.type_ = .integer ∧ a.nargs_.nargs_ = 0 then
            .error (.logic_error "nargs for store actions must be != 0; if you have nothing to store, actions such as store true or false const may be more appropriate")
          else if a.const_value_.length ≠ 0 ∧ a.nargs_.type_ ≠ .optional then
            .error (.logic_error "nargs must be '?'(optional) to supply const")
          else .ok () := by
    intro b hb hn hc
    simp only [ActionKind.validate, hb, hn, hc]
  have hclen : a.const_value_.length ≠ 0 ↔ a.const_value_ ≠ [] := by
    constructor
    · intro h e; rw [e] at h; exact h rfl
    · intro h e; exact h (List.length_eq_zero.mp e)
  have hval : ∀ r, a.initializeArgument = r →
      (∃ b : Argument, b.action_ = .StoreAction ∧ b.nargs_ = a.nargs_
        ∧ b.const_value_ = a.const_value_
        ∧ r = match b.action_.validate b with
              | .ok _ => .ok b
              | .error e => .error e) := by
    intro r hr
    obtain ⟨q, hq⟩ := mark_required_fields a
    refine ⟨a.mark_required, ?_, ?_, ?_, ?_⟩
    · rw [hq]; exact hact
    · rw [hq]
    · rw [hq]
    · rw [← hr, initializeArgument_eq]
  refine ⟨?_, ?_, ?_, by decide!, by decide!⟩
  · obtain ⟨b, hb, hn, hc, hr⟩ := hval _ rfl
    rw [hinit b hb hn hc] at hr
    constructor
    · rintro ⟨e, he⟩
      rw [he] at hr
      by_cases c1 : a.nargs_.type_ = .integer ∧ a.nargs_.nargs_ = 0
      · exact Or.inl c1
      · by_cases c2 : a.const_value_.length ≠ 0 ∧ a.nargs_.type_ ≠ .optional
        · exact Or.inr ⟨hclen.mp c2.1, c2.2⟩
        · rw [if_neg c1, if_neg c2] at hr
          cases hr
    · intro hcond
      by_cases c1 : a.nargs_.type_ = .integer ∧ a.nargs_.nargs_ = 0
      · rw [if_pos c1] at hr
        exact ⟨_, hr⟩
      · rcases hcond with h | h
        · exact absurd h c1
        · have c2 : a.const_value_.length ≠ 0 ∧ a.nargs_.type_ ≠ .optional :=
            ⟨hclen.mpr h.1, h.2⟩
          rw [if_neg c1, if_pos c2] at hr
          exact ⟨_, hr⟩
  · intro e he
    obtain ⟨b, hb, hn, hc, hr⟩ := hval _ rfl
    rw [hinit b hb hn hc, he] at hr
    by_cases c1 : a.nargs_.type_ = .integer ∧ a.nargs_.nargs_ = 0
    · rw [if_pos c1] at hr
      exact ⟨_, by injection hr⟩
    · by_cases c2 : a.const_value_.length ≠ 0 ∧ a.nargs_.type_ ≠ .optional
      · rw [if_neg c1, if_pos c2] at hr
        exact ⟨_, by injection hr⟩
      · rw [if_neg c1, if_neg c2] at hr
        cases hr
  · intro p e before after hargs hbefore ha subs ret arg_strings
    unfold ParserCore.parse_known_args
    rw [hargs, add_defaults_error before after a e ret hbefore ha]

/-- Witness for C29: the store option `--foo` given `set_nargs(0)`. -/
theorem C29_store_validation_witness :
    (∃ e, ((built_core sample_store_zero).arg 1).initializeArgument = .error e)
      ↔ ((((built_core sample_store_zero).arg 1).nargs_.type_ = .integer
            ∧ ((built_core sample_store_zero).arg 1).nargs_.nargs_ = 0)
          ∨ (((built_core sample_store_zero).arg 1).const_value_ ≠ []
            ∧ ((built_core sample_store_zero).arg 1).nargs_.type_ ≠ .optional)) :=
  (C29_store_validation ((built_core sample_store_zero).arg 1) (by decide!)).1

/-- C30: `parse_args` called twice on the same parser with the same tokens gives equal
Namespaces or equal failures. Between the calls the parser differs only in specs on which
`Argument::initialize` has run (in the parser or in a sub-parser): for every such pair of
parsers `parse_args` gives the same result, and so does `parse_known_args` from the same
Namespace. The state left by the finalize pass of the first call is such a state, and it holds
the specs that the pass hands to the engine. The second result is that of the engine on an empty
Namespace: nothing the first call stored enters it. On `samples/04_argument_name.cpp` the three
runs give the same result before and after the pass. -/
theorem C30_parse_args_twice (q q2 : ArgumentParser) (ts : List String)
    (h : q.initialized_to q2 = true) :
    q2.parse_args ts = q.parse_args ts
    ∧ (∀ ret, q2.parse_known_args ret ts = q.parse_known_args ret ts)
    ∧ q.initialized_to q.after_finalize = true
    ∧ q.after_finalize.parse_args ts = q.parse_args ts
    ∧ (∀ ret args ret2, ParserCore.add_defaults q.core.args_list_ ret = .ok (args, ret2) →
        q.after_finalize.core.args_list_ = args)
    ∧ q2.parse_args ts
      = (match q.parse_known_args [] ts with
        | .error e => .error e
        | .ok (ret, extras) =>
          if extras.length ≠ 0 then
            .error (ParserCore.__error ("unrecognized arguments: " ++ join extras " "))
          else .ok ret)
    ∧ (do
        let q ← sample_argument_name
        pure (q.parse_args ["BAR"], q.after_finalize.parse_args ["BAR"]))
      = Except.ok (.ok [("bar", ["BAR"])], .ok [("bar", ["BAR"])])
    ∧ (do
        let q ← sample_argument_name
        pure (q.parse_args ["BAR", "--foo", "FOO"],
          q.after_finalize.parse_args ["BAR", "--foo", "FOO"]))
      = Except.ok (.ok [("bar", ["BAR"]), ("foo", ["FOO"])],
          .ok [("bar", ["BAR"]), ("foo", ["FOO"])])
    ∧ (do
        let q ← sample_argument_name
        pure (q.parse_args ["--foo", "FOO"], q.after_finalize.parse_args ["--foo", "FOO"]))
      = Except.ok
          (.error (ParserCore.__error "the following arguments are required: bar"),
            .error (ParserCore.__error "the following arguments are required: bar")) := by
  have h1 := parse_args_initialized q q2 h ts
  refine ⟨h1, ?_, after_finalize_initialized q, ?_, ?_, ?_, by decide!, by decide!, by decide!⟩
  · intro ret
    obtain ⟨core, m⟩ := q
    obtain ⟨core2, m2⟩ := q2
    simp only [ArgumentParser.initialized_to, Bool.and_eq_true] at h
    simp only [ArgumentParser.parse_known_args]
    rw [child_table_initialized m m2 h.2,
      core_parse_known_args_initialized core core2 _ ret ts h.1]
  · exact parse_args_initialized q q.after_finalize (after_finalize_initialized q) ts
  · intro ret args ret2 hd
    obtain ⟨core, m⟩ := q
    exact add_defaults_finalize_pass _ ret ret2 args hd
  · rw [h1]
    obtain ⟨core, m⟩ := q
    simp only [ArgumentParser.parse_args, ArgumentParser.parse_known_args,
      ParserCore.parse_args]

/-- Witness for C30: the parser of `samples/04_argument_name.cpp` and its state after the
finalize pass, on `BAR --foo FOO`. -/
theorem C30_parse_args_twice_witness :
    (ArgumentParser.mk (built_core sample_argument_name) []).after_finalize.parse_args
        ["BAR", "--foo", "FOO"]
      = (ArgumentParser.mk (built_core sample_argument_name) []).parse_args
        ["BAR", "--foo", "FOO"] :=
  (C30_parse_args_twice (ArgumentParser.mk (built_core sample_argument_name) [])
    (ArgumentParser.mk (built_core sample_argument_name) []).after_finalize
    ["BAR", "--foo", "FOO"] (by decide!)).1


/-! ### Lemmas for the classification of the tokens -/

theorem classify_length (p : ParserCore) (ts : List String) (i0 : Nat) (pattern : List Char)
    (indices : List (Nat × OptTuple)) (h : p.classify ts i0 = .ok (pattern, indices)) :
    pattern.length = ts.length := by
  induction ts generalizing i0 pattern indices with
  | nil =>
    simp only [ParserCore.classify, Except.ok.injEq, Prod.mk.injEq] at h
    rw [← h.1]
    rfl
  | cons t ts ih =>
    unfold ParserCore.classify at h
    split at h
    · simp only [Except.ok.injEq, Prod.mk.injEq] at h
      rw [← h.1]
      simp
    · split at h
      · cases h
      · split at h
        · cases h
        · rename_i pat idx hrec
          have := ih _ _ _ hrec
          split at h <;>
            (simp only [Except.ok.injEq, Prod.mk.injEq] at h
             rw [← h.1]
             simp [this])

theorem classify_separator (p : ParserCore) (after : List String) (i0 : Nat) :
    p.classify ("--" :: after) i0 = .ok ('-' :: List.replicate after.length 'A', []) := by
  simp [ParserCore.classify]

theorem classify_split (p : ParserCore) (before after : List String) (i0 : Nat)
    (hb : "--" ∉ before) :
    p.classify (before ++ "--" :: after) i0
      = match p.classify before i0 with
        | .error e => .error e
        | .ok (pattern, indices) =>
          .ok (pattern ++ '-' :: List.replicate after.length 'A', indices) := by
  induction before generalizing i0 with
  | nil => simp [ParserCore.classify]
  | cons s before ih =>
    have hs : s ≠ "--" := fun e => hb (by simp [e])
    have ih2 := ih (i0 + 1) (fun e => hb (by simp [e]))
    simp only [List.cons_append]
    conv_lhs => unfold ParserCore.classify
    conv_rhs => unfold ParserCore.classify
    simp only [hs, if_false, ih2]
    cases p.__parse_optional s with
    | error e => rfl
    | ok r =>
      simp only
      cases p.classify before (i0 + 1) with
      | error e => rfl
      | ok pr =>
        obtain ⟨pat, idx⟩ := pr
        cases r <;> rfl

theorem classify_each (p : ParserCore) (ts : List String) (i0 : Nat) (pattern : List Char)
    (indices : List (Nat × OptTuple)) (h : p.classify ts i0 = .ok (pattern, indices))
    (hs : "--" ∉ ts) (j : Nat) (hj : j < ts.length) :
    ∃ r, p.__parse_optional (ts.getD j "") = .ok r
      ∧ pattern.getD j 'A' = (if r.isSome then 'O' else 'A')
      ∧ indices.find? (fun m => m.1 = i0 + j) = r.map (fun t => (i0 + j, t)) := by
  induction ts generalizing i0 pattern indices j with
  | nil => simp at hj
  | cons t ts ih =>
    have ht : t ≠ "--" := fun e => hs (by simp [e])
    unfold ParserCore.classify at h
    rw [if_neg ht] at h
    split at h
    · cases h
    · rename_i r hr
      split at h
      · cases h
      · rename_i pat idx hrec
        have hkeys := classify_keys p ts (i0 + 1) pat idx hrec
        cases j with
        | zero =>
          refine ⟨r, by simpa using hr, ?_⟩
          have hnone : idx.find? (fun m => m.1 = i0 + 0) = none := by
            rw [List.find?_eq_none]
            intro e he
            have := (hkeys e he).1
            simp only [decide_eq_true_eq]
            omega
          cases r with
          | none =>
            simp only [Except.ok.injEq, Prod.mk.injEq] at h
            rw [← h.1, ← h.2]
            exact ⟨by simp, by simpa using hnone⟩
          | some tup =>
            simp only [Except.ok.injEq, Prod.mk.injEq] at h
            rw [← h.1, ← h.2]
            exact ⟨by simp, by simp⟩
        | succ j =>
          obtain ⟨r2, h1, h2, h3⟩ := ih (i0 + 1) pat idx hrec (fun e => hs (by simp [e])) j
            (by simpa using hj)
          refine ⟨r2, by simpa using h1, ?_⟩
          have harith : i0 + (j + 1) = i0 + 1 + j := by omega
          rw [harith]
          cases r with
          | none =>
            simp only [Except.ok.injEq, Prod.mk.injEq] at h
            rw [← h.1, ← h.2]
            exact ⟨by simpa using h2, h3⟩
          | some tup =>
            simp only [Except.ok.injEq, Prod.mk.injEq] at h
            rw [← h.1, ← h.2]
            refine ⟨by simpa using h2, ?_⟩
            rw [List.find?_cons_of_neg _ (by simp; omega)]
            exact h3

/-! ### Lemmas for the pattern of an arity as text -/

theorem findAux_skip (pre rest : List Char) (i : Nat) (hpre : ∀ c ∈ pre, c ≠ '-') :
    findAux ['-', '*'] (pre ++ '-' :: '*' :: rest) i = some (i + pre.length) := by
  induction pre generalizing i with
  | nil => simp [findAux, startsWithChars]
  | cons c pre ih =>
    have hc : ('-' == c) = false := by
      have := hpre c (by simp)
      simp only [beq_eq_false_iff_ne, ne_eq]
      exact fun e => this e.symm
    simp only [List.cons_append, findAux, startsWithChars, hc, Bool.false_and, Bool.false_eq_true,
      if_false, List.append_eq]
    rw [ih (i + 1) (fun d hd => hpre d (by simp [hd]))]
    simp only [List.length_cons, Option.some.injEq]
    omega

theorem findAux_none_dash (v s : List Char) (i : Nat) (hs : ∀ c ∈ s, c ≠ '-') :
    findAux ('-' :: v) s i = none := by
  induction s generalizing i with
  | nil => simp [findAux, startsWithChars]
  | cons c s ih =>
    have hc : ('-' == c) = false := by
      have := hs c (by simp)
      simp only [beq_eq_false_iff_ne, ne_eq]
      exact fun e => this e.symm
    simp only [findAux, startsWithChars, hc, Bool.false_and, Bool.false_eq_true, if_false]
    exact ih (i + 1) (fun d hd => hs d (by simp [hd]))

theorem replace_loop_done (v w s : List Char) (fuel pos : Nat) (hs : ∀ c ∈ s, c ≠ '-') :
    replace_all_loop ('-' :: v) w (fuel + 1) s pos = .ok s := by
  have : find_at s ('-' :: v) pos = none := by
    unfold find_at
    split
    · exact findAux_none_dash v _ pos (fun c hc => hs c (List.mem_of_mem_drop hc))
    · rfl
  simp only [replace_all_loop, this]

theorem replace_loop_step (pre rest : List Char) (fuel pos : Nat)
    (hpre : ∀ c ∈ pre, c ≠ '-') (hpos : pos ≤ pre.length) (hrest : rest ≠ []) :
    replace_all_loop ['-', '*'] [] (fuel + 1) (pre ++ '-' :: '*' :: rest) pos
      = replace_all_loop ['-', '*'] [] fuel (pre ++ rest) pre.length := by
  have hfind : find_at (pre ++ '-' :: '*' :: rest) ['-', '*'] pos = some pre.length := by
    unfold find_at
    rw [if_pos (by simp; omega), List.drop_append_of_le_length hpos,
      findAux_skip _ _ _ (fun c hc => hpre c (List.mem_of_mem_drop hc))]
    simp only [List.length_drop, Option.some.injEq]
    omega
  have htake : (pre ++ '-' :: '*' :: rest).take pre.length = pre := by simp
  have hdrop : (pre ++ '-' :: '*' :: rest).drop (pre.length + 2) = rest := by
    rw [← List.drop_drop, List.drop_left]
    rfl
  have hlen : ¬ (pre.length ≥ (pre ++ rest).length) := by
    have : 0 < rest.length := List.length_pos.mpr hrest
    simp only [List.length_append]
    omega
  conv_lhs => unfold replace_all_loop
  simp only [hfind, htake, List.length_cons, List.length_nil, Nat.zero_add, Nat.reduceAdd, hdrop,
    List.append_nil, Nat.add_zero, hlen, if_false]

theorem replace_loop_integer (m : Nat) :
    ∀ (k fuel pos : Nat), pos ≤ k + 1 → m + 2 ≤ fuel →
      replace_all_loop ['-', '*'] [] fuel
          (('(' :: List.replicate k 'A')
            ++ ((List.replicate m ['-', '*', 'A']).flatten ++ ['-', '*', ')'])) pos
        = .ok ('(' :: (List.replicate (k + m) 'A' ++ [')'])) := by
  induction m with
  | zero =>
    intro k fuel pos hpos hfuel
    obtain ⟨f, rfl⟩ : ∃ f, fuel = f + 2 := ⟨fuel - 2, by omega⟩
    have hpre : ∀ c ∈ '(' :: List.replicate k 'A', c ≠ '-' := by
      intro c hc
      simp only [List.mem_cons, List.mem_replicate] at hc
      rcases hc with rfl | ⟨_, rfl⟩ <;> decide
    simp only [List.replicate_zero, List.flatten_nil, List.nil_append]
    rw [replace_loop_step _ [')'] (f + 1) pos hpre (by simpa using hpos) (by simp),
      replace_loop_done]
    · simp
    · intro c hc
      simp only [List.cons_append, List.mem_cons, List.mem_append, List.mem_replicate,
        List.mem_singleton, List.not_mem_nil, or_false] at hc
      rcases hc with rfl | ⟨_, rfl⟩ | rfl <;> decide
  | succ m ih =>
    intro k fuel pos hpos hfuel
    obtain ⟨f, rfl⟩ : ∃ f, fuel = f + 1 := ⟨fuel - 1, by omega⟩
    have hpre : ∀ c ∈ '(' :: List.replicate k 'A', c ≠ '-' := by
      intro c hc
      simp only [List.mem_cons, List.mem_replicate] at hc
      rcases hc with rfl | ⟨_, rfl⟩ <;> decide
    have hshape : ('(' :: List.replicate k 'A')
          ++ ((List.replicate (m + 1) ['-', '*', 'A']).flatten ++ ['-', '*', ')'])
        = ('(' :: List.replicate k 'A')
          ++ '-' :: '*' :: ('A' :: ((List.replicate m ['-', '*', 'A']).flatten
            ++ ['-', '*', ')'])) := by
      simp [List.replicate_succ]
    have hnext : ('(' :: List.replicate k 'A')
          ++ ('A' :: ((List.replicate m ['-', '*', 'A']).flatten ++ ['-', '*', ')']))
        = ('(' :: List.replicate (k + 1) 'A')
          ++ ((List.replicate m ['-', '*', 'A']).flatten ++ ['-', '*', ')']) := by
      rw [List.replicate_succ']
      simp
    rw [hshape, replace_loop_step _ _ f pos hpre (by simpa using hpos) (by simp), hnext]
    have := ih (k + 1) f (List.length ('(' :: List.replicate k 'A'))
      (by simp) (by omega)
    rw [this]
    have : k + 1 + m = k + (m + 1) := by omega
    rw [this]

theorem integer_text_groups (k : Nat) (x : List Char) :
    ['-', '*'] ++ ((List.replicate k ['A', '-', '*']).flatten ++ 'A' :: x)
      = (List.replicate (k + 1) ['-', '*', 'A']).flatten ++ x := by
  induction k with
  | zero => rfl
  | succ k ih =>
    show '-' :: '*' :: 'A' :: (['-', '*'] ++ ((List.replicate k ['A', '-', '*']).flatten ++ 'A' :: x))
      = '-' :: '*' :: 'A' :: ((List.replicate (k + 1) ['-', '*', 'A']).flatten ++ x)
    rw [ih]

theorem integer_text_shape (k : Nat) :
    "(-*".data ++ (List.replicate k "A-*".data).flatten ++ "A-*)".data
      = ('(' :: List.replicate 0 'A')
        ++ ((List.replicate (k + 1) ['-', '*', 'A']).flatten ++ ['-', '*', ')']) := by
  show '(' :: (['-', '*'] ++ (List.replicate k ['A', '-', '*']).flatten ++ 'A' :: ['-', '*', ')'])
    = '(' :: ((List.replicate (k + 1) ['-', '*', 'A']).flatten ++ ['-', '*', ')'])
  rw [List.append_assoc, integer_text_groups]

theorem without_dash_star_cons (c : Char) (s : List Char) (hc : c ≠ '-') :
    without_dash_star (c :: s) = c :: without_dash_star s := by
  conv_lhs => unfold without_dash_star
  split
  · rename_i heq
    simp only [List.cons.injEq] at heq
    exact absurd heq.1 hc
  · rename_i heq
    simp only [List.cons.injEq] at heq
    rw [heq.1, heq.2]
  · rename_i heq
    cases heq

theorem without_dash_star_pair (s : List Char) :
    without_dash_star ('-' :: '*' :: s) = without_dash_star s := by
  conv_lhs => unfold without_dash_star
  rfl

theorem without_dash_star_As (k : Nat) (s : List Char) :
    without_dash_star (List.replicate k 'A' ++ s) = List.replicate k 'A' ++ without_dash_star s := by
  induction k with
  | zero => rfl
  | succ k ih =>
    rw [List.replicate_succ, List.cons_append, List.cons_append,
      without_dash_star_cons _ _ (by decide), ih]

theorem without_dash_star_groups (m : Nat) :
    without_dash_star ((List.replicate m ['-', '*', 'A']).flatten ++ ['-', '*', ')'])
      = List.replicate m 'A' ++ [')'] := by
  induction m with
  | zero => rfl
  | succ m ih =>
    show without_dash_star ('-' :: '*' :: 'A' ::
        ((List.replicate m ['-', '*', 'A']).flatten ++ ['-', '*', ')'])) = _
    rw [without_dash_star_pair, without_dash_star_cons _ _ (by decide), ih]
    rfl

theorem render_repeatA (k : Nat) (g : Group) :
    ((repeatA k ++ g).map Atom.render).flatten
      = (List.replicate k ['A', '-', '*']).flatten ++ (g.map Atom.render).flatten := by
  induction k with
  | zero => rfl
  | succ k ih =>
    show ['A'] ++ (['-', '*'] ++ ((repeatA k ++ g).map Atom.render).flatten) = _
    rw [ih]
    rfl

theorem render_replicate_litA (m : Nat) :
    ((List.replicate m litA).map Atom.render).flatten = List.replicate m 'A' := by
  induction m with
  | zero => rfl
  | succ m ih =>
    show 'A' :: ((List.replicate m litA).map Atom.render).flatten = _
    rw [ih]
    rfl

theorem option_text_integer (k : Nat) :
    (NArgs.mk .integer (k + 1)).get_nargs_pattern_str true
      = .ok (String.mk ('(' :: (List.replicate (k + 1) 'A' ++ [')']))) := by
  have htext : nargs_pattern_text (NArgs.mk .integer (k + 1))
      = ('(' :: List.replicate 0 'A')
        ++ ((List.replicate (k + 1) ['-', '*', 'A']).flatten ++ ['-', '*', ')']) := by
    rw [← integer_text_shape k]
    rfl
  have h1 : replace_all (nargs_pattern_text (NArgs.mk .integer (k + 1))) "-*".data []
      = .ok ('(' :: (List.replicate (k + 1) 'A' ++ [')'])) := by
    unfold replace_all
    rw [htext]
    have := replace_loop_integer (k + 1) 0
      ((('(' :: List.replicate 0 'A')
        ++ ((List.replicate (k + 1) ['-', '*', 'A']).flatten ++ ['-', '*', ')'])).length + 1) 0
      (by omega) (by simp; omega)
    rw [Nat.zero_add] at this
    exact this
  have h2 : replace_all ('(' :: (List.replicate (k + 1) 'A' ++ [')'])) "-".data []
      = .ok ('(' :: (List.replicate (k + 1) 'A' ++ [')'])) := by
    unfold replace_all
    apply replace_loop_done
    intro c hc
    simp only [List.mem_cons, List.mem_append, List.mem_replicate, List.mem_singleton,
      List.not_mem_nil, or_false] at hc
    rcases hc with rfl | ⟨_, rfl⟩ | rfl <;> decide
  unfold NArgs.get_nargs_pattern_str
  simp only [if_true, h1, h2]

/-! ### Lemmas for the arity match of an option -/

theorem regex_search_litA_some (text : List Char) (h : 'A' ∈ text) :
    regex_search [litA] [] text = some 1 := by
  induction text with
  | nil => simp at h
  | cons c cs ih =>
    by_cases hc : c = 'A'
    · subst hc
      have : match_here [litA] [] ('A' :: cs) = some 1 := by
        simp [match_here, matchAtoms, litA]
      simp [regex_search, this]
    · have hcs : 'A' ∈ cs := by
        rcases List.mem_cons.mp h with e | e
        · exact absurd e.symm hc
        · exact e
      have : match_here [litA] [] (c :: cs) = none := by
        simp [match_here, matchAtoms, litA, hc]
      simp [regex_search, this, ih hcs]

theorem match_argument_single (p : ParserCore) (i : Nat) (text : List Char)
    (hopt : (p.arg i).type_ = .optional_argument) (hkind : (p.arg i).nargs_.type_ = .none) :
    p.__match_argument i text
      = if 'A' ∈ text then .ok 1
        else .error (argument_error (p.arg i) "expected one argument") := by
  unfold ParserCore.__match_argument
  simp only [hopt, decide_True, pattern_none_optional _ hkind]
  by_cases h : 'A' ∈ text
  · rw [regex_search_litA_some text h, if_pos h]
  · rw [regex_search_litA_none [] [] text h, if_neg h]
    simp [ParserCore.arity_message, hkind]

/-! ### Lemmas for long tokens when abbreviations are disabled -/

theorem parse_optional_no_abbrev (p : ParserCore) (t : String)
    (habbrev : p.allow_abbrev_ = false) (hlen : 2 ≤ t.length)
    (h0 : charAt t 0 = p.prefix_char_) (h1 : charAt t 1 = p.prefix_char_)
    (hexact : p.find_option t = none) (hassign : p.find_option (before_assign t) = none)
    (hspace : ' ' ∉ t.data) :
    p.__parse_optional t = .ok (some ("", none, "")) := by
  have hl0 : t.length ≠ 0 := by omega
  have hl1 : t.length ≠ 1 := by omega
  have hneg : ParserCore.__match_negative_number t = false := by
    cases hm : ParserCore.__match_negative_number t with
    | false => rfl
    | true =>
      obtain ⟨_, hc0, hc1, _⟩ := negative_number_facts t hm
      exact absurd (h1.trans (h0.symm.trans hc0)) hc1
  have hby : (match findChar '=' t.data with
      | some assign_idx =>
        (p.find_option (substrTo t assign_idx)).map
          (fun i => (substrTo t assign_idx, some i, substr t (assign_idx + 1)))
      | none => (none : Option OptTuple)) = none := by
    unfold before_assign at hassign
    cases hf : findChar '=' t.data with
    | none => rfl
    | some pos =>
      rw [hf] at hassign
      simp only [hassign, Option.map_none']
  unfold ParserCore.__parse_optional
  simp only [hl0, hl1, h0, h1, hexact, hby, if_false, ne_eq, not_true_eq_false, ge_iff_le, hlen,
    and_self, if_true, ParserCore.long_option_tuples, habbrev, Bool.false_eq_true, hneg,
    false_and, hspace]

/-! ### Lemmas for the defaults written over a Namespace -/

theorem add_defaults_overwrite (l : List Argument) (ret : Namespace) (d : String)
    (dv : List String)
    (h : ∀ a ∈ l, a.initializeArgument = .ok a)
    (hsame : ∀ a ∈ l, a.dest_ = d → a.default_value_ = dv)
    (hd : d ≠ SUPPRESS) (hne : dv ≠ []) (hdv : dv ≠ [SUPPRESS]) :
    ∃ ret2, ParserCore.add_defaults l ret = .ok (l, ret2)
      ∧ ((∃ a ∈ l, a.dest_ = d) → Namespace.index ret2 d = dv)
      ∧ ((¬ ∃ a ∈ l, a.dest_ = d) → Namespace.index ret2 d = Namespace.index ret d) := by
  induction l generalizing ret with
  | nil =>
    refine ⟨ret, rfl, ?_, fun _ => rfl⟩
    rintro ⟨a, ha, _⟩
    cases ha
  | cons a l ih =>
    have ha := h a (by simp)
    have hcond : a.dest_ = d →
        (a.dest_ ≠ SUPPRESS ∧ a.default_value_.length ≠ 0
          ∧ (a.default_value_.length > 1 ∨ a.default_value_.headD "" ≠ SUPPRESS)) := by
      intro hk
      have hdva := hsame a (by simp) hk
      refine ⟨by rw [hk]; exact hd, ?_, ?_⟩
      · rw [hdva]
        exact fun e => hne (List.length_eq_zero.mp e)
      · rw [hdva]
        cases dv with
        | nil => exact absurd rfl hne
        | cons x tl =>
          cases tl with
          | nil =>
            right
            simp only [List.headD_cons]
            intro hx
            exact hdv (by rw [hx])
          | cons y tl2 =>
            left
            simp
    obtain ⟨r2, hr2, hi1, hi2⟩ := ih
      (if a.dest_ ≠ SUPPRESS ∧ a.default_value_.length ≠ 0
          ∧ (a.default_value_.length > 1 ∨ a.default_value_.headD "" ≠ SUPPRESS) then
        Namespace.set_values ret a.dest_ a.default_value_ else ret)
      (fun b hb => h b (by simp [hb])) (fun b hb => hsame b (by simp [hb]))
    unfold ParserCore.add_defaults
    simp only [ha]
    refine ⟨r2, by simp only [hr2], ?_, ?_⟩
    · rintro ⟨b, hb, hbd⟩
      by_cases hin : ∃ c ∈ l, c.dest_ = d
      · exact hi1 hin
      · rw [hi2 hin]
        rcases List.mem_cons.mp hb with rfl | hm
        · rw [if_pos (hcond hbd), index_set_values, if_pos hbd]
          exact hsame b (by simp) hbd
        · exact absurd ⟨b, hm, hbd⟩ hin
    · intro hno
      have hk : a.dest_ ≠ d := fun e => hno ⟨a, by simp, e⟩
      have hin : ¬ ∃ c ∈ l, c.dest_ = d := fun ⟨c, hc, hcd⟩ => hno ⟨c, by simp [hc], hcd⟩
      rw [hi2 hin]
      split
      · rw [index_set_values, if_neg hk]
      · rfl

theorem add_defaults_other (l l2 : List Argument) (ret ret2 : Namespace) (k : String)
    (hk : ∀ b ∈ l, b.dest_ ≠ k)
    (h : ParserCore.add_defaults l ret = .ok (l2, ret2)) :
    Namespace.index ret2 k = Namespace.index ret k := by
  induction l generalizing ret l2 with
  | nil =>
    simp only [ParserCore.add_defaults, Except.ok.injEq, Prod.mk.injEq] at h
    rw [← h.2]
  | cons a l ih =>
    simp only [ParserCore.add_defaults] at h
    split at h
    · cases h
    · rename_i a2 hinit
      have ha2 : a2.dest_ ≠ k := by
        rw [initializeArgument_eq] at hinit
        split at hinit
        · simp only [Except.ok.injEq] at hinit
          rw [← hinit]
          obtain ⟨r, hr⟩ := mark_required_fields a
          rw [hr]
          exact hk a (by simp)
        · cases hinit
      split at h
      · cases h
      · rename_i args r3 hrec
        simp only [Except.ok.injEq, Prod.mk.injEq] at h
        obtain ⟨_, rfl⟩ := h
        rw [ih _ _ (fun b hb => hk b (by simp [hb])) hrec]
        split
        · rw [index_set_values, if_neg ha2]
        · rfl

/-! ### The cursor of the main loop -/

theorem matchStar_result {α : Type} (cls : List Char) (k : List Char → Option α)
    (text : List Char) (v : α) (h : matchStar cls k text = some v) : ∃ r, k r = some v := by
  induction text with
  | nil => exact ⟨[], by simpa [matchStar] using h⟩
  | cons c cs ih =>
    unfold matchStar at h
    split at h
    · split at h
      · rename_i r hr
        simp only [Option.some.injEq] at h
        subst h
        exact ih hr
      · exact ⟨c :: cs, h⟩
    · exact ⟨c :: cs, h⟩

theorem matchAtoms_result {α : Type} (g : List Atom) (text : List Char)
    (k : List Char → Option α) (v : α) (h : matchAtoms g text k = some v) :
    ∃ r, k r = some v := by
  induction g generalizing text with
  | nil => exact ⟨text, by simpa [matchAtoms] using h⟩
  | cons a rest ih =>
    obtain ⟨cls, q⟩ := a
    cases q with
    | one =>
      cases text with
      | nil => simp [matchAtoms] at h
      | cons c cs =>
        simp only [matchAtoms] at h
        split at h
        · exact ih _ h
        · cases h
    | opt =>
      cases text with
      | nil =>
        simp only [matchAtoms] at h
        exact ih _ h
      | cons c cs =>
        simp only [matchAtoms] at h
        split at h
        · split at h
          · rename_i r hr
            simp only [Option.some.injEq] at h
            subst h
            exact ih _ hr
          · exact ih _ h
        · exact ih _ h
    | star =>
      simp only [matchAtoms] at h
      obtain ⟨r, hr⟩ := matchStar_result _ _ _ _ h
      exact ih _ hr

theorem match_here_le (first : Group) (others : List Atom) (text : List Char) (n : Nat)
    (h : match_here first others text = some n) : n ≤ text.length := by
  unfold match_here at h
  obtain ⟨r, hr⟩ := matchAtoms_result _ _ _ _ h
  obtain ⟨r2, hr2⟩ := matchAtoms_result _ _ _ _ hr
  simp only [Option.some.injEq] at hr2
  omega

theorem regex_search_le (first : Group) (others : List Atom) (text : List Char) (n : Nat)
    (h : regex_search first others text = some n) : n ≤ text.length := by
  induction text with
  | nil =>
    unfold regex_search at h
    exact match_here_le _ _ _ _ h
  | cons c cs ih =>
    unfold regex_search at h
    split at h
    · rename_i m hm
      simp only [Option.some.injEq] at h
      subst h
      exact match_here_le _ _ _ _ hm
    · have := ih h
      simp only [List.length_cons]
      omega

theorem match_argument_le (p : ParserCore) (i : Nat) (text : List Char) (n : Nat)
    (h : p.__match_argument i text = .ok n) : n ≤ text.length := by
  unfold ParserCore.__match_argument at h
  simp only at h
  split at h
  · rename_i m hm
    simp only [Except.ok.injEq] at h
    subst h
    exact regex_search_le _ _ _ _ hm
  · cases h

theorem match_argument_error (p : ParserCore) (i : Nat) (text : List Char) (e : Error)
    (h : p.__match_argument i text = .error e) : e ≠ .out_of_fuel := by
  unfold ParserCore.__match_argument at h
  simp only at h
  split at h
  · cases h
  · simp only [Except.error.injEq] at h
    rw [← h]
    simp [argument_error]

theorem match_windows_le (p : ParserCore) (positionals : List Nat) (pattern : List Char)
    (len : Nat) :
    p.match_windows positionals pattern len = []
      ∨ ∃ n, p.match_windows positionals pattern len = [n] ∧ n ≤ pattern.length := by
  induction len with
  | zero => exact Or.inl rfl
  | succ len ih =>
    unfold ParserCore.match_windows
    split
    · exact Or.inl rfl
    · split
      · rename_i n hn
        exact Or.inr ⟨n, rfl, regex_search_le _ _ _ _ hn⟩
      · exact ih

theorem extras_take_argument (p : ParserCore) (subs : ChildTable) (st st2 : ParseState)
    (i : Nat) (args : List String) (hr : p.__take_argument subs st i args = .ok st2) :
    st2.extras = st.extras ∧ st2.positionals = st.positionals := by
  unfold ParserCore.__take_argument at hr
  simp only at hr
  split at hr
  · cases hr
  · split at hr
    · cases hr
    · split at hr
      · cases hr; exact ⟨rfl, rfl⟩
      · split at hr
        · cases hr
        · cases hr; exact ⟨rfl, rfl⟩

theorem extras_take_tuples (p : ParserCore) (subs : ChildTable)
    (tuples : List (Nat × List String)) (st st2 : ParseState)
    (hr : p.take_tuples subs tuples st = .ok st2) : st2.extras = st.extras := by
  induction tuples generalizing st with
  | nil =>
    simp only [ParserCore.take_tuples] at hr
    cases hr; rfl
  | cons t tuples ih =>
    obtain ⟨i, args⟩ := t
    simp only [ParserCore.take_tuples] at hr
    split at hr
    · cases hr
    · rename_i st1 h1
      rw [ih st1 hr, (extras_take_argument _ _ _ _ _ _ h1).1]

theorem cursor_take_positionals (p : ParserCore) (subs : ChildTable)
    (arg_strings : List String) (counts : List Nat) (st : ParseState) (start : Nat)
    (r : ParseState × Nat)
    (hr : p.take_positionals subs arg_strings counts st start = .ok r) :
    r.1.extras = st.extras ∧ r.2 = start + counts.sum := by
  induction counts generalizing st start with
  | nil =>
    simp only [ParserCore.take_positionals] at hr
    cases hr
    exact ⟨rfl, by simp⟩
  | cons c counts ih =>
    simp only [ParserCore.take_positionals] at hr
    split at hr
    · cases hr
    · split at hr
      · cases hr
      · rename_i st1 h1
        obtain ⟨h2, h3⟩ := ih _ _ hr
        refine ⟨?_, ?_⟩
        · rw [h2]
          exact (extras_take_argument _ _ _ _ _ _ h1).1
        · rw [h3, List.sum_cons]
          omega

theorem cursor_consume_positionals (p : ParserCore) (subs : ChildTable) (st : ParseState)
    (start : Nat) (arg_strings : List String) (pattern : List Char) (r : ParseState × Nat)
    (hr : p.__consume_positionals subs st start arg_strings pattern = .ok r) :
    r.1.extras = st.extras ∧ start ≤ r.2 ∧ (start ≤ pattern.length → r.2 ≤ pattern.length) := by
  unfold ParserCore.__consume_positionals at hr
  simp only at hr
  obtain ⟨h1, h2⟩ := cursor_take_positionals _ _ _ _ _ _ _ hr
  refine ⟨h1, by omega, ?_⟩
  intro hs
  rw [h2]
  unfold ParserCore.__match_arguments_partial
  rcases match_windows_le p st.positionals (pattern.drop start) st.positionals.length with
    h | ⟨n, h, hn⟩
  · rw [h]
    simpa using hs
  · rw [h]
    simp only [List.length_drop] at hn
    simp only [List.sum_cons, List.sum_nil]
    omega

theorem cursor_option_loop (p : ParserCore) (arg_string : String) (arg_strings : List String)
    (pattern : List Char) (start fuel : Nat) :
    ∀ (optional : Nat) (explicit_arg : String) (tuples : List (Nat × List String))
      (r : Nat × List (Nat × List String)),
      p.option_loop arg_string arg_strings pattern start fuel optional explicit_arg tuples
        = .ok r →
      start + 1 ≤ r.1 ∧ (start < pattern.length → r.1 ≤ pattern.length) := by
  induction fuel with
  | zero =>
    intro optional explicit_arg tuples r hr
    simp [ParserCore.option_loop] at hr
  | succ fuel ih =>
    intro optional explicit_arg tuples r hr
    unfold ParserCore.option_loop at hr
    split at hr
    · split at hr
      · cases hr
      · split at hr
        · split at hr
          · exact ih _ _ _ _ hr
          · cases hr
        · split at hr
          · cases hr
            exact ⟨by simp, fun h => by simpa using h⟩
          · cases hr
    · split at hr
      · cases hr
      · rename_i n hn
        cases hr
        have := match_argument_le _ _ _ _ hn
        simp only [List.length_drop] at this
        exact ⟨by simp, fun h => by simp only; omega⟩

theorem cursor_consume_optionals (p : ParserCore) (subs : ChildTable)
    (indices : List (Nat × OptTuple)) (st : ParseState) (start : Nat)
    (arg_strings : List String) (pattern : List Char) (r : ParseState × Nat)
    (hr : p.__consume_optionals subs indices st start arg_strings pattern = .ok r) :
    start < r.2 ∧ (start < pattern.length → r.2 ≤ pattern.length)
      ∧ (r.1.extras = st.extras
        ∨ (r.1.extras = st.extras ++ [arg_strings.getD start ""] ∧ r.2 = start + 1)) := by
  unfold ParserCore.__consume_optionals at hr
  split at hr
  · cases hr
    exact ⟨by simp, fun h => by simpa using h, Or.inr ⟨rfl, rfl⟩⟩
  · split at hr
    · cases hr
    · rename_i stop tuples hloop
      split at hr
      · cases hr
      · rename_i st1 h1
        cases hr
        obtain ⟨h2, h3⟩ := cursor_option_loop _ _ _ _ _ _ _ _ _ _ hloop
        exact ⟨by simp only; omega, h3, Or.inl (extras_take_tuples _ _ _ _ _ h1)⟩

theorem next_index_spec (indices : List (Nat × OptTuple)) (s n : Nat)
    (hkeys : ∀ e ∈ indices, e.1 < n) (hn : n ≤ 2147483647)
    (hmax : (s : Int) ≤ ParserCore.max_option_string_indices indices) :
    s ≤ ParserCore.next_option_string_index indices s
      ∧ ParserCore.next_option_string_index indices s < n
      ∧ ∃ e ∈ indices, e.1 = ParserCore.next_option_string_index indices s := by
  obtain ⟨e, he, hes⟩ : ∃ e ∈ indices, s ≤ e.1 := by
    rcases max_index_foldl_attained indices (-1) with h | ⟨e, he, h⟩
    · unfold ParserCore.max_option_string_indices at hmax
      rw [h] at hmax
      omega
    · refine ⟨e, he, ?_⟩
      unfold ParserCore.max_option_string_indices at hmax
      rw [← h] at hmax
      exact_mod_cast hmax
  have hlt := hkeys e he
  have h1 := next_index_foldl_le_mem indices s 2147483647 e he hes
  have h2 := next_index_foldl_ge indices s 2147483647 (by omega)
  refine ⟨h2, ?_, ?_⟩
  · unfold ParserCore.next_option_string_index
    omega
  · rcases next_index_foldl_mem indices s 2147483647 with h | h
    · omega
    · exact h

theorem sublist_take_mono (l ts : List String) (a b : Nat) (hab : a ≤ b)
    (h : l.Sublist (ts.take a)) : l.Sublist (ts.take b) := by
  refine h.trans ?_
  have : ts.take a = (ts.take b).take a := by
    rw [List.take_take, Nat.min_eq_left hab]
  rw [this]
  exact List.take_sublist _ _

theorem sublist_take_range (l ts : List String) (a b : Nat) (hab : a ≤ b)
    (h : l.Sublist (ts.take a)) : (l ++ (ts.drop a).take (b - a)).Sublist (ts.take b) := by
  have : ts.take b = ts.take a ++ (ts.drop a).take (b - a) := by
    have hb : b = a + (b - a) := by omega
    conv_lhs => rw [hb]
    rw [List.take_add]
  rw [this]
  exact List.Sublist.append h (List.Sublist.refl _)

theorem sublist_take_step (l ts : List String) (a : Nat) (ha : a < ts.length)
    (h : l.Sublist (ts.take a)) : (l ++ [ts.getD a ""]).Sublist (ts.take (a + 1)) := by
  have : ts.take (a + 1) = ts.take a ++ [ts.getD a ""] := by
    rw [List.take_succ, List.getD_eq_getElem _ _ ha, List.getElem?_eq_getElem ha]
    rfl
  rw [this]
  exact List.Sublist.append h (List.Sublist.refl _)

theorem extras_consume_loop (p : ParserCore) (subs : ChildTable)
    (indices : List (Nat × OptTuple)) (ts : List String) (pattern : List Char)
    (hkeys : ∀ e ∈ indices, e.1 < ts.length) (hlen : ts.length ≤ 2147483647)
    (hpat : pattern.length = ts.length) (fuel : Nat) :
    ∀ (st : ParseState) (s : Nat) (r : ParseState × Nat), s ≤ ts.length →
      st.extras.Sublist (ts.take s) →
      p.consume_loop subs indices ts pattern fuel st s = .ok r →
      r.1.extras.Sublist (ts.take r.2) ∧ s ≤ r.2 ∧ r.2 ≤ ts.length := by
  induction fuel with
  | zero =>
    intro st s r hs hsub hr
    simp only [ParserCore.consume_loop] at hr
    split at hr
    · cases hr
    · cases hr
      exact ⟨hsub, le_refl _, hs⟩
  | succ fuel ih =>
    intro st s r hs hsub hr
    simp only [ParserCore.consume_loop] at hr
    split at hr
    · rename_i hmax
      obtain ⟨hn1, hn2, hn3⟩ := next_index_spec indices s ts.length hkeys hlen hmax
      split at hr
      · cases hr
      · rename_i st1 pe hpos
        have hpe : st1.extras = st.extras ∧ s ≤ pe ∧ pe ≤ ts.length := by
          split at hpos
          · have := cursor_consume_positionals _ _ _ _ _ _ _ hpos
            exact ⟨this.1, this.2.1, by rw [← hpat]; exact this.2.2 (by omega)⟩
          · cases hpos
            exact ⟨rfl, le_refl _, hs⟩
        split at hr
        · obtain ⟨h1, h2, h3⟩ := ih _ _ _ hpe.2.2
            (by rw [hpe.1]; exact sublist_take_mono _ _ _ _ hpe.2.1 hsub) hr
          exact ⟨h1, by omega, h3⟩
        · rename_i hcont
          split at hr
          · cases hr
          · rename_i st2 s2 hopt
            have hpes : pe = s := by
              by_cases hne : s = ParserCore.next_option_string_index indices s
              · rw [if_neg (by simpa using hne)] at hpos
                simp only [Except.ok.injEq, Prod.mk.injEq] at hpos
                exact hpos.2.symm
              · have : ¬ pe > s := fun h => hcont ⟨hne, h⟩
                omega
            subst hpes
            have hsub1 : st1.extras.Sublist (ts.take pe) := by rw [hpe.1]; exact hsub
            by_cases hno : (indices.all fun m => decide (m.1 ≠ pe)) = true
            · rw [if_pos hno, if_pos hno] at hopt
              obtain ⟨hc1, hc2, hc3⟩ := cursor_consume_optionals _ _ _ _ _ _ _ _ hopt
              simp only at hc1 hc2 hc3
              have hs2 : s2 ≤ ts.length := by rw [← hpat]; exact hc2 (by omega)
              have hsub2 := sublist_take_range _ ts pe _ hn1 hsub1
              have hsub3 : st2.extras.Sublist (ts.take s2) := by
                rcases hc3 with h | ⟨h, he⟩
                · rw [h]
                  exact sublist_take_mono _ _ _ _ (by omega) hsub2
                · rw [h, he]
                  exact sublist_take_step _ ts _ hn2 hsub2
              obtain ⟨h1, h2, h3⟩ := ih _ _ _ hs2 hsub3 hr
              exact ⟨h1, by omega, h3⟩
            · rw [if_neg hno, if_neg hno] at hopt
              have hk : pe < ts.length := by
                simp only [List.all_eq_true, decide_eq_true_eq, not_forall, Classical.not_imp,
                  not_not] at hno
                obtain ⟨m, hm, hme⟩ := hno
                rw [← hme]
                exact hkeys m hm
              obtain ⟨hc1, hc2, hc3⟩ := cursor_consume_optionals _ _ _ _ _ _ _ _ hopt
              simp only at hc1 hc2 hc3
              have hs2 : s2 ≤ ts.length := by rw [← hpat]; exact hc2 (by omega)
              have hsub3 : st2.extras.Sublist (ts.take s2) := by
                rcases hc3 with h | ⟨h, he⟩
                · rw [h]
                  exact sublist_take_mono _ _ _ _ (by omega) hsub1
                · rw [h, he]
                  exact sublist_take_step _ ts _ hk hsub1
              obtain ⟨h1, h2, h3⟩ := ih _ _ _ hs2 hsub3 hr
              exact ⟨h1, by omega, h3⟩
    · cases hr
      exact ⟨hsub, le_refl _, hs⟩

theorem extras_parse_known_args_inner (p : ParserCore) (subs : ChildTable) (ret : Namespace)
    (ts : List String) (r : Namespace × List String) (hlen : ts.length ≤ 2147483647)
    (hr : p.__parse_known_args subs ret ts = .ok r) : r.2.Sublist ts := by
  unfold ParserCore.__parse_known_args at hr
  split at hr
  · cases hr
  · rename_i pattern indices hclass
    have hpat := classify_length p ts 0 pattern indices hclass
    have hkeys : ∀ e ∈ indices, e.1 < ts.length := by
      intro e he
      have := (classify_keys p ts 0 pattern indices hclass e he).2
      omega
    simp only at hr
    split at hr
    · cases hr
    · rename_i st1 s1 hloop
      obtain ⟨h1, _, h3⟩ := extras_consume_loop p subs indices ts pattern hkeys hlen hpat _ _ _ _
        (Nat.zero_le _) (by simp) hloop
      simp only at h1 h3
      split at hr
      · cases hr
      · rename_i st2 s2 hpos
        obtain ⟨h4, h5, h6⟩ := cursor_consume_positionals _ _ _ _ _ _ _ hpos
        simp only at h4 h5 h6
        have hfinal : (st2.extras ++ ts.drop s2).Sublist ts := by
          have hsub : st2.extras.Sublist (ts.take s2) :=
            sublist_take_mono _ ts _ _ h5 (by rw [h4]; exact h1)
          have := List.Sublist.append hsub (List.Sublist.refl (ts.drop s2))
          rwa [List.take_append_drop] at this
        split at hr
        · cases hr
        · split at hr
          · cases hr
          · cases hr
            exact hfinal

theorem extras_parse_known_args (p : ParserCore) (subs : ChildTable) (ret : Namespace)
    (ts : List String) (r : Namespace × List String) (hlen : ts.length ≤ 2147483647)
    (hr : p.parse_known_args subs ret ts = .ok r) : r.2.Sublist ts := by
  unfold ParserCore.parse_known_args at hr
  split at hr
  · cases hr
  · simp only at hr
    split at hr
    · split at hr
      · rename_i r2 hin
        cases hr
        exact extras_parse_known_args_inner _ _ _ _ _ hlen hin
      · split at hr <;> cases hr
    · exact extras_parse_known_args_inner _ _ _ _ _ hlen hr

/-! ### The bounds of the loops -/

theorem child_find_mem (subs : ChildTable) (name : String)
    (f : List String → Except Error Namespace) (h : subs.find name = some f) :
    ∃ n, (n, f) ∈ subs := by
  induction subs with
  | nil => simp [ChildTable.find] at h
  | cons e subs ih =>
    obtain ⟨n, g⟩ := e
    unfold ChildTable.find at h
    split at h
    · simp only [Option.some.injEq] at h
      exact ⟨n, by simp [h]⟩
    · obtain ⟨m, hm⟩ := ih h
      exact ⟨m, by simp [hm]⟩

theorem get_values_selector (a : Argument) (args vals : List String)
    (hk : a.nargs_.type_ = .parser) (h : a.__get_values args = .ok vals) : vals = args := by
  unfold Argument.__get_values at h
  simp only [hk, ne_eq, not_true_eq_false, false_and, if_false, reduceCtorEq, and_false,
    or_true, if_true, or_false] at h
  split at h
  · split at h
    · cases h
    · simp only [Except.ok.injEq] at h
      exact h.symm
  · simp only [Except.ok.injEq] at h
    exact h.symm

theorem get_values_error (a : Argument) (args : List String) (e : Error)
    (h : a.__get_values args = .error e) : e ≠ .out_of_fuel := by
  unfold Argument.__get_values at h
  simp only at h
  split at h
  · split at h
    · simp only [Except.error.injEq] at h
      rw [← h]
      simp [argument_error]
    · cases h
  · cases h

theorem stoi_error (s : String) (e : Error) (h : stoi s = .error e) : e ≠ .out_of_fuel := by
  intro he
  subst he
  unfold stoi at h
  simp only at h
  split_ifs at h <;> simp at h

theorem run_action_fuel (subs : ChildTable) (ns : Namespace) (a : Argument)
    (values : List String)
    (hsubs : ∀ nf ∈ subs, ∀ ts : List String, ts.length ≤ 2147483647 →
      nf.2 ts ≠ .error .out_of_fuel)
    (hvals : a.action_ = .SubparsersAction → values.length ≤ 2147483647) :
    run_action subs ns a values ≠ .error .out_of_fuel := by
  intro h
  unfold run_action at h
  split at h
  · split at h
    · cases h
    · split at h
      · cases h
      · split at h
        · split at h <;> cases h
        · cases h
  · cases h
  · cases h
  · cases h
  · cases h
  · cases h
  · split at h
    · cases h
    · split at h
      · rename_i e he
        simp only [Except.error.injEq] at h
        exact stoi_error _ _ he h
      · cases h
  · cases h
  · rename_i hact
    split at h
    · cases h
    · rename_i name rest
      simp only at h
      split at h
      · simp [argument_error] at h
      · rename_i f hf
        obtain ⟨n, hn⟩ := child_find_mem _ _ _ hf
        have hlen := hvals hact
        simp only [List.length_cons] at hlen
        split at h
        · rename_i e he
          simp only [Except.error.injEq] at h
          subst h
          exact hsubs (n, f) hn rest (by omega) he
        · cases h

theorem take_argument_fuel (p : ParserCore) (subs : ChildTable) (st : ParseState) (i : Nat)
    (args : List String)
    (hsubs : ∀ nf ∈ subs, ∀ ts : List String, ts.length ≤ 2147483647 →
      nf.2 ts ≠ .error .out_of_fuel)
    (hsel : (p.arg i).action_ = .SubparsersAction → (p.arg i).nargs_.type_ = .parser)
    (hargs : args.length ≤ 2147483647) :
    p.__take_argument subs st i args ≠ .error .out_of_fuel := by
  intro h
  unfold ParserCore.__take_argument at h
  simp only at h
  split at h
  · rename_i e he
    simp only [Except.error.injEq] at h
    exact get_values_error _ _ _ he h
  · rename_i vals hv
    split at h
    · simp [argument_error] at h
    · split at h
      · cases h
      · split at h
        · rename_i e he
          simp only [Except.error.injEq] at h
          subst h
          refine run_action_fuel subs _ _ _ hsubs ?_ he
          intro hact
          rw [get_values_selector _ _ _ (hsel hact) hv]
          exact hargs
        · cases h

theorem take_tuples_fuel (p : ParserCore) (subs : ChildTable)
    (tuples : List (Nat × List String)) (st : ParseState)
    (hsubs : ∀ nf ∈ subs, ∀ ts : List String, ts.length ≤ 2147483647 →
      nf.2 ts ≠ .error .out_of_fuel)
    (hsel : ∀ i, (p.arg i).action_ = .SubparsersAction → (p.arg i).nargs_.type_ = .parser)
    (hargs : ∀ t ∈ tuples, t.2.length ≤ 2147483647) :
    p.take_tuples subs tuples st ≠ .error .out_of_fuel := by
  induction tuples generalizing st with
  | nil => simp [ParserCore.take_tuples]
  | cons t tuples ih =>
    obtain ⟨i, args⟩ := t
    intro h
    simp only [ParserCore.take_tuples] at h
    split at h
    · rename_i e he
      simp only [Except.error.injEq] at h
      subst h
      exact take_argument_fuel p subs st i args hsubs (hsel i) (hargs (i, args) (by simp)) he
    · exact ih _ (fun t ht => hargs t (by simp [ht])) h

theorem take_positionals_fuel (p : ParserCore) (subs : ChildTable) (ts : List String)
    (counts : List Nat) (st : ParseState) (start : Nat)
    (hsubs : ∀ nf ∈ subs, ∀ ts : List String, ts.length ≤ 2147483647 →
      nf.2 ts ≠ .error .out_of_fuel)
    (hsel : ∀ i, (p.arg i).action_ = .SubparsersAction → (p.arg i).nargs_.type_ = .parser)
    (hlen : ts.length ≤ 2147483647) :
    p.take_positionals subs ts counts st start ≠ .error .out_of_fuel := by
  induction counts generalizing st start with
  | nil => simp [ParserCore.take_positionals]
  | cons c counts ih =>
    intro h
    simp only [ParserCore.take_positionals] at h
    split at h
    · cases h
    · split at h
      · rename_i e he
        simp only [Except.error.injEq] at h
        subst h
        refine take_argument_fuel p subs st _ _ hsubs (hsel _) ?_ he
        simp only [List.length_take, List.length_drop]
        omega
      · exact ih _ _ h

theorem option_loop_fuel (p : ParserCore) (arg_string : String) (ts : List String)
    (pattern : List Char) (start : Nat) (hlen : ts.length ≤ 2147483647) (fuel : Nat) :
    ∀ (optional : Nat) (explicit_arg : String) (tuples : List (Nat × List String)),
      explicit_arg.length + 1 ≤ fuel →
      (∀ t ∈ tuples, t.2.length ≤ 2147483647) →
      p.option_loop arg_string ts pattern start fuel optional explicit_arg tuples
          ≠ .error .out_of_fuel
        ∧ ∀ r, p.option_loop arg_string ts pattern start fuel optional explicit_arg tuples
            = .ok r → ∀ t ∈ r.2, t.2.length ≤ 2147483647 := by
  induction fuel with
  | zero =>
    intro optional explicit_arg tuples hf
    omega
  | succ fuel ih =>
    intro optional explicit_arg tuples hf htup
    have hshort : explicit_arg.length ≠ 0 → (substr explicit_arg 1).length + 1 ≤ fuel := by
      intro hne
      obtain ⟨d⟩ := explicit_arg
      show (d.drop 1).length + 1 ≤ fuel
      have : d.length + 1 ≤ fuel + 1 := hf
      have hd : d.length ≠ 0 := hne
      simp only [List.length_drop]
      omega
    have hmem : ∀ (x : Nat × List String), x.2.length ≤ 2147483647 →
        ∀ t ∈ tuples ++ [x], t.2.length ≤ 2147483647 := by
      intro x hx t ht
      rcases List.mem_append.mp ht with h | h
      · exact htup t h
      · simp only [List.mem_singleton] at h
        rw [h]
        exact hx
    unfold ParserCore.option_loop
    split
    · rename_i hne
      split
      · rename_i e he
        exact ⟨fun h => match_argument_error _ _ _ _ he (by cases h; rfl), fun r hr => by cases hr⟩
      · split
        · split
          · exact ih _ _ _ (hshort hne) (hmem _ (by simp))
          · exact ⟨by simp [argument_error], fun r hr => by cases hr⟩
        · split
          · refine ⟨by simp, fun r hr => ?_⟩
            cases hr
            exact hmem _ (by simp)
          · exact ⟨by simp [argument_error], fun r hr => by cases hr⟩
    · split
      · rename_i e he
        exact ⟨fun h => match_argument_error _ _ _ _ he (by cases h; rfl), fun r hr => by cases hr⟩
      · refine ⟨by simp, fun r hr => ?_⟩
        cases hr
        refine hmem _ ?_
        simp only [List.length_take, List.length_drop]
        omega

theorem consume_positionals_fuel (p : ParserCore) (subs : ChildTable) (st : ParseState)
    (start : Nat) (ts : List String) (pattern : List Char)
    (hsubs : ∀ nf ∈ subs, ∀ ts : List String, ts.length ≤ 2147483647 →
      nf.2 ts ≠ .error .out_of_fuel)
    (hsel : ∀ i, (p.arg i).action_ = .SubparsersAction → (p.arg i).nargs_.type_ = .parser)
    (hlen : ts.length ≤ 2147483647) :
    p.__consume_positionals subs st start ts pattern ≠ .error .out_of_fuel :=
  take_positionals_fuel p subs ts _ st start hsubs hsel hlen

theorem consume_optionals_fuel (p : ParserCore) (subs : ChildTable)
    (indices : List (Nat × OptTuple)) (st : ParseState) (start : Nat) (ts : List String)
    (pattern : List Char)
    (hsubs : ∀ nf ∈ subs, ∀ ts : List String, ts.length ≤ 2147483647 →
      nf.2 ts ≠ .error .out_of_fuel)
    (hsel : ∀ i, (p.arg i).action_ = .SubparsersAction → (p.arg i).nargs_.type_ = .parser)
    (hlen : ts.length ≤ 2147483647) :
    p.__consume_optionals subs indices st start ts pattern ≠ .error .out_of_fuel := by
  intro h
  unfold ParserCore.__consume_optionals at h
  split at h
  · cases h
  · rename_i arg_string optional explicit_arg _
    obtain ⟨h1, h2⟩ := option_loop_fuel p arg_string ts pattern start hlen
      (explicit_arg.length + 1) optional explicit_arg [] (le_refl _) (by simp)
    split at h
    · rename_i e he
      simp only [Except.error.injEq] at h
      subst h
      exact h1 he
    · rename_i stop tuples hloop
      split at h
      · rename_i e he
        simp only [Except.error.injEq] at h
        subst h
        exact take_tuples_fuel p subs tuples st hsubs hsel (h2 _ hloop) he
      · cases h

theorem consume_loop_fuel (p : ParserCore) (subs : ChildTable)
    (indices : List (Nat × OptTuple)) (ts : List String) (pattern : List Char)
    (hkeys : ∀ e ∈ indices, e.1 < ts.length) (hlen : ts.length ≤ 2147483647)
    (hsubs : ∀ nf ∈ subs, ∀ ts : List String, ts.length ≤ 2147483647 →
      nf.2 ts ≠ .error .out_of_fuel)
    (hsel : ∀ i, (p.arg i).action_ = .SubparsersAction → (p.arg i).nargs_.type_ = .parser)
    (fuel : Nat) :
    ∀ (st : ParseState) (s : Nat), ts.length + 1 ≤ fuel + s →
      p.consume_loop subs indices ts pattern fuel st s ≠ .error .out_of_fuel := by
  induction fuel with
  | zero =>
    intro st s hf h
    simp only [ParserCore.consume_loop] at h
    have := max_index_lt indices ts.length hkeys
    split at h
    · omega
    · cases h
  | succ fuel ih =>
    intro st s hf h
    simp only [ParserCore.consume_loop] at h
    split at h
    · rename_i hmax
      obtain ⟨hn1, hn2, hn3⟩ := next_index_spec indices s ts.length hkeys hlen hmax
      split at h
      · rename_i e hpos
        cases h
        split at hpos
        · exact consume_positionals_fuel p subs st s ts pattern hsubs hsel hlen hpos
        · cases hpos
      · rename_i st1 pe hpos
        have hpe : s ≤ pe := by
          split at hpos
          · exact (cursor_consume_positionals _ _ _ _ _ _ _ hpos).2.1
          · cases hpos
            exact le_refl _
        split at h
        · rename_i hcont
          exact ih _ _ (by omega) h
        · rename_i hcont
          split at h
          · rename_i e hopt
            cases h
            exact consume_optionals_fuel p subs indices _ _ ts pattern hsubs hsel hlen hopt
          · rename_i st2 s2 hopt
            have hc := (cursor_consume_optionals _ _ _ _ _ _ _ _ hopt).1
            simp only at hc
            have hs2 : s < s2 := by
              split at hc <;> omega
            exact ih _ _ (by omega) h
    · cases h

theorem parse_optional_error (p : ParserCore) (t : String) (e : Error)
    (h : p.__parse_optional t = .error e) : e ≠ .out_of_fuel := by
  intro he
  subst he
  unfold ParserCore.__parse_optional at h
  repeat' (first | cases h | split at h | dsimp only at h)
  all_goals contradiction

theorem classify_fuel (p : ParserCore) (ts : List String) (i0 : Nat) :
    p.classify ts i0 ≠ .error .out_of_fuel := by
  induction ts generalizing i0 with
  | nil => simp [ParserCore.classify]
  | cons t ts ih =>
    intro h
    unfold ParserCore.classify at h
    split at h
    · cases h
    · split at h
      · rename_i e he
        cases h
        exact parse_optional_error p t _ he rfl
      · split at h
        · rename_i e he
          cases h
          exact ih _ he
        · split at h <;> cases h

theorem parse_known_args_inner_fuel (p : ParserCore) (subs : ChildTable) (ret : Namespace)
    (ts : List String)
    (hsubs : ∀ nf ∈ subs, ∀ ts : List String, ts.length ≤ 2147483647 →
      nf.2 ts ≠ .error .out_of_fuel)
    (hsel : ∀ i, (p.arg i).action_ = .SubparsersAction → (p.arg i).nargs_.type_ = .parser)
    (hlen : ts.length ≤ 2147483647) :
    p.__parse_known_args subs ret ts ≠ .error .out_of_fuel := by
  intro h
  unfold ParserCore.__parse_known_args at h
  split at h
  · rename_i e he
    cases h
    exact classify_fuel p ts 0 he
  · rename_i pattern indices hclass
    have hkeys : ∀ e ∈ indices, e.1 < ts.length := by
      intro e he
      have := (classify_keys p ts 0 pattern indices hclass e he).2
      omega
    simp only at h
    split at h
    · rename_i e he
      cases h
      exact consume_loop_fuel p subs indices ts pattern hkeys hlen hsubs hsel _ _ _
        (by omega) he
    · split at h
      · rename_i e he
        cases h
        exact consume_positionals_fuel p subs _ _ ts pattern hsubs hsel hlen he
      · split at h
        · cases h
        · split at h <;> cases h

theorem consume_loop_iteration (p : ParserCore) (subs : ChildTable)
    (indices : List (Nat × OptTuple)) (ts : List String) (pattern : List Char)
    (hkeys : ∀ e ∈ indices, e.1 < ts.length) (hlen : ts.length ≤ 2147483647)
    (hpat : pattern.length = ts.length) (fuel : Nat) (st : ParseState) (s : Nat)
    (hs : s ≤ ts.length)
    (hmax : (s : Int) ≤ ParserCore.max_option_string_indices indices) :
    (∃ e, p.consume_loop subs indices ts pattern (fuel + 1) st s = .error e)
      ∨ ∃ st2 s2, s < s2 ∧ s2 ≤ ts.length
        ∧ p.consume_loop subs indices ts pattern (fuel + 1) st s
          = p.consume_loop subs indices ts pattern fuel st2 s2 := by
  obtain ⟨hn1, hn2, hn3⟩ := next_index_spec indices s ts.length hkeys hlen hmax
  cases hr : p.consume_loop subs indices ts pattern (fuel + 1) st s with
  | error e => exact Or.inl ⟨e, rfl⟩
  | ok r =>
    right
    simp only [ParserCore.consume_loop, hmax, if_true] at hr
    split at hr
    · cases hr
    · rename_i st1 pe hpos
      have hpe : s ≤ pe ∧ pe ≤ ts.length := by
        split at hpos
        · have := cursor_consume_positionals _ _ _ _ _ _ _ hpos
          exact ⟨this.2.1, by rw [← hpat]; exact this.2.2 (by omega)⟩
        · cases hpos
          exact ⟨le_refl _, hs⟩
      split at hr
      · rename_i hcont
        exact ⟨st1, pe, hcont.2, hpe.2, hr.symm⟩
      · rename_i hcont
        have hpes : pe = s := by
          by_cases hne : s = ParserCore.next_option_string_index indices s
          · rw [if_neg (by simpa using hne)] at hpos
            simp only [Except.ok.injEq, Prod.mk.injEq] at hpos
            exact hpos.2.symm
          · have : ¬ pe > s := fun h => hcont ⟨hne, h⟩
            omega
        split at hr
        · cases hr
        · rename_i st2 s2 hopt
          obtain ⟨hc1, hc2, _⟩ := cursor_consume_optionals _ _ _ _ _ _ _ _ hopt
          simp only at hc1 hc2
          refine ⟨st2, s2, ?_, ?_, hr.symm⟩
          · split at hc1 <;> omega
          · rw [← hpat]
            apply hc2
            rw [hpat]
            split
            · exact hn2
            · rename_i hno
              simp only [List.all_eq_true, decide_eq_true_eq, not_forall, Classical.not_imp,
                not_not] at hno
              obtain ⟨m, hm, hme⟩ := hno
              rw [← hme]
              exact hkeys m hm

theorem add_defaults_fuel (l : List Argument) (ret : Namespace) :
    ParserCore.add_defaults l ret ≠ .error .out_of_fuel := by
  induction l generalizing ret with
  | nil => simp [ParserCore.add_defaults]
  | cons a l ih =>
    intro h
    simp only [ParserCore.add_defaults] at h
    split at h
    · rename_i e he
      cases h
      rw [initializeArgument_eq] at he
      split at he
      · cases he
      · rename_i e2 hv
        cases he
        unfold ActionKind.validate at hv
        repeat' (first | cases hv | split at hv)
    · split at h
      · rename_i e he
        cases h
        exact ih _ he
      · cases h

theorem add_defaults_selectors (l l2 : List Argument) (ret ret2 : Namespace)
    (h : ParserCore.add_defaults l ret = .ok (l2, ret2))
    (hl : ∀ a ∈ l, a.action_ = .SubparsersAction → a.nargs_.type_ = .parser) :
    ∀ a ∈ l2, a.action_ = .SubparsersAction → a.nargs_.type_ = .parser := by
  induction l generalizing ret l2 with
  | nil =>
    simp only [ParserCore.add_defaults, Except.ok.injEq, Prod.mk.injEq] at h
    rw [← h.1]
    intro a ha
    cases ha
  | cons b l ih =>
    simp only [ParserCore.add_defaults] at h
    split at h
    · cases h
    · rename_i b2 hinit
      have hb2 : b2.action_ = .SubparsersAction → b2.nargs_.type_ = .parser := by
        rw [initializeArgument_eq] at hinit
        split at hinit
        · simp only [Except.ok.injEq] at hinit
          rw [← hinit]
          obtain ⟨r, hr⟩ := mark_required_fields b
          rw [hr]
          exact hl b (by simp)
        · cases hinit
      split at h
      · cases h
      · rename_i args r3 hrec
        simp only [Except.ok.injEq, Prod.mk.injEq] at h
        obtain ⟨h1, h2⟩ := h
        subst h2
        rw [← h1]
        intro a ha
        rcases List.mem_cons.mp ha with rfl | hm
        · exact hb2
        · exact ih _ _ hrec (fun c hc => hl c (by simp [hc])) a hm

theorem arg_selectors (p : ParserCore)
    (hl : ∀ a ∈ p.args_list_, a.action_ = .SubparsersAction → a.nargs_.type_ = .parser)
    (i : Nat) : (p.arg i).action_ = .SubparsersAction → (p.arg i).nargs_.type_ = .parser := by
  by_cases hi : i < p.args_list_.length
  · exact hl _ (arg_mem p i hi)
  · unfold ParserCore.arg
    rw [List.getD_eq_default _ _ (by omega)]
    intro h
    cases h

theorem core_parse_known_args_fuel (p : ParserCore) (subs : ChildTable) (ret : Namespace)
    (ts : List String)
    (hsubs : ∀ nf ∈ subs, ∀ ts : List String, ts.length ≤ 2147483647 →
      nf.2 ts ≠ .error .out_of_fuel)
    (hsel : p.selectors_take_rest = true) (hlen : ts.length ≤ 2147483647) :
    p.parse_known_args subs ret ts ≠ .error .out_of_fuel := by
  have hl : ∀ a ∈ p.args_list_, a.action_ = .SubparsersAction → a.nargs_.type_ = .parser := by
    unfold ParserCore.selectors_take_rest at hsel
    simp only [List.all_eq_true, decide_eq_true_eq] at hsel
    exact hsel
  intro h
  unfold ParserCore.parse_known_args at h
  split at h
  · rename_i e he
    cases h
    exact add_defaults_fuel _ _ he
  · rename_i args ret2 hdef
    have hl2 := add_defaults_selectors _ _ _ _ hdef hl
    have hinner := parse_known_args_inner_fuel { p with args_list_ := args } subs ret2 ts hsubs
      (arg_selectors _ hl2) hlen
    simp only at h
    split at h
    · split at h
      · cases h
      · rename_i e he
        split at h
        · cases h
        · rename_i hw
          cases h
          exact hinner he
    · exact hinner h

theorem core_parse_args_fuel (p : ParserCore) (subs : ChildTable) (ts : List String)
    (hsubs : ∀ nf ∈ subs, ∀ ts : List String, ts.length ≤ 2147483647 →
      nf.2 ts ≠ .error .out_of_fuel)
    (hsel : p.selectors_take_rest = true) (hlen : ts.length ≤ 2147483647) :
    p.parse_args subs ts ≠ .error .out_of_fuel := by
  intro h
  unfold ParserCore.parse_args at h
  split at h
  · rename_i e he
    cases h
    exact core_parse_known_args_fuel p subs [] ts hsubs hsel hlen he
  · split at h <;> cases h

mutual
theorem tree_parse_args_fuel : ∀ (q : ArgumentParser), q.selectors_take_rest = true →
    ∀ ts : List String, ts.length ≤ 2147483647 → q.parse_args ts ≠ .error .out_of_fuel
  | .mk core m, hwf, ts, hlen => by
    simp only [ArgumentParser.selectors_take_rest, Bool.and_eq_true] at hwf
    simp only [ArgumentParser.parse_args]
    exact core_parse_args_fuel core _ ts (child_table_fuel m hwf.2) hwf.1 hlen
theorem child_table_fuel : ∀ (m : List (String × ArgumentParser)),
    ArgumentParser.children_take_rest m = true →
    ∀ nf ∈ ArgumentParser.child_table m, ∀ ts : List String, ts.length ≤ 2147483647 →
      nf.2 ts ≠ .error .out_of_fuel
  | [], _, nf, hnf, _, _ => by
    simp [ArgumentParser.child_table] at hnf
  | (n, c) :: rest, hwf, nf, hnf, ts, hlen => by
    simp only [ArgumentParser.children_take_rest, Bool.and_eq_true] at hwf
    simp only [ArgumentParser.child_table, List.mem_cons] at hnf
    rcases hnf with rfl | hm
    · exact tree_parse_args_fuel c hwf.1 ts hlen
    · exact child_table_fuel rest hwf.2 nf hm ts hlen
end

/-! ### Arity matching, patterns, classification, defaults, extras and termination -/

/-- C31: the arity match is not anchored. For an option of arity none, `__match_argument`
returns the count 1 as soon as the remaining pattern holds an `A` anywhere, and raises
"expected one argument" only when it holds none: so it does when the remaining pattern is empty,
but with `O` or `-` in front of a later `A` the count is 1 and `__consume_optionals` takes the
token right after the option. On `samples/00_basic_usage.cpp` the tokens `-c -v file` store the
option string `-v` as the count and leave `verbose` unset, and `-c -- file` hands the store
action an empty value list; `file -c` and `file -c -v` end with "expected one argument", as does
`--foo` alone on `samples/03_exit_on_error.cpp`. -/
theorem C31_match_is_not_anchored (p : ParserCore) (i : Nat) (text : List Char)
    (hopt : (p.arg i).type_ = .optional_argument) (hkind : (p.arg i).nargs_.type_ = .none) :
    p.__match_argument i text
      = (if 'A' ∈ text then .ok 1
        else .error (argument_error (p.arg i) "expected one argument"))
    ∧ p.__match_argument i ('O' :: 'A' :: text) = .ok 1
    ∧ p.__match_argument i ('-' :: 'A' :: text) = .ok 1
    ∧ p.__match_argument i [] = .error (argument_error (p.arg i) "expected one argument")
    ∧ p.__match_argument i ['O'] = .error (argument_error (p.arg i) "expected one argument")
    ∧ (do
        let q ← sample_basic_usage
        q.parse_known_args [] ["-c", "-v", "file"])
      = Except.ok ([("verbose", ["false"]), ("count", ["-v"]), ("filename", ["file"])], [])
    ∧ (do
        let q ← sample_basic_usage
        q.parse_known_args [] ["-c", "--", "file"])
      = Except.error (.undefined_behavior "values[0]")
    ∧ (do
        let q ← sample_basic_usage
        q.parse_known_args [] ["file", "-c", "-v"])
      = Except.error (ParserCore.__error "argument -c/--count: expected one argument")
    ∧ (do
        let q ← sample_basic_usage
        q.parse_known_args [] ["file", "-c"])
      = Except.error (ParserCore.__error "argument -c/--count: expected one argument")
    ∧ (do
        let q ← sample_exit_on_error
        q.parse_args ["--foo"])
      = Except.error (.argument_error "argument --foo: expected one argument") := by
  have h := match_argument_single p i
  refine ⟨h text hopt hkind, ?_, ?_, ?_, ?_, by decide!, by decide!, by decide!, by decide!,
    by decide!⟩
  · rw [h _ hopt hkind, if_pos (by simp)]
  · rw [h _ hopt hkind, if_pos (by simp)]
  · rw [h _ hopt hkind, if_neg (by simp)]
  · rw [h _ hopt hkind, if_neg (by simp)]

/-- Witness for C31: the option `-c` of `samples/00_basic_usage.cpp` on the remaining pattern
`OA`. -/
theorem C31_match_is_not_anchored_witness :
    (built_core sample_basic_usage).__match_argument 2 ('O' :: 'A' :: []) = .ok 1 :=
  (C31_match_is_not_anchored (built_core sample_basic_usage) 2 [] (by decide!)
    (by decide!)).2.1

/-- C32: a separator between or after the argument tokens of a positional of arity exact(n) is
stored. `__get_values` drops the token `--` only when it is the first of the tokens it is
given, and for an arity exact(n) without choices it returns all the other tokens as the values;
the pattern of exact(2) matches `A-A` and `AA-` with three characters. So with the positional
`bar` of arity 2, the tokens `a -- b` store the three values `a`, `--`, `b` and `a b --` store
`a`, `b`, `--`; only `-- a b` stores `a`, `b`. -/
theorem C32_separator_between_is_stored (a : Argument) (vs : List String)
    (hk : a.nargs_.type_ = .integer) (hc : a.choices_ = []) :
    a.__get_values ("--" :: vs) = .ok vs
    ∧ (∀ v, v ≠ "--" → a.__get_values (v :: vs) = .ok (v :: vs))
    ∧ regex_search ((NArgs.ofInt 2).get_nargs_pattern false) [] ['A', '-', 'A'] = some 3
    ∧ regex_search ((NArgs.ofInt 2).get_nargs_pattern false) [] ['A', 'A', '-'] = some 3
    ∧ (do
        let q ← sample_positional_pair
        q.parse_known_args [] ["a", "--", "b"])
      = Except.ok ([("bar", ["a", "--", "b"])], [])
    ∧ (do
        let q ← sample_positional_pair
        q.parse_known_args [] ["a", "b", "--"])
      = Except.ok ([("bar", ["a", "b", "--"])], [])
    ∧ (do
        let q ← sample_positional_pair
        q.parse_known_args [] ["--", "a", "b"])
      = Except.ok ([("bar", ["a", "b"])], [])
    ∧ (do
        let q ← sample_positional_pair
        q.parse_known_args [] ["a", "b"])
      = Except.ok ([("bar", ["a", "b"])], []) := by
  refine ⟨?_, ?_, by decide!, by decide!, by decide!, by decide!, by decide!, by decide!⟩
  · cases vs <;> simp [Argument.__get_values, hk, hc]
  · intro v hv
    simp [Argument.__get_values, hk, hc, hv]

/-- Witness for C32: the positional `bar` of arity 2 given `a`, `--`, `b`. -/
theorem C32_separator_between_is_stored_witness :
    ((built_core sample_positional_pair).arg 1).__get_values ("a" :: ["--", "b"])
      = .ok ("a" :: ["--", "b"]) :=
  (C32_separator_between_is_stored ((built_core sample_positional_pair).arg 1) ["--", "b"]
    (by decide!) (by decide!)).2.1 "a" (by decide)

/-- C33: for every arity, `get_nargs_pattern(true)` returns a text without the character `-`,
which is the text of `get_nargs_pattern(false)` with the occurrences of `-*` removed and then
every `-` removed. For exact(n), n ≥ 1, it is `(`, n times `A`, `)`; for exact(0) and suppress
it is `()`. The text of `get_nargs_pattern(false)` is the one written in the `switch`, and the
parsed patterns used by the matcher print as these texts (for `*` and `+` the text of the option
form keeps the brackets around the single `A`). -/
theorem C33_option_pattern_text (n : NArgs) :
    ∃ s : String, n.get_nargs_pattern_str true = .ok s
      ∧ '-' ∉ s.data
      ∧ s.data = (without_dash_star (nargs_pattern_text n)).filter (fun c => c ≠ '-')
      ∧ n.get_nargs_pattern_str false = .ok (String.mk (nargs_pattern_text n))
      ∧ (n.type_ = .integer → 1 ≤ n.nargs_ →
          s = String.mk ('(' :: (List.replicate n.nargs_ 'A' ++ [')'])))
      ∧ ((n.type_ = .integer ∧ n.nargs_ = 0) ∨ n.type_ = .suppress → s = "()")
      ∧ render (n.get_nargs_pattern false) = String.mk (nargs_pattern_text n)
      ∧ (n.type_ ≠ .zero_or_more → n.type_ ≠ .one_or_more →
          render (n.get_nargs_pattern true) = s)
      ∧ (NArgs.mk .zero_or_more 0).get_nargs_pattern_str true = .ok "([A]*)"
      ∧ (NArgs.mk .one_or_more 0).get_nargs_pattern_str true = .ok "(A[A]*)"
      ∧ (NArgs.mk .integer 3).get_nargs_pattern_str false = .ok "(-*A-*A-*A-*)"
      ∧ (NArgs.mk .integer 3).get_nargs_pattern_str true = .ok "(AAA)" := by
  obtain ⟨t, k⟩ := n
  cases t
  case integer =>
    cases k with
    | zero =>
      refine ⟨"()", by rfl, by decide, by rfl, by rfl, ?_, ?_, by rfl, ?_, by rfl, by rfl, by rfl,
        by rfl⟩
      · intro _ h
        simp at h
      · intro _
        rfl
      · intro _ _
        rfl
    | succ k =>
      have hmem : ∀ c ∈ '(' :: (List.replicate (k + 1) 'A' ++ [')']), c ≠ '-' := by
        intro c hc
        simp only [List.mem_cons, List.mem_append, List.mem_replicate, List.mem_singleton,
          List.not_mem_nil, or_false] at hc
        rcases hc with rfl | ⟨_, rfl⟩ | rfl <;> decide
      refine ⟨String.mk ('(' :: (List.replicate (k + 1) 'A' ++ [')'])), option_text_integer k,
        fun h => hmem _ h rfl, ?_, by rfl, fun _ _ => rfl, ?_, ?_, ?_, by rfl, by rfl, by rfl,
        by rfl⟩
      · have htext : nargs_pattern_text (NArgs.mk .integer (k + 1))
            = ('(' :: List.replicate 0 'A')
              ++ ((List.replicate (k + 1) ['-', '*', 'A']).flatten ++ ['-', '*', ')']) := by
          rw [← integer_text_shape k]
          rfl
        rw [htext]
        show _ = (without_dash_star ('(' ::
          ((List.replicate (k + 1) ['-', '*', 'A']).flatten ++ ['-', '*', ')']))).filter _
        rw [without_dash_star_cons _ _ (by decide), without_dash_star_groups,
          List.filter_eq_self.mpr]
        intro c hc
        simpa using hmem c hc
      · rintro (⟨_, h⟩ | h)
        · simp at h
        · cases h
      · show String.mk ('(' :: (((dashStar :: (repeatA k ++ [litA, dashStar])).map
            Atom.render).flatten ++ [')'])) = _
        rw [List.map_cons, List.flatten_cons, render_repeatA]
        simp [nargs_pattern_text, Atom.render, dashStar, litA]
      · intro _ _
        rw [pattern_integer_optional _ rfl (by simp)]
        show String.mk ('(' :: (((List.replicate (k + 1) litA).map Atom.render).flatten
          ++ [')'])) = _
        rw [render_replicate_litA]
  case none =>
    refine ⟨"(A)", by rfl, by decide, by rfl, by rfl, ?_, ?_, by rfl, ?_, by rfl, by rfl, by rfl,
      by rfl⟩
    · intro h
      cases h
    · rintro (⟨h, _⟩ | h) <;> cases h
    · intro _ _
      rfl
  case optional =>
    refine ⟨"(A?)", by rfl, by decide, by rfl, by rfl, ?_, ?_, by rfl, ?_, by rfl, by rfl, by rfl,
      by rfl⟩
    · intro h
      cases h
    · rintro (⟨h, _⟩ | h) <;> cases h
    · intro _ _
      rfl
  case zero_or_more =>
    refine ⟨"([A]*)", by rfl, by decide, by rfl, by rfl, ?_, ?_, by rfl, ?_, by rfl, by rfl, by rfl,
      by rfl⟩
    · intro h
      cases h
    · rintro (⟨h, _⟩ | h) <;> cases h
    · intro h _
      exact absurd rfl h
  case one_or_more =>
    refine ⟨"(A[A]*)", by rfl, by decide, by rfl, by rfl, ?_, ?_, by rfl, ?_, by rfl, by rfl, by rfl,
      by rfl⟩
    · intro h
      cases h
    · rintro (⟨h, _⟩ | h) <;> cases h
    · intro _ h
      exact absurd rfl h
  case remainder =>
    refine ⟨"([AO]*)", by rfl, by decide, by rfl, by rfl, ?_, ?_, by rfl, ?_, by rfl, by rfl, by rfl,
      by rfl⟩
    · intro h
      cases h
    · rintro (⟨h, _⟩ | h) <;> cases h
    · intro _ _
      rfl
  case parser =>
    refine ⟨"(A[AO]*)", by rfl, by decide, by rfl, by rfl, ?_, ?_, by rfl, ?_, by rfl, by rfl, by rfl,
      by rfl⟩
    · intro h
      cases h
    · rintro (⟨h, _⟩ | h) <;> cases h
    · intro _ _
      rfl
  case suppress =>
    refine ⟨"()", by rfl, by decide, by rfl, by rfl, ?_, ?_, by rfl, ?_, by rfl, by rfl, by rfl,
      by rfl⟩
    · intro h
      cases h
    · intro _
      rfl
    · intro _ _
      rfl

/-- C34: a positional spec is marked required whatever its arity. `__add_name_or_flags` tests
the arity when the spec is built, before any `set_nargs` can run, so it marks every positional
as required; `set_nargs` and `set_default` leave the mark, `set_required` refuses positionals,
and `Argument::initialize` only ever sets it (for a positional it is the old mark or the
condition on the arity). So after finalization the positional `bar` of arity `'?'` of
`samples/07_nargs.cpp`, and a positional of arity `'*'` with a default, are both required. -/
theorem C34_positionals_are_always_required (prefix_char : Char) (act : ActionKind)
    (name : String) (a : Argument) (hname : charAt name 0 ≠ prefix_char)
    (h : Argument.__add_name_or_flags prefix_char act [name] = .ok a) :
    a.type_ = .positional_argument
    ∧ a.required_ = true
    ∧ (∀ c a2, a.set_nargs_char c = .ok a2 →
        a2.required_ = true ∧ a2.mark_required.required_ = true
          ∧ ∀ d, (a2.set_default d).mark_required.required_ = true)
    ∧ (∀ r, a.set_required r
        = .error (.logic_error "'required' is an invalid argument for positionals"))
    ∧ (∀ b : Argument, b.type_ = .positional_argument →
        b.mark_required.required_
          = (b.required_
            || decide ((b.nargs_.type_ ≠ .optional ∧ b.nargs_.type_ ≠ .zero_or_more)
                ∨ (b.nargs_.type_ = .zero_or_more ∧ b.default_value_.length = 0))))
    ∧ (((built_core sample_nargs_optional).arg 2).nargs_.type_,
        ((built_core sample_nargs_optional).arg 2).type_,
        ((built_core sample_nargs_optional).arg 2).initializeArgument.map (fun b => b.required_))
      = (.optional, .positional_argument, .ok true)
    ∧ (((built_core sample_positional_star).arg 1).nargs_.type_,
        ((built_core sample_positional_star).arg 1).default_value_,
        ((built_core sample_positional_star).arg 1).initializeArgument.map
          (fun b => b.required_))
      = (.zero_or_more, ["d"], .ok true) := by
  have hb : name.data[0]?.getD (Char.ofNat 0) ≠ prefix_char := by
    simpa [charAt] using hname
  have hfields : a.type_ = .positional_argument ∧ a.required_ = true := by
    cases act <;>
      simp [Argument.__add_name_or_flags, charAt, hb, ActionKind.initializeAction,
        Argument.set_required, Argument.fresh, Argument.set_nargs, Argument.set_dest,
        Argument.set_default, Argument.set_const_bool, Argument.set_default_bool, bind,
        Except.bind, pure, Except.pure, NArgs.default, NArgs.ofInt] at h <;>
      (subst h; exact ⟨rfl, rfl⟩)
  have hmark : ∀ b : Argument, b.required_ = true → b.mark_required.required_ = true := by
    intro b hb
    obtain ⟨os, ac, ⟨nt, nn⟩, r, hlp, d, ch, t, cv, dv⟩ := b
    simp only at hb
    subst hb
    cases t <;> cases nt <;> cases dv <;> simp [Argument.mark_required]
  refine ⟨hfields.1, hfields.2, ?_, ?_, ?_, by decide!, by decide!⟩
  · intro c a2 h2
    have hreq : a2.required_ = true := by
      unfold Argument.set_nargs_char at h2
      split at h2
      · simp only [Except.ok.injEq] at h2
        rw [← h2]
        exact hfields.2
      · cases h2
    exact ⟨hreq, hmark a2 hreq, fun d => hmark _ hreq⟩
  · intro r
    simp [Argument.set_required, hfields.1]
  · intro b hbp
    obtain ⟨os, ac, ⟨nt, nn⟩, r, hlp, d, ch, t, cv, dv⟩ := b
    simp only at hbp
    subst hbp
    cases nt <;> cases dv <;> cases r <;> simp [Argument.mark_required]

/-- Witness for C34: the positional `bar` as `add_argument("bar")` builds it. -/
theorem C34_positionals_are_always_required_witness :
    ({ Argument.fresh .StoreAction with
        type_ := .positional_argument, required_ := true, dest_ := "bar" } : Argument).required_
      = true :=
  (C34_positionals_are_always_required '-' .StoreAction "bar"
    { Argument.fresh .StoreAction with
        type_ := .positional_argument, required_ := true, dest_ := "bar" }
    (by decide) (by rfl)).2.1

/-- C35 (counterexample): with abbreviations disabled, a long token that is no registered option
string and holds a space is not classified as an unregistered option and returned in extras: it
is classified as an argument. With `--foonley` and the positional `bar`, the token `--foon x`
is stored as `bar` and the extras are empty. -/
theorem C35_counterexample_token_with_space :
    (do
      let q ← sample_no_abbrev_positional
      q.parse_known_args [] ["--foon x"])
      = Except.ok ([("foonley", ["true"]), ("bar", ["--foon x"])], [])
    ∧ (built_core sample_no_abbrev_positional).__parse_optional "--foon x" = .ok none := by
  refine ⟨by decide!, by decide!⟩

/-- C35 (amended): with abbreviations disabled, a token that starts with two prefix characters,
holds no space, is not a registered option string and whose part before `=` is not one either
resolves to no spec, even when a registered option string begins with it: `__parse_optional`
records it as an option without a spec, and the classification gives it the character `O`. Such
a token alone, in a parser without positional specs, required specs and required groups, is
returned as the only extra. On `samples/01_allow_abbrev.cpp` after `set_abbrev(false)`,
`--foon` is returned in extras (and so is `--foon=1`), while with abbreviations enabled it
resolves to `--foonley`. -/
theorem C35_no_abbreviation (p : ParserCore) (t : String)
    (habbrev : p.allow_abbrev_ = false) (hlen : 2 ≤ t.length)
    (h0 : charAt t 0 = p.prefix_char_) (h1 : charAt t 1 = p.prefix_char_)
    (hexact : p.find_option t = none) (hassign : p.find_option (before_assign t) = none)
    (hspace : ' ' ∉ t.data) :
    p.__parse_optional t = .ok (some ("", none, ""))
    ∧ (t ≠ "--" → ∀ k, p.classify [t] k = .ok (['O'], [(k, ("", none, ""))]))
    ∧ (t ≠ "--" → p.__get_positional_args = [] →
        (∀ a ∈ p.args_list_, a.required_ = false) →
        (∀ g ∈ p.mutually_exclusive_groups_, g.required_ = false) →
        ∀ (subs : ChildTable) (ret : Namespace),
          p.__parse_known_args subs ret [t] = .ok (ret, [t]))
    ∧ (do
        let q ← sample_no_abbrev
        q.parse_known_args [] ["--foon"])
      = Except.ok ([("foobar", ["false"]), ("foonley", ["true"])], ["--foon"])
    ∧ (do
        let q ← sample_no_abbrev
        q.parse_known_args [] ["--foon=1"])
      = Except.ok ([("foobar", ["false"]), ("foonley", ["true"])], ["--foon=1"])
    ∧ (do
        let q ← sample_allow_abbrev
        q.parse_known_args [] ["--foon"])
      = Except.ok ([("foobar", ["false"]), ("foonley", ["false"])], []) := by
  have hparse := parse_optional_no_abbrev p t habbrev hlen h0 h1 hexact hassign hspace
  refine ⟨hparse, ?_, ?_, by decide!, by decide!, by decide!⟩
  · intro ht k
    exact classify_single p t _ k ht hparse
  · intro ht hnopos hreq hgrp subs ret
    refine parse_known_args_unresolved p subs ret [t] ['O'] [(0, ("", none, ""))]
      (classify_single p t _ 0 ht hparse) ?_ (by simp) hnopos hreq hgrp
    intro e he
    simp only [List.mem_singleton] at he
    rw [he]

/-- Witness for C35: the token `--foon` on the parser of `samples/01_allow_abbrev.cpp` after
`set_abbrev(false)`. -/
theorem C35_no_abbreviation_witness :
    (built_core sample_no_abbrev).__parse_optional "--foon" = .ok (some ("", none, "")) :=
  (C35_no_abbreviation (built_core sample_no_abbrev) "--foon" (by decide!) (by decide!)
    (by decide!) (by decide!) (by decide!) (by decide!) (by decide!)).1

/-- C36: when the classification loop of `__parse_known_args` succeeds, the pattern has exactly
one character per token. From the first `--` on, the pattern is `-` followed by one `A` for
every later token, whatever the token is (a registered option string, another `--`), and none
of those tokens is recorded as an option; the tokens before the first `--` are classified as if
the list ended there, each one by `__parse_optional` on the token alone (`O` with its entry in
`arg_string_indices` when it returns true, `A` otherwise). On `samples/00_basic_usage.cpp` the
tokens `-v -- -c -- x` give the pattern `O-AAA` and the one entry of `-v`. -/
theorem C36_tokens_after_separator (p : ParserCore) (ts : List String) (i0 : Nat)
    (pattern : List Char) (indices : List (Nat × OptTuple))
    (h : p.classify ts i0 = .ok (pattern, indices)) :
    pattern.length = ts.length
    ∧ (∀ before after : List String, ts = before ++ "--" :: after → "--" ∉ before →
        pattern.drop before.length = '-' :: List.replicate after.length 'A'
        ∧ (∀ e ∈ indices, e.1 < i0 + before.length)
        ∧ p.classify before i0 = .ok (pattern.take before.length, indices)
        ∧ ∀ j, j < before.length →
          ∃ r, p.__parse_optional (ts.getD j "") = .ok r
            ∧ pattern.getD j 'A' = (if r.isSome then 'O' else 'A')
            ∧ indices.find? (fun m => m.1 = i0 + j) = r.map (fun t => (i0 + j, t)))
    ∧ (∀ after : List String,
        p.classify ("--" :: after) i0 = .ok ('-' :: List.replicate after.length 'A', []))
    ∧ (built_core sample_basic_usage).classify ["-v", "--", "-c", "--", "x"] 0
      = .ok (['O', '-', 'A', 'A', 'A'], [(0, ("-v", some 3, ""))]) := by
  refine ⟨classify_length p ts i0 pattern indices h, ?_, fun after => classify_separator p after i0,
    by rfl⟩
  intro before after hts hb
  rw [hts, classify_split p before after i0 hb] at h
  cases hcb : p.classify before i0 with
  | error e => simp [hcb] at h
  | ok pr =>
    obtain ⟨pat, idx⟩ := pr
    simp only [hcb, Except.ok.injEq, Prod.mk.injEq] at h
    obtain ⟨hp, hi⟩ := h
    have hlen := classify_length p before i0 pat idx hcb
    subst hi
    subst hp
    refine ⟨?_, ?_, ?_, ?_⟩
    · rw [← hlen, List.drop_left]
    · intro e he
      exact (classify_keys p before i0 pat idx hcb e he).2
    · rw [← hlen, List.take_left]
    · intro j hj
      obtain ⟨r, h1, h2, h3⟩ := classify_each p before i0 pat idx hcb hb j hj
      refine ⟨r, ?_, ?_, h3⟩
      · rw [hts, List.getD_append _ _ _ _ hj]
        exact h1
      · rw [List.getD_append _ _ _ _ (by rw [hlen]; exact hj)]
        exact h2

/-- Witness for C36: the tokens `-v -- -c -- x` on the parser of `samples/00_basic_usage.cpp`;
after a leading `--` the option string `-c` is an argument. -/
theorem C36_tokens_after_separator_witness :
    (built_core sample_basic_usage).classify ("--" :: ["-c"]) 0
      = .ok ('-' :: List.replicate ["-c"].length 'A', []) :=
  (C36_tokens_after_separator (built_core sample_basic_usage) ["-v", "--", "-c", "--", "x"] 0
    ['O', '-', 'A', 'A', 'A'] [(0, ("-v", some 3, ""))] (by rfl)).2.2.1 ["-c"]

/-- C37: the store action does read the first element of an empty value list. For a store spec
of arity none or `'?'` without const, the action applied to no values performs the read
`values[0]`; and `__get_values` returns no values for an arity none given the token `--` alone,
for a positional of arity `'?'` without default given no token, and for an option of arity `'?'`
without const given no token. So the parse of no tokens with the positional `bar` of arity
`'?'`, of `--foo` alone with the option `--foo` of arity `'?'`, and of `-c -- file` on
`samples/00_basic_usage.cpp` all reach the read. -/
theorem C37_store_reads_empty_values (a : Argument) (hact : a.action_ = .StoreAction)
    (hk : a.nargs_.type_ = .none ∨ a.nargs_.type_ = .optional) (hc : a.choices_ = [])
    (hconst : a.const_value_ = []) :
    (∀ (subs : ChildTable) (ns : Namespace),
        run_action subs ns a [] = .error (.undefined_behavior "values[0]"))
    ∧ (a.nargs_.type_ = .none → a.__get_values ["--"] = .ok [])
    ∧ (a.nargs_.type_ = .optional → a.type_ = .positional_argument → a.default_value_ = [] →
        a.__get_values [] = .ok [])
    ∧ (a.nargs_.type_ = .optional → a.type_ = .optional_argument → a.__get_values [] = .ok [])
    ∧ (do
        let q ← sample_positional_optional
        q.parse_known_args [] [])
      = Except.error (.undefined_behavior "values[0]")
    ∧ (do
        let q ← sample_option_optional
        q.parse_known_args [] ["--foo"])
      = Except.error (.undefined_behavior "values[0]")
    ∧ (do
        let q ← sample_basic_usage
        q.parse_known_args [] ["-c", "--", "file"])
      = Except.error (.undefined_behavior "values[0]")
    ∧ (do
        let q ← sample_positional_optional
        q.parse_known_args [] ["x"])
      = Except.ok ([("bar", ["x"])], []) := by
  refine ⟨?_, ?_, ?_, ?_, by decide!, by decide!, by decide!, by decide!⟩
  · intro subs ns
    rcases hk with hk | hk <;> simp [run_action, hact, hk, hconst]
  · intro hn
    simp [Argument.__get_values, hn, hc]
  · intro hn hp hd
    simp [Argument.__get_values, hn, hp, hd, hc]
  · intro hn hp
    simp [Argument.__get_values, hn, hp, hconst, hc]

/-- Witness for C37: the positional `bar` of arity `'?'` without default. -/
theorem C37_store_reads_empty_values_witness :
    ((built_core sample_positional_optional).arg 1).__get_values [] = .ok []
      ∧ run_action [] [] ((built_core sample_positional_optional).arg 1) []
        = .error (.undefined_behavior "values[0]") :=
  ⟨(C37_store_reads_empty_values ((built_core sample_positional_optional).arg 1) (by decide!)
      (by decide!) (by decide!) (by decide!)).2.2.1 (by decide!) (by decide!) (by decide!),
    (C37_store_reads_empty_values ((built_core sample_positional_optional).arg 1) (by decide!)
      (by decide!) (by decide!) (by decide!)).1 [] []⟩

/-- C38: the default-filling step of `parse_known_args` writes the default of a spec over the
values that the caller's Namespace holds under the dest. For every finalized list of specs and
every Namespace, after the step the dest of a spec with a default (not suppressed) holds the
default, whatever it held before; only a dest of no spec keeps its values. With `--foo`
(append, default `0`) and a Namespace holding foo = [9], the parse of no tokens returns
foo = [0]; on `samples/00_basic_usage.cpp` a stored `verbose` is reset to `false` while `count`,
which has no default, is kept. -/
theorem C38_defaults_overwrite (l : List Argument) (ret : Namespace) (a : Argument)
    (ha : a ∈ l) (hfin : ∀ b ∈ l, b.initializeArgument = .ok b)
    (hsame : ∀ b ∈ l, b.dest_ = a.dest_ → b.default_value_ = a.default_value_)
    (hd : a.dest_ ≠ SUPPRESS) (hne : a.default_value_ ≠ [])
    (hdv : a.default_value_ ≠ [SUPPRESS]) :
    (∃ ret2, ParserCore.add_defaults l ret = .ok (l, ret2)
        ∧ Namespace.index ret2 a.dest_ = a.default_value_
        ∧ ∀ k, (∀ b ∈ l, b.dest_ ≠ k) → Namespace.index ret2 k = Namespace.index ret k)
    ∧ (do
        let q ← sample_append_default
        q.parse_known_args [("foo", ["9"])] [])
      = Except.ok ([("foo", ["0"])], [])
    ∧ (do
        let q ← sample_append
        q.parse_known_args [("foo", ["9"])] ["--foo", "1"])
      = Except.ok ([("foo", ["9", "1"])], [])
    ∧ (do
        let q ← sample_basic_usage
        q.parse_known_args [("verbose", ["true"]), ("count", ["7"])] ["file"])
      = Except.ok ([("verbose", ["false"]), ("count", ["7"]), ("filename", ["file"])], []) := by
  refine ⟨?_, by decide!, by decide!, by decide!⟩
  obtain ⟨ret2, h1, h2, _⟩ := add_defaults_overwrite l ret a.dest_ a.default_value_ hfin hsame
    hd hne hdv
  refine ⟨ret2, h1, h2 ⟨a, ha, rfl⟩, ?_⟩
  intro k hk
  exact add_defaults_other l l ret ret2 k hk h1

/-- Witness for C38: the specs of the parser with `--foo` (append, default `0`) and a Namespace
holding foo = [9]. -/
theorem C38_defaults_overwrite_witness :
    ∃ ret2, ParserCore.add_defaults (built_core sample_append_default).args_list_
          [("foo", ["9"])]
        = .ok ((built_core sample_append_default).args_list_, ret2)
      ∧ Namespace.index ret2 ((built_core sample_append_default).arg 1).dest_
        = ((built_core sample_append_default).arg 1).default_value_
      ∧ ∀ k, (∀ b ∈ (built_core sample_append_default).args_list_, b.dest_ ≠ k) →
          Namespace.index ret2 k = Namespace.index [("foo", ["9"])] k :=
  (C38_defaults_overwrite (built_core sample_append_default).args_list_ [("foo", ["9"])]
    ((built_core sample_append_default).arg 1) (by decide!) (by decide!) (by decide!)
    (by decide!) (by decide!) (by decide!)).1

/-- C39: the extras returned by `parse_known_args` are a subsequence of the tokens: they are
tokens of the input taken at strictly increasing positions, so each extra is the raw token at
some position, no position is reported twice, and the order is that of the input. This holds
for every parser, every Namespace given by the caller and every list of fewer than 2^31 tokens
(the loop indices are of type `int`), whenever the call returns. On
`samples/00_basic_usage.cpp` the tokens `--unk file -c 3 extra -z=1` return the extras `--unk`,
`extra`, `-z=1`. -/
theorem C39_extras_are_a_subsequence (q : ArgumentParser) (ret : Namespace)
    (ts : List String) (ns : Namespace) (extras : List String)
    (hlen : ts.length ≤ 2147483647)
    (h : q.parse_known_args ret ts = .ok (ns, extras)) :
    extras.Sublist ts
    ∧ (∃ f : ℕ ↪o ℕ, ∀ ix : ℕ, extras.get? ix = ts.get? (f ix))
    ∧ (do
        let q ← sample_basic_usage
        q.parse_known_args [] ["--unk", "file", "-c", "3", "extra", "-z=1"])
      = Except.ok ([("verbose", ["false"]), ("filename", ["file"]), ("count", ["3"])],
          ["--unk", "extra", "-z=1"])
    ∧ (do
        let q ← sample_short_option
        q.parse_known_args [] ["a", "--unk", "b", "--", "-c"])
      = Except.ok ([], ["a", "--unk", "b", "--", "-c"]) := by
  have hsub : extras.Sublist ts := by
    obtain ⟨core, m⟩ := q
    simp only [ArgumentParser.parse_known_args] at h
    exact extras_parse_known_args core _ ret ts (ns, extras) hlen h
  exact ⟨hsub, List.sublist_iff_exists_orderEmbedding_get?_eq.mp hsub, by decide!, by decide!⟩

/-- Witness for C39: the tokens `--unk file -c 3 extra -z=1` on the parser of
`samples/00_basic_usage.cpp`. -/
theorem C39_extras_are_a_subsequence_witness :
    (["--unk", "extra", "-z=1"] : List String).Sublist
      ["--unk", "file", "-c", "3", "extra", "-z=1"] :=
  (C39_extras_are_a_subsequence (built_tree sample_basic_usage) []
    ["--unk", "file", "-c", "3", "extra", "-z=1"]
    [("verbose", ["false"]), ("filename", ["file"]), ("count", ["3"])]
    ["--unk", "extra", "-z=1"] (by decide) (by rfl)).1

/-- C40: `parse_args` and `parse_known_args` end on every list of fewer than 2^31 tokens: the
bounds of the loops of this embedding (one turn per token and one more for the main loop, one
turn per character of the inline remainder and one more for the cluster loop) are never
exhausted, in the parser or in a sub-parser; each spec with the sub-parser action has the arity
`parser`, as `add_subparsers` builds it. Every turn of the main loop that goes on moves the
cursor strictly forward and not beyond the number of tokens: `__consume_optionals` returns an
index beyond the one it is given, `__consume_positionals` never a smaller one, both at most the
number of tokens. The cluster loop continues with `explicit_arg.substr(1)`, which is shorter.
The sub-parser action is given the tokens taken by its spec, the selector first, and runs the
child on the tokens after the selector, which are fewer. -/
theorem C40_parse_terminates (q : ArgumentParser) (ts : List String)
    (hwf : q.selectors_take_rest = true) (hlen : ts.length ≤ 2147483647) :
    q.parse_args ts ≠ .error .out_of_fuel
    ∧ (∀ ret, q.parse_known_args ret ts ≠ .error .out_of_fuel)
    ∧ (∀ (p : ParserCore) (subs : ChildTable) (indices : List (Nat × OptTuple))
        (pattern : List Char) (fuel : Nat) (st : ParseState) (s : Nat),
        (∀ e ∈ indices, e.1 < ts.length) → pattern.length = ts.length → s ≤ ts.length →
        (s : Int) ≤ ParserCore.max_option_string_indices indices →
        (∃ e, p.consume_loop subs indices ts pattern (fuel + 1) st s = .error e)
          ∨ ∃ st2 s2, s < s2 ∧ s2 ≤ ts.length
            ∧ p.consume_loop subs indices ts pattern (fuel + 1) st s
              = p.consume_loop subs indices ts pattern fuel st2 s2)
    ∧ (∀ (p : ParserCore) (subs : ChildTable) (indices : List (Nat × OptTuple))
        (pattern : List Char) (st : ParseState) (s : Nat) (r : ParseState × Nat),
        p.__consume_optionals subs indices st s ts pattern = .ok r →
        s < r.2 ∧ (s < pattern.length → r.2 ≤ pattern.length))
    ∧ (∀ (p : ParserCore) (subs : ChildTable) (pattern : List Char) (st : ParseState)
        (s : Nat) (r : ParseState × Nat),
        p.__consume_positionals subs st s ts pattern = .ok r →
        s ≤ r.2 ∧ (s ≤ pattern.length → r.2 ≤ pattern.length))
    ∧ (∀ (p : ParserCore) (arg_string : String) (pattern : List Char) (start optional : Nat)
        (explicit_arg : String),
        p.option_loop arg_string ts pattern start (explicit_arg.length + 1) optional
          explicit_arg [] ≠ .error .out_of_fuel)
    ∧ (∀ e : String, e.length ≠ 0 → (substr e 1).length < e.length)
    ∧ (∀ (a : Argument) (args vals : List String), a.nargs_.type_ = .parser →
        a.__get_values args = .ok vals → vals = args)
    ∧ (∀ (name : String) (rest : List String), rest.length < (name :: rest).length)
    ∧ (do
        let q ← sample_subcommand
        pure (q.selectors_take_rest, q.parse_args ["--foo", "a", "1"]))
      = Except.ok (true, .ok [("foo", ["true"]), ("bar", ["1"])]) := by
  refine ⟨tree_parse_args_fuel q hwf ts hlen, ?_, ?_, ?_, ?_, ?_, ?_, ?_, ?_, by decide!⟩
  · intro ret
    obtain ⟨core, m⟩ := q
    simp only [ArgumentParser.selectors_take_rest, Bool.and_eq_true] at hwf
    simp only [ArgumentParser.parse_known_args]
    exact core_parse_known_args_fuel core _ ret ts (child_table_fuel m hwf.2) hwf.1 hlen
  · intro p subs indices pattern fuel st s hkeys hpat hs hmax
    exact consume_loop_iteration p subs indices ts pattern hkeys hlen hpat fuel st s hs hmax
  · intro p subs indices pattern st s r hr
    have := cursor_consume_optionals p subs indices st s ts pattern r hr
    exact ⟨this.1, this.2.1⟩
  · intro p subs pattern st s r hr
    have := cursor_consume_positionals p subs st s ts pattern r hr
    exact ⟨this.2.1, this.2.2⟩
  · intro p arg_string pattern start optional explicit_arg
    exact (option_loop_fuel p arg_string ts pattern start hlen (explicit_arg.length + 1) optional
      explicit_arg [] (le_refl _) (by simp)).1
  · intro e he
    obtain ⟨d⟩ := e
    show (d.drop 1).length < d.length
    have hd : d.length ≠ 0 := he
    simp only [List.length_drop]
    omega
  · intro a args vals hk hv
    exact get_values_selector a args vals hk hv
  · intro name rest
    simp

/-- Witness for C40: the parser of `samples/10_subcommand_1.cpp` on `--foo a 1`. -/
theorem C40_parse_terminates_witness :
    (built_tree sample_subcommand).parse_args ["--foo", "a", "1"] ≠ .error .out_of_fuel :=
  (C40_parse_terminates (built_tree sample_subcommand) ["--foo", "a", "1"] (by decide!)
    (by decide)).1

end Argparse
